import Mathlib

/-!
# Record manager: a shallow embedding of `record_mgr.c`, `expr.c` and `dberror.h`

C `int` values are modelled by `Int` (arithmetic overflow is undefined behaviour in C and is
left outside the model), bytes by `Nat`, and a `char *` buffer by a function from byte offsets
to bytes.  Integers are stored in memory as four little-endian two's-complement bytes, the
layout `memcpy` of an `int` produces on the machines the table files are written for.

A buffer has no length in the model: an access outside the allocated block (for a page,
outside its `PAGE_SIZE` bytes), which C leaves undefined, reads or writes the byte the
function has at that offset.  Statements about a call that can make such an access carry a
hypothesis that excludes it (`BitInFrame`, `SlotInFrame`, an RID in range).
-/

namespace RM

/-! ## Return codes (`dberror.h`) -/

abbrev RC := Nat

abbrev RC_OK : RC := 0
abbrev RC_FILE_NOT_FOUND : RC := 1
abbrev RC_FILE_HANDLE_NOT_INIT : RC := 2
abbrev RC_WRITE_FAILED : RC := 3
abbrev RC_READ_NON_EXISTING_PAGE : RC := 4
abbrev RC_MEM_ALLOC_FAILED : RC := 5
abbrev RC_INVALID_RECORD_SIZE : RC := 400
abbrev RC_RM_COMPARE_VALUE_OF_DIFFERENT_DATATYPE : RC := 200
abbrev RC_RM_BOOLEAN_EXPR_ARG_IS_NOT_BOOLEAN : RC := 202
abbrev RC_RM_NO_MORE_TUPLES : RC := 203
abbrev RC_RM_UNKNOWN_OPERATOR : RC := 206
abbrev RC_RM_INVALID_ATTRIBUTE : RC := 207

abbrev PAGE_SIZE : Int := 4096
abbrev HEADER_PAGE : Int := 0
abbrev DATA_START_PAGE : Int := 1

/-! ## Memory -/

/-- A `char *` buffer: the byte found at each offset from the pointer. -/
abbrev Mem := Int → Nat

/-- The buffer `calloc` returns (and the content of a page of a new file): all bytes zero. -/
def zeroMem : Mem := fun _ => 0

/-- `memcpy(dst + doff, src + soff, n)` between two buffers. -/
def memcpy (dst : Mem) (doff : Int) (src : Mem) (soff : Int) (n : Int) : Mem :=
  fun k => if doff ≤ k ∧ k < doff + n then src (soff + (k - doff)) else dst k

/-- `memcpy(dst + off, src, n)` where the source is given as the list of its bytes. -/
def memcpyList (dst : Mem) (off : Int) (src : List Nat) (n : Int) : Mem :=
  fun k => if off ≤ k ∧ k < off + n then src.getD (k - off).toNat 0 else dst k

/-- `memset(dst + off, c, n)`. -/
def memset (dst : Mem) (off : Int) (c : Nat) (n : Int) : Mem :=
  fun k => if off ≤ k ∧ k < off + n then c else dst k

/-- The `n` bytes of a buffer that start at offset `off`. -/
def readBytes (src : Mem) (off : Int) (n : Int) : List Nat :=
  (List.range n.toNat).map (fun (k : Nat) => src (off + (k : Int)))

/-- The four bytes of an unsigned 32-bit pattern, least significant first. -/
def encodeU32 (u : Nat) : List Nat :=
  [u % 256, u / 256 % 256, u / 65536 % 256, u / 16777216 % 256]

/-- The unsigned 32-bit pattern held by four bytes. -/
def decodeU32 (b0 b1 b2 b3 : Nat) : Nat :=
  b0 % 256 + 256 * (b1 % 256) + 65536 * (b2 % 256) + 16777216 * (b3 % 256)

/-- The four bytes of a C `int` (two's complement). -/
def encodeInt (x : Int) : List Nat :=
  encodeU32 (x % 4294967296).toNat

/-- The C `int` held by four bytes. -/
def decodeInt (b0 b1 b2 b3 : Nat) : Int :=
  let u := decodeU32 b0 b1 b2 b3
  if u < 2147483648 then (u : Int) else (u : Int) - 4294967296

/-- `memcpy(dst + off, &x, sizeof(int))`. -/
def storeInt (dst : Mem) (off : Int) (x : Int) : Mem :=
  memcpyList dst off (encodeInt x) 4

/-- `memcpy(&x, src + off, sizeof(int))`. -/
def loadInt (src : Mem) (off : Int) : Int :=
  decodeInt (src off) (src (off + 1)) (src (off + 2)) (src (off + 3))

/-- The bytes of a C string up to (not including) its terminator. -/
def cstr (s : List Nat) : List Nat :=
  s.takeWhile (fun b => b != 0)

/-- `strlen`. -/
def strlen (s : List Nat) : Int :=
  ((cstr s).length : Int)

/-! ## Schema, values and records (`tables.h` as used by the sources) -/

/-- The enum `DataType` (`DT_INT = 0`, `DT_STRING = 1`, `DT_FLOAT = 2`, `DT_BOOL = 3`).
`DT_OTHER c` stands for an enum object holding another integer `c`, which `openTable` can
read from a header that was not written by `createTable`; no `case` label matches it. -/
inductive DataType where
  | DT_INT
  | DT_STRING
  | DT_FLOAT
  | DT_BOOL
  | DT_OTHER (code : Int)
  deriving DecidableEq, Repr

/-- A `Value`: the tag `dt` together with the member of the union `v` the tag selects.
A string is the byte buffer the `char *` points to, a float is its 32-bit pattern. -/
inductive Value where
  | intV (i : Int)
  | stringV (s : List Nat)
  | floatV (bits : Nat)
  | boolV (b : Bool)
  deriving DecidableEq, Repr

/-- The field `dt` of a value. -/
def Value.dt : Value → DataType
  | .intV _ => .DT_INT
  | .stringV _ => .DT_STRING
  | .floatV _ => .DT_FLOAT
  | .boolV _ => .DT_BOOL

structure Schema where
  numAttr : Int
  attrNames : List (List Nat)
  dataTypes : List DataType
  typeLength : List Int
  keySize : Int
  keyAttrs : List Int
  deriving DecidableEq, Repr

structure RID where
  page : Int
  slot : Int
  deriving DecidableEq, Repr

/-- A `Record`; `data` is `none` for a NULL data pointer. -/
structure Record where
  id : RID
  data : Option Mem

/-- The buffer `record->data` points to (a NULL pointer, which the C code would fault on,
reads as an all-zero buffer). -/
def Record.buf (record : Record) : Mem :=
  record.data.getD zeroMem

/-- The body of the `switch (schema->dataTypes[i])` shared by `getRecordSize`, `getAttr`,
`setAttr` and `attrOffset`: the number of bytes attribute `i` adds. -/
def attrWidth (schema : Schema) (i : Nat) : Int :=
  match schema.dataTypes[i]? with
  | some .DT_INT => 4
  | some .DT_FLOAT => 4
  | some .DT_BOOL => 1
  | some .DT_STRING => (schema.typeLength[i]?).getD 0
  | _ => 0

/-- The loop `for (i = 0; i < n; i++) offset += width(i)`. -/
def sumWidths (schema : Schema) (n : Nat) : Int :=
  (List.range n).foldl (fun offset i => offset + attrWidth schema i) 0

/-- `getRecordSize` (record_mgr.c). -/
def getRecordSize (schema : Schema) : Int :=
  sumWidths schema schema.numAttr.toNat

/-- `createRecord` (record_mgr.c), with both allocations succeeding: id `(-1, -1)` and a
zeroed data buffer. -/
def createRecord (_schema : Schema) : RC × Record :=
  (RC_OK, { id := ⟨-1, -1⟩, data := some zeroMem })

/-- `getAttr` (record_mgr.c). The second component is `*value` (`none`: no defined content).
For a Bool attribute the stored byte is copied into a `bool` object and that object is read:
the byte 0 is `false`, the byte 1 is `true`, and any other byte is not a value of `bool`, so
that `*value` has no defined content (what a later comparison or test of it gives depends on
the compiler). -/
def getAttr (record : Record) (schema : Schema) (attrNum : Int) : RC × Option Value :=
  if attrNum < 0 ∨ attrNum ≥ schema.numAttr then (RC_RM_NO_MORE_TUPLES, none)
  else
    let offset := sumWidths schema attrNum.toNat
    match schema.dataTypes[attrNum.toNat]? with
    | some .DT_INT => (RC_OK, some (.intV (loadInt record.buf offset)))
    | some .DT_FLOAT =>
        (RC_OK, some (.floatV (decodeU32 (record.buf offset) (record.buf (offset + 1))
          (record.buf (offset + 2)) (record.buf (offset + 3)))))
    | some .DT_BOOL =>
        (RC_OK, if record.buf offset ≤ 1 then some (.boolV (record.buf offset != 0)) else none)
    | some .DT_STRING =>
        let strLen := (schema.typeLength[attrNum.toNat]?).getD 0
        (RC_OK, some (.stringV (readBytes record.buf offset strLen ++ [0])))
    | _ => (RC_OK, none)

/-- `setAttr` (record_mgr.c). -/
def setAttr (record : Record) (schema : Schema) (attrNum : Int) (value : Value) : RC × Record :=
  if attrNum < 0 ∨ attrNum ≥ schema.numAttr then (RC_RM_NO_MORE_TUPLES, record)
  else if some value.dt ≠ schema.dataTypes[attrNum.toNat]? then
    (RC_RM_COMPARE_VALUE_OF_DIFFERENT_DATATYPE, record)
  else
    let offset := sumWidths schema attrNum.toNat
    match value with
    | .intV i => (RC_OK, { record with data := some (storeInt record.buf offset i) })
    | .floatV bits =>
        (RC_OK, { record with data := some (memcpyList record.buf offset (encodeU32 bits) 4) })
    | .boolV b =>
        (RC_OK, { record with
          data := some (memcpyList record.buf offset [if b then 1 else 0] 1) })
    | .stringV s =>
        let maxLen := (schema.typeLength[attrNum.toNat]?).getD 0
        let len := if strlen s > maxLen then maxLen else strlen s
        let data1 := memcpyList record.buf offset s len
        let data2 := if len < maxLen then memset data1 (offset + len) 0 (maxLen - len) else data1
        (RC_OK, { record with data := some data2 })

/-! ## Page-level slot manager (record_mgr.c) -/

/-- `getSlotMapSize`: the bitmap's size in bytes (C integer division truncates). -/
def getSlotMapSize (slotsPerPage : Int) : Int :=
  Int.tdiv (slotsPerPage + 7) 8

/-- `getRecordOffset`. -/
def getRecordOffset (slotNum recordSize mapSize : Int) : Int :=
  mapSize + slotNum * recordSize

/-- `isSlotOccupied`: `(pageData[slotNum / 8] & (1 << slotNum % 8)) != 0`. -/
def isSlotOccupied (pageData : Mem) (slotNum : Int) : Bool :=
  let bytePos := Int.tdiv slotNum 8
  let bitPos := Int.tmod slotNum 8
  (pageData bytePos &&& (1 <<< bitPos.toNat)) != 0

/-- `markSlotOccupied`: `pageData[slotNum / 8] |= (1 << slotNum % 8)`, kept to one byte. -/
def markSlotOccupied (pageData : Mem) (slotNum : Int) : Mem :=
  let bytePos := Int.tdiv slotNum 8
  let bitPos := Int.tmod slotNum 8
  fun k => if k = bytePos then (pageData bytePos ||| (1 <<< bitPos.toNat)) % 256 else pageData k

/-- `markSlotFree`: `pageData[slotNum / 8] &= ~(1 << slotNum % 8)`, kept to one byte. -/
def markSlotFree (pageData : Mem) (slotNum : Int) : Mem :=
  let bytePos := Int.tdiv slotNum 8
  let bitPos := Int.tmod slotNum 8
  fun k =>
    if k = bytePos then (pageData bytePos &&& (255 ^^^ (1 <<< bitPos.toNat))) % 256
    else pageData k

/-! ## The buffer pool and the page file, as the record manager sees them

`buffer_mgr.c` is not part of the sources; the record manager uses it as a page cache over the
table's file.  The model keeps the current content of every page, counts the pins taken and
the unpins issued, records the page number of every `pinPage` call (`pinCalls`, latest
first), and lets every call into the buffer manager, the storage manager or the
allocator fail: `faults` lists the return codes of the coming calls, in call order, and a call
made when the list is empty succeeds. -/

structure BM_BufferPool where
  pages : Int → Mem
  faults : List RC
  pins : Nat
  unpins : Nat
  pinCalls : List Int

/-- The return code of the next call into the environment. -/
def BM_BufferPool.draw (bm : BM_BufferPool) : RC × BM_BufferPool :=
  match bm.faults with
  | [] => (RC_OK, bm)
  | rc :: rest => (rc, { bm with faults := rest })

/-- `pinPage`: on success the page is pinned and the handle's `data` is `pages pageNum`. -/
def pinPage (bm : BM_BufferPool) (pageNum : Int) : RC × BM_BufferPool :=
  if bm.draw.1 ≠ RC_OK then
    (bm.draw.1, { bm.draw.2 with pinCalls := pageNum :: bm.draw.2.pinCalls })
  else
    (RC_OK, { bm.draw.2 with pins := bm.draw.2.pins + 1,
                             pinCalls := pageNum :: bm.draw.2.pinCalls })

/-- `unpinPage`. -/
def unpinPage (bm : BM_BufferPool) : RC × BM_BufferPool :=
  (bm.draw.1, { bm.draw.2 with unpins := bm.draw.2.unpins + 1 })

/-- `markDirty`. -/
def markDirty (bm : BM_BufferPool) : RC × BM_BufferPool :=
  bm.draw

/-- `openPageFile`, `appendEmptyBlock`, `closePageFile`, `createPageFile`, `initBufferPool`,
`shutdownBufferPool`: for the record manager only their return code matters. -/
def envCall (bm : BM_BufferPool) : RC × BM_BufferPool :=
  bm.draw

/-- A write through a pinned handle's `data` pointer: page `pageNum` now holds `data`. -/
def BM_BufferPool.write (bm : BM_BufferPool) (pageNum : Int) (data : Mem) : BM_BufferPool :=
  { bm with pages := fun p => if p = pageNum then data else bm.pages p }

/-- Pins taken and not yet given back. -/
def BM_BufferPool.pinCount (bm : BM_BufferPool) : Int :=
  (bm.pins : Int) - (bm.unpins : Int)

/-! ## Table metadata (record_mgr.c) -/

structure TableMetadata where
  numTuples : Int
  firstFreePage : Int
  numPages : Int
  recordSize : Int
  slotsPerPage : Int
  deriving DecidableEq, Repr

/-- An uninitialised local `TableMetadata metadata;`. -/
def TableMetadata.uninit : TableMetadata := ⟨0, 0, 0, 0, 0⟩

/-- `memcpy(pageData, metadata, sizeof(TableMetadata))`: five `int`s, 20 bytes. -/
def storeMetadata (pageData : Mem) (m : TableMetadata) : Mem :=
  storeInt (storeInt (storeInt (storeInt (storeInt pageData 0 m.numTuples) 4 m.firstFreePage)
    8 m.numPages) 12 m.recordSize) 16 m.slotsPerPage

/-- `memcpy(metadata, pageData, sizeof(TableMetadata))`. -/
def loadMetadata (pageData : Mem) : TableMetadata :=
  { numTuples := loadInt pageData 0, firstFreePage := loadInt pageData 4,
    numPages := loadInt pageData 8, recordSize := loadInt pageData 12,
    slotsPerPage := loadInt pageData 16 }

/-- The integer an enum `DataType` object holds. -/
def DataType.code : DataType → Int
  | .DT_INT => 0
  | .DT_STRING => 1
  | .DT_FLOAT => 2
  | .DT_BOOL => 3
  | .DT_OTHER c => c

/-- The enum `DataType` object holding the integer `c`. -/
def DataType.ofCode (c : Int) : DataType :=
  if c = 0 then .DT_INT else if c = 1 then .DT_STRING else if c = 2 then .DT_FLOAT
  else if c = 3 then .DT_BOOL else .DT_OTHER c

/-- One round of the attribute loop of `initializeHeader`: name length, name bytes, data type
and type length of attribute `i`, written at `current`; returns the page and the new
`current`. -/
def writeAttr (schema : Schema) (acc : Mem × Int) (i : Nat) : Mem × Int :=
  let name := (schema.attrNames[i]?).getD []
  let nameLen := strlen name
  let page1 := storeInt acc.1 acc.2 nameLen
  let page2 := memcpyList page1 (acc.2 + 4) name nameLen
  let page3 := storeInt page2 (acc.2 + 4 + nameLen) ((schema.dataTypes[i]?).getD .DT_INT).code
  let page4 := storeInt page3 (acc.2 + 4 + nameLen + 4) ((schema.typeLength[i]?).getD 0)
  (page4, acc.2 + 4 + nameLen + 4 + 4)

/-- The bytes of the first `n` entries of an `int` array. -/
def intArrayBytes (a : List Int) (n : Int) : List Nat :=
  (a.take n.toNat).foldr (fun k acc => encodeInt k ++ acc) []

/-- The schema part of `initializeHeader`: the serialized schema after the metadata. -/
def writeSchema (schema : Schema) (pageData : Mem) : Mem :=
  let page1 := storeInt pageData 20 schema.numAttr
  let r := (List.range schema.numAttr.toNat).foldl (writeAttr schema) (page1, 24)
  let page2 := storeInt r.1 r.2 schema.keySize
  if schema.keySize > 0 then
    memcpyList page2 (r.2 + 4) (intArrayBytes schema.keyAttrs schema.keySize) (4 * schema.keySize)
  else page2

/-- `initializeHeader`. -/
def initializeHeader (bm : BM_BufferPool) (schema : Schema) (metadata : TableMetadata) :
    RC × BM_BufferPool :=
  let p := pinPage bm HEADER_PAGE
  if p.1 ≠ RC_OK then p
  else
    let page := writeSchema schema (storeMetadata (p.2.pages HEADER_PAGE) metadata)
    let m := markDirty (p.2.write HEADER_PAGE page)
    if m.1 ≠ RC_OK then (m.1, (unpinPage m.2).2)
    else
      let u := unpinPage m.2
      if u.1 ≠ RC_OK then u
      else
        let p2 := pinPage u.2 DATA_START_PAGE
        if p2.1 ≠ RC_OK then p2
        else
          let m2 := markDirty
            (p2.2.write DATA_START_PAGE (memset (p2.2.pages DATA_START_PAGE) 0 0 PAGE_SIZE))
          if m2.1 ≠ RC_OK then (m2.1, (unpinPage m2.2).2)
          else unpinPage m2.2

/-- `readHeader`; the third component is `*metadata` after the call. -/
def readHeader (bm : BM_BufferPool) (metadata : TableMetadata) :
    RC × BM_BufferPool × TableMetadata :=
  let p := pinPage bm HEADER_PAGE
  if p.1 ≠ RC_OK then (p.1, p.2, metadata)
  else
    let u := unpinPage p.2
    (u.1, u.2, loadMetadata (p.2.pages HEADER_PAGE))

/-- `writeHeader`. -/
def writeHeader (bm : BM_BufferPool) (metadata : TableMetadata) : RC × BM_BufferPool :=
  let p := pinPage bm HEADER_PAGE
  if p.1 ≠ RC_OK then p
  else
    let m := markDirty (p.2.write HEADER_PAGE (storeMetadata (p.2.pages HEADER_PAGE) metadata))
    if m.1 ≠ RC_OK then (m.1, (unpinPage m.2).2)
    else unpinPage m.2

/-! ## Slot allocator (record_mgr.c) -/

/-- The `for` loop of `findFreeSlot` over the slots of one page: `n` slots are left to look
at, starting with slot `i`; the first free one, if any. -/
def firstFreeSlot (pageData : Mem) : Nat → Int → Option Int
  | 0, _ => none
  | n + 1, i =>
      if !isSlotOccupied pageData i then some i else firstFreeSlot pageData n (i + 1)

/-- The `while (currentPage < metadata->numPages && !found)` loop of `findFreeSlot`; the
first argument is the number `numPages - currentPage` of pages left, which is what the loop
condition tests.  Returns the return code (not RC_OK: the function returns it from inside
the loop), the pool, `found` and `*rid`. -/
def findFreeSlotLoop (metadata : TableMetadata) :
    Nat → BM_BufferPool → Int → RID → RC × BM_BufferPool × Bool × RID
  | 0, bm, _, rid => (RC_OK, bm, false, rid)
  | n + 1, bm, currentPage, rid =>
      let p := pinPage bm currentPage
      if p.1 ≠ RC_OK then (p.1, p.2, false, rid)
      else
        match firstFreeSlot (p.2.pages currentPage) metadata.slotsPerPage.toNat 0 with
        | some i =>
            let u := unpinPage p.2
            (u.1, u.2, true, ⟨currentPage, i⟩)
        | none =>
            let u := unpinPage p.2
            if u.1 ≠ RC_OK then (u.1, u.2, false, rid)
            else findFreeSlotLoop metadata n u.2 (currentPage + 1) rid

/-- `findFreeSlot`; returns the return code, the pool, `*metadata` and `*rid`. -/
def findFreeSlot (bm : BM_BufferPool) (metadata : TableMetadata) (rid : RID) :
    RC × BM_BufferPool × TableMetadata × RID :=
  let l := findFreeSlotLoop metadata (metadata.numPages - metadata.firstFreePage).toNat bm
    metadata.firstFreePage rid
  if l.1 ≠ RC_OK then (l.1, l.2.1, metadata, l.2.2.2)
  else if l.2.2.1 then (RC_OK, l.2.1, metadata, l.2.2.2)
  else
    let o := envCall l.2.1
    if o.1 ≠ RC_OK then (o.1, o.2, metadata, rid)
    else
      let a := envCall o.2
      if a.1 ≠ RC_OK then (a.1, (envCall a.2).2, metadata, rid)
      else
        let c := envCall a.2
        let currentPage := metadata.numPages
        let metadata1 := { metadata with numPages := metadata.numPages + 1 }
        let p := pinPage c.2 currentPage
        if p.1 ≠ RC_OK then (p.1, p.2, metadata1, rid)
        else
          let m := markDirty
            (p.2.write currentPage (memset (p.2.pages currentPage) 0 0 PAGE_SIZE))
          if m.1 ≠ RC_OK then (m.1, (unpinPage m.2).2, metadata1, rid)
          else
            let u := unpinPage m.2
            if u.1 ≠ RC_OK then (u.1, u.2, metadata1, rid)
            else
              let metadata2 := { metadata1 with firstFreePage := currentPage }
              (RC_OK, (writeHeader u.2 metadata2).2, metadata2, ⟨currentPage, 0⟩)

/-! ## Table lifecycle (record_mgr.c) -/

structure RecordManager where
  bufferPool : BM_BufferPool
  numTuples : Int

/-- `RM_TableData`; `mgmtData` is `none` for a NULL pointer (the handle is not open). -/
structure RM_TableData where
  name : List Nat
  schema : Schema
  mgmtData : Option RecordManager

/-- The table handle with the state of its record manager replaced. -/
def RM_TableData.withMgr (rel : RM_TableData) (bm : BM_BufferPool) (numTuples : Int) :
    RM_TableData :=
  { rel with mgmtData := some { bufferPool := bm, numTuples := numTuples } }

/-- The buffer pool of an open table (an idle pool over empty pages for a closed handle). -/
def RM_TableData.pool (rel : RM_TableData) : BM_BufferPool :=
  match rel.mgmtData with
  | some mgr => mgr.bufferPool
  | none => { pages := fun _ => zeroMem, faults := [], pins := 0, unpins := 0, pinCalls := [] }

/-- The `do … while (slotsPerPage > 0)` loop of `createTable`; the first argument bounds the
number of rounds (one more than the start value is always enough). -/
def slotsPerPageLoop (recordSize : Int) : Nat → Int → Int
  | 0, slotsPerPage => slotsPerPage
  | n + 1, slotsPerPage =>
      if Int.tdiv (slotsPerPage + 7) 8 + slotsPerPage * recordSize ≤ PAGE_SIZE then slotsPerPage
      else if slotsPerPage - 1 > 0 then slotsPerPageLoop recordSize n (slotsPerPage - 1)
      else slotsPerPage - 1

/-- `createTable`.  The argument is the environment before the call; the result holds the
file as it is after the call.  `none`: the call does not return, the division
`PAGE_SIZE / recordSize` being a division by zero. -/
def createTable (env : BM_BufferPool) (schema : Schema) : Option (RC × BM_BufferPool) :=
  let c := envCall env
  if c.1 ≠ RC_OK then some c
  else
    let i := envCall { c.2 with pages := fun _ => zeroMem }
    if i.1 ≠ RC_OK then some i
    else
      let recordSize := getRecordSize schema
      if recordSize = 0 then none
      else
        let slotsPerPage := slotsPerPageLoop recordSize
          ((Int.tdiv PAGE_SIZE recordSize).toNat + 1) (Int.tdiv PAGE_SIZE recordSize)
        if slotsPerPage ≤ 0 then some (RC_INVALID_RECORD_SIZE, i.2)
        else
          let metadata : TableMetadata :=
            { numTuples := 0, firstFreePage := DATA_START_PAGE, numPages := DATA_START_PAGE + 1,
              recordSize := recordSize, slotsPerPage := slotsPerPage }
          let h := initializeHeader i.2 schema metadata
          if h.1 ≠ RC_OK then some (h.1, (envCall h.2).2)
          else some (envCall h.2)

/-- The attribute loop of `openTable`: `n` attributes are left to read at `current`.
Returns names, data types, type lengths and the position after the last attribute. -/
def readAttrs (pageData : Mem) : Nat → Int → List (List Nat) × List DataType × List Int × Int
  | 0, current => ([], [], [], current)
  | n + 1, current =>
      let nameLength := loadInt pageData current
      let name := readBytes pageData (current + 4) nameLength ++ [0]
      let dt := DataType.ofCode (loadInt pageData (current + 4 + nameLength))
      let tl := loadInt pageData (current + 4 + nameLength + 4)
      let rest := readAttrs pageData n (current + 4 + nameLength + 4 + 4)
      (name :: rest.1, dt :: rest.2.1, tl :: rest.2.2.1, rest.2.2.2)

/-- The schema `openTable` rebuilds from the header page. -/
def readSchema (pageData : Mem) : Schema :=
  let numAttr := loadInt pageData 20
  let a := readAttrs pageData numAttr.toNat 24
  let keySize := loadInt pageData a.2.2.2
  { numAttr := numAttr, attrNames := a.1, dataTypes := a.2.1, typeLength := a.2.2.1,
    keySize := keySize,
    keyAttrs := (List.range keySize.toNat).map
      (fun (k : Nat) => loadInt pageData (a.2.2.2 + 4 + 4 * (k : Int))) }

/-- `openTable`; returns the return code, the environment and `*rel`. -/
def openTable (env : BM_BufferPool) (rel : RM_TableData) (name : List Nat) :
    RC × BM_BufferPool × RM_TableData :=
  let i := envCall env
  if i.1 ≠ RC_OK then (i.1, i.2, rel)
  else
    let h := readHeader i.2 TableMetadata.uninit
    if h.1 ≠ RC_OK then (h.1, (envCall h.2.1).2, rel)
    else
      let p := pinPage h.2.1 HEADER_PAGE
      if p.1 ≠ RC_OK then (p.1, (envCall p.2).2, rel)
      else
        let schema := readSchema (p.2.pages HEADER_PAGE)
        let u := unpinPage p.2
        (u.1, u.2, { name := name, schema := schema,
                     mgmtData := some { bufferPool := u.2, numTuples := h.2.2.numTuples } })

/-- `getNumTuples`. -/
def getNumTuples (rel : RM_TableData) : Int :=
  match rel.mgmtData with
  | none => 0
  | some mgr => mgr.numTuples

/-- `closeTable`; returns the return code, the environment after the call and `*rel`.  The
two calls are `forceFlushPool` and `shutdownBufferPool`; the pool pointer of a record manager
made by `openTable` is never NULL. -/
def closeTable (rel : RM_TableData) : RC × BM_BufferPool × RM_TableData :=
  match rel.mgmtData with
  | none => (RC_FILE_HANDLE_NOT_INIT, rel.pool, rel)
  | some mgr =>
    let f := envCall mgr.bufferPool
    if f.1 ≠ RC_OK then (f.1, f.2, { rel with mgmtData := none })
    else
      let s := envCall f.2
      (s.1, s.2, { rel with mgmtData := none })

/-! ## Record operations (record_mgr.c) -/

/-- `insertRecord`; returns the return code, the table and `*record`. -/
def insertRecord (rel : RM_TableData) (record : Record) : RC × RM_TableData × Record :=
  match rel.mgmtData with
  | none => (RC_FILE_HANDLE_NOT_INIT, rel, record)
  | some mgr =>
    let h := readHeader mgr.bufferPool TableMetadata.uninit
    if h.1 ≠ RC_OK then (h.1, rel.withMgr h.2.1 mgr.numTuples, record)
    else
      let f := findFreeSlot h.2.1 h.2.2 ⟨0, 0⟩
      if f.1 ≠ RC_OK then (f.1, rel.withMgr f.2.1 mgr.numTuples, record)
      else
        let metadata := f.2.2.1
        let rid := f.2.2.2
        let record1 : Record := { record with id := rid }
        let p := pinPage f.2.1 rid.page
        if p.1 ≠ RC_OK then (p.1, rel.withMgr p.2 mgr.numTuples, record1)
        else
          let mapSize := getSlotMapSize metadata.slotsPerPage
          let offset := getRecordOffset rid.slot metadata.recordSize mapSize
          let page1 := markSlotOccupied (p.2.pages rid.page) rid.slot
          let page2 := memcpy page1 offset record.buf 0 metadata.recordSize
          let m := markDirty (p.2.write rid.page page2)
          if m.1 ≠ RC_OK then (m.1, rel.withMgr (unpinPage m.2).2 mgr.numTuples, record1)
          else
            let u := unpinPage m.2
            if u.1 ≠ RC_OK then (u.1, rel.withMgr u.2 mgr.numTuples, record1)
            else
              let w := writeHeader u.2 { metadata with numTuples := mgr.numTuples + 1 }
              (w.1, rel.withMgr w.2 (mgr.numTuples + 1), record1)

/-- `deleteRecord`; returns the return code and the table. -/
def deleteRecord (rel : RM_TableData) (id : RID) : RC × RM_TableData :=
  match rel.mgmtData with
  | none => (RC_FILE_HANDLE_NOT_INIT, rel)
  | some mgr =>
    let h := readHeader mgr.bufferPool TableMetadata.uninit
    if h.1 ≠ RC_OK then (h.1, rel.withMgr h.2.1 mgr.numTuples)
    else
      let metadata := h.2.2
      let p := pinPage h.2.1 id.page
      if p.1 ≠ RC_OK then (p.1, rel.withMgr p.2 mgr.numTuples)
      else if !isSlotOccupied (p.2.pages id.page) id.slot then
        (RC_RM_NO_MORE_TUPLES, rel.withMgr (unpinPage p.2).2 mgr.numTuples)
      else
        let m := markDirty (p.2.write id.page (markSlotFree (p.2.pages id.page) id.slot))
        if m.1 ≠ RC_OK then (m.1, rel.withMgr (unpinPage m.2).2 mgr.numTuples)
        else
          let u := unpinPage m.2
          if u.1 ≠ RC_OK then (u.1, rel.withMgr u.2 mgr.numTuples)
          else
            let w := writeHeader u.2 { metadata with numTuples := mgr.numTuples - 1 }
            (w.1, rel.withMgr w.2 (mgr.numTuples - 1))

/-- `updateRecord`; returns the return code and the table. -/
def updateRecord (rel : RM_TableData) (record : Record) : RC × RM_TableData :=
  match rel.mgmtData with
  | none => (RC_FILE_HANDLE_NOT_INIT, rel)
  | some mgr =>
    let h := readHeader mgr.bufferPool TableMetadata.uninit
    if h.1 ≠ RC_OK then (h.1, rel.withMgr h.2.1 mgr.numTuples)
    else
      let metadata := h.2.2
      let p := pinPage h.2.1 record.id.page
      if p.1 ≠ RC_OK then (p.1, rel.withMgr p.2 mgr.numTuples)
      else if !isSlotOccupied (p.2.pages record.id.page) record.id.slot then
        (RC_RM_NO_MORE_TUPLES, rel.withMgr (unpinPage p.2).2 mgr.numTuples)
      else
        let mapSize := getSlotMapSize metadata.slotsPerPage
        let offset := getRecordOffset record.id.slot metadata.recordSize mapSize
        let page1 := memcpy (p.2.pages record.id.page) offset record.buf 0 metadata.recordSize
        let m := markDirty (p.2.write record.id.page page1)
        if m.1 ≠ RC_OK then (m.1, rel.withMgr (unpinPage m.2).2 mgr.numTuples)
        else
          let u := unpinPage m.2
          (u.1, rel.withMgr u.2 mgr.numTuples)

/-- `getRecord`; returns the return code, the table and `*record`.  A NULL `record->data` is
replaced by a fresh buffer before the copy. -/
def getRecord (rel : RM_TableData) (id : RID) (record : Record) : RC × RM_TableData × Record :=
  match rel.mgmtData with
  | none => (RC_FILE_HANDLE_NOT_INIT, rel, record)
  | some mgr =>
    let h := readHeader mgr.bufferPool TableMetadata.uninit
    if h.1 ≠ RC_OK then (h.1, rel.withMgr h.2.1 mgr.numTuples, record)
    else
      let metadata := h.2.2
      let p := pinPage h.2.1 id.page
      if p.1 ≠ RC_OK then (p.1, rel.withMgr p.2 mgr.numTuples, record)
      else if !isSlotOccupied (p.2.pages id.page) id.slot then
        (RC_RM_NO_MORE_TUPLES, rel.withMgr (unpinPage p.2).2 mgr.numTuples, record)
      else
        let mapSize := getSlotMapSize metadata.slotsPerPage
        let offset := getRecordOffset id.slot metadata.recordSize mapSize
        let record1 : Record :=
          { id := id,
            data := some (memcpy record.buf 0 (p.2.pages id.page) offset metadata.recordSize) }
        let u := unpinPage p.2
        (u.1, rel.withMgr u.2 mgr.numTuples, record1)

/-! ## Expressions (expr.c) -/

/-- The enum `OpType`; `OP_OTHER c` stands for a value that is none of the five. -/
inductive OpType where
  | OP_BOOL_AND
  | OP_BOOL_OR
  | OP_BOOL_NOT
  | OP_COMP_EQUAL
  | OP_COMP_SMALLER
  | OP_OTHER (code : Int)
  deriving DecidableEq, Repr

/-- An `Expr`: a constant, an attribute reference, or an operator with its `args` array. -/
inductive Expr where
  | cons (v : Value)
  | attrRef (i : Int)
  | op (type : OpType) (args : List Expr)

/-- Whether a 32-bit float pattern is a NaN. -/
def floatIsNaN (bits : Nat) : Bool :=
  bits / 8388608 % 256 == 255 && bits % 8388608 != 0

/-- A 32-bit float pattern that is not a NaN, as an integer with the same order (and with
`-0.0` and `+0.0` equal). -/
def floatKey (bits : Nat) : Int :=
  if bits / 2147483648 % 2 = 1 then -((bits % 2147483648 : Nat) : Int)
  else ((bits % 2147483648 : Nat) : Int)

/-- `valueEquals`; the second component is `*result` (`none`: no defined content). -/
def valueEquals (left right : Value) : RC × Option Value :=
  if left.dt ≠ right.dt then (RC_RM_COMPARE_VALUE_OF_DIFFERENT_DATATYPE, none)
  else
    match left, right with
    | .intV a, .intV b => (RC_OK, some (.boolV (a == b)))
    | .floatV a, .floatV b =>
        (RC_OK, some (.boolV (!floatIsNaN a && !floatIsNaN b && floatKey a == floatKey b)))
    | .boolV a, .boolV b => (RC_OK, some (.boolV (a == b)))
    | .stringV a, .stringV b => (RC_OK, some (.boolV (cstr a == cstr b)))
    | _, _ => (RC_OK, none)

/-- `valueSmaller`; `strcmp` orders C strings bytewise. -/
def valueSmaller (left right : Value) : RC × Option Value :=
  if left.dt ≠ right.dt then (RC_RM_COMPARE_VALUE_OF_DIFFERENT_DATATYPE, none)
  else
    match left, right with
    | .intV a, .intV b => (RC_OK, some (.boolV (decide (a < b))))
    | .floatV a, .floatV b =>
        (RC_OK, some (.boolV (!floatIsNaN a && !floatIsNaN b && decide (floatKey a < floatKey b))))
    | .boolV a, .boolV b => (RC_OK, some (.boolV (!a && b)))
    | .stringV a, .stringV b => (RC_OK, some (.boolV (decide (cstr a < cstr b))))
    | _, _ => (RC_OK, none)

/-- `boolNot`. -/
def boolNot (input : Value) : RC × Option Value :=
  match input with
  | .boolV a => (RC_OK, some (.boolV (!a)))
  | _ => (RC_RM_BOOLEAN_EXPR_ARG_IS_NOT_BOOLEAN, none)

/-- `boolAnd`. -/
def boolAnd (left right : Value) : RC × Option Value :=
  match left, right with
  | .boolV a, .boolV b => (RC_OK, some (.boolV (a && b)))
  | _, _ => (RC_RM_BOOLEAN_EXPR_ARG_IS_NOT_BOOLEAN, none)

/-- `boolOr`. -/
def boolOr (left right : Value) : RC × Option Value :=
  match left, right with
  | .boolV a, .boolV b => (RC_OK, some (.boolV (a || b)))
  | _, _ => (RC_RM_BOOLEAN_EXPR_ARG_IS_NOT_BOOLEAN, none)

/-- The `switch (op->type)` of `evalExpr` for the operators with two arguments. -/
def applyBinary (type : OpType) (lIn rIn : Value) : RC × Option Value :=
  match type with
  | .OP_BOOL_AND => boolAnd lIn rIn
  | .OP_BOOL_OR => boolOr lIn rIn
  | .OP_COMP_EQUAL => valueEquals lIn rIn
  | .OP_COMP_SMALLER => valueSmaller lIn rIn
  | _ => (RC_RM_UNKNOWN_OPERATOR, none)

/-- `evalExpr`; the result is the return code and `*result` (`none`: no defined content).
`none` for the whole call: it does not return a code, because `CHECK` ends the process when
`getAttr` fails, or because the `args` array is shorter than the operator needs, or because
an operand has no defined content.
Modelled from the spec: the macro `CPVAL` (expr.h) is not among the sources; a constant
"evaluates by copying the constant Value". -/
def evalExpr (record : Record) (schema : Schema) : Expr → Option (RC × Option Value)
  | .cons v => some (RC_OK, some v)
  | .attrRef i =>
      if (getAttr record schema i).1 ≠ RC_OK then none else some (getAttr record schema i)
  | .op _ [] => none
  | .op type [a] =>
      match evalExpr record schema a with
      | none => none
      | some (rc, lIn) =>
          if rc ≠ RC_OK then some (rc, none)
          else if type = .OP_BOOL_NOT then
            match lIn with
            | none => none
            | some l => some (boolNot l)
          else none
  | .op type (a :: b :: _) =>
      match evalExpr record schema a with
      | none => none
      | some (rc, lIn) =>
          if rc ≠ RC_OK then some (rc, none)
          else if type = .OP_BOOL_NOT then
            match lIn with
            | none => none
            | some l => some (boolNot l)
          else
            match evalExpr record schema b with
            | none => none
            | some (rc2, rIn) =>
                if rc2 ≠ RC_OK then some (rc2, none)
                else
                  match lIn, rIn with
                  | some l, some r => some (applyBinary type l r)
                  | _, _ => none

/-- What `result->v.boolV` reads. For a value tagged DT_BOOL it is the flag; for an `int` or
a float the member overlays the first (least significant) byte of the payload; for a string
it overlays a byte of the pointer, which the model does not know (`none`). -/
def Value.unionBool : Value → Option Bool
  | .boolV b => some b
  | .intV i => some (i % 256 != 0)
  | .floatV bits => some (bits % 256 != 0)
  | .stringV _ => none

/-! ## Scans (record_mgr.c) -/

structure ScanManager where
  currentRID : RID
  condition : Option Expr
  scanActive : Bool
  currentPage : Int
  currentSlot : Int
  totalPages : Int
  slotsPerPage : Int

/-- `RM_ScanHandle`; its `rel` pointer is the table the scan functions are given. -/
structure RM_ScanHandle where
  mgmtData : Option ScanManager

/-- `startScan`; returns the return code, the table and `*scan`. -/
def startScan (rel : RM_TableData) (scan : RM_ScanHandle) (cond : Option Expr) :
    RC × RM_TableData × RM_ScanHandle :=
  match rel.mgmtData with
  | none => (RC_FILE_HANDLE_NOT_INIT, rel, scan)
  | some mgr =>
    let h := readHeader mgr.bufferPool TableMetadata.uninit
    if h.1 ≠ RC_OK then (h.1, rel.withMgr h.2.1 mgr.numTuples, scan)
    else
      (RC_OK, rel.withMgr h.2.1 mgr.numTuples,
        { mgmtData := some
            { currentRID := ⟨0, 0⟩, condition := cond, scanActive := true,
              currentPage := DATA_START_PAGE, currentSlot := 0,
              totalPages := h.2.2.numPages, slotsPerPage := h.2.2.slotsPerPage } })

/-- The state of the loops of `next`: `ret = some rc` when `next` returned `rc` from inside
them. -/
structure ScanLoop where
  ret : Option RC
  found : Bool
  bm : BM_BufferPool
  currentPage : Int
  currentSlot : Int
  record : Record

/-- The inner loop `while (scanMgr->currentSlot < scanMgr->slotsPerPage)` of `next` on the
pinned page `pageData`; the first argument is the number `slotsPerPage - currentSlot` of
slots left.  `none`: no defined return (see `evalExpr`, `Value.unionBool`). -/
def nextSlotLoop (schema : Schema) (cond : Option Expr) (metadata : TableMetadata)
    (pageData : Mem) (currentPage : Int) :
    Nat → BM_BufferPool → Int → Record → Option ScanLoop
  | 0, bm, currentSlot, record => some ⟨none, false, bm, currentPage, currentSlot, record⟩
  | n + 1, bm, currentSlot, record =>
      if isSlotOccupied pageData currentSlot then
        let rid : RID := ⟨currentPage, currentSlot⟩
        let mapSize := getSlotMapSize metadata.slotsPerPage
        let offset := getRecordOffset rid.slot metadata.recordSize mapSize
        let a := if record.data.isNone then envCall bm else (RC_OK, bm)
        if a.1 ≠ RC_OK then
          some ⟨some RC_MEM_ALLOC_FAILED, false, (unpinPage a.2).2, currentPage, currentSlot + 1,
            { id := rid, data := none }⟩
        else
          let record1 : Record :=
            { id := rid, data := some (memcpy record.buf 0 pageData offset metadata.recordSize) }
          match cond with
          | none => some ⟨none, true, a.2, currentPage, currentSlot + 1, record1⟩
          | some c =>
              match evalExpr record1 schema c with
              | none => none
              | some (rc, result) =>
                  if rc ≠ RC_OK then
                    some ⟨some rc, false, (unpinPage a.2).2, currentPage, currentSlot + 1, record1⟩
                  else
                    match result.bind Value.unionBool with
                    | none => none
                    | some true => some ⟨none, true, a.2, currentPage, currentSlot + 1, record1⟩
                    | some false =>
                        nextSlotLoop schema cond metadata pageData currentPage n a.2
                          (currentSlot + 1) record1
      else
        nextSlotLoop schema cond metadata pageData currentPage n bm (currentSlot + 1) record

/-- The outer loop `while (scanMgr->currentPage < scanMgr->totalPages)` of `next`; the first
argument is the number `totalPages - currentPage` of pages left. -/
def nextPageLoop (schema : Schema) (cond : Option Expr) (metadata : TableMetadata)
    (slotsPerPage : Int) :
    Nat → BM_BufferPool → Int → Int → Record → Option ScanLoop
  | 0, bm, currentPage, currentSlot, record =>
      some ⟨none, false, bm, currentPage, currentSlot, record⟩
  | n + 1, bm, currentPage, currentSlot, record =>
      let p := pinPage bm currentPage
      if p.1 ≠ RC_OK then some ⟨some p.1, false, p.2, currentPage, currentSlot, record⟩
      else
        match nextSlotLoop schema cond metadata (p.2.pages currentPage) currentPage
            (slotsPerPage - currentSlot).toNat p.2 currentSlot record with
        | none => none
        | some r =>
            match r.ret with
            | some _ => some r
            | none =>
                let u := unpinPage r.bm
                if u.1 ≠ RC_OK then some { r with ret := some u.1, bm := u.2 }
                else if r.found then some { r with bm := u.2 }
                else
                  nextPageLoop schema cond metadata slotsPerPage n u.2 (currentPage + 1) 0
                    r.record

/-- `next`; returns the return code, the table, `*scan` and `*record`.  `none`: no defined
return (the table handle is closed, or see `nextSlotLoop`). -/
def next (rel : RM_TableData) (scan : RM_ScanHandle) (record : Record) :
    Option (RC × RM_TableData × RM_ScanHandle × Record) :=
  match scan.mgmtData with
  | none => some (RC_FILE_HANDLE_NOT_INIT, rel, scan, record)
  | some scanMgr =>
    if !scanMgr.scanActive then some (RC_RM_NO_MORE_TUPLES, rel, scan, record)
    else
      match rel.mgmtData with
      | none => none
      | some mgr =>
        let h := readHeader mgr.bufferPool TableMetadata.uninit
        if h.1 ≠ RC_OK then some (h.1, rel.withMgr h.2.1 mgr.numTuples, scan, record)
        else
          let a := envCall h.2.1
          if a.1 ≠ RC_OK then
            some (RC_MEM_ALLOC_FAILED, rel.withMgr a.2 mgr.numTuples, scan, record)
          else
            match nextPageLoop rel.schema scanMgr.condition h.2.2 scanMgr.slotsPerPage
                (scanMgr.totalPages - scanMgr.currentPage).toNat a.2 scanMgr.currentPage
                scanMgr.currentSlot record with
            | none => none
            | some r =>
                let scanMgr1 : ScanManager :=
                  { scanMgr with currentPage := r.currentPage, currentSlot := r.currentSlot }
                match r.ret with
                | some rc =>
                    some (rc, rel.withMgr r.bm mgr.numTuples, ⟨some scanMgr1⟩, r.record)
                | none =>
                    if !r.found then
                      some (RC_RM_NO_MORE_TUPLES, rel.withMgr r.bm mgr.numTuples,
                        ⟨some { scanMgr1 with scanActive := false }⟩, r.record)
                    else some (RC_OK, rel.withMgr r.bm mgr.numTuples, ⟨some scanMgr1⟩, r.record)

/-- `closeScan`. -/
def closeScan (scan : RM_ScanHandle) : RC × RM_ScanHandle :=
  match scan.mgmtData with
  | none => (RC_FILE_HANDLE_NOT_INIT, scan)
  | some _ => (RC_OK, ⟨none⟩)

/-! ## Text serializer (rm_serializer.c)

Text is the list of its bytes.  `snprintf`, `atoi`, `atof`, `realloc` and `strdup` belong to
the C library, which is not among the sources: `%d` writes the decimal digits with a leading
`-` for a negative number, `%s` the characters of a C string; what the library does with
floats, and the bytes `realloc` leaves in the part of a grown block it did not copy, are
parameters of the model (`CLib`).  Sizes are `int`s that stay far from overflow. -/

/-- The parts of the C library the model takes as given: `heap k` is the byte found at offset
`k` of a block after `realloc` grew it past `k` (the C standard leaves it indeterminate),
`atof` gives the bit pattern of the float it returns, `fmtFloat p bits` the text `printf`
writes for `%.pf`. -/
structure CLib where
  heap : Nat → Nat
  atof : List Nat → Nat
  fmtFloat : Nat → Nat → List Nat

/-- The character codes of a string literal (a single quote is written as its code 39). -/
def ascii (s : String) : List Nat :=
  s.toList.map Char.toNat

/-- The loop that writes the decimal digits of `n` in front of `acc`; the first argument
bounds the number of rounds. -/
def digitsAux : Nat → Nat → List Nat → List Nat
  | 0, _, acc => acc
  | fuel + 1, n, acc =>
      if n < 10 then (48 + n) :: acc else digitsAux fuel (n / 10) ((48 + n % 10) :: acc)

/-- The decimal digits of a natural number, as characters. -/
def natDigits (n : Nat) : List Nat :=
  digitsAux (n + 1) n []

/-- What `printf` writes for `%d`. -/
def fmtInt (x : Int) : List Nat :=
  if x < 0 then 45 :: natDigits x.natAbs else natDigits x.toNat

/-- `isspace` in the C locale. -/
def isSpace (c : Nat) : Bool :=
  c == 32 || (9 ≤ c && c ≤ 13)

/-- `isdigit`. -/
def isDigit (c : Nat) : Bool :=
  48 ≤ c && c ≤ 57

/-- The number the leading decimal digits of a text denote (0 if there is none). -/
def digitsValue (s : List Nat) : Nat :=
  (s.takeWhile isDigit).foldl (fun acc c => acc * 10 + (c - 48)) 0

/-- `atoi` as the C standard defines it: white space is skipped, an optional sign is read,
then the decimal digits (a value outside the range of `int` is undefined behaviour and left
outside the model). -/
def atoi (s : List Nat) : Int :=
  match (cstr s).dropWhile isSpace with
  | 45 :: rest => -((digitsValue rest : Nat) : Int)
  | 43 :: rest => ((digitsValue rest : Nat) : Int)
  | rest => ((digitsValue rest : Nat) : Int)

/-- The struct `VarString`: `buf` holds the `bufsize` bytes of the block. -/
structure VarString where
  buf : List Nat
  size : Nat
  bufsize : Nat

/-- `MAKE_VARSTRING`: an empty string in a zeroed block of 256 bytes (`calloc`). -/
def VarString.make : VarString :=
  { buf := List.replicate 256 0, size := 0, bufsize := 256 }

/-- The loop `while (newbufsize <= newsize) newbufsize *= 2` of `ENSURE_SIZE`; the first
argument bounds the number of rounds. -/
def growSize : Nat → Nat → Nat → Nat
  | 0, newbufsize, _ => newbufsize
  | fuel + 1, newbufsize, newsize =>
      if newbufsize ≤ newsize then growSize fuel (newbufsize * 2) newsize else newbufsize

/-- `ENSURE_SIZE(var, newsize)`: when `bufsize <= newsize` the block is grown by `realloc`,
which keeps the old bytes and leaves the new ones as the heap has them. -/
def ensureSize (lib : CLib) (var : VarString) (newsize : Nat) : VarString :=
  if var.bufsize ≤ newsize then
    let newbufsize := growSize (newsize + 1) (var.bufsize * 2) newsize
    { var with
      buf := var.buf ++
        (List.range (newbufsize - var.bufsize)).map (fun k => lib.heap (var.bufsize + k)),
      bufsize := newbufsize }
  else var

/-- `APPEND_STRING(var, string)`: the characters of the C string are copied to `buf + size`,
without its terminator, and `size` grows by their number. -/
def appendString (lib : CLib) (var : VarString) (string : List Nat) : VarString :=
  let len := (cstr string).length
  let var1 := ensureSize lib var (var.size + len)
  { var1 with
    buf := var1.buf.take var1.size ++ cstr string ++ var1.buf.drop (var1.size + len),
    size := var1.size + len }

/-- `APPEND(var, ...)` where `text` is what the format and its arguments produce: `snprintf`
keeps at most 1023 characters of it in `tmp[1024]` and terminates them. -/
def append (lib : CLib) (var : VarString) (text : List Nat) : VarString :=
  appendString lib var (text.take 1023 ++ [0])

/-- `strdup(result->buf)`: the bytes of the block up to the first NUL.  `none`: the block
holds no NUL, and `strdup` reads past its end. -/
def strdupBuf (var : VarString) : Option (List Nat) :=
  if 0 ∈ var.buf then some (cstr var.buf) else none

/-- `attrOffset` (rm_serializer.c); the second component is `*result` (`none`: not
assigned). -/
def attrOffset (schema : Schema) (attrNum : Int) : RC × Option Int :=
  if attrNum < 0 ∨ attrNum ≥ schema.numAttr then (RC_RM_INVALID_ATTRIBUTE, none)
  else (RC_OK, some (sumWidths schema attrNum.toNat))

/-- The C string `schema->attrNames[k]` (empty for an index outside the array). -/
def attrName (schema : Schema) (k : Int) : List Nat :=
  if 0 ≤ k then cstr ((schema.attrNames[k.toNat]?).getD []) else []

/-- `serializeAttr`.  `none`: no defined result (the offset was not assigned, or see
`strdupBuf`). -/
def serializeAttr (lib : CLib) (record : Record) (schema : Schema) (attrNum : Int) :
    Option (List Nat) :=
  match (attrOffset schema attrNum).2 with
  | none => none
  | some offset =>
      let result :=
        match schema.dataTypes[attrNum.toNat]? with
        | some .DT_INT =>
            append lib VarString.make
              (attrName schema attrNum ++ ascii ": " ++ fmtInt (loadInt record.buf offset))
        | some .DT_FLOAT =>
            append lib VarString.make
              (attrName schema attrNum ++ ascii ": " ++
                lib.fmtFloat 2 (decodeU32 (record.buf offset) (record.buf (offset + 1))
                  (record.buf (offset + 2)) (record.buf (offset + 3))))
        | some .DT_STRING =>
            let str := readBytes record.buf offset ((schema.typeLength[attrNum.toNat]?).getD 0)
              ++ [0]
            append lib VarString.make
              (attrName schema attrNum ++ ascii ": " ++ [39] ++ cstr str ++ [39])
        | some .DT_BOOL =>
            append lib VarString.make
              (attrName schema attrNum ++ ascii ": " ++
                (if record.buf offset != 0 then ascii "true" else ascii "false"))
        | _ => VarString.make
      strdupBuf result

/-- The loop of `serializeRecord` over the attributes: `n` attributes are left, starting
with attribute `i`. -/
def serializeRecordLoop (lib : CLib) (record : Record) (schema : Schema) :
    Nat → Int → VarString → Option VarString
  | 0, _, result => some result
  | n + 1, i, result =>
      match serializeAttr lib record schema i with
      | none => none
      | some attrStr =>
          serializeRecordLoop lib record schema n (i + 1)
            (append lib result ((if i > 0 then ascii ", " else []) ++ cstr attrStr))

/-- `serializeRecord`. -/
def serializeRecord (lib : CLib) (record : Record) (schema : Schema) : Option (List Nat) :=
  let result0 := append lib VarString.make
    (ascii "RID(" ++ fmtInt record.id.page ++ ascii "," ++ fmtInt record.id.slot ++ ascii ") [")
  match serializeRecordLoop lib record schema schema.numAttr.toNat 0 result0 with
  | none => none
  | some result => strdupBuf (append lib result (ascii "]"))

/-- One round of the attribute loop of `serializeSchema`. -/
def serializeSchemaAttr (lib : CLib) (schema : Schema) (result : VarString) (i : Nat) :
    VarString :=
  let result1 := append lib result
    ((if i > 0 then ascii ", " else []) ++ attrName schema i ++ ascii ": ")
  match schema.dataTypes[i]? with
  | some .DT_INT => append lib result1 (ascii "INT")
  | some .DT_FLOAT => append lib result1 (ascii "FLOAT")
  | some .DT_STRING =>
      append lib result1
        (ascii "STRING(" ++ fmtInt ((schema.typeLength[i]?).getD 0) ++ ascii ")")
  | some .DT_BOOL => append lib result1 (ascii "BOOL")
  | _ => result1

/-- One round of the key loop of `serializeSchema`. -/
def serializeSchemaKey (lib : CLib) (schema : Schema) (result : VarString) (i : Nat) :
    VarString :=
  append lib result
    ((if i > 0 then ascii ", " else []) ++ attrName schema ((schema.keyAttrs[i]?).getD 0))

/-- `serializeSchema`. -/
def serializeSchema (lib : CLib) (schema : Schema) : Option (List Nat) :=
  let result0 := append lib VarString.make
    (ascii "Attributes[" ++ fmtInt schema.numAttr ++ ascii "]: ")
  let result1 := (List.range schema.numAttr.toNat).foldl (serializeSchemaAttr lib schema) result0
  let result2 :=
    if schema.keySize > 0 then
      (List.range schema.keySize.toNat).foldl (serializeSchemaKey lib schema)
        (append lib result1 (ascii " | Keys: "))
    else result1
  strdupBuf result2

/-- `serializeValue`; `val = none` is the NULL pointer, and the string of a String value is
not NULL.  `none`: see `strdupBuf`. -/
def serializeValue (lib : CLib) (val : Option Value) : Option (List Nat) :=
  let result :=
    match val with
    | none => append lib VarString.make (ascii "(null)")
    | some (.intV i) => append lib VarString.make (fmtInt i)
    | some (.floatV bits) => append lib VarString.make (lib.fmtFloat 6 bits)
    | some (.stringV s) => append lib VarString.make (cstr s)
    | some (.boolV b) => append lib VarString.make (if b then ascii "true" else ascii "false")
  strdupBuf result

/-- `stringToValue`; `alloc` says whether `malloc` gives memory.  `none` is the NULL
pointer. -/
def stringToValue (lib : CLib) (alloc : Bool) (val : List Nat) : Option Value :=
  if !alloc then none
  else
    match val.getD 0 0 with
    | 105 => some (.intV (atoi (val.drop 1)))
    | 102 => some (.floatV (lib.atof (val.drop 1)))
    | 115 => some (.stringV (cstr (val.drop 1) ++ [0]))
    | 98 => some (.boolV (val.getD 1 0 == 116 || val.getD 1 0 == 49))
    | _ => none

/-! ## Specification-level notions for tables -/

/-- The `int` read back after an integer was stored in four bytes (two's complement
wrap-around; the identity on `[-2^31, 2^31)`). -/
def wrap32 (x : Int) : Int :=
  (x + 2147483648) % 4294967296 - 2147483648

/-- The current content of the pages of the table's file. -/
def RM_TableData.pages (rel : RM_TableData) : Int → Mem :=
  rel.pool.pages

/-- The metadata stored in the header page. -/
def RM_TableData.header (rel : RM_TableData) : TableMetadata :=
  loadMetadata (rel.pages HEADER_PAGE)

/-- The table handle is open and every coming call into the buffer manager, the storage
manager and the allocator succeeds. -/
def RM_TableData.Reliable (rel : RM_TableData) : Prop :=
  rel.mgmtData.isSome = true ∧ rel.pool.faults = []

/-- The invariants of the stored metadata: `slotsPerPage ≥ 1`, bitmap and slots fit in a page,
`numPages ≥ DATA_START_PAGE + 1`, `firstFreePage ∈ [DATA_START_PAGE, numPages)`. -/
def TableMetadata.Inv (m : TableMetadata) : Prop :=
  1 ≤ m.slotsPerPage ∧
  getSlotMapSize m.slotsPerPage + m.slotsPerPage * m.recordSize ≤ PAGE_SIZE ∧
  DATA_START_PAGE + 1 ≤ m.numPages ∧
  DATA_START_PAGE ≤ m.firstFreePage ∧ m.firstFreePage < m.numPages

instance (m : TableMetadata) : Decidable m.Inv := by
  unfold TableMetadata.Inv; infer_instance

/-- An RID in the range of the table: a data page and a slot of the page. -/
def TableMetadata.InRange (m : TableMetadata) (id : RID) : Prop :=
  DATA_START_PAGE ≤ id.page ∧ id.page < m.numPages ∧ 0 ≤ id.slot ∧ id.slot < m.slotsPerPage

instance (m : TableMetadata) (id : RID) : Decidable (m.InRange id) := by
  unfold TableMetadata.InRange; infer_instance

/-- The bitmap bit of slot `slot` lies in the page frame: byte `slot / 8`, which
`isSlotOccupied` reads and `markSlotFree` writes, is one of the `PAGE_SIZE` bytes of the
page. -/
def BitInFrame (slot : Int) : Prop :=
  0 ≤ slot ∧ slot < 8 * PAGE_SIZE

instance (slot : Int) : Decidable (BitInFrame slot) := by
  unfold BitInFrame; infer_instance

/-- The bitmap bit of slot `slot` and the `recordSize` bytes `updateRecord` copies for the
slot lie in the page frame: the copy starts at or after byte 0 and ends at or before byte
`PAGE_SIZE` of the page. -/
def TableMetadata.SlotInFrame (m : TableMetadata) (slot : Int) : Prop :=
  BitInFrame slot ∧ 0 ≤ m.recordSize ∧
    0 ≤ getRecordOffset slot m.recordSize (getSlotMapSize m.slotsPerPage) ∧
    getRecordOffset slot m.recordSize (getSlotMapSize m.slotsPerPage) + m.recordSize ≤ PAGE_SIZE

instance (m : TableMetadata) (slot : Int) : Decidable (m.SlotInFrame slot) := by
  unfold TableMetadata.SlotInFrame; infer_instance

/-- Offset of byte `k` of slot `slot` in a data page. -/
def TableMetadata.slotByte (m : TableMetadata) (slot k : Int) : Int :=
  getRecordOffset slot m.recordSize (getSlotMapSize m.slotsPerPage) + k

/-- The result of the page loop of `findFreeSlot` when every call succeeds: the first free
slot of the first of the `n` pages from `currentPage` on that has one. -/
def searchFree (pages : Int → Mem) (slotsPerPage : Int) : Nat → Int → Option RID
  | 0, _ => none
  | n + 1, currentPage =>
      match firstFreeSlot (pages currentPage) slotsPerPage.toNat 0 with
      | some i => some ⟨currentPage, i⟩
      | none => searchFree pages slotsPerPage n (currentPage + 1)

/-- The pages after a write to page `pageNum`. -/
def setPage (pages : Int → Mem) (pageNum : Int) (data : Mem) : Int → Mem :=
  fun p => if p = pageNum then data else pages p

/-- The effect of `findFreeSlot` on pages and metadata when every call succeeds, and the RID
it returns: a slot found by the search, or slot 0 of a new zeroed page `numPages`, with the
grown metadata written to the header. -/
def allocSlot (pages : Int → Mem) (m : TableMetadata) : (Int → Mem) × TableMetadata × RID :=
  match searchFree pages m.slotsPerPage (m.numPages - m.firstFreePage).toNat m.firstFreePage with
  | some rid => (pages, m, rid)
  | none =>
      let m2 : TableMetadata :=
        { m with numPages := m.numPages + 1, firstFreePage := m.numPages }
      let pages1 := setPage pages m.numPages (memset (pages m.numPages) 0 0 PAGE_SIZE)
      (setPage pages1 HEADER_PAGE (storeMetadata (pages1 HEADER_PAGE) m2), m2, ⟨m.numPages, 0⟩)

/-- The pages after `insertRecord` when every call succeeds (`cached` is the record
manager's tuple count before the call). -/
def insertPages (pages : Int → Mem) (cached : Int) (record : Record) : Int → Mem :=
  let a := allocSlot pages (loadMetadata (pages HEADER_PAGE))
  let rid := a.2.2
  let offset := getRecordOffset rid.slot a.2.1.recordSize (getSlotMapSize a.2.1.slotsPerPage)
  let pages2 := setPage a.1 rid.page
    (memcpy (markSlotOccupied (a.1 rid.page) rid.slot) offset record.buf 0 a.2.1.recordSize)
  setPage pages2 HEADER_PAGE
    (storeMetadata (pages2 HEADER_PAGE) { a.2.1 with numTuples := cached + 1 })

/-- The RID `insertRecord` assigns when every call succeeds. -/
def insertRID (pages : Int → Mem) : RID :=
  (allocSlot pages (loadMetadata (pages HEADER_PAGE))).2.2

/-- The pages after a successful `deleteRecord` when every call succeeds. -/
def deletePages (pages : Int → Mem) (cached : Int) (id : RID) : Int → Mem :=
  let pages1 := setPage pages id.page (markSlotFree (pages id.page) id.slot)
  setPage pages1 HEADER_PAGE
    (storeMetadata (pages1 HEADER_PAGE)
      { loadMetadata (pages HEADER_PAGE) with numTuples := cached - 1 })

/-- The pages after a successful `updateRecord` when every call succeeds. -/
def updatePages (pages : Int → Mem) (record : Record) : Int → Mem :=
  let m := loadMetadata (pages HEADER_PAGE)
  setPage pages record.id.page
    (memcpy (pages record.id.page)
      (getRecordOffset record.id.slot m.recordSize (getSlotMapSize m.slotsPerPage))
      record.buf 0 m.recordSize)

/-- The calls `insertRecord(rel, r)` for the records of a list, in order, stopping at the
first call that fails; returns the last return code, the table and the ids assigned. -/
def insertAll : RM_TableData → List Record → RC × RM_TableData × List RID
  | rel, [] => (RC_OK, rel, [])
  | rel, r :: rest =>
      if (insertRecord rel r).1 ≠ RC_OK then ((insertRecord rel r).1, (insertRecord rel r).2.1, [])
      else
        ((insertAll (insertRecord rel r).2.1 rest).1, (insertAll (insertRecord rel r).2.1 rest).2.1,
          (insertRecord rel r).2.2.id :: (insertAll (insertRecord rel r).2.1 rest).2.2)

/-- The calls `deleteRecord(rel, id)` for the RIDs of a list, in order, stopping at the first
call that fails. -/
def deleteAll : RM_TableData → List RID → RC × RM_TableData
  | rel, [] => (RC_OK, rel)
  | rel, id :: rest =>
      if (deleteRecord rel id).1 ≠ RC_OK then deleteRecord rel id
      else deleteAll (deleteRecord rel id).2 rest

/-- An environment in which no page has been written and every call succeeds. -/
def env0 : BM_BufferPool :=
  { pages := fun _ => zeroMem, faults := [], pins := 0, unpins := 0, pinCalls := [] }

/-- The table handle `createTable` followed by `openTable` yields in a given environment
(a closed handle if `createTable` does not return RC_OK). -/
def freshTable (env : BM_BufferPool) (schema : Schema) (name : List Nat) : RM_TableData :=
  match createTable env schema with
  | some (0, env1) => (openTable env1 ⟨[], schema, none⟩ name).2.2
  | _ => ⟨[], schema, none⟩

/-- A table that has never grown: one data page, the hint on it; `occ` says which of its
slots are occupied. -/
def OnePage (rel : RM_TableData) (occ : Int → Prop) : Prop :=
  rel.Reliable ∧ rel.header.Inv ∧ rel.header.firstFreePage = 1 ∧ rel.header.numPages = 2 ∧
  ∀ t, 0 ≤ t → t < rel.header.slotsPerPage →
    (isSlotOccupied (rel.pages DATA_START_PAGE) t = true ↔ occ t)

/-- A schema with one attribute `x : STRING(3000)`; only one record fits in a page. -/
def schemaBig : Schema :=
  { numAttr := 1, attrNames := [[120]], dataTypes := [.DT_STRING], typeLength := [3000],
    keySize := 0, keyAttrs := [] }

/-! ## Specification-level notions for scans -/

/-- The occupied slots of a page among the `n` slots from `currentSlot` on, in slot order. -/
def scanSlots (pageData : Mem) (page : Int) : Nat → Int → List RID
  | 0, _ => []
  | n + 1, currentSlot =>
      if isSlotOccupied pageData currentSlot then
        ⟨page, currentSlot⟩ :: scanSlots pageData page n (currentSlot + 1)
      else scanSlots pageData page n (currentSlot + 1)

/-- The occupied slots that lie at or after the cursor `(currentPage, currentSlot)` on the `n`
pages from `currentPage` on, in page/slot order. -/
def scanPages (pages : Int → Mem) (slotsPerPage : Int) : Nat → Int → Int → List RID
  | 0, _, _ => []
  | n + 1, currentPage, currentSlot =>
      scanSlots (pages currentPage) currentPage (slotsPerPage - currentSlot).toNat currentSlot ++
        scanPages pages slotsPerPage n (currentPage + 1) 0

/-- The occupied slots of the data pages `[DATA_START_PAGE, numPages)`, in page/slot order. -/
def occupiedRIDs (pages : Int → Mem) (m : TableMetadata) : List RID :=
  scanPages pages m.slotsPerPage (m.numPages - DATA_START_PAGE).toNat DATA_START_PAGE 0

/-- The page/slot order on RIDs. -/
def RID.lt (a b : RID) : Prop :=
  a.page < b.page ∨ (a.page = b.page ∧ a.slot < b.slot)

/-- The record stored in a slot: its RID and a buffer holding the slot's `recordSize`
bytes. -/
def slotRecord (pages : Int → Mem) (m : TableMetadata) (rid : RID) : Record :=
  { id := rid,
    data := some (memcpy zeroMem 0 (pages rid.page)
      (getRecordOffset rid.slot m.recordSize (getSlotMapSize m.slotsPerPage)) m.recordSize) }

/-- The data buffer of the record has `n` bytes (a read outside a buffer gives zero in the
model); a NULL data pointer also qualifies. -/
def Record.Sized (r : Record) (n : Int) : Prop :=
  ∀ k, k < 0 ∨ n ≤ k → r.buf k = 0

/-- `n` successive calls of `next` with the same record variable; returns the return code
and the record after each call, and the final table and scan handle. -/
def nextN : Nat → RM_TableData → RM_ScanHandle → Record →
    Option (List (RC × Record) × RM_TableData × RM_ScanHandle)
  | 0, rel, scan, _ => some ([], rel, scan)
  | n + 1, rel, scan, record =>
      match next rel scan record with
      | none => none
      | some (rc, rel1, scan1, record1) =>
          match nextN n rel1 scan1 record1 with
          | none => none
          | some (l, rel2, scan2) => some ((rc, record1) :: l, rel2, scan2)

/-- `startScan` with the given condition followed by `n` calls of `next`. -/
def scanRun (rel : RM_TableData) (scan : RM_ScanHandle) (cond : Option Expr) (record : Record)
    (n : Nat) : Option (List (RC × Record) × RM_TableData × RM_ScanHandle) :=
  nextN n (startScan rel scan cond).2.1 (startScan rel scan cond).2.2 record

/-- Whether a scan with condition `cond` reports the record: there is no condition, or the
condition evaluates to the Bool value true. -/
def accepts (schema : Schema) (cond : Option Expr) (r : Record) : Bool :=
  match cond with
  | none => true
  | some c => decide (evalExpr r schema c = some (RC_OK, some (.boolV true)))

/-- The condition (if any) evaluates on the record with RC_OK to a Bool value. -/
def EvalsToBool (schema : Schema) (cond : Option Expr) (r : Record) : Prop :=
  match cond with
  | none => True
  | some c => ∃ b, evalExpr r schema c = some (RC_OK, some (.boolV b))

/-- The occupied slots whose record the condition accepts, in page/slot order. -/
def matchingRIDs (pages : Int → Mem) (m : TableMetadata) (schema : Schema)
    (cond : Option Expr) : List RID :=
  (occupiedRIDs pages m).filter (fun rid => accepts schema cond (slotRecord pages m rid))

/-! ## Specification-level notions for records -/

/-- String widths are non-negative and the parallel arrays have `numAttr` entries. -/
def Schema.WellFormed (s : Schema) : Prop :=
  0 ≤ s.numAttr ∧ s.dataTypes.length = s.numAttr.toNat ∧
    s.typeLength.length = s.numAttr.toNat ∧
    ∀ i < s.numAttr.toNat, s.dataTypes[i]? = some .DT_STRING → 0 ≤ (s.typeLength[i]?).getD 0

/-- The buffer `setAttr` leaves for a string attribute (its `DT_STRING` case). -/
def setString (d : Mem) (offset : Int) (s : List Nat) (maxLen : Int) : Mem :=
  let len := if strlen s > maxLen then maxLen else strlen s
  let data1 := memcpyList d offset s len
  if len < maxLen then memset data1 (offset + len) 0 (maxLen - len) else data1

/-- A value a C `Value` can hold: a 32-bit `int`, a 32-bit float pattern. -/
def Value.Representable : Value → Prop
  | .intV i => -2147483648 ≤ i ∧ i < 2147483648
  | .floatV bits => bits < 4294967296
  | _ => True

/-- What the round trip asks of the value read back: Int, Bool and Float (bit pattern)
unchanged, a String equal as a C string to the first `width` bytes of the input. -/
def Value.roundTrips (width : Int) : Value → Value → Prop
  | .intV a, .intV b => a = b
  | .boolV a, .boolV b => a = b
  | .floatV a, .floatV b => a = b
  | .stringV s, .stringV t => cstr t = (cstr s).take width.toNat
  | _, _ => False

/-- The calls `setAttr(record, schema, i, v)` for the pairs `(i, v)` of a list, in order; as a
caller checking every return code does, it stops at the first call that fails. -/
def setAttrs (record : Record) (schema : Schema) : List (Int × Value) → RC × Record
  | [] => (RC_OK, record)
  | (i, v) :: rest =>
      if (setAttr record schema i v).1 ≠ RC_OK then setAttr record schema i v
      else setAttrs (setAttr record schema i v).2 schema rest

/-! ## Specification-level notions for sequences of writes -/

/-- A call of `insertRecord`, `deleteRecord` or `updateRecord` with its argument. -/
inductive WriteOp where
  | insert (record : Record)
  | delete (id : RID)
  | update (record : Record)

/-- The return code of the call and the table after it. -/
def WriteOp.apply (rel : RM_TableData) : WriteOp → RC × RM_TableData
  | .insert record => ((insertRecord rel record).1, (insertRecord rel record).2.1)
  | .delete id => deleteRecord rel id
  | .update record => updateRecord rel record

/-- The RID given to `deleteRecord` or `updateRecord` is in range; before an `insertRecord`
the two `int` counters the call may increment are below `INT_MAX`. -/
def WriteOp.Admissible (rel : RM_TableData) : WriteOp → Prop
  | .insert _ => getNumTuples rel < 2147483647 ∧ rel.header.numPages < 2147483647
  | .delete id => rel.header.InRange id
  | .update record => rel.header.InRange record.id

instance (rel : RM_TableData) (op : WriteOp) : Decidable (op.Admissible rel) := by
  cases op <;> unfold WriteOp.Admissible <;> infer_instance

/-- The table after a sequence of calls, each admissible and returning RC_OK; `none` when
one of the calls is not. -/
def runOps : RM_TableData → List WriteOp → Option RM_TableData
  | rel, [] => some rel
  | rel, op :: rest =>
      if op.Admissible rel ∧ (op.apply rel).1 = RC_OK then runOps (op.apply rel).2 rest
      else none

/-- The stored and the cached tuple count agree with the number of occupied slots. -/
def Consistent (rel : RM_TableData) : Prop :=
  rel.header.numTuples = getNumTuples rel ∧
  getNumTuples rel = ((occupiedRIDs rel.pages rel.header).length : Int)

/-- What the write operations keep true of an open table: every coming call succeeds, the
stored metadata satisfies its invariants, records have a non-negative size, and the tuple
counts are consistent. -/
def Sound (rel : RM_TableData) : Prop :=
  rel.Reliable ∧ rel.header.Inv ∧ 0 ≤ rel.header.recordSize ∧ Consistent rel

/-- The slot count `createTable` computes for a record size: the start value
`PAGE_SIZE / recordSize` taken through its `do … while` loop. -/
def slotsPerPageOf (recordSize : Int) : Int :=
  slotsPerPageLoop recordSize ((Int.tdiv PAGE_SIZE recordSize).toNat + 1)
    (Int.tdiv PAGE_SIZE recordSize)

/-- `n` slots with their bitmap fit in a page: `⌈n/8⌉ + n * recordSize ≤ PAGE_SIZE`
(for `n ≥ 0` the quotient `(n + 7) / 8` is `⌈n/8⌉`). -/
def SlotsFit (recordSize n : Int) : Prop :=
  (n + 7) / 8 + n * recordSize ≤ PAGE_SIZE

/-- A table filled in insertion order: the hint is on the last page, whose slots below `c`
are occupied and whose other slots are free, and the tuple counts are
`(numPages - 2) * slotsPerPage + c` (what the table holds when the data pages before the last
one are full). -/
def Filled (rel : RM_TableData) (c : Int) : Prop :=
  rel.Reliable ∧ rel.header.Inv ∧ 0 ≤ rel.header.recordSize ∧
  rel.header.firstFreePage = rel.header.numPages - 1 ∧
  0 ≤ c ∧ c ≤ rel.header.slotsPerPage ∧ (2 < rel.header.numPages → 1 ≤ c) ∧
  getNumTuples rel = (rel.header.numPages - 2) * rel.header.slotsPerPage + c ∧
  rel.header.numTuples = getNumTuples rel ∧
  ∀ t, 0 ≤ t → t < rel.header.slotsPerPage →
    (isSlotOccupied (rel.pages (rel.header.numPages - 1)) t = true ↔ t < c)

/-! ## Specification-level notions for the stored schema -/

/-- The offset in the header page at which the serialized schema ends: the position the
attribute loop of `initializeHeader` reaches, then `keySize` and the key indices. -/
def serializedEnd (schema : Schema) : Int :=
  ((List.range schema.numAttr.toNat).foldl (writeAttr schema) (zeroMem, 24)).2 + 4 +
    4 * schema.keySize

/-- An `int` object can hold the integer. -/
def IsInt32 (x : Int) : Prop :=
  -2147483648 ≤ x ∧ x < 2147483648

instance (x : Int) : Decidable (IsInt32 x) := by
  unfold IsInt32; infer_instance

/-- A schema `createTable` can store: the parallel arrays have `numAttr` entries and the key
array `keySize ≥ 0` entries, every data type is an enum object and every integer an `int`,
and the serialized form fits in the header page after the metadata. (A name is the C string
its buffer holds, so it has no NUL byte by construction.) -/
def Schema.Persistable (s : Schema) : Prop :=
  0 ≤ s.numAttr ∧ IsInt32 s.numAttr ∧ s.attrNames.length = s.numAttr.toNat ∧
  s.dataTypes.length = s.numAttr.toNat ∧ s.typeLength.length = s.numAttr.toNat ∧
  (∀ d ∈ s.dataTypes, IsInt32 d.code ∧ DataType.ofCode d.code = d) ∧
  (∀ t ∈ s.typeLength, IsInt32 t) ∧
  0 ≤ s.keySize ∧ s.keyAttrs.length = s.keySize.toNat ∧ (∀ k ∈ s.keyAttrs, IsInt32 k) ∧
  serializedEnd s ≤ PAGE_SIZE

instance (s : Schema) : Decidable s.Persistable := by
  unfold Schema.Persistable; infer_instance

/-- Every field of the metadata is an `int`. -/
def TableMetadata.Representable (m : TableMetadata) : Prop :=
  IsInt32 m.numTuples ∧ IsInt32 m.firstFreePage ∧ IsInt32 m.numPages ∧ IsInt32 m.recordSize ∧
  IsInt32 m.slotsPerPage

instance (m : TableMetadata) : Decidable m.Representable := by
  unfold TableMetadata.Representable; infer_instance

/-! ## Specification-level notions for the serializer

The texts the specification describes, written without the C code in view: they are what the
serializer is compared with. -/

/-- The string variable holds `text`, terminated, in its first block of 256 bytes (which
`calloc` zeroed): the block has not been grown. -/
def VarString.Holds (var : VarString) (text : List Nat) : Prop :=
  var.bufsize = 256 ∧ var.size = text.length ∧ text.length < 256 ∧
  var.buf = text ++ List.replicate (256 - text.length) 0

/-- The string variable holds `text`, not terminated, in a block that `realloc` grew from 256
to 512 bytes: after the text come the bytes the heap had there. -/
def VarString.Grown (lib : CLib) (var : VarString) (text : List Nat) : Prop :=
  var.bufsize = 512 ∧ var.size = text.length ∧ 256 ≤ text.length ∧ text.length < 512 ∧
  var.buf = text ++ (List.range' text.length (512 - text.length)).map lib.heap

/-- The string variable holds `text`, in its first block or in the block grown once. -/
def VarString.Tracks (lib : CLib) (var : VarString) (text : List Nat) : Prop :=
  var.Holds text ∨ var.Grown lib text

/-- The pieces of a list joined by `", "`. -/
def joinComma (pieces : List (List Nat)) : List Nat :=
  (ascii ", ").intercalate pieces

/-- The text of attribute `i` of a record: the name, `": "`, and the decimal signed integer
for Int, `true` or `false` for Bool, the stored bytes up to the first NUL (at most
`typeLength[i]`) in single quotes for String. -/
def specAttrText (record : Record) (schema : Schema) (i : Nat) : List Nat :=
  cstr ((schema.attrNames[i]?).getD []) ++ ascii ": " ++
    match schema.dataTypes[i]? with
    | some .DT_INT => fmtInt (loadInt record.buf (sumWidths schema i))
    | some .DT_BOOL => if record.buf (sumWidths schema i) = 0 then ascii "false" else ascii "true"
    | some .DT_STRING =>
        [39] ++ cstr (readBytes record.buf (sumWidths schema i) ((schema.typeLength[i]?).getD 0))
          ++ [39]
    | _ => []

/-- The text of a record: `RID(p,s) [`, the attribute texts joined by `", "`, and `]`. -/
def specRecordText (record : Record) (schema : Schema) : List Nat :=
  ascii "RID(" ++ fmtInt record.id.page ++ ascii "," ++ fmtInt record.id.slot ++ ascii ") [" ++
    joinComma ((List.range schema.numAttr.toNat).map (specAttrText record schema)) ++ ascii "]"

/-- The name of a data type in the text of a schema. -/
def specTypeText (schema : Schema) (i : Nat) : List Nat :=
  match schema.dataTypes[i]? with
  | some .DT_INT => ascii "INT"
  | some .DT_FLOAT => ascii "FLOAT"
  | some .DT_BOOL => ascii "BOOL"
  | some .DT_STRING => ascii "STRING(" ++ fmtInt ((schema.typeLength[i]?).getD 0) ++ ascii ")"
  | _ => []

/-- The text of a schema: `Attributes[N]: `, the attributes as `name: TYPE` joined by `", "`,
and, if and only if `keySize > 0`, ` | Keys: ` and the names of the key attributes joined by
`", "`. -/
def specSchemaText (schema : Schema) : List Nat :=
  ascii "Attributes[" ++ fmtInt schema.numAttr ++ ascii "]: " ++
    joinComma ((List.range schema.numAttr.toNat).map (fun i =>
      cstr ((schema.attrNames[i]?).getD []) ++ ascii ": " ++ specTypeText schema i)) ++
    (if schema.keySize > 0 then
      ascii " | Keys: " ++
        joinComma ((schema.keyAttrs.take schema.keySize.toNat).map (fun k =>
          cstr ((schema.attrNames[k.toNat]?).getD [])))
    else [])

/-! ## Specification-level notions for scans interleaved with inserts -/

/-- A call made while a scan is open: `next` on the scan, or `insertRecord` on its table. -/
inductive ScanStep where
  | next
  | insert (record : Record)

/-- The page numbers given to `pinPage` during a call that took the pool from `before` to
`after` (latest first). -/
def pinCallsBetween (before after : BM_BufferPool) : List Int :=
  after.pinCalls.take (after.pinCalls.length - before.pinCalls.length)

/-- The calls of a list made in order on a table and a scan of it, `next` always with the
same record variable. Returns, for every call of `next`, its return code, the record after
it and the page numbers it gave to `pinPage`, and the final table and scan handle. `none`
when a call of `next` has no defined return. -/
def runScanSteps : List ScanStep → RM_TableData → RM_ScanHandle → Record →
    Option (List (RC × Record × List Int) × RM_TableData × RM_ScanHandle)
  | [], rel, scan, _ => some ([], rel, scan)
  | .next :: rest, rel, scan, record =>
      match next rel scan record with
      | none => none
      | some (rc, rel1, scan1, record1) =>
          match runScanSteps rest rel1 scan1 record1 with
          | none => none
          | some (l, rel2, scan2) =>
              some ((rc, record1, pinCallsBetween rel.pool rel1.pool) :: l, rel2, scan2)
  | .insert r :: rest, rel, scan, record =>
      runScanSteps rest (insertRecord rel r).2.1 scan record

/-! ## Reference semantics of expressions

What the specification says an expression evaluates to, written without the C code in view:
it is what `evalExpr` is compared with. -/

/-- Bytewise lexicographic order on byte strings: the first differing byte decides, a proper
prefix is smaller. -/
def lexLess : List Nat → List Nat → Bool
  | [], [] => false
  | [], _ :: _ => true
  | _ :: _, [] => false
  | x :: xs, y :: ys => decide (x < y) || (decide (x = y) && lexLess xs ys)

/-- The value of a binary operator on two operand values: logical and/or of two Bools;
equality of two Ints, two Bools, or two Strings (as C strings); `<` on two Ints, `false <
true` on two Bools, bytewise lexicographic order on two Strings. `none` where the operands
do not have the required types (and for Floats, which the reference leaves out). -/
def specBinary (type : OpType) (l r : Value) : Option Value :=
  match type, l, r with
  | .OP_BOOL_AND, .boolV x, .boolV y => some (.boolV (x && y))
  | .OP_BOOL_OR, .boolV x, .boolV y => some (.boolV (x || y))
  | .OP_COMP_EQUAL, .intV x, .intV y => some (.boolV (decide (x = y)))
  | .OP_COMP_EQUAL, .boolV x, .boolV y => some (.boolV (decide (x = y)))
  | .OP_COMP_EQUAL, .stringV x, .stringV y => some (.boolV (decide (cstr x = cstr y)))
  | .OP_COMP_SMALLER, .intV x, .intV y => some (.boolV (decide (x < y)))
  | .OP_COMP_SMALLER, .boolV x, .boolV y => some (.boolV (decide (x = false ∧ y = true)))
  | .OP_COMP_SMALLER, .stringV x, .stringV y => some (.boolV (lexLess (cstr x) (cstr y)))
  | _, _, _ => none

/-- The value of an operator with one operand: `BoolNot` negates a Bool. -/
def specUnary (type : OpType) (operand : Option Value) : Option Value :=
  match type, operand with
  | .OP_BOOL_NOT, some (.boolV x) => some (.boolV (!x))
  | _, _ => none

/-- The value of an expression on a record: a constant is itself, `AttrRef(i)` with `i` in
range is what `getAttr(record, schema, i)` returns, `BoolNot` negates its Bool operand, a
binary operator is `specBinary` of its two operand values. `none` where the tree is not
built that way. -/
def specEval (record : Record) (schema : Schema) : Expr → Option Value
  | .cons v => some v
  | .attrRef i => if 0 ≤ i ∧ i < schema.numAttr then (getAttr record schema i).2 else none
  | .op _ [] => none
  | .op type [a] => specUnary type (specEval record schema a)
  | .op type [a, b] =>
      (specEval record schema a).bind
        (fun l => (specEval record schema b).bind (fun r => specBinary type l r))
  | .op _ (_ :: _ :: _ :: _) => none

/-- The return code the specification gives an operator node whose operands evaluated to
the given values: the comparison operators fail on operands of different datatypes, the
boolean operators on an operand that is not a Bool, any other operator kind is unknown. -/
def specOpCode (type : OpType) (operands : List Value) : RC :=
  if type = .OP_COMP_EQUAL ∨ type = .OP_COMP_SMALLER then
    if ∃ l ∈ operands, ∃ r ∈ operands, l.dt ≠ r.dt then
      RC_RM_COMPARE_VALUE_OF_DIFFERENT_DATATYPE
    else RC_OK
  else if type = .OP_BOOL_NOT ∨ type = .OP_BOOL_AND ∨ type = .OP_BOOL_OR then
    if ∃ v ∈ operands, v.dt ≠ .DT_BOOL then RC_RM_BOOLEAN_EXPR_ARG_IS_NOT_BOOLEAN
    else RC_OK
  else RC_RM_UNKNOWN_OPERATOR

/-! ## Examples -/

/-- The schema `(a:INT, b:STRING(4))` with key `{0}` of scenario S1. -/
def schemaS1 : Schema :=
  { numAttr := 2, attrNames := [[97], [98]], dataTypes := [.DT_INT, .DT_STRING],
    typeLength := [0, 4], keySize := 1, keyAttrs := [0] }

/-- The metadata `createTable` writes for `schemaS1`: no tuples, first free page 1, two
pages, records of 8 bytes, 504 slots per page. -/
def metaS1 : TableMetadata :=
  { numTuples := 0, firstFreePage := 1, numPages := 2, recordSize := 8, slotsPerPage := 504 }

/-- An empty table for `schemaS1`, open, with a reliable environment: the header page holds
`metaS1`, the data page is zeroed. -/
def tableS1 : RM_TableData :=
  { name := [116, 49], schema := schemaS1,
    mgmtData := some
      { bufferPool :=
          { pages := fun p => if p = 0 then storeMetadata zeroMem metaS1 else zeroMem,
            faults := [], pins := 0, unpins := 0, pinCalls := [] },
        numTuples := 0 } }

/-- The record `(1, "aaaa")` of scenario S1, not yet inserted. -/
def recordS1 : Record :=
  { id := ⟨-1, -1⟩, data := some (memcpyList zeroMem 0 [1, 0, 0, 0, 97, 97, 97, 97] 8) }

/-- The schema `(k:INT, v:INT)` of scenario S4. -/
def schemaS4 : Schema :=
  { numAttr := 2, attrNames := [[107], [118]], dataTypes := [.DT_INT, .DT_INT],
    typeLength := [0, 0], keySize := 1, keyAttrs := [0] }

/-- The record `(k, v)` for `schemaS4`, built with `createRecord` and `setAttr`. -/
def recordS4 (k v : Int) : Record :=
  (setAttrs (createRecord schemaS4).2 schemaS4 [(0, .intV k), (1, .intV v)]).2

/-- The table of scenario S4: created, opened, and holding (1,10), (2,20), (3,30), (4,40). -/
def tableS4 : RM_TableData :=
  (insertAll (freshTable env0 schemaS4 [116, 52])
    [recordS4 1 10, recordS4 2 20, recordS4 3 30, recordS4 4 40]).2.1

/-- A table for `schemaS4`, created and opened, holding the single record
`(1, 0x01010101)`: every byte of `v` is 1. -/
def tableV : RM_TableData :=
  (insertAll (freshTable env0 schemaS4 [116, 56]) [recordS4 1 16843009]).2.1

/-- The predicate `v < 25` of scenario S4. -/
def condS4 : Expr :=
  .op .OP_COMP_SMALLER [.attrRef 1, .cons (.intV 25)]

/-- The table after a sequence of calls, whatever they return. -/
def afterOps (rel : RM_TableData) (ops : List WriteOp) : RM_TableData :=
  ops.foldl (fun r op => (op.apply r).2) rel

/-- Calls on a fresh table for `schemaS1`: `(1, "aaaa")` inserted twice, the first copy
updated in place, the second deleted. -/
def opsS1 : List WriteOp :=
  [.insert recordS1, .insert recordS1, .update { recordS1 with id := ⟨1, 0⟩ }, .delete ⟨1, 1⟩]

/-- A table whose only data page is full: `schemaBig` has one slot per page, and one record
has been inserted into the fresh table. -/
def tableFull : RM_TableData :=
  (insertRecord (freshTable env0 schemaBig [116]) ⟨⟨-1, -1⟩, some zeroMem⟩).2.1

/-- A schema with one attribute `x : STRING(100)`: 40 slots per page, a bitmap of 5 bytes. -/
def schemaWide : Schema :=
  { numAttr := 1, attrNames := [[120]], dataTypes := [.DT_STRING], typeLength := [100],
    keySize := 0, keyAttrs := [] }

/-- A table for `schemaWide`, created and opened, holding one record; the first byte of the
header page (the low byte of `numTuples`) is 1. -/
def tableWide : RM_TableData :=
  (insertRecord (freshTable env0 schemaWide [119]) ⟨⟨-1, -1⟩, some zeroMem⟩).2.1

/-- The predicate `IntConst(3) == StringConst("x")` of scenario S5. -/
def condS5 : Expr :=
  .op .OP_COMP_EQUAL [.cons (.intV 3), .cons (.stringV [120, 0])]

/-- The table of scenario S1 after its first two inserts: `(1,0)` and `(1,1)` hold
`(1, "aaaa")`, every other slot is free. -/
def tableTwo : RM_TableData :=
  (insertAll tableS1 [recordS1, recordS1]).2.1

/-- A C library whose `realloc` leaves zero bytes in the grown part of a block. -/
def libZero : CLib :=
  { heap := fun _ => 0, atof := fun _ => 0, fmtFloat := fun _ _ => [] }

/-- A C library whose `realloc` leaves the byte `!` at offset `k` of a grown block and zero
bytes elsewhere. -/
def libJunk (k : Nat) : CLib :=
  { heap := fun j => if j = k then 33 else 0, atof := fun _ => 0, fmtFloat := fun _ _ => [] }

/-- A schema with one attribute `x : STRING(300)`. -/
def schemaLong : Schema :=
  { numAttr := 1, attrNames := [[120, 0]], dataTypes := [.DT_STRING], typeLength := [300],
    keySize := 0, keyAttrs := [] }

/-- A record for `schemaLong` with id `(1,0)` whose string is 300 times the letter `a`. -/
def recordLong : Record :=
  { id := ⟨1, 0⟩, data := some (memset zeroMem 0 97 300) }

/-- A schema with 40 attributes `a : INT` and no key. -/
def schemaMany : Schema :=
  { numAttr := 40, attrNames := List.replicate 40 [97, 0],
    dataTypes := List.replicate 40 .DT_INT, typeLength := List.replicate 40 0,
    keySize := 0, keyAttrs := [] }

/-! ## Specification-level notions for the record layout -/

/-- The width of a data type in the words of the specification: `Int` 4 bytes, `Float` 4
bytes, `Bool` 1 byte, `String(n)` `n` bytes. -/
def specWidth : DataType → Int → Int
  | .DT_INT, _ => 4
  | .DT_FLOAT, _ => 4
  | .DT_BOOL, _ => 1
  | .DT_STRING, n => n
  | .DT_OTHER _, _ => 0

/-- The specification's `width(i)` for attribute `i` of a schema. -/
def specAttrWidth (schema : Schema) (i : Nat) : Int :=
  specWidth ((schema.dataTypes[i]?).getD (.DT_OTHER 0)) ((schema.typeLength[i]?).getD 0)

/-- The specification's `record_size(schema) = Σ width(i)`. -/
def specRecordSize (schema : Schema) : Int :=
  Finset.sum (Finset.range schema.numAttr.toNat) (fun i => specAttrWidth schema i)

/-- The specification's `attr_offset(schema, i) = Σ_{j<i} width(j)`. -/
def specAttrOffset (schema : Schema) (i : Nat) : Int :=
  Finset.sum (Finset.range i) (fun j => specAttrWidth schema j)

/-! ## Specification-level notions for the verdict of a scan on a record -/

/-- The condition evaluates on the record with RC_OK to a value whose member `boolV` reads
false, whatever the type of the value: `next` goes on to the following slot. -/
def Skipped (schema : Schema) (cond : Option Expr) (r : Record) : Prop :=
  ∃ c v, cond = some c ∧ evalExpr r schema c = some (RC_OK, some v) ∧
    v.unionBool = some false

/-- There is no condition, or the condition evaluates on the record with RC_OK to a value
whose member `boolV` reads true, whatever the type of the value: `next` reports the record. -/
def Taken (schema : Schema) (cond : Option Expr) (r : Record) : Prop :=
  cond = none ∨
  ∃ c v, cond = some c ∧ evalExpr r schema c = some (RC_OK, some v) ∧ v.unionBool = some true

/-- The slot `(p, s)` is one the loops of `next` look at when they start at the cursor
`(cp, cs)` and stop before `(p0, s0)`. -/
def Between (cp cs p0 s0 slotsPerPage p s : Int) : Prop :=
  ((p = cp ∧ cs ≤ s) ∨ (cp < p ∧ 0 ≤ s)) ∧ s < slotsPerPage ∧ (p < p0 ∨ (p = p0 ∧ s < s0))

/-! ## Loops as step functions

The loop functions above take the number of rounds left as an argument.  The definitions
here run the same loop bodies one round at a time with a separate supply of rounds, so that
termination is a statement about them. -/

/-- The outcome of running a loop with a supply of rounds: the loop was left with a result,
or it has no defined behaviour, or the rounds were used up before it was left. -/
inductive Run (α : Type) where
  | done (a : α)
  | stuck
  | outOfFuel

/-- The outcome that corresponds to the result of a loop function (`none`: no defined
behaviour). -/
def Run.ofOption {α : Type} : Option α → Run α
  | some a => .done a
  | none => .stuck

/-- One round of the `do … while (slotsPerPage > 0)` loop of `createTable`: `Sum.inr` leaves
the loop (by `break`, or because the loop test fails after the decrement), `Sum.inl` starts
another round. -/
def slotsPerPageStep (recordSize slotsPerPage : Int) : Int ⊕ Int :=
  let slotMapSize := Int.tdiv (slotsPerPage + 7) 8
  if slotMapSize + slotsPerPage * recordSize ≤ PAGE_SIZE then .inr slotsPerPage
  else if slotsPerPage - 1 > 0 then .inl (slotsPerPage - 1)
  else .inr (slotsPerPage - 1)

/-- The `do … while` loop of `createTable` run for at most `fuel` rounds: the value of
`slotsPerPage` it is left with and the number of rounds made; `none` when the loop has not
been left after `fuel` rounds. -/
def slotsPerPageRun (recordSize : Int) : Nat → Int → Option (Int × Nat)
  | 0, _ => none
  | fuel + 1, slotsPerPage =>
      match slotsPerPageStep recordSize slotsPerPage with
      | .inr r => some (r, 1)
      | .inl s => (slotsPerPageRun recordSize fuel s).map (fun x => (x.1, x.2 + 1))

/-- One round of the inner loop `while (scanMgr->currentSlot < scanMgr->slotsPerPage)` of
`next`, entered with the loop test true.  `none`: no defined behaviour; `Sum.inr r`: the loop
is left, by `break` or by `return`, in the state `r`; `Sum.inl`: the loop test is made again
with the given pool, `currentSlot` and record. -/
def nextSlotStep (schema : Schema) (cond : Option Expr) (metadata : TableMetadata)
    (pageData : Mem) (currentPage : Int) (bm : BM_BufferPool) (currentSlot : Int)
    (record : Record) : Option ((BM_BufferPool × Int × Record) ⊕ ScanLoop) :=
  if isSlotOccupied pageData currentSlot then
    let rid : RID := ⟨currentPage, currentSlot⟩
    let mapSize := getSlotMapSize metadata.slotsPerPage
    let offset := getRecordOffset rid.slot metadata.recordSize mapSize
    let a := if record.data.isNone then envCall bm else (RC_OK, bm)
    if a.1 ≠ RC_OK then
      some (.inr ⟨some RC_MEM_ALLOC_FAILED, false, (unpinPage a.2).2, currentPage,
        currentSlot + 1, { id := rid, data := none }⟩)
    else
      let record1 : Record :=
        { id := rid, data := some (memcpy record.buf 0 pageData offset metadata.recordSize) }
      match cond with
      | none => some (.inr ⟨none, true, a.2, currentPage, currentSlot + 1, record1⟩)
      | some c =>
          match evalExpr record1 schema c with
          | none => none
          | some (rc, result) =>
              if rc ≠ RC_OK then
                some (.inr ⟨some rc, false, (unpinPage a.2).2, currentPage, currentSlot + 1,
                  record1⟩)
              else
                match result.bind Value.unionBool with
                | none => none
                | some true =>
                    some (.inr ⟨none, true, a.2, currentPage, currentSlot + 1, record1⟩)
                | some false => some (.inl (a.2, currentSlot + 1, record1))
  else some (.inl (bm, currentSlot + 1, record))

/-- The inner loop of `next` run for at most `fuel` rounds from the loop test on. -/
def nextSlotRun (schema : Schema) (cond : Option Expr) (metadata : TableMetadata)
    (slotsPerPage : Int) (pageData : Mem) (currentPage : Int) :
    Nat → BM_BufferPool → Int → Record → Run ScanLoop
  | 0, bm, currentSlot, record =>
      if currentSlot < slotsPerPage then .outOfFuel
      else .done ⟨none, false, bm, currentPage, currentSlot, record⟩
  | fuel + 1, bm, currentSlot, record =>
      if currentSlot < slotsPerPage then
        match nextSlotStep schema cond metadata pageData currentPage bm currentSlot record with
        | none => .stuck
        | some (.inr r) => .done r
        | some (.inl (bm1, currentSlot1, record1)) =>
            nextSlotRun schema cond metadata slotsPerPage pageData currentPage fuel bm1
              currentSlot1 record1
      else .done ⟨none, false, bm, currentPage, currentSlot, record⟩

/-- The outer loop `while (scanMgr->currentPage < scanMgr->totalPages)` of `next` run for at
most `fuel` rounds from the loop test on, the inner loop being given `slotFuel` rounds each
time. -/
def nextPageRun (schema : Schema) (cond : Option Expr) (metadata : TableMetadata)
    (slotsPerPage totalPages : Int) (slotFuel : Nat) :
    Nat → BM_BufferPool → Int → Int → Record → Run ScanLoop
  | 0, bm, currentPage, currentSlot, record =>
      if currentPage < totalPages then .outOfFuel
      else .done ⟨none, false, bm, currentPage, currentSlot, record⟩
  | fuel + 1, bm, currentPage, currentSlot, record =>
      if currentPage < totalPages then
        let p := pinPage bm currentPage
        if p.1 ≠ RC_OK then .done ⟨some p.1, false, p.2, currentPage, currentSlot, record⟩
        else
          match nextSlotRun schema cond metadata slotsPerPage (p.2.pages currentPage)
              currentPage slotFuel p.2 currentSlot record with
          | .outOfFuel => .outOfFuel
          | .stuck => .stuck
          | .done r =>
              match r.ret with
              | some _ => .done r
              | none =>
                  let u := unpinPage r.bm
                  if u.1 ≠ RC_OK then .done { r with ret := some u.1, bm := u.2 }
                  else if r.found then .done { r with bm := u.2 }
                  else
                    nextPageRun schema cond metadata slotsPerPage totalPages slotFuel fuel u.2
                      (currentPage + 1) 0 r.record
      else .done ⟨none, false, bm, currentPage, currentSlot, record⟩

/-- `next` with its two loops run on supplies of `slotFuel` and `pageFuel` rounds. -/
def nextRun (slotFuel pageFuel : Nat) (rel : RM_TableData) (scan : RM_ScanHandle)
    (record : Record) : Run (RC × RM_TableData × RM_ScanHandle × Record) :=
  match scan.mgmtData with
  | none => .done (RC_FILE_HANDLE_NOT_INIT, rel, scan, record)
  | some scanMgr =>
    if !scanMgr.scanActive then .done (RC_RM_NO_MORE_TUPLES, rel, scan, record)
    else
      match rel.mgmtData with
      | none => .stuck
      | some mgr =>
        let h := readHeader mgr.bufferPool TableMetadata.uninit
        if h.1 ≠ RC_OK then .done (h.1, rel.withMgr h.2.1 mgr.numTuples, scan, record)
        else
          let a := envCall h.2.1
          if a.1 ≠ RC_OK then
            .done (RC_MEM_ALLOC_FAILED, rel.withMgr a.2 mgr.numTuples, scan, record)
          else
            match nextPageRun rel.schema scanMgr.condition h.2.2 scanMgr.slotsPerPage
                scanMgr.totalPages slotFuel pageFuel a.2 scanMgr.currentPage
                scanMgr.currentSlot record with
            | .outOfFuel => .outOfFuel
            | .stuck => .stuck
            | .done r =>
                let scanMgr1 : ScanManager :=
                  { scanMgr with currentPage := r.currentPage, currentSlot := r.currentSlot }
                match r.ret with
                | some rc =>
                    .done (rc, rel.withMgr r.bm mgr.numTuples, ⟨some scanMgr1⟩, r.record)
                | none =>
                    if !r.found then
                      .done (RC_RM_NO_MORE_TUPLES, rel.withMgr r.bm mgr.numTuples,
                        ⟨some { scanMgr1 with scanActive := false }⟩, r.record)
                    else
                      .done (RC_OK, rel.withMgr r.bm mgr.numTuples, ⟨some scanMgr1⟩, r.record)

/-- The `for (int i = 0; i < metadata->slotsPerPage; i++)` loop of `findFreeSlot` run for at
most `fuel` rounds from the loop test on: the first free slot from `i` on, if any. -/
def firstFreeSlotRun (pageData : Mem) (slotsPerPage : Int) : Nat → Int → Run (Option Int)
  | 0, i => if i < slotsPerPage then .outOfFuel else .done none
  | fuel + 1, i =>
      if i < slotsPerPage then
        if !isSlotOccupied pageData i then .done (some i)
        else firstFreeSlotRun pageData slotsPerPage fuel (i + 1)
      else .done none

/-- The `while (currentPage < metadata->numPages && !found)` loop of `findFreeSlot` run for
at most `fuel` rounds from the loop test on (`found` is false whenever the test is made
again), the `for` loop being given `slotFuel` rounds each time. -/
def findFreeSlotLoopRun (metadata : TableMetadata) (slotFuel : Nat) :
    Nat → BM_BufferPool → Int → RID → Run (RC × BM_BufferPool × Bool × RID)
  | 0, bm, currentPage, rid =>
      if currentPage < metadata.numPages then .outOfFuel else .done (RC_OK, bm, false, rid)
  | fuel + 1, bm, currentPage, rid =>
      if currentPage < metadata.numPages then
        let p := pinPage bm currentPage
        if p.1 ≠ RC_OK then .done (p.1, p.2, false, rid)
        else
          match firstFreeSlotRun (p.2.pages currentPage) metadata.slotsPerPage slotFuel 0 with
          | .outOfFuel => .outOfFuel
          | .stuck => .stuck
          | .done (some i) =>
              let u := unpinPage p.2
              .done (u.1, u.2, true, ⟨currentPage, i⟩)
          | .done none =>
              let u := unpinPage p.2
              if u.1 ≠ RC_OK then .done (u.1, u.2, false, rid)
              else findFreeSlotLoopRun metadata slotFuel fuel u.2 (currentPage + 1) rid
      else .done (RC_OK, bm, false, rid)

/-! ## Further examples -/

/-- The scan state `startScan` sets up for a table with two pages and 504 slots per page. -/
def scanStart (cond : Option Expr) : ScanManager :=
  { currentRID := ⟨0, 0⟩, condition := cond, scanActive := true,
    currentPage := DATA_START_PAGE, currentSlot := 0, totalPages := 2, slotsPerPage := 504 }

/-- The predicate `NOT k` on `schemaS4`: its operand is an Int, so `boolNot` fails. -/
def condNotK : Expr :=
  .op .OP_BOOL_NOT [.attrRef 0]

/-- A string of 256 letters `a`. -/
def textLong : List Nat :=
  List.replicate 256 97

/-- A schema with one attribute `x : STRING(200)`: 20 slots per page, a bitmap of 3 bytes. -/
def schemaNote : Schema :=
  { numAttr := 1, attrNames := [[120]], dataTypes := [.DT_STRING], typeLength := [200],
    keySize := 0, keyAttrs := [] }

/-- A table for `schemaNote`, created and opened, holding one record; the first byte of the
header page (the low byte of `numTuples`) is 1. -/
def tableNote : RM_TableData :=
  (insertRecord (freshTable env0 schemaNote [110]) ⟨⟨-1, -1⟩, some zeroMem⟩).2.1

/-- The schema `(k:INT, f:BOOL)`. -/
def schemaFlag : Schema :=
  { numAttr := 2, attrNames := [[107], [102]], dataTypes := [.DT_INT, .DT_BOOL],
    typeLength := [0, 0], keySize := 1, keyAttrs := [0] }

/-- The record `(7, true)` for `schemaFlag`, built with `createRecord` and `setAttr`. -/
def recordFlag : Record :=
  (setAttrs (createRecord schemaFlag).2 schemaFlag [(0, .intV 7), (1, .boolV true)]).2

/-- The predicate `f AND (k < 10)` on `schemaFlag`. -/
def condFlag : Expr :=
  .op .OP_BOOL_AND [.attrRef 1, .op .OP_COMP_SMALLER [.attrRef 0, .cons (.intV 10)]]


theorem attrWidth_nonneg (s : Schema) (h : s.WellFormed) (i : Nat) : 0 ≤ attrWidth s i := by
  unfold attrWidth
  rcases hdt : s.dataTypes[i]? with _ | dt
  · simp
  · have hi : i < s.numAttr.toNat := by
      obtain ⟨hlt, -⟩ := List.getElem?_eq_some_iff.mp hdt
      have := h.2.1
      omega
    cases dt <;> simp
    exact h.2.2.2 i hi hdt

theorem sumWidths_succ (s : Schema) (n : Nat) :
    sumWidths s (n + 1) = sumWidths s n + attrWidth s n := by
  simp [sumWidths, List.range_succ, List.foldl_append]

theorem sumWidths_mono (s : Schema) (h : s.WellFormed) (i j : Nat) (hij : i ≤ j) :
    sumWidths s i ≤ sumWidths s j := by
  induction j with
  | zero => have : i = 0 := by omega
            subst this; exact le_refl _
  | succ j ih =>
    rcases Nat.lt_or_ge i (j + 1) with hlt | hge
    · have := ih (by omega)
      have := attrWidth_nonneg s h j
      rw [sumWidths_succ]; omega
    · have : i = j + 1 := by omega
      subst this; exact le_refl _

theorem cstr_ne_zero (s : List Nat) (k : Nat) (hk : k < (cstr s).length) :
    s.getD k 0 = (cstr s)[k] ∧ (cstr s)[k] ≠ 0 := by
  have hp : cstr s <+: s := List.takeWhile_prefix _
  have hlen : k < s.length := lt_of_lt_of_le hk hp.length_le
  refine ⟨?_, ?_⟩
  · rw [List.getD_eq_getElem _ _ hlen]; exact (hp.getElem hk).symm
  · have := List.mem_takeWhile_imp (List.getElem_mem hk : (cstr s)[k] ∈ cstr s)
    simpa using this

theorem cstr_append_zero (a rest : List Nat) (ha : ∀ x ∈ a, x ≠ 0) :
    cstr (a ++ 0 :: rest) = a := by
  unfold cstr
  rw [List.takeWhile_append_of_pos]
  · simp
  · intro x hx; simpa using ha x hx

theorem setString_read (d : Mem) (offset : Int) (s : List Nat) (maxLen : Int) (k : Nat)
    (hk : (k : Int) < maxLen) :
    setString d offset s maxLen (offset + k) =
      if h : k < (cstr s).length then (cstr s)[k] else 0 := by
  have e : (offset + (k : Int) - offset).toNat = k := by omega
  simp only [setString, strlen]
  by_cases h : k < (cstr s).length
  · rw [dif_pos h, ← (cstr_ne_zero s k h).1]
    split_ifs <;> simp only [memset, memcpyList, e] <;> split_ifs <;> first | rfl | omega
  · rw [dif_neg h]
    split_ifs <;> simp only [memset, memcpyList, e] <;> split_ifs <;> first | rfl | omega

theorem setString_frame (d : Mem) (offset : Int) (s : List Nat) (maxLen : Int) (k : Int)
    (hk : k < offset ∨ offset + maxLen ≤ k) :
    setString d offset s maxLen k = d k := by
  simp only [setString, strlen]
  split_ifs <;> simp only [memset, memcpyList] <;> split_ifs <;> first | rfl | omega

theorem readBytes_setString (d : Mem) (offset : Int) (s : List Nat) (maxLen : Int) :
    readBytes (setString d offset s maxLen) offset maxLen =
      (cstr s).take maxLen.toNat ++
        List.replicate (maxLen.toNat - (cstr s).length) 0 := by
  apply List.ext_getElem
  · simp [readBytes]; omega
  · intro n h1 h2
    have hn : n < maxLen.toNat := by simpa [readBytes] using h1
    have hn' : (n : Int) < maxLen := by omega
    simp only [readBytes, List.getElem_map, List.getElem_range]
    rw [setString_read d offset s maxLen n hn']
    by_cases h : n < (cstr s).length
    · rw [dif_pos h, List.getElem_append_left (by simp; omega)]
      simp
    · rw [dif_neg h, List.getElem_append_right (by simp; omega)]
      simp

theorem cstr_setString (d : Mem) (offset : Int) (s : List Nat) (maxLen : Int) :
    cstr (readBytes (setString d offset s maxLen) offset maxLen ++ [0]) =
      (cstr s).take maxLen.toNat := by
  rw [readBytes_setString]
  have hnz : ∀ x ∈ (cstr s).take maxLen.toNat, x ≠ 0 := by
    intro x hx
    have := List.mem_takeWhile_imp (List.mem_of_mem_take hx)
    simpa using this
  rcases Nat.eq_zero_or_pos (maxLen.toNat - (cstr s).length) with h0 | hpos
  · rw [h0]; simpa using cstr_append_zero _ [] hnz
  · obtain ⟨r, hr⟩ := Nat.exists_eq_succ_of_ne_zero (Nat.pos_iff_ne_zero.mp hpos)
    rw [hr, List.replicate_succ, List.append_assoc]
    exact cstr_append_zero _ _ hnz



theorem decodeU32_encodeU32 (u : Nat) (h : u < 4294967296) :
    decodeU32 (u % 256) (u / 256 % 256) (u / 65536 % 256) (u / 16777216 % 256) = u := by
  unfold decodeU32; omega

theorem decodeInt_encodeInt (x : Int) (h1 : -2147483648 ≤ x) (h2 : x < 2147483648) :
    decodeInt ((x % 4294967296).toNat % 256) ((x % 4294967296).toNat / 256 % 256)
      ((x % 4294967296).toNat / 65536 % 256) ((x % 4294967296).toNat / 16777216 % 256) = x := by
  unfold decodeInt
  have hu : (x % 4294967296).toNat < 4294967296 := by omega
  simp only [decodeU32_encodeU32 _ hu]
  split <;> omega

theorem memcpyList_encodeU32 (d : Mem) (off : Int) (u : Nat) :
    memcpyList d off (encodeU32 u) 4 off = u % 256 ∧
    memcpyList d off (encodeU32 u) 4 (off + 1) = u / 256 % 256 ∧
    memcpyList d off (encodeU32 u) 4 (off + 2) = u / 65536 % 256 ∧
    memcpyList d off (encodeU32 u) 4 (off + 3) = u / 16777216 % 256 := by
  simp [memcpyList, encodeU32]

theorem loadInt_storeInt (d : Mem) (off : Int) (x : Int)
    (h1 : -2147483648 ≤ x) (h2 : x < 2147483648) :
    loadInt (storeInt d off x) off = x := by
  obtain ⟨e0, e1, e2, e3⟩ := memcpyList_encodeU32 d off (x % 4294967296).toNat
  unfold loadInt storeInt encodeInt
  rw [e0, e1, e2, e3]
  exact decodeInt_encodeInt x h1 h2

theorem getAttr_setAttr_same (r : Record) (s : Schema) (i : Int) (v : Value)
    (hi0 : 0 ≤ i) (hi : i < s.numAttr) (hdt : some v.dt = s.dataTypes[i.toNat]?)
    (hrep : v.Representable) :
    (setAttr r s i v).1 = RC_OK ∧
      ∃ w, getAttr (setAttr r s i v).2 s i = (RC_OK, some w) ∧ w.dt = v.dt ∧
        Value.roundTrips ((s.typeLength[i.toNat]?).getD 0) v w := by
  have hg : ¬ (i < 0 ∨ i ≥ s.numAttr) := by omega
  cases v with
  | intV x =>
    simp only [Value.dt] at hdt
    simp only [setAttr, getAttr, if_neg hg, Value.dt, ne_eq, not_true_eq_false, if_false,
      ← hdt, Record.buf, Option.getD_some]
    exact ⟨trivial, _, rfl, rfl, by
      simp only [Value.roundTrips]; exact (loadInt_storeInt _ _ _ hrep.1 hrep.2).symm⟩
  | floatV b =>
    simp only [Value.dt] at hdt
    simp only [setAttr, getAttr, if_neg hg, Value.dt, ne_eq, not_true_eq_false, if_false,
      ← hdt, Record.buf, Option.getD_some]
    refine ⟨trivial, _, rfl, rfl, ?_⟩
    obtain ⟨e0, e1, e2, e3⟩ := memcpyList_encodeU32 (r.data.getD zeroMem)
      (sumWidths s i.toNat) b
    simp only [Value.roundTrips]
    rw [e0, e1, e2, e3]
    exact (decodeU32_encodeU32 b hrep).symm
  | boolV b =>
    simp only [Value.dt] at hdt
    have hb : memcpyList (r.data.getD zeroMem) (sumWidths s i.toNat)
        [if b = true then 1 else 0] 1 (sumWidths s i.toNat) = if b = true then 1 else 0 := by
      simp [memcpyList]
    have hle : (if b = true then 1 else 0 : Nat) ≤ 1 := by split <;> omega
    simp only [setAttr, getAttr, if_neg hg, Value.dt, ne_eq, not_true_eq_false, if_false,
      ← hdt, Record.buf, Option.getD_some, hb, if_pos hle]
    refine ⟨trivial, _, rfl, rfl, ?_⟩
    cases b <;> simp [Value.roundTrips]
  | stringV str =>
    simp only [Value.dt] at hdt
    simp only [setAttr, getAttr, if_neg hg, Value.dt, ne_eq, not_true_eq_false, if_false,
      ← hdt, Record.buf, Option.getD_some]
    refine ⟨trivial, _, rfl, rfl, ?_⟩
    simp only [Value.roundTrips]
    exact cstr_setString _ _ _ _


theorem setAttr_frame (r : Record) (s : Schema) (i : Int) (v : Value)
    (hdt : some v.dt = s.dataTypes[i.toNat]?) (k : Int)
    (hk : k < sumWidths s i.toNat ∨ sumWidths s i.toNat + attrWidth s i.toNat ≤ k) :
    (setAttr r s i v).2.buf k = r.buf k := by
  unfold setAttr
  split_ifs with h1 h2
  · rfl
  · rfl
  · cases v with
    | intV x =>
      simp only [Value.dt] at hdt
      simp only [attrWidth, ← hdt] at hk
      simp only [Record.buf, Option.getD_some, storeInt, memcpyList]
      split_ifs <;> first | rfl | omega
    | floatV b =>
      simp only [Value.dt] at hdt
      simp only [attrWidth, ← hdt] at hk
      simp only [Record.buf, Option.getD_some, storeInt, memcpyList]
      split_ifs <;> first | rfl | omega
    | boolV b =>
      simp only [Value.dt] at hdt
      simp only [attrWidth, ← hdt] at hk
      simp only [Record.buf, Option.getD_some, storeInt, memcpyList]
      split_ifs <;> first | rfl | omega
    | stringV str =>
      simp only [Value.dt] at hdt
      simp only [attrWidth, ← hdt] at hk
      simp only [Record.buf, Option.getD_some]
      exact setString_frame _ _ _ _ _ hk

theorem readBytes_congr (d1 d2 : Mem) (off n : Int)
    (h : ∀ k, off ≤ k → k < off + n → d1 k = d2 k) :
    readBytes d1 off n = readBytes d2 off n := by
  unfold readBytes
  apply List.map_congr_left
  intro a ha
  have := List.mem_range.mp ha
  exact h _ (by omega) (by omega)

theorem getAttr_congr (r1 r2 : Record) (s : Schema) (i : Int)
    (h : ∀ k, sumWidths s i.toNat ≤ k → k < sumWidths s i.toNat + attrWidth s i.toNat →
      r1.buf k = r2.buf k) :
    getAttr r1 s i = getAttr r2 s i := by
  unfold getAttr
  split_ifs with h1
  · rfl
  · rcases hdt : s.dataTypes[i.toNat]? with _ | dt
    · rfl
    · cases dt <;> simp only [attrWidth, hdt] at h
      · simp only [loadInt]
        rw [h _ (by omega) (by omega), h _ (by omega) (by omega), h _ (by omega) (by omega),
          h _ (by omega) (by omega)]
      · simp only
        rw [readBytes_congr _ _ _ _ h]
      · simp only
        rw [h _ (by omega) (by omega), h _ (by omega) (by omega), h _ (by omega) (by omega),
          h _ (by omega) (by omega)]
      · simp only
        rw [h _ (by omega) (by omega)]
      · rfl

theorem setAttrs_spec (s : Schema) (hwf : s.WellFormed) (calls : List (Int × Value)) :
    ∀ r : Record, (calls.map Prod.fst).Nodup →
    (∀ c ∈ calls, 0 ≤ c.1 ∧ c.1 < s.numAttr ∧ some c.2.dt = s.dataTypes[c.1.toNat]? ∧
      c.2.Representable) →
    (setAttrs r s calls).1 = RC_OK ∧
    (∀ c ∈ calls, ∃ w, getAttr (setAttrs r s calls).2 s c.1 = (RC_OK, some w) ∧
      w.dt = c.2.dt ∧ Value.roundTrips ((s.typeLength[c.1.toNat]?).getD 0) c.2 w) ∧
    (∀ j : Int, 0 ≤ j → j ∉ calls.map Prod.fst →
      getAttr (setAttrs r s calls).2 s j = getAttr r s j) := by
  induction calls with
  | nil => intro r _ _; simp [setAttrs]
  | cons c rest ih =>
    intro r hnd hty
    obtain ⟨i, v⟩ := c
    have hcv := hty (i, v) (List.mem_cons_self _ _)
    obtain ⟨hok, w, hget, hwdt, hrt⟩ :=
      getAttr_setAttr_same r s i v hcv.1 hcv.2.1 hcv.2.2.1 hcv.2.2.2
    simp only [List.map_cons, List.nodup_cons] at hnd
    obtain ⟨ih1, ih2, ih3⟩ := ih (setAttr r s i v).2 hnd.2
      (fun c hc => hty c (List.mem_cons_of_mem _ hc))
    have hstep : setAttrs r s ((i, v) :: rest) = setAttrs (setAttr r s i v).2 s rest := by
      simp [setAttrs, hok]
    rw [hstep]
    refine ⟨ih1, ?_, ?_⟩
    · intro c hc
      rcases List.mem_cons.mp hc with rfl | hc
      · exact ⟨w, by rw [ih3 _ hcv.1 hnd.1]; exact hget, hwdt, hrt⟩
      · exact ih2 c hc
    · intro j hj0 hj
      simp only [List.map_cons, List.mem_cons, not_or] at hj
      rw [ih3 j hj0 hj.2]
      apply getAttr_congr
      intro k hk1 hk2
      apply setAttr_frame r s i v hcv.2.2.1
      have hne : j.toNat ≠ i.toNat := by omega
      rcases Nat.lt_or_gt_of_ne hne with hlt | hgt
      · left
        have := sumWidths_mono s hwf (j.toNat + 1) i.toNat (by omega)
        rw [sumWidths_succ] at this
        omega
      · right
        have := sumWidths_mono s hwf (i.toNat + 1) j.toNat (by omega)
        rw [sumWidths_succ] at this
        omega


/-- C1 (record round trip). For a schema with non-negative string widths and values conforming
to it, starting from `createRecord(schema)` and calling `setAttr` once per attribute, in any
order, every call returns RC_OK and afterwards `getAttr(i)` returns RC_OK with a value of type
`dataTypes[i]` that equals the i-th value: Int, Bool and Float (bit pattern) exactly, String as
a C string equal to the first `typeLength[i]` bytes of the input. -/
theorem record_round_trip (schema : Schema) (vals : List Value) (calls : List (Int × Value))
    (hwf : schema.WellFormed)
    (hlen : vals.length = schema.numAttr.toNat)
    (hvals : ∀ i (h : i < vals.length),
      some vals[i].dt = schema.dataTypes[i]? ∧ vals[i].Representable)
    (hperm : (calls.map Prod.fst).Perm ((List.range schema.numAttr.toNat).map Int.ofNat))
    (hcalls : ∀ c ∈ calls, vals[c.1.toNat]? = some c.2) :
    (createRecord schema).1 = RC_OK ∧
    (setAttrs (createRecord schema).2 schema calls).1 = RC_OK ∧
    ∀ i (h : i < vals.length),
      ∃ w, getAttr (setAttrs (createRecord schema).2 schema calls).2 schema i = (RC_OK, some w) ∧
        some w.dt = schema.dataTypes[i]? ∧
        Value.roundTrips ((schema.typeLength[i]?).getD 0) vals[i] w := by
  have hmem : ∀ c ∈ calls, 0 ≤ c.1 ∧ c.1 < schema.numAttr := by
    intro c hc
    have : c.1 ∈ (List.range schema.numAttr.toNat).map Int.ofNat :=
      hperm.mem_iff.mp (List.mem_map_of_mem _ hc)
    obtain ⟨a, ha, hac⟩ := List.mem_map.mp this
    have := List.mem_range.mp ha
    have : c.1 = (a : Int) := hac.symm
    omega
  have hnd : (calls.map Prod.fst).Nodup := by
    apply hperm.nodup_iff.mpr
    exact (List.nodup_range _).map (fun a b h => by simpa using h)
  have hty : ∀ c ∈ calls, 0 ≤ c.1 ∧ c.1 < schema.numAttr ∧
      some c.2.dt = schema.dataTypes[c.1.toNat]? ∧ c.2.Representable := by
    intro c hc
    obtain ⟨hlt, hv⟩ := List.getElem?_eq_some_iff.mp (hcalls c hc)
    have := hvals c.1.toNat hlt
    rw [hv] at this
    exact ⟨(hmem c hc).1, (hmem c hc).2, this⟩
  obtain ⟨h1, h2, -⟩ := setAttrs_spec schema hwf calls (createRecord schema).2 hnd hty
  refine ⟨rfl, h1, ?_⟩
  intro i hi
  have : (i : Int) ∈ calls.map Prod.fst := by
    apply hperm.mem_iff.mpr
    exact List.mem_map_of_mem _ (List.mem_range.mpr (by omega))
  obtain ⟨c, hc, hci⟩ := List.mem_map.mp this
  obtain ⟨w, hw1, hw2, hw3⟩ := h2 c hc
  have hcv := hcalls c hc
  rw [hci] at hw1 hw3 hcv
  simp only [Int.toNat_ofNat] at hw3 hcv
  have hv : vals[i] = c.2 := by
    obtain ⟨_, hv⟩ := List.getElem?_eq_some_iff.mp hcv
    exact hv
  refine ⟨w, hw1, ?_, ?_⟩
  · rw [hw2, ← hv]; exact (hvals i hi).1
  · rw [hv]; exact hw3

theorem record_round_trip_witness :
    (createRecord schemaS1).1 = RC_OK ∧
    (setAttrs (createRecord schemaS1).2 schemaS1
      [(1, Value.stringV [104, 101, 108, 108, 111, 0]), (0, Value.intV 7)]).1 = RC_OK ∧
    ∀ i (h : i < [Value.intV 7, Value.stringV [104, 101, 108, 108, 111, 0]].length),
      ∃ w, getAttr (setAttrs (createRecord schemaS1).2 schemaS1
          [(1, Value.stringV [104, 101, 108, 108, 111, 0]), (0, Value.intV 7)]).2 schemaS1 i
            = (RC_OK, some w) ∧
        some w.dt = schemaS1.dataTypes[i]? ∧
        Value.roundTrips ((schemaS1.typeLength[i]?).getD 0)
          [Value.intV 7, Value.stringV [104, 101, 108, 108, 111, 0]][i] w :=
  record_round_trip schemaS1 [Value.intV 7, Value.stringV [104, 101, 108, 108, 111, 0]]
    [(1, Value.stringV [104, 101, 108, 108, 111, 0]), (0, Value.intV 7)]
    (by
      refine ⟨by decide, rfl, rfl, ?_⟩
      intro i hi _
      have : i = 0 ∨ i = 1 := by simp [schemaS1] at hi; omega
      rcases this with rfl | rfl <;> simp [schemaS1])
    rfl
    (by
      intro i hi
      have : i = 0 ∨ i = 1 := by simp at hi; omega
      rcases this with rfl | rfl <;> simp [schemaS1, Value.dt, Value.Representable])
    (List.Perm.swap (0 : Int) 1 [])
    (by simp)


/-! ### Bitmap lemmas -/

theorem land_shift_ne_zero (b i : Nat) : ((b &&& (1 <<< i)) != 0) = b.testBit i := by
  rw [Nat.one_shiftLeft, Nat.and_two_pow]
  cases h : b.testBit i <;> simp

theorem isSlotOccupied_eq (pageData : Mem) (s : Int) (hs : 0 ≤ s) :
    isSlotOccupied pageData s = (pageData (s / 8)).testBit (s % 8).toNat := by
  unfold isSlotOccupied
  simp only [Int.tdiv_eq_ediv hs (by norm_num : (0 : Int) ≤ 8),
    Int.tmod_eq_emod hs (by norm_num : (0 : Int) ≤ 8)]
  exact land_shift_ne_zero _ _

theorem isSlotOccupied_markSlotOccupied (pageData : Mem) (s t : Int) (hs : 0 ≤ s) (ht : 0 ≤ t) :
    isSlotOccupied (markSlotOccupied pageData s) t =
      if t = s then true else isSlotOccupied pageData t := by
  rw [isSlotOccupied_eq _ t ht, isSlotOccupied_eq _ t ht]
  unfold markSlotOccupied
  simp only [Int.tdiv_eq_ediv hs (by norm_num : (0 : Int) ≤ 8),
    Int.tmod_eq_emod hs (by norm_num : (0 : Int) ≤ 8)]
  have h256 : (256 : Nat) = 2 ^ 8 := by norm_num
  by_cases hb : t / 8 = s / 8
  · rw [if_pos hb, h256, Nat.testBit_mod_two_pow, Nat.testBit_or, Nat.one_shiftLeft,
      Nat.testBit_two_pow]
    have h8 : (t % 8).toNat < 8 := by omega
    by_cases hts : t = s
    · subst hts; simp [h8]
    · have : (s % 8).toNat ≠ (t % 8).toNat := by omega
      simp [h8, this, hts, hb]
  · rw [if_neg hb]
    have hts : t ≠ s := by intro h; exact hb (by rw [h])
    simp [hts]

theorem isSlotOccupied_markSlotFree (pageData : Mem) (s t : Int) (hs : 0 ≤ s) (ht : 0 ≤ t) :
    isSlotOccupied (markSlotFree pageData s) t =
      if t = s then false else isSlotOccupied pageData t := by
  rw [isSlotOccupied_eq _ t ht, isSlotOccupied_eq _ t ht]
  unfold markSlotFree
  simp only [Int.tdiv_eq_ediv hs (by norm_num : (0 : Int) ≤ 8),
    Int.tmod_eq_emod hs (by norm_num : (0 : Int) ≤ 8)]
  have h256 : (256 : Nat) = 2 ^ 8 := by norm_num
  have h255 : (255 : Nat) = 2 ^ 8 - 1 := by norm_num
  by_cases hb : t / 8 = s / 8
  · rw [if_pos hb, h256, Nat.testBit_mod_two_pow, Nat.testBit_and, Nat.testBit_xor,
      Nat.one_shiftLeft, Nat.testBit_two_pow, h255, Nat.testBit_two_pow_sub_one]
    have h8 : (t % 8).toNat < 8 := by omega
    by_cases hts : t = s
    · subst hts; simp [h8]
    · have : (s % 8).toNat ≠ (t % 8).toNat := by omega
      simp [h8, this, hts, hb]
  · rw [if_neg hb]
    have hts : t ≠ s := by intro h; exact hb (by rw [h])
    simp [hts]

theorem markSlotOccupied_frame (pageData : Mem) (s k : Int) (hs : 0 ≤ s) (hk : k ≠ s / 8) :
    markSlotOccupied pageData s k = pageData k := by
  unfold markSlotOccupied
  simp only [Int.tdiv_eq_ediv hs (by norm_num : (0 : Int) ≤ 8)]
  rw [if_neg hk]

theorem markSlotFree_frame (pageData : Mem) (s k : Int) (hs : 0 ≤ s) (hk : k ≠ s / 8) :
    markSlotFree pageData s k = pageData k := by
  unfold markSlotFree
  simp only [Int.tdiv_eq_ediv hs (by norm_num : (0 : Int) ≤ 8)]
  rw [if_neg hk]

/-- The occupancy test only reads the byte `slot / 8`. -/
theorem isSlotOccupied_congr (d1 d2 : Mem) (s : Int) (hs : 0 ≤ s) (h : d1 (s / 8) = d2 (s / 8)) :
    isSlotOccupied d1 s = isSlotOccupied d2 s := by
  rw [isSlotOccupied_eq _ s hs, isSlotOccupied_eq _ s hs, h]

theorem isSlotOccupied_zero (d : Mem) (s : Int) (hs : 0 ≤ s) (h : d (s / 8) = 0) :
    isSlotOccupied d s = false := by
  rw [isSlotOccupied_eq _ s hs, h]; simp


/-! ### Integers in memory -/

theorem storeInt_frame (d : Mem) (off x k : Int) (hk : k < off ∨ off + 4 ≤ k) :
    storeInt d off x k = d k := by
  simp only [storeInt, memcpyList]
  split_ifs <;> first | rfl | omega

theorem loadInt_congr (d1 d2 : Mem) (off : Int)
    (h : ∀ k, off ≤ k → k < off + 4 → d1 k = d2 k) : loadInt d1 off = loadInt d2 off := by
  unfold loadInt
  rw [h _ (by omega) (by omega), h _ (by omega) (by omega), h _ (by omega) (by omega),
    h _ (by omega) (by omega)]

theorem loadInt_storeInt_wrap (d : Mem) (off x : Int) :
    loadInt (storeInt d off x) off = wrap32 x := by
  obtain ⟨e0, e1, e2, e3⟩ := memcpyList_encodeU32 d off (x % 4294967296).toNat
  unfold loadInt storeInt encodeInt
  rw [e0, e1, e2, e3]
  have hu : (x % 4294967296).toNat < 4294967296 := by omega
  unfold decodeInt
  simp only [decodeU32_encodeU32 _ hu, wrap32]
  split <;> omega

theorem loadInt_storeInt_other (d : Mem) (off off' x : Int) (h : off' + 4 ≤ off ∨ off + 4 ≤ off') :
    loadInt (storeInt d off x) off' = loadInt d off' := by
  apply loadInt_congr
  intro k h1 h2
  exact storeInt_frame d off x k (by omega)

theorem loadInt_range (d : Mem) (off : Int) :
    -2147483648 ≤ loadInt d off ∧ loadInt d off < 2147483648 := by
  simp only [loadInt, decodeInt, decodeU32]
  split <;> omega

theorem wrap32_of_range (x : Int) (h1 : -2147483648 ≤ x) (h2 : x < 2147483648) :
    wrap32 x = x := by
  unfold wrap32; omega

theorem wrap32_loadInt (d : Mem) (off : Int) : wrap32 (loadInt d off) = loadInt d off :=
  wrap32_of_range _ (loadInt_range d off).1 (loadInt_range d off).2

/-! ### Metadata in the header page -/

theorem storeMetadata_frame (d : Mem) (m : TableMetadata) (k : Int) (hk : k < 0 ∨ 20 ≤ k) :
    storeMetadata d m k = d k := by
  unfold storeMetadata
  rw [storeInt_frame _ _ _ _ (by omega), storeInt_frame _ _ _ _ (by omega),
    storeInt_frame _ _ _ _ (by omega), storeInt_frame _ _ _ _ (by omega),
    storeInt_frame _ _ _ _ (by omega)]

theorem loadMetadata_storeMetadata (d : Mem) (m : TableMetadata) :
    loadMetadata (storeMetadata d m) =
      { numTuples := wrap32 m.numTuples, firstFreePage := wrap32 m.firstFreePage,
        numPages := wrap32 m.numPages, recordSize := wrap32 m.recordSize,
        slotsPerPage := wrap32 m.slotsPerPage } := by
  unfold loadMetadata storeMetadata
  congr 1
  · rw [loadInt_storeInt_other _ _ _ _ (by omega), loadInt_storeInt_other _ _ _ _ (by omega),
      loadInt_storeInt_other _ _ _ _ (by omega), loadInt_storeInt_other _ _ _ _ (by omega),
      loadInt_storeInt_wrap]
  · rw [loadInt_storeInt_other _ _ _ _ (by omega), loadInt_storeInt_other _ _ _ _ (by omega),
      loadInt_storeInt_other _ _ _ _ (by omega), loadInt_storeInt_wrap]
  · rw [loadInt_storeInt_other _ _ _ _ (by omega), loadInt_storeInt_other _ _ _ _ (by omega),
      loadInt_storeInt_wrap]
  · rw [loadInt_storeInt_other _ _ _ _ (by omega), loadInt_storeInt_wrap]
  · rw [loadInt_storeInt_wrap]

theorem loadMetadata_congr (d1 d2 : Mem) (h : ∀ k, 0 ≤ k → k < 20 → d1 k = d2 k) :
    loadMetadata d1 = loadMetadata d2 := by
  unfold loadMetadata
  rw [loadInt_congr d1 d2 0 (fun k h1 h2 => h k (by omega) (by omega)),
    loadInt_congr d1 d2 4 (fun k h1 h2 => h k (by omega) (by omega)),
    loadInt_congr d1 d2 8 (fun k h1 h2 => h k (by omega) (by omega)),
    loadInt_congr d1 d2 12 (fun k h1 h2 => h k (by omega) (by omega)),
    loadInt_congr d1 d2 16 (fun k h1 h2 => h k (by omega) (by omega))]

theorem wrap32_loadMetadata (d : Mem) :
    wrap32 (loadMetadata d).numTuples = (loadMetadata d).numTuples ∧
    wrap32 (loadMetadata d).firstFreePage = (loadMetadata d).firstFreePage ∧
    wrap32 (loadMetadata d).numPages = (loadMetadata d).numPages ∧
    wrap32 (loadMetadata d).recordSize = (loadMetadata d).recordSize ∧
    wrap32 (loadMetadata d).slotsPerPage = (loadMetadata d).slotsPerPage :=
  ⟨wrap32_loadInt _ _, wrap32_loadInt _ _, wrap32_loadInt _ _, wrap32_loadInt _ _,
    wrap32_loadInt _ _⟩

/-! ### The environment when every call succeeds -/

@[simp] theorem draw_mk (pages : Int → Mem) (pins unpins : Nat) (calls : List Int) :
    BM_BufferPool.draw ⟨pages, [], pins, unpins, calls⟩ =
      (RC_OK, ⟨pages, [], pins, unpins, calls⟩) := rfl

@[simp] theorem pinPage_mk (pages : Int → Mem) (pins unpins : Nat) (calls : List Int)
    (p : Int) :
    pinPage ⟨pages, [], pins, unpins, calls⟩ p =
      (RC_OK, ⟨pages, [], pins + 1, unpins, p :: calls⟩) := rfl

@[simp] theorem unpinPage_mk (pages : Int → Mem) (pins unpins : Nat) (calls : List Int) :
    unpinPage ⟨pages, [], pins, unpins, calls⟩ =
      (RC_OK, ⟨pages, [], pins, unpins + 1, calls⟩) := rfl

@[simp] theorem markDirty_mk (pages : Int → Mem) (pins unpins : Nat) (calls : List Int) :
    markDirty ⟨pages, [], pins, unpins, calls⟩ = (RC_OK, ⟨pages, [], pins, unpins, calls⟩) :=
  rfl

@[simp] theorem envCall_mk (pages : Int → Mem) (pins unpins : Nat) (calls : List Int) :
    envCall ⟨pages, [], pins, unpins, calls⟩ = (RC_OK, ⟨pages, [], pins, unpins, calls⟩) :=
  rfl

@[simp] theorem write_mk (pages : Int → Mem) (faults : List RC) (pins unpins : Nat)
    (calls : List Int) (p : Int) (d : Mem) :
    BM_BufferPool.write ⟨pages, faults, pins, unpins, calls⟩ p d =
      ⟨setPage pages p d, faults, pins, unpins, calls⟩ := rfl

@[simp] theorem readHeader_mk (pages : Int → Mem) (pins unpins : Nat) (calls : List Int)
    (m0 : TableMetadata) :
    readHeader ⟨pages, [], pins, unpins, calls⟩ m0 =
      (RC_OK, ⟨pages, [], pins + 1, unpins + 1, HEADER_PAGE :: calls⟩,
        loadMetadata (pages HEADER_PAGE)) := rfl

@[simp] theorem writeHeader_mk (pages : Int → Mem) (pins unpins : Nat) (calls : List Int)
    (m : TableMetadata) :
    writeHeader ⟨pages, [], pins, unpins, calls⟩ m =
      (RC_OK, ⟨setPage pages HEADER_PAGE (storeMetadata (pages HEADER_PAGE) m), [],
        pins + 1, unpins + 1, HEADER_PAGE :: calls⟩) := rfl

@[simp] theorem setPage_same (pages : Int → Mem) (p : Int) (d : Mem) :
    setPage pages p d p = d := by
  simp [setPage]

theorem setPage_other (pages : Int → Mem) (p q : Int) (d : Mem) (h : q ≠ p) :
    setPage pages p d q = pages q := by
  simp [setPage, h]


/-! ### The slot allocator when every call succeeds -/

theorem firstFreeSlot_some (d : Mem) (n : Nat) : ∀ (i j : Int), firstFreeSlot d n i = some j →
    i ≤ j ∧ j < i + n ∧ isSlotOccupied d j = false ∧
      ∀ k, i ≤ k → k < j → isSlotOccupied d k = true := by
  induction n with
  | zero => intro i j h; simp [firstFreeSlot] at h
  | succ n ih =>
    intro i j h
    unfold firstFreeSlot at h
    by_cases hocc : isSlotOccupied d i = true
    · simp only [hocc, Bool.not_true, Bool.false_eq_true, if_false] at h
      obtain ⟨h1, h2, h3, h4⟩ := ih (i + 1) j h
      refine ⟨by omega, by push_cast; omega, h3, ?_⟩
      intro k hk1 hk2
      rcases eq_or_lt_of_le hk1 with rfl | hlt
      · exact hocc
      · exact h4 k (by omega) hk2
    · simp only [Bool.not_eq_true] at hocc
      simp only [hocc, Bool.not_false, if_true, Option.some.injEq] at h
      subst h
      exact ⟨le_refl _, by push_cast; omega, hocc, fun k h1 h2 => by omega⟩

theorem firstFreeSlot_none (d : Mem) (n : Nat) : ∀ (i : Int), firstFreeSlot d n i = none →
    ∀ k, i ≤ k → k < i + n → isSlotOccupied d k = true := by
  induction n with
  | zero => intro i _ k h1 h2; simp at h2; omega
  | succ n ih =>
    intro i h k h1 h2
    unfold firstFreeSlot at h
    by_cases hocc : isSlotOccupied d i = true
    · simp only [hocc, Bool.not_true, Bool.false_eq_true, if_false] at h
      rcases eq_or_lt_of_le h1 with rfl | hlt
      · exact hocc
      · exact ih (i + 1) h k (by omega) (by push_cast at h2; omega)
    · simp only [Bool.not_eq_true] at hocc
      simp [hocc] at h

theorem findFreeSlotLoop_nil (m : TableMetadata) (n : Nat) :
    ∀ (pages : Int → Mem) (pins unpins : Nat) (calls : List Int) (cp : Int) (rid : RID),
    (findFreeSlotLoop m n ⟨pages, [], pins, unpins, calls⟩ cp rid).1 = RC_OK ∧
    (findFreeSlotLoop m n ⟨pages, [], pins, unpins, calls⟩ cp rid).2.1.pages = pages ∧
    (findFreeSlotLoop m n ⟨pages, [], pins, unpins, calls⟩ cp rid).2.1.faults = [] ∧
    (findFreeSlotLoop m n ⟨pages, [], pins, unpins, calls⟩ cp rid).2.2.1 =
      (searchFree pages m.slotsPerPage n cp).isSome ∧
    (findFreeSlotLoop m n ⟨pages, [], pins, unpins, calls⟩ cp rid).2.2.2 =
      (searchFree pages m.slotsPerPage n cp).getD rid := by
  induction n with
  | zero => intro pages pins unpins calls cp rid; simp [findFreeSlotLoop, searchFree]
  | succ n ih =>
    intro pages pins unpins calls cp rid
    unfold findFreeSlotLoop searchFree
    simp only [pinPage_mk, ne_eq, not_true_eq_false, if_false]
    rcases hff : firstFreeSlot (pages cp) m.slotsPerPage.toNat 0 with _ | i
    · simp only [unpinPage_mk, ne_eq, not_true_eq_false, if_false]
      exact ih _ _ _ _ _ _
    · simp

theorem findFreeSlot_nil (bm : BM_BufferPool) (m : TableMetadata) (rid : RID)
    (h : bm.faults = []) :
    (findFreeSlot bm m rid).1 = RC_OK ∧
    (findFreeSlot bm m rid).2.1.pages = (allocSlot bm.pages m).1 ∧
    (findFreeSlot bm m rid).2.1.faults = [] ∧
    (findFreeSlot bm m rid).2.2.1 = (allocSlot bm.pages m).2.1 ∧
    (findFreeSlot bm m rid).2.2.2 = (allocSlot bm.pages m).2.2 := by
  obtain ⟨pages, faults, pins, unpins, calls⟩ := bm
  simp only at h
  subst h
  obtain ⟨l1, l2, l3, l4, l5⟩ :=
    findFreeSlotLoop_nil m (m.numPages - m.firstFreePage).toNat pages pins unpins calls
      m.firstFreePage rid
  unfold findFreeSlot allocSlot
  simp only [l1, ne_eq, not_true_eq_false, if_false, l4, l5]
  rcases hs : searchFree pages m.slotsPerPage (m.numPages - m.firstFreePage).toNat
      m.firstFreePage with _ | r
  · simp only [Option.isSome_none, Bool.false_eq_true, if_false]
    rcases hl : (findFreeSlotLoop m (m.numPages - m.firstFreePage).toNat
      ⟨pages, [], pins, unpins, calls⟩ m.firstFreePage rid).2.1 with ⟨pg, fl, pn, un, cl⟩
    rw [hl] at l2 l3
    simp only at l2 l3
    subst l2 l3
    simp
  · simp [l2, l3]


/-! ### Record operations when every call succeeds -/

theorem reliable_exists_mgr {rel : RM_TableData} (h : rel.Reliable) :
    ∃ pages pins unpins calls n, rel.mgmtData = some ⟨⟨pages, [], pins, unpins, calls⟩, n⟩ := by
  obtain ⟨h1, h2⟩ := h
  rcases hm : rel.mgmtData with _ | ⟨⟨pages, faults, pins, unpins, calls⟩, n⟩
  · simp [hm] at h1
  · simp only [RM_TableData.pool, hm] at h2
    subst h2
    exact ⟨pages, pins, unpins, calls, n, rfl⟩

theorem insertRecord_nil (rel : RM_TableData) (record : Record) (h : rel.Reliable) :
    (insertRecord rel record).1 = RC_OK ∧
    (insertRecord rel record).2.1.Reliable ∧
    (insertRecord rel record).2.1.pages = insertPages rel.pages (getNumTuples rel) record ∧
    getNumTuples (insertRecord rel record).2.1 = getNumTuples rel + 1 ∧
    (insertRecord rel record).2.1.schema = rel.schema ∧
    (insertRecord rel record).2.2 = { record with id := insertRID rel.pages } := by
  obtain ⟨pages, pins, unpins, calls, n, hm⟩ := reliable_exists_mgr h
  unfold insertRecord
  simp only [hm, readHeader_mk, ne_eq, not_true_eq_false, if_false]
  obtain ⟨f1, f2, f3, f4, f5⟩ := findFreeSlot_nil ⟨pages, [], pins + 1, unpins + 1, HEADER_PAGE :: calls⟩
    (loadMetadata (pages HEADER_PAGE)) ⟨0, 0⟩ rfl
  rcases hfs : findFreeSlot ⟨pages, [], pins + 1, unpins + 1, HEADER_PAGE :: calls⟩
    (loadMetadata (pages HEADER_PAGE)) ⟨0, 0⟩ with ⟨rc, ⟨pg, fl, pn, un, cl⟩, m1, rid1⟩
  rw [hfs] at f1 f2 f3 f4 f5
  simp only at f1 f2 f3 f4 f5
  subst f1 f2 f3 f4 f5
  simp [RM_TableData.withMgr, RM_TableData.Reliable, RM_TableData.pool, RM_TableData.pages,
    getNumTuples, hm, insertPages, insertRID]

theorem deleteRecord_nil (rel : RM_TableData) (id : RID) (h : rel.Reliable) :
    (isSlotOccupied (rel.pages id.page) id.slot = false →
      (deleteRecord rel id).1 = RC_RM_NO_MORE_TUPLES ∧
      (deleteRecord rel id).2.Reliable ∧
      (deleteRecord rel id).2.pages = rel.pages ∧
      getNumTuples (deleteRecord rel id).2 = getNumTuples rel ∧
      (deleteRecord rel id).2.schema = rel.schema) ∧
    (isSlotOccupied (rel.pages id.page) id.slot = true →
      (deleteRecord rel id).1 = RC_OK ∧
      (deleteRecord rel id).2.Reliable ∧
      (deleteRecord rel id).2.pages = deletePages rel.pages (getNumTuples rel) id ∧
      getNumTuples (deleteRecord rel id).2 = getNumTuples rel - 1 ∧
      (deleteRecord rel id).2.schema = rel.schema) := by
  obtain ⟨pages, pins, unpins, calls, n, hm⟩ := reliable_exists_mgr h
  unfold deleteRecord
  simp only [hm, readHeader_mk, pinPage_mk, ne_eq, not_true_eq_false, if_false,
    RM_TableData.pages, RM_TableData.pool]
  constructor
  · intro hocc
    simp [hocc, RM_TableData.withMgr, RM_TableData.Reliable, RM_TableData.pool, getNumTuples, hm]
  · intro hocc
    simp [hocc, RM_TableData.withMgr, RM_TableData.Reliable, RM_TableData.pool, getNumTuples, hm,
      deletePages]

theorem updateRecord_nil (rel : RM_TableData) (record : Record) (h : rel.Reliable) :
    (isSlotOccupied (rel.pages record.id.page) record.id.slot = false →
      (updateRecord rel record).1 = RC_RM_NO_MORE_TUPLES ∧
      (updateRecord rel record).2.Reliable ∧
      (updateRecord rel record).2.pages = rel.pages ∧
      getNumTuples (updateRecord rel record).2 = getNumTuples rel ∧
      (updateRecord rel record).2.schema = rel.schema) ∧
    (isSlotOccupied (rel.pages record.id.page) record.id.slot = true →
      (updateRecord rel record).1 = RC_OK ∧
      (updateRecord rel record).2.Reliable ∧
      (updateRecord rel record).2.pages = updatePages rel.pages record ∧
      getNumTuples (updateRecord rel record).2 = getNumTuples rel ∧
      (updateRecord rel record).2.schema = rel.schema) := by
  obtain ⟨pages, pins, unpins, calls, n, hm⟩ := reliable_exists_mgr h
  unfold updateRecord
  simp only [hm, readHeader_mk, pinPage_mk, ne_eq, not_true_eq_false, if_false,
    RM_TableData.pages, RM_TableData.pool]
  constructor
  · intro hocc
    simp [hocc, RM_TableData.withMgr, RM_TableData.Reliable, RM_TableData.pool, getNumTuples, hm]
  · intro hocc
    simp [hocc, RM_TableData.withMgr, RM_TableData.Reliable, RM_TableData.pool, getNumTuples, hm,
      updatePages]

theorem getRecord_nil (rel : RM_TableData) (id : RID) (record : Record) (h : rel.Reliable) :
    (getRecord rel id record).2.1.Reliable ∧
    (getRecord rel id record).2.1.pages = rel.pages ∧
    getNumTuples (getRecord rel id record).2.1 = getNumTuples rel ∧
    (getRecord rel id record).2.1.schema = rel.schema ∧
    (isSlotOccupied (rel.pages id.page) id.slot = false →
      (getRecord rel id record).1 = RC_RM_NO_MORE_TUPLES ∧
      (getRecord rel id record).2.2 = record) ∧
    (isSlotOccupied (rel.pages id.page) id.slot = true →
      (getRecord rel id record).1 = RC_OK ∧
      (getRecord rel id record).2.2 =
        { id := id,
          data := some (memcpy record.buf 0 (rel.pages id.page)
            (getRecordOffset id.slot rel.header.recordSize
              (getSlotMapSize rel.header.slotsPerPage)) rel.header.recordSize) }) := by
  obtain ⟨pages, pins, unpins, calls, n, hm⟩ := reliable_exists_mgr h
  unfold getRecord
  simp only [hm, readHeader_mk, pinPage_mk, ne_eq, not_true_eq_false, if_false,
    RM_TableData.pages, RM_TableData.pool, RM_TableData.header]
  by_cases hocc : isSlotOccupied (pages id.page) id.slot = true
  · simp [hocc, RM_TableData.withMgr, RM_TableData.Reliable, RM_TableData.pool, getNumTuples, hm]
  · simp only [Bool.not_eq_true] at hocc
    simp [hocc, RM_TableData.withMgr, RM_TableData.Reliable, RM_TableData.pool, getNumTuples, hm]


theorem getSlotMapSize_eq (spp : Int) (h : 0 ≤ spp) : getSlotMapSize spp = (spp + 7) / 8 := by
  unfold getSlotMapSize
  exact Int.tdiv_eq_ediv (by omega) (by norm_num)

theorem searchFree_some (pages : Int → Mem) (spp : Int) (n : Nat) :
    ∀ (cp : Int) (rid : RID), searchFree pages spp n cp = some rid →
    cp ≤ rid.page ∧ rid.page < cp + n ∧ 0 ≤ rid.slot ∧ rid.slot < spp ∧
    isSlotOccupied (pages rid.page) rid.slot = false ∧
    (∀ k, 0 ≤ k → k < rid.slot → isSlotOccupied (pages rid.page) k = true) ∧
    (∀ q, cp ≤ q → q < rid.page → ∀ k, 0 ≤ k → k < spp →
      isSlotOccupied (pages q) k = true) := by
  induction n with
  | zero => intro cp rid h; simp [searchFree] at h
  | succ n ih =>
    intro cp rid h
    unfold searchFree at h
    rcases hff : firstFreeSlot (pages cp) spp.toNat 0 with _ | i
    · rw [hff] at h
      obtain ⟨h1, h2, h3, h4, h5, h6, h7⟩ := ih (cp + 1) rid h
      refine ⟨by omega, by push_cast; omega, h3, h4, h5, h6, ?_⟩
      intro q hq1 hq2 k hk1 hk2
      rcases eq_or_lt_of_le hq1 with rfl | hlt
      · exact firstFreeSlot_none _ _ _ hff k hk1 (by omega)
      · exact h7 q (by omega) hq2 k hk1 hk2
    · rw [hff] at h
      simp only [Option.some.injEq] at h
      subst h
      obtain ⟨h1, h2, h3, h4⟩ := firstFreeSlot_some _ _ _ _ hff
      exact ⟨le_refl _, by push_cast; omega, h1, by simp only; omega, h3,
        fun k hk1 hk2 => h4 k hk1 hk2, fun q hq1 hq2 => by simp only at hq2; omega⟩

theorem searchFree_none (pages : Int → Mem) (spp : Int) (n : Nat) :
    ∀ (cp : Int), searchFree pages spp n cp = none →
    ∀ q, cp ≤ q → q < cp + n → ∀ k, 0 ≤ k → k < spp → isSlotOccupied (pages q) k = true := by
  induction n with
  | zero => intro cp _ q h1 h2; simp at h2; omega
  | succ n ih =>
    intro cp h q hq1 hq2 k hk1 hk2
    unfold searchFree at h
    rcases hff : firstFreeSlot (pages cp) spp.toNat 0 with _ | i
    · rw [hff] at h
      rcases eq_or_lt_of_le hq1 with rfl | hlt
      · exact firstFreeSlot_none _ _ _ hff k hk1 (by omega)
      · exact ih (cp + 1) h q (by omega) (by push_cast at hq2; omega) k hk1 hk2
    · rw [hff] at h; simp at h

/-- What `findFreeSlot` returns in a table whose metadata satisfies the invariants. -/
theorem allocSlot_spec (pages : Int → Mem) (m : TableMetadata) (hinv : m.Inv) :
    (allocSlot pages m).2.1.recordSize = m.recordSize ∧
    (allocSlot pages m).2.1.slotsPerPage = m.slotsPerPage ∧
    (allocSlot pages m).2.1.numTuples = m.numTuples ∧
    1 ≤ (allocSlot pages m).2.2.page ∧
    (allocSlot pages m).2.2.page < (allocSlot pages m).2.1.numPages ∧
    0 ≤ (allocSlot pages m).2.2.slot ∧
    (allocSlot pages m).2.2.slot < m.slotsPerPage ∧
    isSlotOccupied ((allocSlot pages m).1 (allocSlot pages m).2.2.page)
      (allocSlot pages m).2.2.slot = false := by
  obtain ⟨i1, i2, i3, i4, i5⟩ := hinv
  unfold allocSlot
  rcases hs : searchFree pages m.slotsPerPage (m.numPages - m.firstFreePage).toNat
      m.firstFreePage with _ | rid
  · simp only [DATA_START_PAGE] at i3 i4
    refine ⟨rfl, rfl, rfl, by simp only; omega, by simp only; omega, le_refl _,
      by simp only; omega, ?_⟩
    simp only
    rw [setPage_other _ _ _ _ (by simp only [HEADER_PAGE]; omega), setPage_same]
    apply isSlotOccupied_zero _ _ (le_refl _)
    simp [memset]
  · obtain ⟨h1, h2, h3, h4, h5, -, -⟩ := searchFree_some _ _ _ _ _ hs
    simp only [DATA_START_PAGE] at i3 i4
    exact ⟨rfl, rfl, rfl, by simp only; omega, by simp only; omega, h3, h4, h5⟩


/-- Copying a record into its slot does not touch the bitmap byte of any slot of the page. -/
theorem memcpy_slot_bitmap (d src : Mem) (spp rs s t : Int) (hs : 0 ≤ s) (ht0 : 0 ≤ t)
    (ht : t < spp) :
    memcpy d (getRecordOffset s rs (getSlotMapSize spp)) src 0 rs (t / 8) = d (t / 8) := by
  simp only [memcpy, getRecordOffset, getSlotMapSize_eq spp (by omega)]
  split_ifs with h
  · exfalso
    have hrs : 0 < rs := by omega
    have := Int.mul_nonneg hs (le_of_lt hrs)
    omega
  · rfl

theorem isSlotOccupied_memcpy_slot (d src : Mem) (spp rs s t : Int) (hs : 0 ≤ s) (ht0 : 0 ≤ t)
    (ht : t < spp) :
    isSlotOccupied (memcpy d (getRecordOffset s rs (getSlotMapSize spp)) src 0 rs) t =
      isSlotOccupied d t :=
  isSlotOccupied_congr _ _ _ ht0 (memcpy_slot_bitmap d src spp rs s t hs ht0 ht)

theorem insertPages_spec (pages : Int → Mem) (n : Int) (record : Record)
    (hinv : (loadMetadata (pages HEADER_PAGE)).Inv) :
    isSlotOccupied (insertPages pages n record (insertRID pages).page) (insertRID pages).slot
      = true ∧
    (∀ k, 0 ≤ k → k < (loadMetadata (pages HEADER_PAGE)).recordSize →
      insertPages pages n record (insertRID pages).page
        ((loadMetadata (pages HEADER_PAGE)).slotByte (insertRID pages).slot k) = record.buf k) ∧
    (loadMetadata (insertPages pages n record HEADER_PAGE)).recordSize =
      (loadMetadata (pages HEADER_PAGE)).recordSize ∧
    (loadMetadata (insertPages pages n record HEADER_PAGE)).slotsPerPage =
      (loadMetadata (pages HEADER_PAGE)).slotsPerPage ∧
    (loadMetadata (insertPages pages n record HEADER_PAGE)).numTuples = wrap32 (n + 1) := by
  obtain ⟨a1, a2, a3, a4, a5, a6, a7, a8⟩ := allocSlot_spec pages _ hinv
  have hne : (insertRID pages).page ≠ HEADER_PAGE := by
    intro h
    have h4 : (1 : Int) ≤ (insertRID pages).page := a4
    rw [h] at h4
    exact absurd h4 (by decide)
  refine ⟨?_, ?_, ?_, ?_, ?_⟩
  · simp only [insertPages]
    rw [setPage_other _ _ _ _ hne]
    simp only [insertRID, setPage_same]
    rw [a2, isSlotOccupied_memcpy_slot _ _ _ _ _ _ a6 a6 a7,
      isSlotOccupied_markSlotOccupied _ _ _ a6 a6]
    simp
  · intro k hk1 hk2
    simp only [insertPages]
    rw [setPage_other _ _ _ _ hne]
    simp only [insertRID, setPage_same, TableMetadata.slotByte, a1, a2, memcpy]
    rw [if_pos (by omega)]
    congr 1
    omega
  · simp only [insertPages, setPage_same, loadMetadata_storeMetadata, a1]
    exact (wrap32_loadMetadata _).2.2.2.1
  · simp only [insertPages, setPage_same, loadMetadata_storeMetadata, a2]
    exact (wrap32_loadMetadata _).2.2.2.2
  · simp only [insertPages, setPage_same, loadMetadata_storeMetadata]

/-- C2 (Insert-Get). In an open table whose metadata satisfies the invariants and whose
buffer-manager calls succeed, `insertRecord(R)` returns RC_OK, and `getRecord` on the id it
assigned to `R` then returns RC_OK with an output record that carries that id and whose
`recordSize` data bytes equal those of `R`. -/
theorem insert_then_get (rel : RM_TableData) (record out : Record)
    (hrel : rel.Reliable) (hinv : rel.header.Inv) :
    (insertRecord rel record).1 = RC_OK ∧
    (getRecord (insertRecord rel record).2.1 (insertRecord rel record).2.2.id out).1 = RC_OK ∧
    (getRecord (insertRecord rel record).2.1 (insertRecord rel record).2.2.id out).2.2.id =
      (insertRecord rel record).2.2.id ∧
    ∀ k, 0 ≤ k → k < rel.header.recordSize →
      (getRecord (insertRecord rel record).2.1 (insertRecord rel record).2.2.id out).2.2.buf k =
        record.buf k := by
  obtain ⟨i1, i2, i3, -, -, i6⟩ := insertRecord_nil rel record hrel
  obtain ⟨s1, s2, s3, s4, -⟩ := insertPages_spec rel.pages (getNumTuples rel) record hinv
  have hid : (insertRecord rel record).2.2.id = insertRID rel.pages := by rw [i6]
  obtain ⟨-, -, -, -, -, g⟩ := getRecord_nil (insertRecord rel record).2.1
    (insertRecord rel record).2.2.id out i2
  rw [i3, hid] at g
  obtain ⟨g1, g2⟩ := g s1
  rw [hid]
  refine ⟨i1, g1, by rw [g2], ?_⟩
  intro k hk1 hk2
  rw [g2]
  simp only [Record.buf, Option.getD_some, memcpy, RM_TableData.header, i3]
  rw [s3, s4, if_pos ⟨hk1, by simpa using hk2⟩]
  have := s2 k hk1 hk2
  simp only [TableMetadata.slotByte, Record.buf] at this
  rw [← this]
  congr 1
  omega

theorem insert_then_get_witness :
    (insertRecord tableS1 recordS1).1 = RC_OK ∧
    (getRecord (insertRecord tableS1 recordS1).2.1 (insertRecord tableS1 recordS1).2.2.id
      ⟨⟨0, 0⟩, none⟩).1 = RC_OK ∧
    (getRecord (insertRecord tableS1 recordS1).2.1 (insertRecord tableS1 recordS1).2.2.id
      ⟨⟨0, 0⟩, none⟩).2.2.id = (insertRecord tableS1 recordS1).2.2.id ∧
    ∀ k, 0 ≤ k → k < tableS1.header.recordSize →
      (getRecord (insertRecord tableS1 recordS1).2.1 (insertRecord tableS1 recordS1).2.2.id
        ⟨⟨0, 0⟩, none⟩).2.2.buf k = recordS1.buf k :=
  insert_then_get tableS1 recordS1 ⟨⟨0, 0⟩, none⟩ ⟨rfl, rfl⟩ (by decide)


/-- C3 (delete is observable). In an open table with succeeding buffer-manager calls, whose
cached tuple count agrees with the header, for every in-range RID whose slot is occupied:
`deleteRecord(id)` returns RC_OK, afterwards `getRecord(id)` returns RC_RM_NO_MORE_TUPLES,
and `getNumTuples` and the header's `numTuples` are exactly one less than before. -/
theorem delete_observable (rel : RM_TableData) (id : RID) (out : Record)
    (hrel : rel.Reliable) (hid : rel.header.InRange id)
    (hocc : isSlotOccupied (rel.pages id.page) id.slot = true)
    (hcons : rel.header.numTuples = getNumTuples rel)
    (hmin : -2147483648 < getNumTuples rel) :
    (deleteRecord rel id).1 = RC_OK ∧
    (getRecord (deleteRecord rel id).2 id out).1 = RC_RM_NO_MORE_TUPLES ∧
    getNumTuples (deleteRecord rel id).2 = getNumTuples rel - 1 ∧
    (deleteRecord rel id).2.header.numTuples = rel.header.numTuples - 1 := by
  obtain ⟨d1, d2, d3, d4, -⟩ := (deleteRecord_nil rel id hrel).2 hocc
  obtain ⟨h1, h2, h3, h4⟩ := hid
  have hne : id.page ≠ HEADER_PAGE := by
    intro h; rw [h] at h1; exact absurd h1 (by decide)
  have hfree : isSlotOccupied ((deleteRecord rel id).2.pages id.page) id.slot = false := by
    rw [d3]
    simp only [deletePages]
    rw [setPage_other _ _ _ _ hne, setPage_same, isSlotOccupied_markSlotFree _ _ _ h3 h3]
    simp
  obtain ⟨-, -, -, -, g, -⟩ := getRecord_nil (deleteRecord rel id).2 id out d2
  refine ⟨d1, (g hfree).1, d4, ?_⟩
  simp only [RM_TableData.header, d3, deletePages, setPage_same, loadMetadata_storeMetadata]
  have hr := loadInt_range (rel.pages HEADER_PAGE) 0
  have hc : (loadMetadata (rel.pages HEADER_PAGE)).numTuples = getNumTuples rel := hcons
  have hl : (loadMetadata (rel.pages HEADER_PAGE)).numTuples = loadInt (rel.pages HEADER_PAGE) 0 :=
    rfl
  rw [wrap32_of_range _ (by omega) (by omega)]
  omega

theorem delete_observable_witness :
    (deleteRecord (insertRecord tableS1 recordS1).2.1 ⟨1, 0⟩).1 = RC_OK ∧
    (getRecord (deleteRecord (insertRecord tableS1 recordS1).2.1 ⟨1, 0⟩).2 ⟨1, 0⟩
      ⟨⟨0, 0⟩, none⟩).1 = RC_RM_NO_MORE_TUPLES ∧
    getNumTuples (deleteRecord (insertRecord tableS1 recordS1).2.1 ⟨1, 0⟩).2 =
      getNumTuples (insertRecord tableS1 recordS1).2.1 - 1 ∧
    (deleteRecord (insertRecord tableS1 recordS1).2.1 ⟨1, 0⟩).2.header.numTuples =
      (insertRecord tableS1 recordS1).2.1.header.numTuples - 1 :=
  delete_observable (insertRecord tableS1 recordS1).2.1 ⟨1, 0⟩ ⟨⟨0, 0⟩, none⟩
    ⟨rfl, rfl⟩ (by decide) (by decide) (by decide) (by decide)

/-- C4 (update preserves id). In an open table with succeeding buffer-manager calls, for every
record `R` whose id is in range and names an occupied slot: `updateRecord(R)` returns RC_OK,
afterwards `getRecord(R.id)` returns RC_OK with that id and with `recordSize` data bytes equal
to those of `R`, and the tuple count, cached and in the header, is unchanged. -/
theorem update_preserves_id (rel : RM_TableData) (record out : Record)
    (hrel : rel.Reliable) (hid : rel.header.InRange record.id)
    (hocc : isSlotOccupied (rel.pages record.id.page) record.id.slot = true) :
    (updateRecord rel record).1 = RC_OK ∧
    (getRecord (updateRecord rel record).2 record.id out).1 = RC_OK ∧
    (getRecord (updateRecord rel record).2 record.id out).2.2.id = record.id ∧
    (∀ k, 0 ≤ k → k < rel.header.recordSize →
      (getRecord (updateRecord rel record).2 record.id out).2.2.buf k = record.buf k) ∧
    getNumTuples (updateRecord rel record).2 = getNumTuples rel ∧
    (updateRecord rel record).2.header = rel.header := by
  obtain ⟨u1, u2, u3, u4, -⟩ := (updateRecord_nil rel record hrel).2 hocc
  obtain ⟨h1, h2, h3, h4⟩ := hid
  have hne : HEADER_PAGE ≠ record.id.page := by
    intro h; rw [← h] at h1; exact absurd h1 (by decide)
  have hhdr : (updateRecord rel record).2.header = rel.header := by
    simp only [RM_TableData.header, u3, updatePages]
    rw [setPage_other _ _ _ _ hne]
  have hocc' : isSlotOccupied ((updateRecord rel record).2.pages record.id.page)
      record.id.slot = true := by
    rw [u3]
    simp only [updatePages, setPage_same]
    exact (isSlotOccupied_memcpy_slot _ _ _ _ _ _ h3 h3 h4).trans hocc
  obtain ⟨-, -, -, -, -, g⟩ := getRecord_nil (updateRecord rel record).2 record.id out u2
  obtain ⟨g1, g2⟩ := g hocc'
  refine ⟨u1, g1, by rw [g2], ?_, u4, hhdr⟩
  intro k hk1 hk2
  rw [g2, hhdr]
  simp only [Record.buf, Option.getD_some, memcpy, u3, updatePages, setPage_same]
  rw [if_pos ⟨hk1, by simpa using hk2⟩]
  simp only [RM_TableData.header] at hk2 ⊢
  rw [if_pos (by omega)]
  have e : ∀ a : Int, 0 + (a + (k - 0) - a) = k := fun a => by omega
  rw [e]

theorem update_preserves_id_witness :
    (updateRecord (insertRecord tableS1 recordS1).2.1 ⟨⟨1, 0⟩, some zeroMem⟩).1 = RC_OK ∧
    (getRecord (updateRecord (insertRecord tableS1 recordS1).2.1 ⟨⟨1, 0⟩, some zeroMem⟩).2
      ⟨1, 0⟩ ⟨⟨0, 0⟩, none⟩).1 = RC_OK ∧
    (getRecord (updateRecord (insertRecord tableS1 recordS1).2.1 ⟨⟨1, 0⟩, some zeroMem⟩).2
      ⟨1, 0⟩ ⟨⟨0, 0⟩, none⟩).2.2.id = ⟨1, 0⟩ ∧
    (∀ k, 0 ≤ k → k < (insertRecord tableS1 recordS1).2.1.header.recordSize →
      (getRecord (updateRecord (insertRecord tableS1 recordS1).2.1 ⟨⟨1, 0⟩, some zeroMem⟩).2
        ⟨1, 0⟩ ⟨⟨0, 0⟩, none⟩).2.2.buf k = Record.buf ⟨⟨1, 0⟩, some zeroMem⟩ k) ∧
    getNumTuples (updateRecord (insertRecord tableS1 recordS1).2.1 ⟨⟨1, 0⟩, some zeroMem⟩).2 =
      getNumTuples (insertRecord tableS1 recordS1).2.1 ∧
    (updateRecord (insertRecord tableS1 recordS1).2.1 ⟨⟨1, 0⟩, some zeroMem⟩).2.header =
      (insertRecord tableS1 recordS1).2.1.header :=
  update_preserves_id (insertRecord tableS1 recordS1).2.1 ⟨⟨1, 0⟩, some zeroMem⟩
    ⟨⟨0, 0⟩, none⟩ ⟨rfl, rfl⟩ (by decide) (by decide)

/-- C5 (an unoccupied target is rejected atomically). In an open table with succeeding
buffer-manager calls, for every in-range RID whose bitmap bit is 0, `getRecord`,
`updateRecord` and `deleteRecord` each return RC_RM_NO_MORE_TUPLES and leave every page (so
every page byte and the header metadata), the cached tuple count and, for `getRecord`, the
caller's output record unchanged. -/
theorem unoccupied_rejected (rel : RM_TableData) (id : RID) (out record : Record)
    (hrel : rel.Reliable) (hid : rel.header.InRange id) (hrec : record.id = id)
    (hfree : isSlotOccupied (rel.pages id.page) id.slot = false) :
    ((getRecord rel id out).1 = RC_RM_NO_MORE_TUPLES ∧
      (getRecord rel id out).2.1.pages = rel.pages ∧
      (getRecord rel id out).2.1.header = rel.header ∧
      getNumTuples (getRecord rel id out).2.1 = getNumTuples rel ∧
      (getRecord rel id out).2.2 = out) ∧
    ((updateRecord rel record).1 = RC_RM_NO_MORE_TUPLES ∧
      (updateRecord rel record).2.pages = rel.pages ∧
      (updateRecord rel record).2.header = rel.header ∧
      getNumTuples (updateRecord rel record).2 = getNumTuples rel) ∧
    ((deleteRecord rel id).1 = RC_RM_NO_MORE_TUPLES ∧
      (deleteRecord rel id).2.pages = rel.pages ∧
      (deleteRecord rel id).2.header = rel.header ∧
      getNumTuples (deleteRecord rel id).2 = getNumTuples rel) := by
  have _ := hid
  obtain ⟨-, g2, g3, -, g5, -⟩ := getRecord_nil rel id out hrel
  obtain ⟨u1, -, u3, u4, -⟩ := (updateRecord_nil rel record hrel).1 (by rw [hrec]; exact hfree)
  obtain ⟨d1, -, d3, d4, -⟩ := (deleteRecord_nil rel id hrel).1 hfree
  exact ⟨⟨(g5 hfree).1, g2, by simp only [RM_TableData.header, g2], g3, (g5 hfree).2⟩,
    ⟨u1, u3, by simp only [RM_TableData.header, u3], u4⟩,
    ⟨d1, d3, by simp only [RM_TableData.header, d3], d4⟩⟩

theorem unoccupied_rejected_witness :
    ((getRecord tableS1 ⟨1, 3⟩ recordS1).1 = RC_RM_NO_MORE_TUPLES ∧
      (getRecord tableS1 ⟨1, 3⟩ recordS1).2.1.pages = tableS1.pages ∧
      (getRecord tableS1 ⟨1, 3⟩ recordS1).2.1.header = tableS1.header ∧
      getNumTuples (getRecord tableS1 ⟨1, 3⟩ recordS1).2.1 = getNumTuples tableS1 ∧
      (getRecord tableS1 ⟨1, 3⟩ recordS1).2.2 = recordS1) ∧
    ((updateRecord tableS1 ⟨⟨1, 3⟩, some zeroMem⟩).1 = RC_RM_NO_MORE_TUPLES ∧
      (updateRecord tableS1 ⟨⟨1, 3⟩, some zeroMem⟩).2.pages = tableS1.pages ∧
      (updateRecord tableS1 ⟨⟨1, 3⟩, some zeroMem⟩).2.header = tableS1.header ∧
      getNumTuples (updateRecord tableS1 ⟨⟨1, 3⟩, some zeroMem⟩).2 = getNumTuples tableS1) ∧
    ((deleteRecord tableS1 ⟨1, 3⟩).1 = RC_RM_NO_MORE_TUPLES ∧
      (deleteRecord tableS1 ⟨1, 3⟩).2.pages = tableS1.pages ∧
      (deleteRecord tableS1 ⟨1, 3⟩).2.header = tableS1.header ∧
      getNumTuples (deleteRecord tableS1 ⟨1, 3⟩).2 = getNumTuples tableS1) :=
  unoccupied_rejected tableS1 ⟨1, 3⟩ recordS1 ⟨⟨1, 3⟩, some zeroMem⟩ ⟨rfl, rfl⟩ (by decide) rfl
    (by decide)


/-! ### `createTable` and `openTable` when every call succeeds -/

theorem slotsPerPageLoop_spec (rs : Int) (n : Nat) : ∀ s : Int, s < n →
    0 < slotsPerPageLoop rs n s →
    slotsPerPageLoop rs n s ≤ s ∧
    Int.tdiv (slotsPerPageLoop rs n s + 7) 8 + slotsPerPageLoop rs n s * rs ≤ PAGE_SIZE := by
  induction n with
  | zero => intro s hs hpos; simp only [slotsPerPageLoop] at hpos; simp at hs; omega
  | succ n ih =>
    intro s hs hpos
    unfold slotsPerPageLoop at hpos ⊢
    by_cases hfit : Int.tdiv (s + 7) 8 + s * rs ≤ PAGE_SIZE
    · rw [if_pos hfit]
      exact ⟨le_refl _, hfit⟩
    · rw [if_neg hfit] at hpos ⊢
      by_cases hgt : s - 1 > 0
      · rw [if_pos hgt] at hpos ⊢
        obtain ⟨h1, h2⟩ := ih (s - 1) (by push_cast at hs; omega) hpos
        exact ⟨by omega, h2⟩
      · rw [if_neg hgt] at hpos
        omega

theorem writeAttr_frame (schema : Schema) (acc : Mem × Int) (i : Nat) :
    acc.2 ≤ (writeAttr schema acc i).2 ∧
    ∀ k, k < acc.2 → (writeAttr schema acc i).1 k = acc.1 k := by
  have hlen : 0 ≤ strlen ((schema.attrNames[i]?).getD []) := by
    unfold strlen; exact Int.natCast_nonneg _
  refine ⟨by simp only [writeAttr]; omega, ?_⟩
  intro k hk
  simp only [writeAttr]
  rw [storeInt_frame _ _ _ _ (by omega), storeInt_frame _ _ _ _ (by omega)]
  simp only [memcpyList]
  rw [if_neg (by omega), storeInt_frame _ _ _ _ (by omega)]

theorem writeAttrs_frame (schema : Schema) (l : List Nat) : ∀ (acc : Mem × Int),
    acc.2 ≤ (l.foldl (writeAttr schema) acc).2 ∧
    ∀ k, k < acc.2 → (l.foldl (writeAttr schema) acc).1 k = acc.1 k := by
  induction l with
  | nil => intro acc; exact ⟨le_refl _, fun _ _ => rfl⟩
  | cons i l ih =>
    intro acc
    obtain ⟨h1, h2⟩ := writeAttr_frame schema acc i
    obtain ⟨h3, h4⟩ := ih (writeAttr schema acc i)
    simp only [List.foldl_cons]
    exact ⟨le_trans h1 h3, fun k hk => by rw [h4 k (by omega), h2 k hk]⟩

/-- The serialized schema lies after the 20 bytes of the metadata. -/
theorem writeSchema_frame (schema : Schema) (d : Mem) (k : Int) (hk : k < 20) :
    writeSchema schema d k = d k := by
  obtain ⟨h1, h2⟩ := writeAttrs_frame schema (List.range schema.numAttr.toNat)
    (storeInt d 20 schema.numAttr, 24)
  dsimp only at h1 h2
  unfold writeSchema
  split_ifs
  · simp only [memcpyList]
    rw [if_neg (by omega), storeInt_frame _ _ _ _ (by omega), h2 k (by omega),
      storeInt_frame _ _ _ _ (by omega)]
  · rw [storeInt_frame _ _ _ _ (by omega), h2 k (by omega), storeInt_frame _ _ _ _ (by omega)]

theorem createTable_nil (env : BM_BufferPool) (schema : Schema) (env1 : BM_BufferPool)
    (henv : env.faults = []) (hc : createTable env schema = some (RC_OK, env1)) :
    env1.faults = [] ∧
    loadMetadata (env1.pages HEADER_PAGE) =
      { numTuples := 0, firstFreePage := 1, numPages := 2, recordSize := getRecordSize schema,
        slotsPerPage := (loadMetadata (env1.pages HEADER_PAGE)).slotsPerPage } ∧
    (loadMetadata (env1.pages HEADER_PAGE)).Inv ∧
    1 ≤ getRecordSize schema ∧
    (∀ k, 0 ≤ k → k < PAGE_SIZE → env1.pages DATA_START_PAGE k = 0) := by
  obtain ⟨pages, faults, pins, unpins, calls⟩ := env
  simp only at henv
  subst henv
  unfold createTable at hc
  simp only [envCall_mk, ne_eq, not_true_eq_false, if_false] at hc
  by_cases hrs : getRecordSize schema = 0
  · simp [hrs] at hc
  · simp only [hrs, if_false] at hc
    by_cases hspp : slotsPerPageLoop (getRecordSize schema)
        ((Int.tdiv PAGE_SIZE (getRecordSize schema)).toNat + 1)
        (Int.tdiv PAGE_SIZE (getRecordSize schema)) ≤ 0
    · simp [hspp] at hc
    · simp only [hspp, if_false] at hc
      simp only [initializeHeader, pinPage_mk, ne_eq, not_true_eq_false, if_false, write_mk,
        markDirty_mk, unpinPage_mk, envCall_mk, Option.some.injEq, Prod.mk.injEq, true_and]
        at hc
      subst hc
      obtain ⟨l1, l2⟩ := slotsPerPageLoop_spec (getRecordSize schema)
        ((Int.tdiv PAGE_SIZE (getRecordSize schema)).toNat + 1)
        (Int.tdiv PAGE_SIZE (getRecordSize schema))
        (by have := Int.self_le_toNat (Int.tdiv PAGE_SIZE (getRecordSize schema))
            push_cast; omega) (by omega)
      -- the record size is positive: otherwise no positive slot count is found
      have hrpos : 1 ≤ getRecordSize schema := by
        by_contra hneg
        have hlt : getRecordSize schema < 0 := by omega
        have h1 : Int.tdiv PAGE_SIZE (getRecordSize schema) =
            -(Int.tdiv PAGE_SIZE (-getRecordSize schema)) := by
          rw [Int.tdiv_neg, neg_neg]
        have h2 : 0 ≤ Int.tdiv PAGE_SIZE (-getRecordSize schema) := by
          rw [Int.tdiv_eq_ediv (by decide) (by omega)]
          exact Int.ediv_nonneg (by decide) (by omega)
        omega
      have hs0 : Int.tdiv PAGE_SIZE (getRecordSize schema) ≤ 4096 := by
        rw [Int.tdiv_eq_ediv (by decide) (by omega)]
        exact Int.ediv_le_self _ (by decide)
      set spp := slotsPerPageLoop (getRecordSize schema)
        ((Int.tdiv PAGE_SIZE (getRecordSize schema)).toNat + 1)
        (Int.tdiv PAGE_SIZE (getRecordSize schema)) with hsppdef
      have hmap : 0 ≤ Int.tdiv (spp + 7) 8 := by
        rw [Int.tdiv_eq_ediv (by omega) (by decide)]; omega
      have hmul : getRecordSize schema ≤ spp * getRecordSize schema := by
        have : (1 : Int) ≤ spp := by omega
        nlinarith
      have hrs4096 : getRecordSize schema ≤ 4096 := by
        simp only [PAGE_SIZE] at l2; omega
      have hhdr : ∀ pages : Int → Mem, loadMetadata (setPage (setPage pages HEADER_PAGE
            (writeSchema schema (storeMetadata zeroMem
              { numTuples := 0, firstFreePage := DATA_START_PAGE,
                numPages := DATA_START_PAGE + 1, recordSize := getRecordSize schema,
                slotsPerPage := spp })) ) DATA_START_PAGE
            (memset ((setPage pages HEADER_PAGE
              (writeSchema schema (storeMetadata zeroMem
              { numTuples := 0, firstFreePage := DATA_START_PAGE,
                numPages := DATA_START_PAGE + 1, recordSize := getRecordSize schema,
                slotsPerPage := spp }))) DATA_START_PAGE) 0 0 PAGE_SIZE) HEADER_PAGE) =
          { numTuples := 0, firstFreePage := 1, numPages := 2,
            recordSize := getRecordSize schema, slotsPerPage := spp } := by
        intro pages
        rw [setPage_other _ _ _ _ (by decide), setPage_same,
          loadMetadata_congr _ _ (fun k _ hk => writeSchema_frame schema _ k hk),
          loadMetadata_storeMetadata]
        simp only [DATA_START_PAGE]
        rw [wrap32_of_range (getRecordSize schema) (by omega) (by omega),
          wrap32_of_range spp (by omega) (by omega)]
        have e0 : wrap32 0 = 0 := by decide
        have e1 : wrap32 1 = 1 := by decide
        have e2 : wrap32 (1 + 1) = 2 := by decide
        rw [e0, e1, e2]
      refine ⟨rfl, ?_, ?_, hrpos, ?_⟩
      · dsimp only
        rw [hhdr]
      · dsimp only
        rw [hhdr]
        exact ⟨by dsimp only; omega, l2, by dsimp only; decide, by dsimp only; decide,
          by dsimp only; decide⟩
      · intro k hk1 hk2
        simp only [setPage_same, memset]
        rw [if_pos ⟨by omega, by omega⟩]


theorem openTable_nil (env : BM_BufferPool) (rel0 : RM_TableData) (name : List Nat)
    (henv : env.faults = []) :
    (openTable env rel0 name).1 = RC_OK ∧
    (openTable env rel0 name).2.2.Reliable ∧
    (openTable env rel0 name).2.2.pages = env.pages ∧
    getNumTuples (openTable env rel0 name).2.2 = (loadMetadata (env.pages HEADER_PAGE)).numTuples ∧
    (openTable env rel0 name).2.2.schema = readSchema (env.pages HEADER_PAGE) := by
  obtain ⟨pages, faults, pins, unpins, calls⟩ := env
  simp only at henv
  subst henv
  simp [openTable, RM_TableData.Reliable, RM_TableData.pool, RM_TableData.pages, getNumTuples]

/-- The two ways `insertRecord` goes when every call succeeds: a free slot is found on an
existing page, or the file grows by one page. -/
theorem insertPages_cases (pages : Int → Mem) (n : Int) (record : Record)
    (hinv : (loadMetadata (pages HEADER_PAGE)).Inv) :
    (∃ rid, searchFree pages (loadMetadata (pages HEADER_PAGE)).slotsPerPage
        ((loadMetadata (pages HEADER_PAGE)).numPages -
          (loadMetadata (pages HEADER_PAGE)).firstFreePage).toNat
        (loadMetadata (pages HEADER_PAGE)).firstFreePage = some rid ∧
      insertRID pages = rid ∧
      loadMetadata (insertPages pages n record HEADER_PAGE) =
        { loadMetadata (pages HEADER_PAGE) with numTuples := wrap32 (n + 1) } ∧
      ∀ q, q ≠ HEADER_PAGE → insertPages pages n record q =
        if q = rid.page then
          memcpy (markSlotOccupied (pages q) rid.slot)
            (getRecordOffset rid.slot (loadMetadata (pages HEADER_PAGE)).recordSize
              (getSlotMapSize (loadMetadata (pages HEADER_PAGE)).slotsPerPage))
            record.buf 0 (loadMetadata (pages HEADER_PAGE)).recordSize
        else pages q) ∨
    (searchFree pages (loadMetadata (pages HEADER_PAGE)).slotsPerPage
        ((loadMetadata (pages HEADER_PAGE)).numPages -
          (loadMetadata (pages HEADER_PAGE)).firstFreePage).toNat
        (loadMetadata (pages HEADER_PAGE)).firstFreePage = none ∧
      insertRID pages = ⟨(loadMetadata (pages HEADER_PAGE)).numPages, 0⟩ ∧
      loadMetadata (insertPages pages n record HEADER_PAGE) =
        { loadMetadata (pages HEADER_PAGE) with
          numTuples := wrap32 (n + 1),
          firstFreePage := (loadMetadata (pages HEADER_PAGE)).numPages,
          numPages := wrap32 ((loadMetadata (pages HEADER_PAGE)).numPages + 1) } ∧
      ∀ q, q ≠ HEADER_PAGE → insertPages pages n record q =
        if q = (loadMetadata (pages HEADER_PAGE)).numPages then
          memcpy (markSlotOccupied (memset (pages q) 0 0 PAGE_SIZE) 0)
            (getRecordOffset 0 (loadMetadata (pages HEADER_PAGE)).recordSize
              (getSlotMapSize (loadMetadata (pages HEADER_PAGE)).slotsPerPage))
            record.buf 0 (loadMetadata (pages HEADER_PAGE)).recordSize
        else pages q) := by
  obtain ⟨w1, w2, w3, w4, w5⟩ := wrap32_loadMetadata (pages HEADER_PAGE)
  obtain ⟨i1, i2, i3, i4, i5⟩ := hinv
  rcases hs : searchFree pages (loadMetadata (pages HEADER_PAGE)).slotsPerPage
      ((loadMetadata (pages HEADER_PAGE)).numPages -
        (loadMetadata (pages HEADER_PAGE)).firstFreePage).toNat
      (loadMetadata (pages HEADER_PAGE)).firstFreePage with _ | rid
  · right
    have hnp : (loadMetadata (pages HEADER_PAGE)).numPages ≠ HEADER_PAGE := by
      intro h; rw [h] at i3; exact absurd i3 (by decide)
    refine ⟨rfl, ?_, ?_, ?_⟩
    · simp only [insertRID, allocSlot, hs]
    · simp only [insertPages, allocSlot, hs, setPage_same, loadMetadata_storeMetadata, w2, w4,
        w5, w3]
    · intro q hq
      simp only [insertPages, allocSlot, hs]
      rw [setPage_other _ _ _ _ hq]
      by_cases hqn : q = (loadMetadata (pages HEADER_PAGE)).numPages
      · subst hqn
        simp only [setPage_same, if_true]
        rw [setPage_other _ _ _ _ hq, setPage_same]
      · rw [if_neg hqn, setPage_other _ _ _ _ hqn, setPage_other _ _ _ _ hq,
          setPage_other _ _ _ _ hqn]
  · left
    refine ⟨rid, rfl, ?_, ?_, ?_⟩
    · simp only [insertRID, allocSlot, hs]
    · simp only [insertPages, allocSlot, hs, setPage_same, loadMetadata_storeMetadata, w2, w4,
        w5, w3]
    · intro q hq
      simp only [insertPages, allocSlot, hs]
      rw [setPage_other _ _ _ _ hq]
      by_cases hqn : q = rid.page
      · subst hqn
        simp only [setPage_same, if_true]
      · rw [if_neg hqn, setPage_other _ _ _ _ hqn]


/-! ### Tables that have not grown -/

theorem createTable_ok (env : BM_BufferPool) (schema : Schema)
    (hc : (createTable env schema).map Prod.fst = some RC_OK) :
    ∃ env1, createTable env schema = some (RC_OK, env1) := by
  rcases h : createTable env schema with _ | ⟨rc, env1⟩
  · rw [h] at hc; simp at hc
  · rw [h] at hc
    simp only [Option.map_some', Option.some.injEq] at hc
    exact ⟨env1, by rw [← hc]⟩

theorem freshTable_onePage (env : BM_BufferPool) (schema : Schema) (name : List Nat)
    (henv : env.faults = [])
    (hc : (createTable env schema).map Prod.fst = some RC_OK) :
    OnePage (freshTable env schema name) (fun _ => False) ∧
    getNumTuples (freshTable env schema name) = 0 ∧
    (freshTable env schema name).header.numTuples = 0 := by
  obtain ⟨env1, hc⟩ := createTable_ok env schema hc
  obtain ⟨c1, c2, c3, c4, c5⟩ := createTable_nil env schema env1 henv hc
  obtain ⟨o1, o2, o3, o4, o5⟩ := openTable_nil env1 ⟨[], schema, none⟩ name c1
  have hf : freshTable env schema name = (openTable env1 ⟨[], schema, none⟩ name).2.2 := by
    simp only [freshTable, hc]
  rw [hf]
  have hh : (openTable env1 ⟨[], schema, none⟩ name).2.2.header =
      loadMetadata (env1.pages HEADER_PAGE) := by
    simp only [RM_TableData.header, o3]
  refine ⟨⟨o2, by rw [hh]; exact c3, by rw [hh, c2], by rw [hh, c2], ?_⟩, ?_, ?_⟩
  · intro t ht0 ht
    rw [o3]
    have hspp : (loadMetadata (env1.pages HEADER_PAGE)).slotsPerPage ≤ 4096 * 8 := by
      have hfit := c3.2.1
      have h1 := c3.1
      have hrs : 0 ≤ (loadMetadata (env1.pages HEADER_PAGE)).slotsPerPage *
          (loadMetadata (env1.pages HEADER_PAGE)).recordSize := by
        apply Int.mul_nonneg (by omega)
        rw [c2]; dsimp only; omega
      rw [getSlotMapSize_eq _ (by omega)] at hfit
      simp only [PAGE_SIZE] at hfit
      omega
    rw [hh] at ht
    rw [isSlotOccupied_zero _ t ht0 (c5 _ (by omega) (by simp only [PAGE_SIZE]; omega))]
    simp
  · rw [o4, c2]
  · rw [hh, c2]

theorem insert_onePage (rel : RM_TableData) (record : Record) (occ : Int → Prop) (i : Int)
    (h : OnePage rel occ) (hi0 : 0 ≤ i) (hi : i < rel.header.slotsPerPage)
    (hfree : ¬ occ i) (hbelow : ∀ t, 0 ≤ t → t < i → occ t) :
    (insertRecord rel record).1 = RC_OK ∧
    (insertRecord rel record).2.2.id = ⟨DATA_START_PAGE, i⟩ ∧
    (insertRecord rel record).2.1.header.slotsPerPage = rel.header.slotsPerPage ∧
    OnePage (insertRecord rel record).2.1 (fun t => t = i ∨ occ t) := by
  obtain ⟨hrel, hinv, hffp, hnp, hocc⟩ := h
  obtain ⟨i1, i2, i3, i4, i5, i6⟩ := insertRecord_nil rel record hrel
  -- the search finds slot `i` of page 1
  have hsearch : searchFree rel.pages rel.header.slotsPerPage
      (rel.header.numPages - rel.header.firstFreePage).toNat rel.header.firstFreePage =
      some ⟨DATA_START_PAGE, i⟩ := by
    rw [hffp, hnp]
    have h1 : ((2 : Int) - 1).toNat = 1 := by decide
    rw [h1]
    simp only [searchFree]
    rcases hff : firstFreeSlot (rel.pages 1) rel.header.slotsPerPage.toNat 0 with _ | j
    · exfalso
      have := firstFreeSlot_none _ _ _ hff i hi0 (by omega)
      exact hfree ((hocc i hi0 hi).mp this)
    · obtain ⟨f1, f2, f3, f4⟩ := firstFreeSlot_some _ _ _ _ hff
      have hj : j = i := by
        rcases lt_trichotomy j i with hlt | heq | hgt
        · have := (hocc j f1 (by omega)).mpr (hbelow j f1 hlt)
          rw [f3] at this; exact absurd this (by decide)
        · exact heq
        · have := f4 i hi0 hgt
          exact absurd ((hocc i hi0 hi).mp this) hfree
      rw [hj]
  rcases insertPages_cases rel.pages (getNumTuples rel) record hinv with
    ⟨rid, c1, c2, c3, c4⟩ | ⟨c1, -⟩
  · have hrid : rid = ⟨DATA_START_PAGE, i⟩ := by
      have := c1.symm.trans hsearch
      simpa using this
    subst hrid
    have hhdr : (insertRecord rel record).2.1.header =
        { rel.header with numTuples := wrap32 (getNumTuples rel + 1) } := by
      simp only [RM_TableData.header, i3]; exact c3
    refine ⟨i1, by rw [i6]; exact c2, by rw [hhdr], i2, ?_, by rw [hhdr]; exact hffp,
      by rw [hhdr]; exact hnp, ?_⟩
    · rw [hhdr]; exact hinv
    · intro t ht0 ht
      have ht' : t < rel.header.slotsPerPage := by rw [hhdr] at ht; exact ht
      have e : isSlotOccupied (insertPages rel.pages (getNumTuples rel) record DATA_START_PAGE) t
          = (if t = i then true else isSlotOccupied (rel.pages DATA_START_PAGE) t) := by
        rw [c4 _ (by decide), if_pos rfl]
        exact (isSlotOccupied_memcpy_slot _ _ _ _ _ _ hi0 ht0 ht').trans
          (isSlotOccupied_markSlotOccupied _ _ _ hi0 ht0)
      rw [i3, e]
      by_cases hti : t = i
      · simp [hti]
      · simp only [hti, if_false, false_or]
        exact hocc t ht0 ht'
  · exfalso
    have := c1.symm.trans hsearch
    simp at this

theorem delete_onePage (rel : RM_TableData) (occ : Int → Prop) (s : Int)
    (h : OnePage rel occ) (hs0 : 0 ≤ s) (hs : s < rel.header.slotsPerPage) (hocc : occ s) :
    (deleteRecord rel ⟨DATA_START_PAGE, s⟩).1 = RC_OK ∧
    (deleteRecord rel ⟨DATA_START_PAGE, s⟩).2.header.slotsPerPage = rel.header.slotsPerPage ∧
    OnePage (deleteRecord rel ⟨DATA_START_PAGE, s⟩).2 (fun t => t ≠ s ∧ occ t) := by
  obtain ⟨hrel, hinv, hffp, hnp, hoc⟩ := h
  have hbit : isSlotOccupied (rel.pages DATA_START_PAGE) s = true := (hoc s hs0 hs).mpr hocc
  obtain ⟨d1, d2, d3, d4, -⟩ := (deleteRecord_nil rel ⟨DATA_START_PAGE, s⟩ hrel).2 hbit
  obtain ⟨w1, w2, w3, w4, w5⟩ := wrap32_loadMetadata (rel.pages HEADER_PAGE)
  have hhdr : (deleteRecord rel ⟨DATA_START_PAGE, s⟩).2.header =
      { rel.header with numTuples := wrap32 (getNumTuples rel - 1) } := by
    simp only [RM_TableData.header, d3, deletePages, setPage_same, loadMetadata_storeMetadata,
      w2, w3, w4, w5]
  refine ⟨d1, by rw [hhdr], d2, by rw [hhdr]; exact hinv, by rw [hhdr]; exact hffp,
    by rw [hhdr]; exact hnp, ?_⟩
  intro t ht0 ht
  have ht' : t < rel.header.slotsPerPage := by rw [hhdr] at ht; exact ht
  rw [d3]
  simp only [deletePages]
  rw [setPage_other _ _ _ _ (by decide), setPage_same, isSlotOccupied_markSlotFree _ _ _ hs0 ht0]
  by_cases hts : t = s
  · simp [hts]
  · simp only [hts, if_false, ne_eq, not_false_eq_true, true_and]
    exact hoc t ht0 ht'

theorem OnePage.congr {rel : RM_TableData} {occ occ' : Int → Prop} (h : OnePage rel occ)
    (hoo : ∀ t, 0 ≤ t → t < rel.header.slotsPerPage → (occ t ↔ occ' t)) : OnePage rel occ' :=
  ⟨h.1, h.2.1, h.2.2.1, h.2.2.2.1, fun t h0 h1 => (h.2.2.2.2 t h0 h1).trans (hoo t h0 h1)⟩


theorem insertAll_onePage (records : List Record) : ∀ (rel : RM_TableData) (i : Int),
    OnePage rel (fun t => t < i) → 0 ≤ i → i + records.length ≤ rel.header.slotsPerPage →
    (insertAll rel records).1 = RC_OK ∧
    (insertAll rel records).2.2 =
      (List.range records.length).map (fun (j : Nat) => (⟨DATA_START_PAGE, i + j⟩ : RID)) ∧
    (insertAll rel records).2.1.header.slotsPerPage = rel.header.slotsPerPage ∧
    OnePage (insertAll rel records).2.1 (fun t => t < i + records.length) := by
  induction records with
  | nil =>
    intro rel i h _ _
    exact ⟨rfl, rfl, rfl, h.congr (fun t _ _ => by simp)⟩
  | cons r rest ih =>
    intro rel i h hi0 hlen
    simp only [List.length_cons, Nat.cast_add, Nat.cast_one] at hlen
    obtain ⟨s1, s2, s3, s4⟩ := insert_onePage rel r (fun t => t < i) i h hi0 (by omega)
      (by simp) (fun t _ ht => ht)
    have s4' : OnePage (insertRecord rel r).2.1 (fun t => t < i + 1) :=
      s4.congr (fun t _ _ => by constructor <;> intro h <;> omega)
    obtain ⟨r1, r2, r3, r4⟩ := ih (insertRecord rel r).2.1 (i + 1) s4' (by omega)
      (by rw [s3]; omega)
    have hstep : insertAll rel (r :: rest) =
        ((insertAll (insertRecord rel r).2.1 rest).1, (insertAll (insertRecord rel r).2.1 rest).2.1,
          (insertRecord rel r).2.2.id :: (insertAll (insertRecord rel r).2.1 rest).2.2) := by
      simp only [insertAll, s1, ne_eq, not_true_eq_false, if_false]
    rw [hstep]
    refine ⟨r1, ?_, by rw [r3, s3], ?_⟩
    · simp only [r2, s2, List.length_cons, List.range_succ_eq_map, List.map_cons, List.map_map]
      congr 1
      · simp
      · apply List.map_congr_left
        intro a _
        simp only [Function.comp, Nat.succ_eq_add_one, Nat.cast_add, Nat.cast_one]
        congr 1
        omega
    · exact r4.congr (fun t _ _ => by
        simp only [List.length_cons, Nat.cast_add, Nat.cast_one]
        constructor <;> intro h <;> omega)

theorem deleteAll_onePage (dels : List RID) : ∀ (rel : RM_TableData) (occ : Int → Prop),
    OnePage rel occ → dels.Nodup →
    (∀ id ∈ dels, id.page = DATA_START_PAGE ∧ 0 ≤ id.slot ∧
      id.slot < rel.header.slotsPerPage ∧ occ id.slot) →
    (deleteAll rel dels).1 = RC_OK ∧
    (deleteAll rel dels).2.header.slotsPerPage = rel.header.slotsPerPage ∧
    OnePage (deleteAll rel dels).2 (fun t => occ t ∧ (⟨DATA_START_PAGE, t⟩ : RID) ∉ dels) := by
  induction dels with
  | nil =>
    intro rel occ h _ _
    exact ⟨rfl, rfl, h.congr (fun t _ _ => by simp)⟩
  | cons id rest ih =>
    intro rel occ h hnd hall
    obtain ⟨p, s⟩ := id
    obtain ⟨hp, hs0, hs, hocc⟩ := hall ⟨p, s⟩ (List.mem_cons_self _ _)
    simp only at hp hs0 hs hocc
    subst hp
    obtain ⟨d1, d2, d3⟩ := delete_onePage rel occ s h hs0 hs hocc
    rw [List.nodup_cons] at hnd
    obtain ⟨r1, r2, r3⟩ := ih (deleteRecord rel ⟨DATA_START_PAGE, s⟩).2 (fun t => t ≠ s ∧ occ t)
      d3 hnd.2 (by
        intro id hid
        obtain ⟨a1, a2, a3, a4⟩ := hall id (List.mem_cons_of_mem _ hid)
        refine ⟨a1, a2, by rw [d2]; exact a3, ?_, a4⟩
        intro hslot
        apply hnd.1
        have : id = ⟨DATA_START_PAGE, s⟩ := by
          cases id; simp only at a1 hslot; simp [a1, hslot]
        rw [← this]; exact hid)
    have hstep : deleteAll rel (⟨DATA_START_PAGE, s⟩ :: rest) =
        deleteAll (deleteRecord rel ⟨DATA_START_PAGE, s⟩).2 rest := by
      simp only [deleteAll, d1, ne_eq, not_true_eq_false, if_false]
    rw [hstep]
    refine ⟨r1, by rw [r2, d2], r3.congr ?_⟩
    intro t _ _
    simp only [List.mem_cons, not_or, RID.mk.injEq, true_and]
    tauto

/-- C6, as the code has it (slot reuse in a table that has not grown). For every number K of
records that fits in one page (K ≤ slotsPerPage), in a freshly created table with succeeding
buffer-manager calls: the K inserts succeed, deleting the K ids in any order succeeds, and
the next `insertRecord` assigns an id whose page is DATA_START_PAGE. -/
theorem slot_reuse_without_growth (env : BM_BufferPool) (schema : Schema)
    (name : List Nat) (records : List Record) (dels : List RID) (r : Record)
    (henv : env.faults = []) (hc : (createTable env schema).map Prod.fst = some RC_OK)
    (hK : (records.length : Int) ≤ (freshTable env schema name).header.slotsPerPage)
    (hperm : dels.Perm (insertAll (freshTable env schema name) records).2.2) :
    (insertAll (freshTable env schema name) records).1 = RC_OK ∧
    (deleteAll (insertAll (freshTable env schema name) records).2.1 dels).1 = RC_OK ∧
    (insertRecord (deleteAll (insertAll (freshTable env schema name) records).2.1 dels).2 r).1
      = RC_OK ∧
    (insertRecord (deleteAll (insertAll (freshTable env schema name) records).2.1
      dels).2 r).2.2.id.page = DATA_START_PAGE := by
  obtain ⟨hfresh, -, -⟩ := freshTable_onePage env schema name henv hc
  obtain ⟨a1, a2, a3, a4⟩ := insertAll_onePage records (freshTable env schema name) 0
    (hfresh.congr (fun t h0 _ => ⟨fun h => h.elim, fun h => by omega⟩)) (le_refl _) (by omega)
  have hmem : ∀ id ∈ dels, ∃ j : Nat, j < records.length ∧ id = ⟨DATA_START_PAGE, 0 + (j : Int)⟩ := by
    intro id hid
    have := hperm.mem_iff.mp hid
    rw [a2] at this
    obtain ⟨j, hj, rfl⟩ := List.mem_map.mp this
    exact ⟨j, List.mem_range.mp hj, rfl⟩
  have hnd : dels.Nodup := by
    apply hperm.nodup_iff.mpr
    rw [a2]
    apply (List.nodup_range _).map
    intro a b hab
    simp only [RID.mk.injEq, true_and] at hab
    omega
  obtain ⟨d1, d2, d3⟩ := deleteAll_onePage dels _ _ a4 hnd (by
    intro id hid
    obtain ⟨j, hj, rfl⟩ := hmem id hid
    rw [a3]
    exact ⟨rfl, by simp only; omega, by simp only; omega, by simp only; omega⟩)
  have hspp := d3.2.1.1
  obtain ⟨f1, f2, -, -⟩ := insert_onePage _ r _ 0 d3 (le_refl _) (by omega) (by
    rintro ⟨hlt, hnot⟩
    apply hnot
    apply hperm.mem_iff.mpr
    rw [a2]
    have h0 : (0 : Int) < (records.length : Int) := by simpa using hlt
    exact List.mem_map.mpr ⟨0, List.mem_range.mpr (by omega), by simp⟩)
    (fun t h0 h1 => by omega)
  exact ⟨a1, d1, f1, by rw [f2]⟩

theorem slot_reuse_without_growth_witness :
    (insertAll (freshTable env0 schemaS1 [116]) [recordS1, recordS1]).1 = RC_OK ∧
    (deleteAll (insertAll (freshTable env0 schemaS1 [116]) [recordS1, recordS1]).2.1
      [⟨1, 1⟩, ⟨1, 0⟩]).1 = RC_OK ∧
    (insertRecord (deleteAll (insertAll (freshTable env0 schemaS1 [116])
      [recordS1, recordS1]).2.1 [⟨1, 1⟩, ⟨1, 0⟩]).2 recordS1).1 = RC_OK ∧
    (insertRecord (deleteAll (insertAll (freshTable env0 schemaS1 [116])
      [recordS1, recordS1]).2.1 [⟨1, 1⟩, ⟨1, 0⟩]).2 recordS1).2.2.id.page = DATA_START_PAGE :=
  slot_reuse_without_growth env0 schemaS1 [116] [recordS1, recordS1] [⟨1, 1⟩, ⟨1, 0⟩]
    recordS1 rfl (by decide) (by decide) (List.Perm.swap _ _ _)

/-- C6 fails as stated when the file has grown: with one slot per page, two inserts into a
fresh table take the ids (1,0) and (2,0) and move the hint to page 2; after both are deleted
the next insert gets (2,0), not a slot of page DATA_START_PAGE. -/
theorem slot_reuse_counterexample :
    (createTable env0 schemaBig).map Prod.fst = some RC_OK ∧
    (insertAll (freshTable env0 schemaBig [116]) [⟨⟨-1, -1⟩, some zeroMem⟩,
      ⟨⟨-1, -1⟩, some zeroMem⟩]).1 = RC_OK ∧
    (insertAll (freshTable env0 schemaBig [116]) [⟨⟨-1, -1⟩, some zeroMem⟩,
      ⟨⟨-1, -1⟩, some zeroMem⟩]).2.2 = [⟨1, 0⟩, ⟨2, 0⟩] ∧
    (deleteAll (insertAll (freshTable env0 schemaBig [116]) [⟨⟨-1, -1⟩, some zeroMem⟩,
      ⟨⟨-1, -1⟩, some zeroMem⟩]).2.1 [⟨1, 0⟩, ⟨2, 0⟩]).1 = RC_OK ∧
    (insertRecord (deleteAll (insertAll (freshTable env0 schemaBig [116])
      [⟨⟨-1, -1⟩, some zeroMem⟩, ⟨⟨-1, -1⟩, some zeroMem⟩]).2.1 [⟨1, 0⟩, ⟨2, 0⟩]).2
      ⟨⟨-1, -1⟩, some zeroMem⟩).1 = RC_OK ∧
    (insertRecord (deleteAll (insertAll (freshTable env0 schemaBig [116])
      [⟨⟨-1, -1⟩, some zeroMem⟩, ⟨⟨-1, -1⟩, some zeroMem⟩]).2.1 [⟨1, 0⟩, ⟨2, 0⟩]).2
      ⟨⟨-1, -1⟩, some zeroMem⟩).2.2.id = ⟨2, 0⟩ ∧
    (insertRecord (deleteAll (insertAll (freshTable env0 schemaBig [116])
      [⟨⟨-1, -1⟩, some zeroMem⟩, ⟨⟨-1, -1⟩, some zeroMem⟩]).2.1 [⟨1, 0⟩, ⟨2, 0⟩]).2
      ⟨⟨-1, -1⟩, some zeroMem⟩).2.2.id.page ≠ DATA_START_PAGE := by
  decide


/-! ### Scans when every call succeeds -/

theorem memcpy_sized (r : Record) (rs : Int) (h : r.Sized rs) (pd : Mem) (off : Int) :
    memcpy r.buf 0 pd off rs = memcpy zeroMem 0 pd off rs := by
  funext k
  simp only [memcpy]
  split_ifs with hk
  · rfl
  · rw [h k (by omega)]; rfl

theorem slotRecord_sized (pages : Int → Mem) (m : TableMetadata) (rid : RID) :
    (slotRecord pages m rid).Sized m.recordSize := by
  intro k hk
  simp only [slotRecord, Record.buf, Option.getD_some, memcpy]
  rw [if_neg (by omega)]; rfl

/-- The inner loop of `next` on a pinned page: it stops at the first occupied slot at or after
the cursor whose record the condition accepts. -/
theorem nextSlotLoop_spec (schema : Schema) (cond : Option Expr) (m : TableMetadata)
    (pages : Int → Mem) (cp spp : Int) (pins unpins : Nat) (calls : List Int) (n : Nat) :
    ∀ (cs : Int) (record : Record), n = (spp - cs).toNat → record.Sized m.recordSize →
    (∀ rid ∈ scanSlots (pages cp) cp n cs, EvalsToBool schema cond (slotRecord pages m rid)) →
    ∃ rec', rec'.Sized m.recordSize ∧
      (((scanSlots (pages cp) cp n cs).filter
            (fun rid => accepts schema cond (slotRecord pages m rid)) = [] ∧
          nextSlotLoop schema cond m (pages cp) cp n ⟨pages, [], pins, unpins, calls⟩ cs record =
            some ⟨none, false, ⟨pages, [], pins, unpins, calls⟩, cp, cs + n, rec'⟩) ∨
        (∃ rid, (scanSlots (pages cp) cp n cs).filter
              (fun rid => accepts schema cond (slotRecord pages m rid)) =
            rid :: (scanSlots (pages cp) cp (spp - (rid.slot + 1)).toNat (rid.slot + 1)).filter
              (fun rid => accepts schema cond (slotRecord pages m rid)) ∧
          rid.page = cp ∧ cs ≤ rid.slot ∧ rid.slot < spp ∧
          nextSlotLoop schema cond m (pages cp) cp n ⟨pages, [], pins, unpins, calls⟩ cs record =
            some ⟨none, true, ⟨pages, [], pins, unpins, calls⟩, cp, rid.slot + 1,
              slotRecord pages m rid⟩)) := by
  induction n with
  | zero =>
    intro cs record _ hs _
    exact ⟨record, hs, Or.inl ⟨rfl, by simp [nextSlotLoop]⟩⟩
  | succ n ih =>
    intro cs record hn hs hev
    have hn' : n = (spp - (cs + 1)).toNat := by omega
    have he : cs + 1 + (n : Int) = cs + ((n + 1 : Nat) : Int) := by push_cast; omega
    unfold nextSlotLoop
    by_cases hocc : isSlotOccupied (pages cp) cs = true
    · have hlist : scanSlots (pages cp) cp (n + 1) cs =
          ⟨cp, cs⟩ :: scanSlots (pages cp) cp n (cs + 1) := by
        simp only [scanSlots, hocc, if_true]
      have hrec : ({ id := ⟨cp, cs⟩, data := some (memcpy record.buf 0 (pages cp)
            (getRecordOffset cs m.recordSize (getSlotMapSize m.slotsPerPage)) m.recordSize) }
            : Record) = slotRecord pages m ⟨cp, cs⟩ := by
        simp only [slotRecord, memcpy_sized record _ hs]
      have ha : (if record.data.isNone = true then envCall ⟨pages, [], pins, unpins, calls⟩
          else (RC_OK, ⟨pages, [], pins, unpins, calls⟩)) = (RC_OK, ⟨pages, [], pins, unpins, calls⟩) := by
        split_ifs <;> simp
      simp only [hocc, if_true, ha, ne_eq, not_true_eq_false, if_false, hrec]
      have hev0 := hev ⟨cp, cs⟩ (by rw [hlist]; exact List.mem_cons_self _ _)
      have hevrest : ∀ rid ∈ scanSlots (pages cp) cp n (cs + 1),
          EvalsToBool schema cond (slotRecord pages m rid) :=
        fun rid hrid => hev rid (by rw [hlist]; exact List.mem_cons_of_mem _ hrid)
      rcases cond with _ | c
      · refine ⟨record, hs, Or.inr ⟨⟨cp, cs⟩, ?_, rfl, le_refl _, by show cs < spp; omega, rfl⟩⟩
        rw [hlist, hn']
        simp [accepts]
      · obtain ⟨b, hb⟩ := hev0
        cases b <;>
          simp only [hb, ne_eq, not_true_eq_false, if_false, Option.some_bind, Value.unionBool]
        · -- rejected: the loop goes on with the next slot
          obtain ⟨rec', hs', hres⟩ := ih (cs + 1) (slotRecord pages m ⟨cp, cs⟩) hn'
            (slotRecord_sized pages m _) hevrest
          refine ⟨rec', hs', ?_⟩
          have hrej : accepts schema (some c) (slotRecord pages m ⟨cp, cs⟩) = false := by
            simp [accepts, hb]
          rw [hlist, List.filter_cons_of_neg (by simp [hrej])]
          rcases hres with ⟨h1, h2⟩ | ⟨rid, h1, h2, h3, h4, h5⟩
          · exact Or.inl ⟨h1, by rw [h2, he]⟩
          · exact Or.inr ⟨rid, h1, h2, by omega, h4, h5⟩
        · refine ⟨record, hs, Or.inr ⟨⟨cp, cs⟩, ?_, rfl, le_refl _, by show cs < spp; omega, rfl⟩⟩
          have hacc : accepts schema (some c) (slotRecord pages m ⟨cp, cs⟩) = true := by
            simp [accepts, hb]
          rw [hlist, List.filter_cons_of_pos (by simp [hacc]), hn']
    · simp only [Bool.not_eq_true] at hocc
      have hlist : scanSlots (pages cp) cp (n + 1) cs = scanSlots (pages cp) cp n (cs + 1) := by
        simp only [scanSlots, hocc, Bool.false_eq_true, if_false]
      simp only [hocc, Bool.false_eq_true, if_false]
      obtain ⟨rec', hs', hres⟩ := ih (cs + 1) record hn' hs (fun rid hrid => hev rid (by
        rw [hlist]; exact hrid))
      refine ⟨rec', hs', ?_⟩
      rw [hlist]
      rcases hres with ⟨h1, h2⟩ | ⟨rid, h1, h2, h3, h4, h5⟩
      · exact Or.inl ⟨h1, by rw [h2, he]⟩
      · exact Or.inr ⟨rid, h1, h2, by omega, h4, h5⟩


/-- The outer loop of `next`: it stops at the first occupied slot at or after the cursor whose
record the condition accepts, and leaves the cursor right after it. -/
theorem nextPageLoop_spec (schema : Schema) (cond : Option Expr) (m : TableMetadata)
    (pages : Int → Mem) (spp total : Int) (n : Nat) :
    ∀ (cp cs : Int) (pins unpins : Nat) (calls : List Int) (record : Record),
    n = (total - cp).toNat → record.Sized m.recordSize →
    (∀ rid ∈ scanPages pages spp n cp cs, EvalsToBool schema cond (slotRecord pages m rid)) →
    ∃ rec' pins' unpins' calls', rec'.Sized m.recordSize ∧
      (((scanPages pages spp n cp cs).filter
            (fun rid => accepts schema cond (slotRecord pages m rid)) = [] ∧
          ∃ cp' cs', nextPageLoop schema cond m spp n ⟨pages, [], pins, unpins, calls⟩ cp cs record =
            some ⟨none, false, ⟨pages, [], pins', unpins', calls'⟩, cp', cs', rec'⟩) ∨
        (∃ rid, (scanPages pages spp n cp cs).filter
              (fun rid => accepts schema cond (slotRecord pages m rid)) =
            rid :: (scanPages pages spp (total - rid.page).toNat rid.page (rid.slot + 1)).filter
              (fun rid => accepts schema cond (slotRecord pages m rid)) ∧
          nextPageLoop schema cond m spp n ⟨pages, [], pins, unpins, calls⟩ cp cs record =
            some ⟨none, true, ⟨pages, [], pins', unpins', calls'⟩, rid.page, rid.slot + 1,
              slotRecord pages m rid⟩)) := by
  induction n with
  | zero =>
    intro cp cs pins unpins calls record _ hs _
    exact ⟨record, pins, unpins, calls, hs, Or.inl ⟨rfl, cp, cs, by simp [nextPageLoop]⟩⟩
  | succ n ih =>
    intro cp cs pins unpins calls record hn hs hev
    have hn' : n = (total - (cp + 1)).toNat := by omega
    have hlist : scanPages pages spp (n + 1) cp cs =
        scanSlots (pages cp) cp (spp - cs).toNat cs ++ scanPages pages spp n (cp + 1) 0 := rfl
    obtain ⟨rec1, hs1, hin⟩ := nextSlotLoop_spec schema cond m pages cp spp (pins + 1) unpins
      (cp :: calls) (spp - cs).toNat cs record rfl hs (fun rid hrid => hev rid (by
        rw [hlist]; exact List.mem_append_left _ hrid))
    rw [nextPageLoop]
    simp only [pinPage_mk, ne_eq, not_true_eq_false, if_false]
    rcases hin with ⟨h1, h2⟩ | ⟨rid, h1, h2, h3, h4, h5⟩
    · rw [h2]
      simp only [unpinPage_mk, ne_eq, not_true_eq_false, if_false, Bool.false_eq_true]
      obtain ⟨rec', pins', unpins', calls', hs', hres⟩ := ih (cp + 1) 0 (pins + 1)
        (unpins + 1) (cp :: calls) rec1 hn'
        hs1 (fun rid hrid => hev rid (by rw [hlist]; exact List.mem_append_right _ hrid))
      refine ⟨rec', pins', unpins', calls', hs', ?_⟩
      rw [hlist, List.filter_append, h1, List.nil_append]
      exact hres
    · rw [h5]
      simp only [unpinPage_mk, ne_eq, not_true_eq_false, if_false, if_true]
      refine ⟨slotRecord pages m rid, pins + 1, unpins + 1, cp :: calls,
        slotRecord_sized pages m rid,
        Or.inr ⟨rid, ?_, by rw [h2]⟩⟩
      have hnt : (total - rid.page).toNat = n + 1 := by rw [h2]; omega
      rw [hlist, List.filter_append, h1, hnt, h2]
      simp only [scanPages, List.filter_append, List.cons_append]

theorem next_inactive (rel : RM_TableData) (sm : ScanManager) (record : Record)
    (h : sm.scanActive = false) :
    next rel ⟨some sm⟩ record = some (RC_RM_NO_MORE_TUPLES, rel, ⟨some sm⟩, record) := by
  simp [next, h]

theorem nextN_inactive (j : Nat) (rel : RM_TableData) (sm : ScanManager) (record : Record)
    (h : sm.scanActive = false) :
    nextN j rel ⟨some sm⟩ record =
      some (List.replicate j (RC_RM_NO_MORE_TUPLES, record), rel, ⟨some sm⟩) := by
  induction j with
  | zero => rfl
  | succ j ih => simp [nextN, next_inactive rel sm record h, ih, List.replicate_succ]

/-- One call of `next` on an active scan. -/
theorem next_spec (rel : RM_TableData) (sm : ScanManager) (record : Record)
    (hrel : rel.Reliable) (hact : sm.scanActive = true)
    (hs : record.Sized rel.header.recordSize)
    (hev : ∀ rid ∈ scanPages rel.pages sm.slotsPerPage (sm.totalPages - sm.currentPage).toNat
        sm.currentPage sm.currentSlot,
      EvalsToBool rel.schema sm.condition (slotRecord rel.pages rel.header rid)) :
    ∃ rel' sm' rec', rel'.Reliable ∧ rel'.pages = rel.pages ∧ rel'.schema = rel.schema ∧
      rec'.Sized rel.header.recordSize ∧ sm'.condition = sm.condition ∧
      sm'.totalPages = sm.totalPages ∧ sm'.slotsPerPage = sm.slotsPerPage ∧
      (((scanPages rel.pages sm.slotsPerPage (sm.totalPages - sm.currentPage).toNat
            sm.currentPage sm.currentSlot).filter
            (fun rid => accepts rel.schema sm.condition (slotRecord rel.pages rel.header rid))
            = [] ∧
          next rel ⟨some sm⟩ record = some (RC_RM_NO_MORE_TUPLES, rel', ⟨some sm'⟩, rec') ∧
          sm'.scanActive = false) ∨
        (∃ rid, (scanPages rel.pages sm.slotsPerPage (sm.totalPages - sm.currentPage).toNat
              sm.currentPage sm.currentSlot).filter
              (fun rid => accepts rel.schema sm.condition (slotRecord rel.pages rel.header rid))
            = rid :: (scanPages rel.pages sm'.slotsPerPage
                (sm'.totalPages - sm'.currentPage).toNat sm'.currentPage sm'.currentSlot).filter
              (fun rid => accepts rel.schema sm.condition (slotRecord rel.pages rel.header rid)) ∧
          next rel ⟨some sm⟩ record =
            some (RC_OK, rel', ⟨some sm'⟩, slotRecord rel.pages rel.header rid) ∧
          rec' = slotRecord rel.pages rel.header rid ∧
          sm'.scanActive = true ∧ sm'.currentPage = rid.page ∧
          sm'.currentSlot = rid.slot + 1)) := by
  obtain ⟨pages, pins, unpins, calls, n, hm⟩ := reliable_exists_mgr hrel
  have hpages : rel.pages = pages := by simp [RM_TableData.pages, RM_TableData.pool, hm]
  rw [hpages] at hev ⊢
  have hhdr : rel.header = loadMetadata (pages HEADER_PAGE) := by
    simp [RM_TableData.header, hpages]
  obtain ⟨rec', pins', unpins', calls', hs', hres⟩ := nextPageLoop_spec rel.schema sm.condition
    rel.header pages sm.slotsPerPage sm.totalPages (sm.totalPages - sm.currentPage).toNat
    sm.currentPage sm.currentSlot (pins + 1) (unpins + 1) (HEADER_PAGE :: calls) record rfl hs
    hev
  rw [hhdr] at hres
  rcases hres with ⟨h1, cp', cs', h2⟩ | ⟨rid, h1, h2⟩
  · refine ⟨rel.withMgr ⟨pages, [], pins', unpins', calls'⟩ n,
      { sm with currentPage := cp', currentSlot := cs', scanActive := false }, rec', ?_, ?_, ?_,
      hs', rfl, rfl, rfl, Or.inl ⟨by rw [hhdr]; exact h1, ?_, rfl⟩⟩
    · simp [RM_TableData.Reliable, RM_TableData.withMgr, RM_TableData.pool]
    · simp [RM_TableData.pages, RM_TableData.withMgr, RM_TableData.pool]
    · simp [RM_TableData.withMgr]
    · simp only [next, hact, hm, readHeader_mk, envCall_mk, h2]
      simp
  · refine ⟨rel.withMgr ⟨pages, [], pins', unpins', calls'⟩ n,
      { sm with currentPage := rid.page, currentSlot := rid.slot + 1 }, slotRecord pages
        (loadMetadata (pages HEADER_PAGE)) rid, ?_, ?_, ?_,
      by rw [hhdr]; exact slotRecord_sized _ _ _, rfl, rfl, rfl,
      Or.inr ⟨rid, by rw [hhdr]; exact h1, ?_, by rw [hhdr], hact, rfl, rfl⟩⟩
    · simp [RM_TableData.Reliable, RM_TableData.withMgr, RM_TableData.pool]
    · simp [RM_TableData.pages, RM_TableData.withMgr, RM_TableData.pool]
    · simp [RM_TableData.withMgr]
    · simp only [next, hact, hm, readHeader_mk, envCall_mk, h2, hhdr]
      simp


theorem mem_scanSlots (pd : Mem) (p : Int) (n : Nat) : ∀ (cs : Int) (rid : RID),
    rid ∈ scanSlots pd p n cs ↔
      rid.page = p ∧ cs ≤ rid.slot ∧ rid.slot < cs + n ∧ isSlotOccupied pd rid.slot = true := by
  induction n with
  | zero => intro cs rid; simp [scanSlots]; intros; omega
  | succ n ih =>
    intro cs rid
    unfold scanSlots
    by_cases hocc : isSlotOccupied pd cs = true
    · simp only [hocc, if_true, List.mem_cons, ih]
      constructor
      · rintro (rfl | ⟨h1, h2, h3, h4⟩)
        · exact ⟨rfl, le_refl _, by push_cast; omega, hocc⟩
        · exact ⟨h1, by omega, by push_cast; omega, h4⟩
      · rintro ⟨h1, h2, h3, h4⟩
        rcases eq_or_lt_of_le h2 with heq | hlt
        · left; cases rid; simp only at h1 heq; simp [h1, heq]
        · right; exact ⟨h1, by omega, by push_cast at h3; omega, h4⟩
    · simp only [hocc, Bool.false_eq_true, if_false, ih]
      constructor
      · rintro ⟨h1, h2, h3, h4⟩
        exact ⟨h1, by omega, by push_cast; omega, h4⟩
      · rintro ⟨h1, h2, h3, h4⟩
        rcases eq_or_lt_of_le h2 with heq | hlt
        · rw [← heq] at h4; exact absurd h4 hocc
        · exact ⟨h1, by omega, by push_cast at h3; omega, h4⟩

theorem mem_scanPages (pages : Int → Mem) (spp : Int) (n : Nat) : ∀ (cp cs : Int) (rid : RID),
    0 ≤ cs →
    (rid ∈ scanPages pages spp n cp cs ↔
      isSlotOccupied (pages rid.page) rid.slot = true ∧ rid.slot < spp ∧
        ((rid.page = cp ∧ cs ≤ rid.slot ∧ 0 < n) ∨
          (cp < rid.page ∧ rid.page < cp + n ∧ 0 ≤ rid.slot))) := by
  induction n with
  | zero => intro cp cs rid _; simp [scanPages]; intros; omega
  | succ n ih =>
    intro cp cs rid hcs
    simp only [scanPages, List.mem_append, mem_scanSlots, ih (cp + 1) 0 rid (le_refl _)]
    constructor
    · rintro (⟨h1, h2, h3, h4⟩ | ⟨h1, h2, h3 | h3⟩)
      · exact ⟨by rw [h1]; exact h4, by omega, Or.inl ⟨h1, h2, by omega⟩⟩
      · exact ⟨h1, h2, Or.inr ⟨by omega, by push_cast; omega, h3.2.1⟩⟩
      · exact ⟨h1, h2, Or.inr ⟨by omega, by push_cast; omega, h3.2.2⟩⟩
    · rintro ⟨h1, h2, ⟨h3, h4, -⟩ | ⟨h3, h4, h5⟩⟩
      · left; exact ⟨h3, h4, by omega, by rw [← h3]; exact h1⟩
      · right
        refine ⟨h1, h2, ?_⟩
        rcases eq_or_lt_of_le (show cp + 1 ≤ rid.page by omega) with heq | hlt
        · left; exact ⟨heq.symm, h5, by push_cast at h4; omega⟩
        · right; exact ⟨hlt, by push_cast at h4; omega, h5⟩

theorem pairwise_scanSlots (pd : Mem) (p : Int) (n : Nat) : ∀ (cs : Int),
    (scanSlots pd p n cs).Pairwise RID.lt := by
  induction n with
  | zero => intro cs; simp [scanSlots]
  | succ n ih =>
    intro cs
    unfold scanSlots
    split_ifs
    · refine List.pairwise_cons.mpr ⟨?_, ih _⟩
      intro rid hrid
      obtain ⟨h1, h2, -, -⟩ := (mem_scanSlots pd p n (cs + 1) rid).mp hrid
      exact Or.inr ⟨h1.symm, by simp only; omega⟩
    · exact ih _

theorem pairwise_scanPages (pages : Int → Mem) (spp : Int) (n : Nat) : ∀ (cp cs : Int),
    (scanPages pages spp n cp cs).Pairwise RID.lt := by
  induction n with
  | zero => intro cp cs; simp [scanPages]
  | succ n ih =>
    intro cp cs
    simp only [scanPages]
    refine List.pairwise_append.mpr ⟨pairwise_scanSlots _ _ _ _, ih _ _, ?_⟩
    intro a ha b hb
    obtain ⟨h1, -⟩ := (mem_scanSlots _ _ _ _ a).mp ha
    have hb' := (mem_scanPages pages spp n (cp + 1) 0 b (le_refl _)).mp hb
    left
    rcases hb'.2.2 with h | h <;> omega

/-- The occupied slots of the data pages, each once, in ascending page/slot order. -/
theorem occupiedRIDs_spec (pages : Int → Mem) (m : TableMetadata) :
    (∀ rid, rid ∈ occupiedRIDs pages m ↔
      (DATA_START_PAGE ≤ rid.page ∧ rid.page < m.numPages ∧ 0 ≤ rid.slot ∧
        rid.slot < m.slotsPerPage ∧ isSlotOccupied (pages rid.page) rid.slot = true)) ∧
    (occupiedRIDs pages m).Pairwise RID.lt := by
  refine ⟨?_, pairwise_scanPages _ _ _ _ _⟩
  intro rid
  unfold occupiedRIDs
  rw [mem_scanPages _ _ _ _ _ _ (le_refl _)]
  simp only [DATA_START_PAGE]
  constructor
  · rintro ⟨h1, h2, ⟨h3, h4, h5⟩ | ⟨h3, h4, h5⟩⟩
    · exact ⟨by omega, by omega, h4, h2, h1⟩
    · exact ⟨by omega, by omega, h5, h2, h1⟩
  · rintro ⟨h1, h2, h3, h4, h5⟩
    refine ⟨h5, h4, ?_⟩
    rcases eq_or_lt_of_le h1 with heq | hlt
    · left; exact ⟨heq.symm, h3, by omega⟩
    · right; exact ⟨hlt, by omega, h3⟩


theorem startScan_nil (rel : RM_TableData) (scan0 : RM_ScanHandle) (cond : Option Expr)
    (hrel : rel.Reliable) :
    (startScan rel scan0 cond).1 = RC_OK ∧
    (startScan rel scan0 cond).2.1.Reliable ∧
    (startScan rel scan0 cond).2.1.pages = rel.pages ∧
    (startScan rel scan0 cond).2.1.schema = rel.schema ∧
    getNumTuples (startScan rel scan0 cond).2.1 = getNumTuples rel ∧
    (startScan rel scan0 cond).2.2 =
      ⟨some { currentRID := ⟨0, 0⟩, condition := cond, scanActive := true,
              currentPage := DATA_START_PAGE, currentSlot := 0,
              totalPages := rel.header.numPages, slotsPerPage := rel.header.slotsPerPage }⟩ := by
  obtain ⟨pages, pins, unpins, calls, n, hm⟩ := reliable_exists_mgr hrel
  simp [startScan, hm, RM_TableData.Reliable, RM_TableData.withMgr, RM_TableData.pool,
    RM_TableData.pages, RM_TableData.header, getNumTuples]

theorem header_congr (rel rel' : RM_TableData) (h : rel'.pages = rel.pages) :
    rel'.header = rel.header := by
  simp only [RM_TableData.header, h]

/-- Successive calls of `next` yield the accepted occupied slots from the cursor on, then
RC_RM_NO_MORE_TUPLES for ever. -/
theorem nextN_spec (F : List RID) : ∀ (rel : RM_TableData) (sm : ScanManager) (record : Record),
    rel.Reliable → sm.scanActive = true → record.Sized rel.header.recordSize →
    1 ≤ sm.currentPage → 0 ≤ sm.currentSlot → sm.totalPages = rel.header.numPages →
    sm.slotsPerPage = rel.header.slotsPerPage →
    (∀ rid ∈ occupiedRIDs rel.pages rel.header,
      EvalsToBool rel.schema sm.condition (slotRecord rel.pages rel.header rid)) →
    (scanPages rel.pages sm.slotsPerPage (sm.totalPages - sm.currentPage).toNat
      sm.currentPage sm.currentSlot).filter
      (fun rid => accepts rel.schema sm.condition (slotRecord rel.pages rel.header rid)) = F →
    ∀ j, ∃ rel' sm' rec',
      nextN (F.length + 1 + j) rel ⟨some sm⟩ record =
        some (F.map (fun rid => (RC_OK, slotRecord rel.pages rel.header rid)) ++
          List.replicate (j + 1) (RC_RM_NO_MORE_TUPLES, rec'), rel', ⟨some sm'⟩) ∧
      sm'.scanActive = false ∧ rel'.pages = rel.pages := by
  induction F with
  | nil =>
    intro rel sm record hrel hact hs hcp hcs htot hspp H hF j
    have hev : ∀ rid ∈ scanPages rel.pages sm.slotsPerPage
        (sm.totalPages - sm.currentPage).toNat sm.currentPage sm.currentSlot,
        EvalsToBool rel.schema sm.condition (slotRecord rel.pages rel.header rid) := by
      intro rid hrid
      apply H rid
      obtain ⟨m1, m2, m3⟩ := (mem_scanPages _ _ _ _ _ rid hcs).mp hrid
      apply (occupiedRIDs_spec rel.pages rel.header).1 rid |>.mpr
      simp only [DATA_START_PAGE]
      rcases m3 with ⟨h1, h2, h3⟩ | ⟨h1, h2, h3⟩
      · exact ⟨by omega, by omega, by omega, by omega, m1⟩
      · exact ⟨by omega, by omega, h3, by omega, m1⟩
    obtain ⟨rel', sm', rec', r1, r2, r3, r4, r5, r6, r7, hres⟩ :=
      next_spec rel sm record hrel hact hs hev
    rcases hres with ⟨h1, h2, h3⟩ | ⟨rid, h1, -⟩
    · refine ⟨rel', sm', rec', ?_, h3, r2⟩
      have e : ([] : List RID).length + 1 + j = j + 1 := by simp; omega
      rw [e]
      simp only [nextN, h2, nextN_inactive j rel' sm' rec' h3, List.map_nil, List.nil_append,
        List.replicate_succ]
    · rw [hF] at h1; exact absurd h1 (by simp)
  | cons rid0 F ih =>
    intro rel sm record hrel hact hs hcp hcs htot hspp H hF j
    have hev : ∀ rid ∈ scanPages rel.pages sm.slotsPerPage
        (sm.totalPages - sm.currentPage).toNat sm.currentPage sm.currentSlot,
        EvalsToBool rel.schema sm.condition (slotRecord rel.pages rel.header rid) := by
      intro rid hrid
      apply H rid
      obtain ⟨m1, m2, m3⟩ := (mem_scanPages _ _ _ _ _ rid hcs).mp hrid
      apply (occupiedRIDs_spec rel.pages rel.header).1 rid |>.mpr
      simp only [DATA_START_PAGE]
      rcases m3 with ⟨h1, h2, h3⟩ | ⟨h1, h2, h3⟩
      · exact ⟨by omega, by omega, by omega, by omega, m1⟩
      · exact ⟨by omega, by omega, h3, by omega, m1⟩
    obtain ⟨rel', sm', rec', r1, r2, r3, r4, r5, r6, r7, hres⟩ :=
      next_spec rel sm record hrel hact hs hev
    rcases hres with ⟨h1, -⟩ | ⟨rid, h1, h2, h3, h4, h5, h6⟩
    · rw [hF] at h1; exact absurd h1 (by simp)
    · rw [hF] at h1
      obtain ⟨hrid, hrest⟩ := List.cons.inj h1
      subst hrid
      subst h3
      have hmem : rid0 ∈ scanPages rel.pages sm.slotsPerPage
          (sm.totalPages - sm.currentPage).toNat sm.currentPage sm.currentSlot := by
        have : rid0 ∈ (scanPages rel.pages sm.slotsPerPage
          (sm.totalPages - sm.currentPage).toNat sm.currentPage sm.currentSlot).filter
          (fun rid => accepts rel.schema sm.condition (slotRecord rel.pages rel.header rid)) := by
          rw [hF]; exact List.mem_cons_self _ _
        exact List.mem_of_mem_filter this
      obtain ⟨m1, m2, m3⟩ := (mem_scanPages _ _ _ _ _ rid0 hcs).mp hmem
      have hhdr := header_congr rel rel' r2
      obtain ⟨rel'', sm'', rec'', q1, q2, q3⟩ := ih rel' sm'
        (slotRecord rel.pages rel.header rid0) r1 h4
        (by rw [hhdr]; exact r4) (by rw [h5]; rcases m3 with h | h <;> omega)
        (by rw [h6]; rcases m3 with h | h <;> omega) (by rw [r6, htot, hhdr])
        (by rw [r7, hspp, hhdr]) (by rw [r2, r3, r5, hhdr]; exact H)
        (by rw [r2, r3, r5, hhdr]; exact hrest.symm) j
      refine ⟨rel'', sm'', rec'', ?_, q2, by rw [q3, r2]⟩
      have e : (rid0 :: F).length + 1 + j = (F.length + 1 + j) + 1 := by simp; omega
      rw [e]
      simp only [nextN, h2, q1, List.map_cons, List.cons_append, r2, hhdr]

/-- A scan from `startScan` on: the calls of `next` yield the accepted occupied slots in
page/slot order, then RC_RM_NO_MORE_TUPLES for ever, with the scan inactive. -/
theorem scanRun_spec (rel : RM_TableData) (scan0 : RM_ScanHandle) (cond : Option Expr)
    (record : Record) (j : Nat) (hrel : rel.Reliable)
    (hs : record.Sized rel.header.recordSize)
    (H : ∀ rid ∈ occupiedRIDs rel.pages rel.header,
      EvalsToBool rel.schema cond (slotRecord rel.pages rel.header rid)) :
    (startScan rel scan0 cond).1 = RC_OK ∧
    ∃ rel' scan' rec',
      scanRun rel scan0 cond record
          ((matchingRIDs rel.pages rel.header rel.schema cond).length + 1 + j) =
        some ((matchingRIDs rel.pages rel.header rel.schema cond).map
            (fun rid => (RC_OK, slotRecord rel.pages rel.header rid)) ++
          List.replicate (j + 1) (RC_RM_NO_MORE_TUPLES, rec'), rel', scan') ∧
      scan'.mgmtData.map (fun sm => sm.scanActive) = some false ∧ rel'.pages = rel.pages := by
  obtain ⟨s1, s2, s3, s4, -, s6⟩ := startScan_nil rel scan0 cond hrel
  have hhdr := header_congr rel _ s3
  obtain ⟨rel', sm', rec', q1, q2, q3⟩ := nextN_spec
    (matchingRIDs rel.pages rel.header rel.schema cond) (startScan rel scan0 cond).2.1
    { currentRID := ⟨0, 0⟩, condition := cond, scanActive := true,
      currentPage := DATA_START_PAGE, currentSlot := 0,
      totalPages := rel.header.numPages, slotsPerPage := rel.header.slotsPerPage }
    record s2 rfl (by rw [hhdr]; exact hs) (le_refl _) (le_refl _) (by rw [hhdr]) (by rw [hhdr])
    (by rw [s3, s4, hhdr]; exact H) (by rw [s3, s4, hhdr]; rfl) j
  refine ⟨s1, rel', ⟨some sm'⟩, rec', ?_, by simp [q2], by rw [q3, s3]⟩
  unfold scanRun
  rw [s6, q1, s3, hhdr]


theorem matchingRIDs_none (pages : Int → Mem) (m : TableMetadata) (schema : Schema) :
    matchingRIDs pages m schema none = occupiedRIDs pages m := by
  unfold matchingRIDs
  exact List.filter_eq_self.mpr (fun _ _ => rfl)

/-- C7 (scan coverage and order). In an open table with succeeding buffer-manager calls,
after `startScan` with a null predicate the successive calls of `next` (with a record variable
whose buffer is NULL or holds `recordSize` bytes) return RC_OK once for each occupied slot
`(page, slot)` with page in `[1, numPages)` and slot in `[0, slotsPerPage)`, in strictly
ascending page/slot order, each time with the slot's id and its `recordSize` data bytes; the
call after the last one returns RC_RM_NO_MORE_TUPLES and leaves the scan inactive, and so does
every later call. -/
theorem scan_coverage (rel : RM_TableData) (scan0 : RM_ScanHandle) (record : Record) (j : Nat)
    (hrel : rel.Reliable) (hs : record.Sized rel.header.recordSize) :
    (startScan rel scan0 none).1 = RC_OK ∧
    (∃ rel' scan' rec',
      scanRun rel scan0 none record ((occupiedRIDs rel.pages rel.header).length + 1 + j) =
        some ((occupiedRIDs rel.pages rel.header).map
            (fun rid => (RC_OK, slotRecord rel.pages rel.header rid)) ++
          List.replicate (j + 1) (RC_RM_NO_MORE_TUPLES, rec'), rel', scan') ∧
      scan'.mgmtData.map (fun sm => sm.scanActive) = some false) ∧
    (∀ rid, rid ∈ occupiedRIDs rel.pages rel.header ↔
      (DATA_START_PAGE ≤ rid.page ∧ rid.page < rel.header.numPages ∧ 0 ≤ rid.slot ∧
        rid.slot < rel.header.slotsPerPage ∧
        isSlotOccupied (rel.pages rid.page) rid.slot = true)) ∧
    (occupiedRIDs rel.pages rel.header).Pairwise RID.lt ∧
    (∀ rid k, 0 ≤ k → k < rel.header.recordSize →
      (slotRecord rel.pages rel.header rid).id = rid ∧
      (slotRecord rel.pages rel.header rid).buf k =
        rel.pages rid.page (rel.header.slotByte rid.slot k)) := by
  obtain ⟨s1, rel', scan', rec', s2, s3, -⟩ := scanRun_spec rel scan0 none record j hrel hs
    (fun _ _ => trivial)
  rw [matchingRIDs_none] at s2
  refine ⟨s1, ⟨rel', scan', rec', s2, s3⟩, (occupiedRIDs_spec _ _).1, (occupiedRIDs_spec _ _).2,
    ?_⟩
  intro rid k hk1 hk2
  refine ⟨rfl, ?_⟩
  simp only [slotRecord, Record.buf, Option.getD_some, memcpy, TableMetadata.slotByte]
  rw [if_pos ⟨hk1, by omega⟩]
  congr 1
  omega

theorem scan_coverage_witness :
    (startScan tableS4 ⟨none⟩ none).1 = RC_OK ∧
    (∃ rel' scan' rec',
      scanRun tableS4 ⟨none⟩ none ⟨⟨0, 0⟩, none⟩
          ((occupiedRIDs tableS4.pages tableS4.header).length + 1 + 1) =
        some ((occupiedRIDs tableS4.pages tableS4.header).map
            (fun rid => (RC_OK, slotRecord tableS4.pages tableS4.header rid)) ++
          List.replicate (1 + 1) (RC_RM_NO_MORE_TUPLES, rec'), rel', scan') ∧
      scan'.mgmtData.map (fun sm => sm.scanActive) = some false) ∧
    (∀ rid, rid ∈ occupiedRIDs tableS4.pages tableS4.header ↔
      (DATA_START_PAGE ≤ rid.page ∧ rid.page < tableS4.header.numPages ∧ 0 ≤ rid.slot ∧
        rid.slot < tableS4.header.slotsPerPage ∧
        isSlotOccupied (tableS4.pages rid.page) rid.slot = true)) ∧
    (occupiedRIDs tableS4.pages tableS4.header).Pairwise RID.lt ∧
    (∀ rid k, 0 ≤ k → k < tableS4.header.recordSize →
      (slotRecord tableS4.pages tableS4.header rid).id = rid ∧
      (slotRecord tableS4.pages tableS4.header rid).buf k =
        tableS4.pages rid.page (tableS4.header.slotByte rid.slot k)) :=
  scan_coverage tableS4 ⟨none⟩ ⟨⟨0, 0⟩, none⟩ 1 ⟨rfl, rfl⟩ (fun _ _ => rfl)

/-- Scans with a Bool-valued predicate. In an open table with succeeding buffer-manager
calls, for every predicate `P` whose evaluation returns RC_OK with a Bool value on every
stored record, the calls of `next` on a scan started with `P` return RC_OK exactly for the
stored records `r` with `evalExpr(r, schema, P)` the Bool value true, in page/slot order, and
RC_RM_NO_MORE_TUPLES from then on. -/
theorem scan_predicate (rel : RM_TableData) (scan0 : RM_ScanHandle) (cond : Expr)
    (record : Record) (j : Nat) (hrel : rel.Reliable)
    (hs : record.Sized rel.header.recordSize)
    (H : ∀ rid ∈ occupiedRIDs rel.pages rel.header,
      ∃ b, evalExpr (slotRecord rel.pages rel.header rid) rel.schema cond =
        some (RC_OK, some (.boolV b))) :
    (startScan rel scan0 (some cond)).1 = RC_OK ∧
    (∃ rel' scan' rec',
      scanRun rel scan0 (some cond) record
          ((matchingRIDs rel.pages rel.header rel.schema (some cond)).length + 1 + j) =
        some ((matchingRIDs rel.pages rel.header rel.schema (some cond)).map
            (fun rid => (RC_OK, slotRecord rel.pages rel.header rid)) ++
          List.replicate (j + 1) (RC_RM_NO_MORE_TUPLES, rec'), rel', scan') ∧
      scan'.mgmtData.map (fun sm => sm.scanActive) = some false) ∧
    (∀ rid, rid ∈ matchingRIDs rel.pages rel.header rel.schema (some cond) ↔
      (rid ∈ occupiedRIDs rel.pages rel.header ∧
        evalExpr (slotRecord rel.pages rel.header rid) rel.schema cond =
          some (RC_OK, some (.boolV true)))) ∧
    (matchingRIDs rel.pages rel.header rel.schema (some cond)).Pairwise RID.lt := by
  obtain ⟨s1, rel', scan', rec', s2, s3, -⟩ := scanRun_spec rel scan0 (some cond) record j hrel
    hs H
  refine ⟨s1, ⟨rel', scan', rec', s2, s3⟩, ?_, ?_⟩
  · intro rid
    simp [matchingRIDs, accepts, List.mem_filter]
  · exact (occupiedRIDs_spec _ _).2.sublist (List.filter_sublist _)

set_option maxRecDepth 100000 in
theorem scan_predicate_witness :
    ((startScan tableS4 ⟨none⟩ (some condS4)).1 = RC_OK ∧
    (∃ rel' scan' rec',
      scanRun tableS4 ⟨none⟩ (some condS4) ⟨⟨0, 0⟩, none⟩
          ((matchingRIDs tableS4.pages tableS4.header tableS4.schema (some condS4)).length
            + 1 + 0) =
        some ((matchingRIDs tableS4.pages tableS4.header tableS4.schema (some condS4)).map
            (fun rid => (RC_OK, slotRecord tableS4.pages tableS4.header rid)) ++
          List.replicate (0 + 1) (RC_RM_NO_MORE_TUPLES, rec'), rel', scan') ∧
      scan'.mgmtData.map (fun sm => sm.scanActive) = some false) ∧
    (∀ rid, rid ∈ matchingRIDs tableS4.pages tableS4.header tableS4.schema (some condS4) ↔
      (rid ∈ occupiedRIDs tableS4.pages tableS4.header ∧
        evalExpr (slotRecord tableS4.pages tableS4.header rid) tableS4.schema condS4 =
          some (RC_OK, some (.boolV true)))) ∧
    (matchingRIDs tableS4.pages tableS4.header tableS4.schema (some condS4)).Pairwise RID.lt) ∧
    occupiedRIDs tableS4.pages tableS4.header = [⟨1, 0⟩, ⟨1, 1⟩, ⟨1, 2⟩, ⟨1, 3⟩] ∧
    matchingRIDs tableS4.pages tableS4.header tableS4.schema (some condS4) =
      [⟨1, 0⟩, ⟨1, 1⟩] ∧
    (matchingRIDs tableS4.pages tableS4.header tableS4.schema (some condS4)).map
      (fun rid => (getAttr (slotRecord tableS4.pages tableS4.header rid) tableS4.schema 0).2) =
      [some (.intV 1), some (.intV 2)] :=
  ⟨scan_predicate tableS4 ⟨none⟩ condS4 ⟨⟨0, 0⟩, none⟩ 0 ⟨rfl, rfl⟩ (fun _ _ => rfl)
    (by decide), by decide, by decide, by decide⟩

set_option maxRecDepth 100000 in
/-- C8 (predicate correctness) at a predicate whose value is not a Bool. On a table for
`(k:INT, v:INT)` holding the single record `(1, 0x01010101)`, the predicate `AttrRef v`
evaluates with RC_OK (to an Int) on the stored record, so no stored record makes it the Bool
value true, yet the first call of `next` returns RC_OK with the record at (1,0): `next` reads
the union member `boolV` of the result without looking at its type tag. -/
theorem scan_accepts_nonbool_result :
    occupiedRIDs tableV.pages tableV.header = [⟨1, 0⟩] ∧
    evalExpr (slotRecord tableV.pages tableV.header ⟨1, 0⟩) tableV.schema (.attrRef 1) =
      some (RC_OK, some (.intV 16843009)) ∧
    (occupiedRIDs tableV.pages tableV.header).filter
      (fun rid => decide (evalExpr (slotRecord tableV.pages tableV.header rid) tableV.schema
        (.attrRef 1) = some (RC_OK, some (.boolV true)))) = [] ∧
    (scanRun tableV ⟨none⟩ (some (.attrRef 1)) ⟨⟨0, 0⟩, none⟩ 1).map
      (fun x => x.1.map (fun y => (y.1, y.2.id))) = some [(RC_OK, ⟨1, 0⟩)] := by
  decide


/-! ## Pins and unpins on every path -/

theorem draw_pinCount (bm : BM_BufferPool) : bm.draw.2.pinCount = bm.pinCount := by
  unfold BM_BufferPool.draw
  cases bm.faults <;> rfl

theorem pinPage_pinCount (bm : BM_BufferPool) (p : Int) :
    (pinPage bm p).2.pinCount = bm.pinCount + (if (pinPage bm p).1 = RC_OK then 1 else 0) := by
  have hd := draw_pinCount bm
  unfold pinPage
  by_cases h : bm.draw.1 = RC_OK
  · simp only [h, ne_eq, not_true_eq_false, if_false, if_true]
    simp only [BM_BufferPool.pinCount] at hd ⊢
    push_cast
    omega
  · simp only [ne_eq, h, not_false_eq_true, if_true, if_false]
    simp only [BM_BufferPool.pinCount] at hd ⊢
    omega

theorem unpinPage_pinCount (bm : BM_BufferPool) :
    (unpinPage bm).2.pinCount = bm.pinCount - 1 := by
  have hd := draw_pinCount bm
  simp only [unpinPage, BM_BufferPool.pinCount] at hd ⊢
  push_cast
  omega

theorem markDirty_pinCount (bm : BM_BufferPool) : (markDirty bm).2.pinCount = bm.pinCount :=
  draw_pinCount bm

theorem envCall_pinCount (bm : BM_BufferPool) : (envCall bm).2.pinCount = bm.pinCount :=
  draw_pinCount bm

theorem write_pinCount (bm : BM_BufferPool) (p : Int) (d : Mem) :
    (bm.write p d).pinCount = bm.pinCount := rfl

theorem pool_withMgr (rel : RM_TableData) (bm : BM_BufferPool) (n : Int) :
    (rel.withMgr bm n).pool = bm := rfl

theorem initializeHeader_pinCount (bm : BM_BufferPool) (schema : Schema)
    (metadata : TableMetadata) :
    (initializeHeader bm schema metadata).2.pinCount = bm.pinCount := by
  unfold initializeHeader
  dsimp only
  split_ifs <;>
    simp only [pinPage_pinCount, unpinPage_pinCount, markDirty_pinCount, write_pinCount] <;>
    split_ifs <;> first | omega | (exfalso; simp_all)

theorem readHeader_pinCount (bm : BM_BufferPool) (metadata : TableMetadata) :
    (readHeader bm metadata).2.1.pinCount = bm.pinCount := by
  unfold readHeader
  dsimp only
  split_ifs <;>
    simp only [pinPage_pinCount, unpinPage_pinCount, markDirty_pinCount, write_pinCount] <;>
    split_ifs <;> first | omega | (exfalso; simp_all)

theorem writeHeader_pinCount (bm : BM_BufferPool) (metadata : TableMetadata) :
    (writeHeader bm metadata).2.pinCount = bm.pinCount := by
  unfold writeHeader
  dsimp only
  split_ifs <;>
    simp only [pinPage_pinCount, unpinPage_pinCount, markDirty_pinCount, write_pinCount] <;>
    split_ifs <;> first | omega | (exfalso; simp_all)

theorem findFreeSlotLoop_pinCount (metadata : TableMetadata) (n : Nat) :
    ∀ (bm : BM_BufferPool) (currentPage : Int) (rid : RID),
      (findFreeSlotLoop metadata n bm currentPage rid).2.1.pinCount = bm.pinCount := by
  induction n with
  | zero => intro bm currentPage rid; rfl
  | succ n ih =>
    intro bm currentPage rid
    unfold findFreeSlotLoop
    dsimp only
    split_ifs <;> (try split) <;> (try rw [ih]) <;>
      simp only [pinPage_pinCount, unpinPage_pinCount] <;>
      split_ifs <;> first | omega | (exfalso; simp_all)

theorem findFreeSlot_pinCount (bm : BM_BufferPool) (metadata : TableMetadata) (rid : RID) :
    (findFreeSlot bm metadata rid).2.1.pinCount = bm.pinCount := by
  have hl := findFreeSlotLoop_pinCount metadata
    (metadata.numPages - metadata.firstFreePage).toNat bm metadata.firstFreePage rid
  unfold findFreeSlot
  dsimp only
  split_ifs <;>
    simp only [pinPage_pinCount, unpinPage_pinCount, markDirty_pinCount, write_pinCount,
      envCall_pinCount, writeHeader_pinCount, hl] <;>
    split_ifs <;> first | omega | (exfalso; simp_all)

theorem createTable_pinCount (env : BM_BufferPool) (schema : Schema) :
    ∀ r ∈ createTable env schema, r.2.pinCount = env.pinCount := by
  intro r hr
  have he : ∀ bm : BM_BufferPool,
      (envCall { bm with pages := fun _ => zeroMem }).2.pinCount = bm.pinCount :=
    fun bm => envCall_pinCount _
  unfold createTable at hr
  dsimp only at hr
  split_ifs at hr <;> simp only [Option.mem_def] at hr <;> cases hr <;>
    simp only [envCall_pinCount, initializeHeader_pinCount, he]

theorem openTable_pinCount (env : BM_BufferPool) (rel : RM_TableData) (name : List Nat) :
    (openTable env rel name).2.1.pinCount = env.pinCount := by
  unfold openTable
  dsimp only
  split_ifs <;>
    simp only [pinPage_pinCount, unpinPage_pinCount, envCall_pinCount, readHeader_pinCount] <;>
    (try split_ifs) <;> first | omega | (exfalso; simp_all)

theorem insertRecord_pinCount (rel : RM_TableData) (record : Record) :
    (insertRecord rel record).2.1.pool.pinCount = rel.pool.pinCount := by
  unfold insertRecord
  cases hm : rel.mgmtData with
  | none => simp only [hm]
  | some mgr =>
    have hp : rel.pool = mgr.bufferPool := by simp only [RM_TableData.pool, hm]
    rw [hp]
    dsimp only
    split_ifs <;>
      simp only [pool_withMgr, pinPage_pinCount, unpinPage_pinCount, markDirty_pinCount,
        write_pinCount, readHeader_pinCount, findFreeSlot_pinCount, writeHeader_pinCount] <;>
      (try split_ifs) <;> first | omega | (exfalso; simp_all)

theorem deleteRecord_pinCount (rel : RM_TableData) (id : RID) :
    (deleteRecord rel id).2.pool.pinCount = rel.pool.pinCount := by
  unfold deleteRecord
  cases hm : rel.mgmtData with
  | none => simp only [hm]
  | some mgr =>
    have hp : rel.pool = mgr.bufferPool := by simp only [RM_TableData.pool, hm]
    rw [hp]
    dsimp only
    split_ifs <;>
      simp only [pool_withMgr, pinPage_pinCount, unpinPage_pinCount, markDirty_pinCount,
        write_pinCount, readHeader_pinCount, writeHeader_pinCount] <;>
      (try split_ifs) <;> first | omega | (exfalso; simp_all)

theorem updateRecord_pinCount (rel : RM_TableData) (record : Record) :
    (updateRecord rel record).2.pool.pinCount = rel.pool.pinCount := by
  unfold updateRecord
  cases hm : rel.mgmtData with
  | none => simp only [hm]
  | some mgr =>
    have hp : rel.pool = mgr.bufferPool := by simp only [RM_TableData.pool, hm]
    rw [hp]
    dsimp only
    split_ifs <;>
      simp only [pool_withMgr, pinPage_pinCount, unpinPage_pinCount, markDirty_pinCount,
        write_pinCount, readHeader_pinCount] <;>
      (try split_ifs) <;> first | omega | (exfalso; simp_all)

theorem getRecord_pinCount (rel : RM_TableData) (id : RID) (record : Record) :
    (getRecord rel id record).2.1.pool.pinCount = rel.pool.pinCount := by
  unfold getRecord
  cases hm : rel.mgmtData with
  | none => simp only [hm]
  | some mgr =>
    have hp : rel.pool = mgr.bufferPool := by simp only [RM_TableData.pool, hm]
    rw [hp]
    dsimp only
    split_ifs <;>
      simp only [pool_withMgr, pinPage_pinCount, unpinPage_pinCount, readHeader_pinCount] <;>
      (try split_ifs) <;> first | omega | (exfalso; simp_all)

theorem startScan_pinCount (rel : RM_TableData) (scan : RM_ScanHandle) (cond : Option Expr) :
    (startScan rel scan cond).2.1.pool.pinCount = rel.pool.pinCount := by
  unfold startScan
  cases hm : rel.mgmtData with
  | none => simp only [hm]
  | some mgr =>
    have hp : rel.pool = mgr.bufferPool := by simp only [RM_TableData.pool, hm]
    rw [hp]
    dsimp only
    split_ifs <;> simp only [pool_withMgr, readHeader_pinCount]


theorem nextSlotLoop_pinCount (schema : Schema) (cond : Option Expr) (metadata : TableMetadata)
    (pageData : Mem) (currentPage : Int) (n : Nat) :
    ∀ (bm : BM_BufferPool) (currentSlot : Int) (record : Record) (r : ScanLoop),
      nextSlotLoop schema cond metadata pageData currentPage n bm currentSlot record = some r →
      r.bm.pinCount = bm.pinCount - (if r.ret.isSome then 1 else 0) := by
  induction n with
  | zero =>
    intro bm currentSlot record r h
    simp only [nextSlotLoop, Option.some.injEq] at h
    subst h
    simp
  | succ n ih =>
    intro bm currentSlot record r h
    unfold nextSlotLoop at h
    dsimp only at h
    split_ifs at h <;> (try split at h) <;> (try split at h) <;> (try split_ifs at h) <;>
      (try split at h) <;>
      first
      | (rw [ih _ _ _ _ h]
         try simp only [envCall_pinCount])
      | (cases h
         try simp [unpinPage_pinCount, envCall_pinCount])

theorem nextPageLoop_pinCount (schema : Schema) (cond : Option Expr) (metadata : TableMetadata)
    (slotsPerPage : Int) (n : Nat) :
    ∀ (bm : BM_BufferPool) (currentPage currentSlot : Int) (record : Record) (r : ScanLoop),
      nextPageLoop schema cond metadata slotsPerPage n bm currentPage currentSlot record
        = some r →
      r.bm.pinCount = bm.pinCount := by
  induction n with
  | zero =>
    intro bm currentPage currentSlot record r h
    simp only [nextPageLoop, Option.some.injEq] at h
    subst h
    rfl
  | succ n ih =>
    intro bm currentPage currentSlot record r h
    unfold nextPageLoop at h
    dsimp only at h
    split_ifs at h with h1
    · simp only [Option.some.injEq] at h
      subst h
      simp only [pinPage_pinCount]
      rw [if_neg h1]
      omega
    · have hp : (pinPage bm currentPage).2.pinCount = bm.pinCount + 1 := by
        rw [pinPage_pinCount, if_pos (not_not.mp h1)]
      split at h
      · exact absurd h (by simp)
      · rename_i r0 hr0
        have h0 := nextSlotLoop_pinCount _ _ _ _ _ _ _ _ _ _ hr0
        rw [hp] at h0
        split at h
        · rename_i rc hrc
          simp only [Option.some.injEq] at h
          subst h
          rw [h0, hrc]
          simp
        · rename_i hrc
          rw [hrc] at h0
          simp only [Option.isSome_none, Bool.false_eq_true, if_false] at h0
          split_ifs at h with h2 h3
          · simp only [Option.some.injEq] at h
            subst h
            simp only [unpinPage_pinCount, h0]
            omega
          · simp only [Option.some.injEq] at h
            subst h
            simp only [unpinPage_pinCount, h0]
            omega
          · rw [ih _ _ _ _ _ h, unpinPage_pinCount, h0]
            omega

theorem next_pinCount (rel : RM_TableData) (scan : RM_ScanHandle) (record : Record) :
    ∀ r ∈ next rel scan record, r.2.1.pool.pinCount = rel.pool.pinCount := by
  intro r h
  simp only [Option.mem_def] at h
  unfold next at h
  split at h
  · cases h; rfl
  · split_ifs at h with h1
    · cases h; rfl
    · split at h
      · exact absurd h (by simp)
      · rename_i mgr hm
        have hp : rel.pool = mgr.bufferPool := by simp only [RM_TableData.pool, hm]
        rw [hp]
        dsimp only at h
        split_ifs at h with h2 h3
        · cases h
          simp only [pool_withMgr, readHeader_pinCount]
        · cases h
          simp only [pool_withMgr, readHeader_pinCount, envCall_pinCount]
        · split at h
          · exact absurd h (by simp)
          · rename_i r0 hr0
            have h0 := nextPageLoop_pinCount _ _ _ _ _ _ _ _ _ _ hr0
            rw [envCall_pinCount, readHeader_pinCount] at h0
            split at h
            · cases h
              simp only [pool_withMgr, h0]
            · split_ifs at h <;> cases h <;> simp only [pool_withMgr, h0]


theorem nextSlotLoop_none_isSome (schema : Schema) (metadata : TableMetadata)
    (pageData : Mem) (currentPage : Int) (n : Nat) :
    ∀ (bm : BM_BufferPool) (currentSlot : Int) (record : Record),
      (nextSlotLoop schema none metadata pageData currentPage n bm currentSlot record).isSome
        = true := by
  induction n with
  | zero => intro bm currentSlot record; rfl
  | succ n ih =>
    intro bm currentSlot record
    unfold nextSlotLoop
    dsimp only
    split_ifs <;> first | rfl | exact ih _ _ _

theorem nextPageLoop_none_isSome (schema : Schema) (metadata : TableMetadata)
    (slotsPerPage : Int) (n : Nat) :
    ∀ (bm : BM_BufferPool) (currentPage currentSlot : Int) (record : Record),
      (nextPageLoop schema none metadata slotsPerPage n bm currentPage currentSlot
        record).isSome = true := by
  induction n with
  | zero => intro bm currentPage currentSlot record; rfl
  | succ n ih =>
    intro bm currentPage currentSlot record
    unfold nextPageLoop
    dsimp only
    split_ifs with h1
    · rfl
    · have h0 := nextSlotLoop_none_isSome schema metadata
        ((pinPage bm currentPage).2.pages currentPage) currentPage
        (slotsPerPage - currentSlot).toNat (pinPage bm currentPage).2 currentSlot record
      split
      · rename_i hn
        rw [hn] at h0
        exact absurd h0 (by simp)
      · split
        · rfl
        · split_ifs <;> first | rfl | exact ih _ _ _ _

theorem next_none_isSome (rel : RM_TableData) (scan : RM_ScanHandle) (record : Record)
    (hrel : rel.mgmtData.isSome = true)
    (hc : ∀ sm ∈ scan.mgmtData, sm.condition = none) :
    (next rel scan record).isSome = true := by
  unfold next
  split
  · rfl
  · rename_i sm hsm
    have hcn : sm.condition = none := hc sm hsm
    split_ifs
    · rfl
    · split
      · rename_i hn
        rw [hn] at hrel
        exact absurd hrel (by simp)
      · dsimp only
        split_ifs
        · rfl
        · rfl
        · rw [hcn]
          split
          · rename_i hn
            have h0 := nextPageLoop_none_isSome rel.schema
              (readHeader ‹RecordManager›.bufferPool TableMetadata.uninit).2.2 sm.slotsPerPage
              (sm.totalPages - sm.currentPage).toNat
              (envCall (readHeader ‹RecordManager›.bufferPool TableMetadata.uninit).2.1).2
              sm.currentPage sm.currentSlot record
            rw [hn] at h0
            exact absurd h0 (by simp)
          · split
            · rfl
            · split_ifs <;> rfl

/-- C10 (no pin leaks). With the buffer pool as a pin counter (`pinCount`: one up for every
`pinPage` that succeeded, one down for every `unpinPage` issued) and every call into the
buffer manager, the storage manager and the allocator free to fail, the pin count on return
equals the pin count on entry for `initializeHeader` (and `createTable` around it),
`readHeader`, `writeHeader`, `findFreeSlot`, `openTable`, `insertRecord`, `deleteRecord`,
`updateRecord`, `getRecord`, `startScan` and `next`, whatever the return code; `next` is
covered on every path on which it returns, and on an open table it always returns when the
scan has no predicate. -/
theorem no_pin_leaks :
    (∀ bm schema metadata, (initializeHeader bm schema metadata).2.pinCount = bm.pinCount) ∧
    (∀ env schema, ∀ r ∈ createTable env schema, r.2.pinCount = env.pinCount) ∧
    (∀ bm metadata, (readHeader bm metadata).2.1.pinCount = bm.pinCount) ∧
    (∀ bm metadata, (writeHeader bm metadata).2.pinCount = bm.pinCount) ∧
    (∀ bm metadata rid, (findFreeSlot bm metadata rid).2.1.pinCount = bm.pinCount) ∧
    (∀ env rel name, (openTable env rel name).2.1.pinCount = env.pinCount) ∧
    (∀ rel record, (insertRecord rel record).2.1.pool.pinCount = rel.pool.pinCount) ∧
    (∀ rel id, (deleteRecord rel id).2.pool.pinCount = rel.pool.pinCount) ∧
    (∀ rel record, (updateRecord rel record).2.pool.pinCount = rel.pool.pinCount) ∧
    (∀ rel id record, (getRecord rel id record).2.1.pool.pinCount = rel.pool.pinCount) ∧
    (∀ rel scan cond, (startScan rel scan cond).2.1.pool.pinCount = rel.pool.pinCount) ∧
    (∀ rel scan record, ∀ r ∈ next rel scan record, r.2.1.pool.pinCount = rel.pool.pinCount) ∧
    (∀ rel scan record, rel.mgmtData.isSome = true →
      (∀ sm ∈ scan.mgmtData, sm.condition = none) → (next rel scan record).isSome = true) :=
  ⟨initializeHeader_pinCount, createTable_pinCount, readHeader_pinCount, writeHeader_pinCount,
    findFreeSlot_pinCount, openTable_pinCount, insertRecord_pinCount, deleteRecord_pinCount,
    updateRecord_pinCount, getRecord_pinCount, startScan_pinCount, next_pinCount,
    next_none_isSome⟩


/-! ## Counting occupied slots -/

theorem nodup_of_pairwise_lt {l : List RID} (h : l.Pairwise RID.lt) : l.Nodup := by
  refine h.imp ?_
  intro a b hab heq
  subst heq
  rcases hab with h1 | ⟨_, h2⟩ <;> omega

theorem length_succ_of_mem_iff {l l2 : List RID} (rid0 : RID) (hl : l.Pairwise RID.lt)
    (hl2 : l2.Pairwise RID.lt) (h0 : ¬ rid0 ∈ l) (h : ∀ a, a ∈ l2 ↔ a = rid0 ∨ a ∈ l) :
    l2.length = l.length + 1 := by
  have hp : l2.Perm (rid0 :: l) :=
    (List.perm_ext_iff_of_nodup (nodup_of_pairwise_lt hl2)
      (List.nodup_cons.mpr ⟨h0, nodup_of_pairwise_lt hl⟩)).mpr
      (fun a => by rw [h a, List.mem_cons])
  rw [hp.length_eq]
  rfl

theorem length_eq_of_mem_iff {l l2 : List RID} (hl : l.Pairwise RID.lt)
    (hl2 : l2.Pairwise RID.lt) (h : ∀ a, a ∈ l2 ↔ a ∈ l) : l2.length = l.length :=
  ((List.perm_ext_iff_of_nodup (nodup_of_pairwise_lt hl2) (nodup_of_pairwise_lt hl)).mpr
    h).length_eq

/-- Setting the bit of one free in-range slot adds one to the number of occupied slots. -/
theorem occupied_length_set (pages pages2 : Int → Mem) (m m2 : TableMetadata) (rid0 : RID)
    (hnp : m2.numPages = m.numPages) (hspp : m2.slotsPerPage = m.slotsPerPage)
    (hr : m.InRange rid0)
    (hfree : isSlotOccupied (pages rid0.page) rid0.slot = false)
    (hbits : ∀ p s, DATA_START_PAGE ≤ p → p < m.numPages → 0 ≤ s → s < m.slotsPerPage →
      isSlotOccupied (pages2 p) s =
        if p = rid0.page ∧ s = rid0.slot then true else isSlotOccupied (pages p) s) :
    (occupiedRIDs pages2 m2).length = (occupiedRIDs pages m).length + 1 := by
  obtain ⟨r1, r2, r3, r4⟩ := hr
  refine length_succ_of_mem_iff rid0 (occupiedRIDs_spec pages m).2
    (occupiedRIDs_spec pages2 m2).2 ?_ ?_
  · rw [(occupiedRIDs_spec pages m).1]
    rintro ⟨-, -, -, -, h⟩
    rw [hfree] at h
    exact absurd h (by simp)
  · intro a
    rw [(occupiedRIDs_spec pages m).1, (occupiedRIDs_spec pages2 m2).1, hnp, hspp]
    constructor
    · rintro ⟨a1, a2, a3, a4, a5⟩
      rw [hbits _ _ a1 a2 a3 a4] at a5
      by_cases hc : a.page = rid0.page ∧ a.slot = rid0.slot
      · left
        cases a; cases rid0
        simp only [RID.mk.injEq]
        exact hc
      · rw [if_neg hc] at a5
        exact Or.inr ⟨a1, a2, a3, a4, a5⟩
    · rintro (rfl | ⟨a1, a2, a3, a4, a5⟩)
      · refine ⟨r1, r2, r3, r4, ?_⟩
        rw [hbits _ _ r1 r2 r3 r4, if_pos ⟨rfl, rfl⟩]
      · refine ⟨a1, a2, a3, a4, ?_⟩
        rw [hbits _ _ a1 a2 a3 a4]
        split_ifs
        · rfl
        · exact a5

/-- A new page whose only occupied slot is slot 0 adds one to the number of occupied
slots. -/
theorem occupied_length_grow (pages pages2 : Int → Mem) (m m2 : TableMetadata)
    (hnp : m2.numPages = m.numPages + 1) (hspp : m2.slotsPerPage = m.slotsPerPage)
    (h1 : DATA_START_PAGE ≤ m.numPages) (h2 : 1 ≤ m.slotsPerPage)
    (hold : ∀ p s, DATA_START_PAGE ≤ p → p < m.numPages → 0 ≤ s → s < m.slotsPerPage →
      isSlotOccupied (pages2 p) s = isSlotOccupied (pages p) s)
    (hnew : ∀ s, 0 ≤ s → s < m.slotsPerPage →
      isSlotOccupied (pages2 m.numPages) s = decide (s = 0)) :
    (occupiedRIDs pages2 m2).length = (occupiedRIDs pages m).length + 1 := by
  refine length_succ_of_mem_iff ⟨m.numPages, 0⟩ (occupiedRIDs_spec pages m).2
    (occupiedRIDs_spec pages2 m2).2 ?_ ?_
  · rw [(occupiedRIDs_spec pages m).1]
    rintro ⟨-, h, -⟩
    simp only at h
    omega
  · intro a
    rw [(occupiedRIDs_spec pages m).1, (occupiedRIDs_spec pages2 m2).1, hnp, hspp]
    constructor
    · rintro ⟨a1, a2, a3, a4, a5⟩
      by_cases hc : a.page = m.numPages
      · left
        rw [hc, hnew _ a3 a4] at a5
        cases a
        simp only [RID.mk.injEq]
        exact ⟨hc, of_decide_eq_true a5⟩
      · have a2b : a.page < m.numPages := by omega
        rw [hold _ _ a1 a2b a3 a4] at a5
        exact Or.inr ⟨a1, a2b, a3, a4, a5⟩
    · rintro (rfl | ⟨a1, a2, a3, a4, a5⟩)
      · refine ⟨h1, by simp only; omega, le_refl _, by simp only; omega, ?_⟩
        rw [hnew _ (le_refl _) (by omega)]
        rfl
      · refine ⟨a1, by omega, a3, a4, ?_⟩
        rw [hold _ _ a1 a2 a3 a4]
        exact a5

/-- Writes that leave the bits of the in-range slots alone leave the number of occupied
slots alone. -/
theorem occupied_length_same (pages pages2 : Int → Mem) (m m2 : TableMetadata)
    (hnp : m2.numPages = m.numPages) (hspp : m2.slotsPerPage = m.slotsPerPage)
    (hbits : ∀ p s, DATA_START_PAGE ≤ p → p < m.numPages → 0 ≤ s → s < m.slotsPerPage →
      isSlotOccupied (pages2 p) s = isSlotOccupied (pages p) s) :
    (occupiedRIDs pages2 m2).length = (occupiedRIDs pages m).length := by
  refine length_eq_of_mem_iff (occupiedRIDs_spec pages m).2 (occupiedRIDs_spec pages2 m2).2 ?_
  intro a
  rw [(occupiedRIDs_spec pages m).1, (occupiedRIDs_spec pages2 m2).1, hnp, hspp]
  constructor
  · rintro ⟨a1, a2, a3, a4, a5⟩
    rw [hbits _ _ a1 a2 a3 a4] at a5
    exact ⟨a1, a2, a3, a4, a5⟩
  · rintro ⟨a1, a2, a3, a4, a5⟩
    exact ⟨a1, a2, a3, a4, by rw [hbits _ _ a1 a2 a3 a4]; exact a5⟩


/-! ## The write operations keep the tuple counts consistent -/

theorem fresh_sound (env : BM_BufferPool) (schema : Schema) (name : List Nat)
    (henv : env.faults = [])
    (hc : (createTable env schema).map Prod.fst = some RC_OK) :
    Sound (freshTable env schema name) := by
  obtain ⟨⟨o1, o2, o3, o4, o5⟩, g1, g2⟩ := freshTable_onePage env schema name henv hc
  obtain ⟨env1, hc1⟩ := createTable_ok env schema hc
  obtain ⟨c1, c2, c3, c4, c5⟩ := createTable_nil env schema env1 henv hc1
  obtain ⟨p1, p2, p3, p4, p5⟩ := openTable_nil env1 ⟨[], schema, none⟩ name c1
  have hf : freshTable env schema name = (openTable env1 ⟨[], schema, none⟩ name).2.2 := by
    simp only [freshTable, hc1]
  have hh : (freshTable env schema name).header = loadMetadata (env1.pages HEADER_PAGE) := by
    rw [hf]
    simp only [RM_TableData.header, p3]
  refine ⟨o1, o2, ?_, g2.trans g1.symm, ?_⟩
  · rw [hh, c2]
    dsimp only
    omega
  · rw [g1]
    have hnil : occupiedRIDs (freshTable env schema name).pages
        (freshTable env schema name).header = [] := by
      apply List.eq_nil_iff_forall_not_mem.mpr
      intro a ha
      rw [(occupiedRIDs_spec _ _).1] at ha
      obtain ⟨a1, a2, a3, a4, a5⟩ := ha
      rw [o4] at a2
      have hp : a.page = DATA_START_PAGE := by
        have : a.page < 2 := a2
        have : (1 : Int) ≤ a.page := a1
        show a.page = 1
        omega
      rw [hp] at a5
      exact (o5 a.slot a3 a4).mp a5
    rw [hnil]
    rfl

theorem insert_sound (rel : RM_TableData) (record : Record) (h : Sound rel)
    (h1 : getNumTuples rel < 2147483647) (h2 : rel.header.numPages < 2147483647) :
    Sound (insertRecord rel record).2.1 := by
  obtain ⟨hrel, hinv, hrs, c1, c2⟩ := h
  obtain ⟨i1, i2, i3, i4, -, -⟩ := insertRecord_nil rel record hrel
  have hn0 : 0 ≤ getNumTuples rel := by rw [c2]; exact Int.natCast_nonneg _
  have hw : wrap32 (getNumTuples rel + 1) = getNumTuples rel + 1 :=
    wrap32_of_range _ (by omega) (by omega)
  have hhdr : (insertRecord rel record).2.1.header =
      loadMetadata (insertPages rel.pages (getNumTuples rel) record HEADER_PAGE) := by
    simp only [RM_TableData.header, i3]
  have hinv0 := hinv
  obtain ⟨v1, v2, v3, v4, v5⟩ := hinv0
  have v3b : (2 : Int) ≤ rel.header.numPages := v3
  have v4b : (1 : Int) ≤ rel.header.firstFreePage := v4
  have hpne : ∀ p : Int, DATA_START_PAGE ≤ p → p ≠ HEADER_PAGE := by
    intro p hp h0; rw [h0] at hp; exact absurd hp (by decide)
  rcases insertPages_cases rel.pages (getNumTuples rel) record hinv with
    ⟨rid, hs, -, hh, hpg⟩ | ⟨hs, -, hh, hpg⟩
  · rw [hh, hw] at hhdr
    obtain ⟨s1, s2, s3, s4, s5, -, -⟩ := searchFree_some _ _ _ _ _ hs
    have s1b : rel.header.firstFreePage ≤ rid.page := s1
    have s2b : rid.page < rel.header.numPages := by
      have : rid.page < rel.header.firstFreePage +
          ((rel.header.numPages - rel.header.firstFreePage).toNat : Int) := s2
      rw [Int.toNat_of_nonneg (by omega)] at this
      omega
    have hcount := occupied_length_set rel.pages
      (insertPages rel.pages (getNumTuples rel) record) rel.header
      (insertRecord rel record).2.1.header rid (by rw [hhdr]; rfl) (by rw [hhdr]; rfl)
      ⟨by show (1 : Int) ≤ rid.page; omega, s2b, s3, s4⟩ s5
      (by
        intro p s hp1 hp2 hs0 hs1
        have hs1 : s < (loadMetadata (rel.pages HEADER_PAGE)).slotsPerPage := hs1
        rw [hpg p (hpne p hp1)]
        by_cases hp : p = rid.page
        · subst hp
          rw [if_pos rfl, isSlotOccupied_memcpy_slot _ _ _ _ _ _ s3 hs0 hs1,
            isSlotOccupied_markSlotOccupied _ _ _ s3 hs0]
          simp
        · rw [if_neg hp]
          simp [hp])
    refine ⟨i2, ?_, ?_, ?_, ?_⟩
    · rw [hhdr]; exact ⟨v1, v2, v3, v4, v5⟩
    · rw [hhdr]; exact hrs
    · rw [hhdr, i4]
    · rw [i4, i3, hcount, c2]
      push_cast
      rfl
  · have hwp : wrap32 (rel.header.numPages + 1) = rel.header.numPages + 1 :=
      wrap32_of_range _ (by omega) (by omega)
    have hwp2 : wrap32 ((loadMetadata (rel.pages HEADER_PAGE)).numPages + 1) =
        rel.header.numPages + 1 := hwp
    rw [hh, hw, hwp2] at hhdr
    have hspp : rel.header.slotsPerPage ≤ 4096 * 8 := by
      have hfit := v2
      have hm : 0 ≤ rel.header.slotsPerPage * rel.header.recordSize :=
        Int.mul_nonneg (by omega) hrs
      rw [getSlotMapSize_eq _ (by omega)] at hfit
      simp only [PAGE_SIZE] at hfit
      omega
    have hcount := occupied_length_grow rel.pages
      (insertPages rel.pages (getNumTuples rel) record) rel.header
      (insertRecord rel record).2.1.header (by rw [hhdr]) (by rw [hhdr]; rfl)
      (by show (1 : Int) ≤ rel.header.numPages; omega) v1
      (by
        intro p s hp1 hp2 hs0 hs1
        rw [hpg p (hpne p hp1), if_neg]
        exact fun hq => by
          have : p < rel.header.numPages := hp2
          have : p = rel.header.numPages := hq
          omega)
      (by
        intro s hs0 hs1
        have hs1b : s < (loadMetadata (rel.pages HEADER_PAGE)).slotsPerPage := hs1
        rw [hpg _ (hpne _ (by show (1 : Int) ≤ rel.header.numPages; omega))]
        have hq : rel.header.numPages = (loadMetadata (rel.pages HEADER_PAGE)).numPages := rfl
        rw [if_pos hq, isSlotOccupied_memcpy_slot _ _ _ _ _ _ (le_refl _) hs0 hs1b,
          isSlotOccupied_markSlotOccupied _ _ _ (le_refl _) hs0]
        by_cases h0 : s = 0
        · simp [h0]
        · rw [if_neg h0, isSlotOccupied_zero _ _ hs0]
          · simp [h0]
          · simp only [memset, PAGE_SIZE]
            rw [if_pos]
            constructor <;> omega)
    refine ⟨i2, ?_, ?_, ?_, ?_⟩
    · rw [hhdr]
      exact ⟨v1, v2, by show DATA_START_PAGE + 1 ≤ rel.header.numPages + 1; omega,
        by show DATA_START_PAGE ≤ rel.header.numPages; show (1 : Int) ≤ _; omega,
        by show rel.header.numPages < rel.header.numPages + 1; omega⟩
    · rw [hhdr]; exact hrs
    · rw [hhdr, i4]
    · rw [i4, i3, hcount, c2]
      push_cast
      rfl


theorem delete_sound (rel : RM_TableData) (id : RID) (h : Sound rel)
    (hid : rel.header.InRange id) (hok : (deleteRecord rel id).1 = RC_OK) :
    Sound (deleteRecord rel id).2 := by
  obtain ⟨hrel, hinv, hrs, c1, c2⟩ := h
  obtain ⟨r1, r2, r3, r4⟩ := hid
  have hocc : isSlotOccupied (rel.pages id.page) id.slot = true := by
    rcases hb : isSlotOccupied (rel.pages id.page) id.slot with _ | _
    · have := ((deleteRecord_nil rel id hrel).1 hb).1
      rw [this] at hok
      exact absurd hok (by decide)
    · rfl
  obtain ⟨d1, d2, d3, d4, -⟩ := (deleteRecord_nil rel id hrel).2 hocc
  have hne : id.page ≠ HEADER_PAGE := by
    intro h0; rw [h0] at r1; exact absurd r1 (by decide)
  obtain ⟨w1, w2, w3, w4, w5⟩ := wrap32_loadMetadata (rel.pages HEADER_PAGE)
  have hhdr : (deleteRecord rel id).2.header =
      { rel.header with numTuples := wrap32 (getNumTuples rel - 1) } := by
    simp only [RM_TableData.header, d3, deletePages, setPage_same, loadMetadata_storeMetadata,
      w2, w3, w4, w5]
  have hpne : ∀ p : Int, DATA_START_PAGE ≤ p → p ≠ HEADER_PAGE := by
    intro p hp h0; rw [h0] at hp; exact absurd hp (by decide)
  have hpg : ∀ p, p ≠ HEADER_PAGE → deletePages rel.pages (getNumTuples rel) id p =
      if p = id.page then markSlotFree (rel.pages p) id.slot else rel.pages p := by
    intro p hp
    simp only [deletePages]
    rw [setPage_other _ _ _ _ hp]
    by_cases hq : p = id.page
    · subst hq; rw [setPage_same, if_pos rfl]
    · rw [setPage_other _ _ _ _ hq, if_neg hq]
  have hcount := occupied_length_set (deletePages rel.pages (getNumTuples rel) id) rel.pages
    (deleteRecord rel id).2.header rel.header id (by rw [hhdr]) (by rw [hhdr])
    (by rw [hhdr]; exact ⟨r1, r2, r3, r4⟩)
    (by rw [hpg _ hne, if_pos rfl, isSlotOccupied_markSlotFree _ _ _ r3 r3]; simp)
    (by
      intro p s hp1 hp2 hs0 hs1
      rw [hpg p (hpne p hp1)]
      by_cases hp : p = id.page
      · subst hp
        rw [if_pos rfl, isSlotOccupied_markSlotFree _ _ _ r3 hs0]
        by_cases hsq : s = id.slot
        · subst hsq; simp [hocc]
        · simp [hsq]
      · rw [if_neg hp]
        simp [hp])
  have hn1 : 1 ≤ getNumTuples rel := by rw [c2, hcount]; push_cast; omega
  have hr := loadInt_range (rel.pages HEADER_PAGE) 0
  have hl : rel.header.numTuples = loadInt (rel.pages HEADER_PAGE) 0 := rfl
  have hw : wrap32 (getNumTuples rel - 1) = getNumTuples rel - 1 :=
    wrap32_of_range _ (by omega) (by omega)
  rw [hw] at hhdr
  refine ⟨d2, ?_, ?_, ?_, ?_⟩
  · rw [hhdr]; exact hinv
  · rw [hhdr]; exact hrs
  · rw [hhdr, d4]
  · rw [d4, d3]
    rw [hcount] at c2
    push_cast at c2
    omega

theorem update_sound (rel : RM_TableData) (record : Record) (h : Sound rel)
    (hid : rel.header.InRange record.id) (hok : (updateRecord rel record).1 = RC_OK) :
    Sound (updateRecord rel record).2 := by
  obtain ⟨hrel, hinv, hrs, c1, c2⟩ := h
  obtain ⟨r1, r2, r3, r4⟩ := hid
  have hocc : isSlotOccupied (rel.pages record.id.page) record.id.slot = true := by
    rcases hb : isSlotOccupied (rel.pages record.id.page) record.id.slot with _ | _
    · have := ((updateRecord_nil rel record hrel).1 hb).1
      rw [this] at hok
      exact absurd hok (by decide)
    · rfl
  obtain ⟨u1, u2, u3, u4, -⟩ := (updateRecord_nil rel record hrel).2 hocc
  have hne : HEADER_PAGE ≠ record.id.page := by
    intro h0; rw [← h0] at r1; exact absurd r1 (by decide)
  have hhdr : (updateRecord rel record).2.header = rel.header := by
    simp only [RM_TableData.header, u3, updatePages]
    rw [setPage_other _ _ _ _ hne]
  have hcount := occupied_length_same rel.pages (updatePages rel.pages record) rel.header
    rel.header rfl rfl
    (by
      intro p s hp1 hp2 hs0 hs1
      simp only [updatePages]
      by_cases hp : p = record.id.page
      · subst hp
        rw [setPage_same]
        exact isSlotOccupied_memcpy_slot _ _ _ _ _ _ r3 hs0 hs1
      · rw [setPage_other _ _ _ _ hp])
  refine ⟨u2, ?_, ?_, ?_, ?_⟩
  · rw [hhdr]; exact hinv
  · rw [hhdr]; exact hrs
  · rw [hhdr, u4]; exact c1
  · rw [u4, u3, hhdr, hcount]; exact c2

theorem runOps_sound (ops : List WriteOp) :
    ∀ rel rel2 : RM_TableData, Sound rel → runOps rel ops = some rel2 → Sound rel2 := by
  induction ops with
  | nil =>
    intro rel rel2 h hr
    simp only [runOps, Option.some.injEq] at hr
    subst hr
    exact h
  | cons op rest ih =>
    intro rel rel2 h hr
    unfold runOps at hr
    split_ifs at hr with hg
    · obtain ⟨ha, hok⟩ := hg
      refine ih _ rel2 ?_ hr
      cases op with
      | insert record => exact insert_sound rel record h ha.1 ha.2
      | delete id => exact delete_sound rel id h ha hok
      | update record => exact update_sound rel record h ha hok

theorem closeTable_nil (rel : RM_TableData) (h : rel.Reliable) :
    (closeTable rel).1 = RC_OK ∧ (closeTable rel).2.1.faults = [] ∧
    (closeTable rel).2.1.pages = rel.pages ∧ (closeTable rel).2.2.mgmtData = none := by
  obtain ⟨pages, pins, unpins, calls, n, hm⟩ := reliable_exists_mgr h
  simp only [closeTable, hm, RM_TableData.pages, RM_TableData.pool, envCall_mk]
  simp


/-- C9 (metadata consistency). Starting from the table `createTable` and `openTable` produce
(all calls into the buffer and storage managers succeeding), after any sequence of
`insertRecord`, `deleteRecord` and `updateRecord` calls that return RC_OK, the RIDs given to
delete and update in range and the `int` counters not overflowing, the `numTuples` stored in
the header page equals the count `getNumTuples` returns and equals the number of occupied
slots `(page, slot)` with page in `[1, numPages)` and slot in `[0, slotsPerPage)`;
`closeTable` followed by `openTable` succeeds and yields a handle with that same count. -/
theorem metadata_consistency (env : BM_BufferPool) (schema : Schema) (name : List Nat)
    (ops : List WriteOp) (rel : RM_TableData)
    (henv : env.faults = [])
    (hc : (createTable env schema).map Prod.fst = some RC_OK)
    (hrun : runOps (freshTable env schema name) ops = some rel) :
    rel.header.numTuples = getNumTuples rel ∧
    getNumTuples rel = ((occupiedRIDs rel.pages rel.header).length : Int) ∧
    (∀ rid, rid ∈ occupiedRIDs rel.pages rel.header ↔
      (DATA_START_PAGE ≤ rid.page ∧ rid.page < rel.header.numPages ∧ 0 ≤ rid.slot ∧
        rid.slot < rel.header.slotsPerPage ∧
        isSlotOccupied (rel.pages rid.page) rid.slot = true)) ∧
    (occupiedRIDs rel.pages rel.header).Nodup ∧
    (closeTable rel).1 = RC_OK ∧
    ∀ rel0 name2, (openTable (closeTable rel).2.1 rel0 name2).1 = RC_OK ∧
      getNumTuples (openTable (closeTable rel).2.1 rel0 name2).2.2 = getNumTuples rel ∧
      (openTable (closeTable rel).2.1 rel0 name2).2.2.header.numTuples =
        getNumTuples rel := by
  obtain ⟨hrel, -, -, c1, c2⟩ :=
    runOps_sound ops _ rel (fresh_sound env schema name henv hc) hrun
  obtain ⟨k1, k2, k3, -⟩ := closeTable_nil rel hrel
  refine ⟨c1, c2, (occupiedRIDs_spec _ _).1, nodup_of_pairwise_lt (occupiedRIDs_spec _ _).2,
    k1, ?_⟩
  intro rel0 name2
  obtain ⟨o1, -, o3, o4, -⟩ := openTable_nil (closeTable rel).2.1 rel0 name2 k2
  refine ⟨o1, ?_, ?_⟩
  · rw [o4, k3]; exact c1
  · simp only [RM_TableData.header, o3, k3]; exact c1

set_option maxRecDepth 100000 in
theorem metadata_consistency_witness :
    ((afterOps (freshTable env0 schemaS1 [116, 49]) opsS1).header.numTuples =
      getNumTuples (afterOps (freshTable env0 schemaS1 [116, 49]) opsS1) ∧
    getNumTuples (afterOps (freshTable env0 schemaS1 [116, 49]) opsS1) =
      ((occupiedRIDs (afterOps (freshTable env0 schemaS1 [116, 49]) opsS1).pages
        (afterOps (freshTable env0 schemaS1 [116, 49]) opsS1).header).length : Int) ∧
    (∀ rid, rid ∈ occupiedRIDs (afterOps (freshTable env0 schemaS1 [116, 49]) opsS1).pages
        (afterOps (freshTable env0 schemaS1 [116, 49]) opsS1).header ↔
      (DATA_START_PAGE ≤ rid.page ∧
        rid.page < (afterOps (freshTable env0 schemaS1 [116, 49]) opsS1).header.numPages ∧
        0 ≤ rid.slot ∧
        rid.slot < (afterOps (freshTable env0 schemaS1 [116, 49]) opsS1).header.slotsPerPage ∧
        isSlotOccupied ((afterOps (freshTable env0 schemaS1 [116, 49]) opsS1).pages rid.page)
          rid.slot = true)) ∧
    (occupiedRIDs (afterOps (freshTable env0 schemaS1 [116, 49]) opsS1).pages
      (afterOps (freshTable env0 schemaS1 [116, 49]) opsS1).header).Nodup ∧
    (closeTable (afterOps (freshTable env0 schemaS1 [116, 49]) opsS1)).1 = RC_OK ∧
    ∀ rel0 name2,
      (openTable (closeTable (afterOps (freshTable env0 schemaS1 [116, 49]) opsS1)).2.1
        rel0 name2).1 = RC_OK ∧
      getNumTuples (openTable
        (closeTable (afterOps (freshTable env0 schemaS1 [116, 49]) opsS1)).2.1
        rel0 name2).2.2 = getNumTuples (afterOps (freshTable env0 schemaS1 [116, 49]) opsS1) ∧
      (openTable (closeTable (afterOps (freshTable env0 schemaS1 [116, 49]) opsS1)).2.1
        rel0 name2).2.2.header.numTuples =
        getNumTuples (afterOps (freshTable env0 schemaS1 [116, 49]) opsS1)) ∧
    getNumTuples (afterOps (freshTable env0 schemaS1 [116, 49]) opsS1) = 1 :=
  ⟨metadata_consistency env0 schemaS1 [116, 49] opsS1
    (afterOps (freshTable env0 schemaS1 [116, 49]) opsS1) rfl (by decide) rfl, by decide⟩


/-! ## Growth of the file -/

theorem searchFree_full (pages : Int → Mem) (spp : Int) (n : Nat) (cp : Int)
    (hfull : ∀ p s, cp ≤ p → p < cp + n → 0 ≤ s → s < spp →
      isSlotOccupied (pages p) s = true) :
    searchFree pages spp n cp = none := by
  rcases h : searchFree pages spp n cp with _ | rid
  · rfl
  · obtain ⟨h1, h2, h3, h4, h5, -, -⟩ := searchFree_some pages spp n cp rid h
    rw [hfull rid.page rid.slot h1 h2 h3 h4] at h5
    exact absurd h5 (by simp)

/-- C11 (growth by exactly one page). In an open table with succeeding buffer-manager calls
whose metadata satisfies the invariants (records of non-negative size, `numPages` below
`INT_MAX`), if every slot of every data page `[1, numPages)` is occupied, then `insertRecord`
returns RC_OK, the header's `numPages` is one more than before, the record gets the id
`(old numPages, 0)`, `firstFreePage` is the old `numPages`, and on the new page slot 0 is
occupied and no other slot is. -/
theorem growth_by_one_page (rel : RM_TableData) (record : Record)
    (hrel : rel.Reliable) (hinv : rel.header.Inv) (hrs : 0 ≤ rel.header.recordSize)
    (hmax : rel.header.numPages < 2147483647)
    (hfull : ∀ p s, DATA_START_PAGE ≤ p → p < rel.header.numPages → 0 ≤ s →
      s < rel.header.slotsPerPage → isSlotOccupied (rel.pages p) s = true) :
    (insertRecord rel record).1 = RC_OK ∧
    (insertRecord rel record).2.1.header.numPages = rel.header.numPages + 1 ∧
    (insertRecord rel record).2.2.id = ⟨rel.header.numPages, 0⟩ ∧
    (insertRecord rel record).2.1.header.firstFreePage = rel.header.numPages ∧
    ∀ s, 0 ≤ s → s < rel.header.slotsPerPage →
      isSlotOccupied ((insertRecord rel record).2.1.pages rel.header.numPages) s =
        decide (s = 0) := by
  obtain ⟨i1, i2, i3, i4, -, i6⟩ := insertRecord_nil rel record hrel
  have hinv0 := hinv
  obtain ⟨v1, v2, v3, v4, v5⟩ := hinv0
  have v3b : (2 : Int) ≤ rel.header.numPages := v3
  have v4b : (1 : Int) ≤ rel.header.firstFreePage := v4
  have hnone : searchFree rel.pages rel.header.slotsPerPage
      (rel.header.numPages - rel.header.firstFreePage).toNat rel.header.firstFreePage = none := by
    apply searchFree_full
    intro p s hp1 hp2 hs0 hs1
    rw [Int.toNat_of_nonneg (by omega)] at hp2
    exact hfull p s (by show (1 : Int) ≤ p; omega) (by omega) hs0 hs1
  have hhdr : (insertRecord rel record).2.1.header =
      loadMetadata (insertPages rel.pages (getNumTuples rel) record HEADER_PAGE) := by
    simp only [RM_TableData.header, i3]
  have hwp : wrap32 ((loadMetadata (rel.pages HEADER_PAGE)).numPages + 1) =
      rel.header.numPages + 1 := wrap32_of_range _ (by
        show -2147483648 ≤ rel.header.numPages + 1; omega) (by
        show rel.header.numPages + 1 < 2147483648; omega)
  have hspp : rel.header.slotsPerPage ≤ 4096 * 8 := by
    have hfit := v2
    have hm : 0 ≤ rel.header.slotsPerPage * rel.header.recordSize :=
      Int.mul_nonneg (by omega) hrs
    rw [getSlotMapSize_eq _ (by omega)] at hfit
    simp only [PAGE_SIZE] at hfit
    omega
  rcases insertPages_cases rel.pages (getNumTuples rel) record hinv with
    ⟨rid, hs, -, -, -⟩ | ⟨-, hrid, hh, hpg⟩
  · have hs2 : searchFree rel.pages rel.header.slotsPerPage
        (rel.header.numPages - rel.header.firstFreePage).toNat rel.header.firstFreePage =
          some rid := hs
    rw [hnone] at hs2
    exact absurd hs2 (by simp)
  · rw [hh, hwp] at hhdr
    refine ⟨i1, by rw [hhdr], ?_, by rw [hhdr]; rfl, ?_⟩
    · rw [i6]
      exact hrid
    · intro s hs0 hs1
      have hs1b : s < (loadMetadata (rel.pages HEADER_PAGE)).slotsPerPage := hs1
      have hne : rel.header.numPages ≠ HEADER_PAGE := by
        intro h0
        have : rel.header.numPages = 0 := h0
        omega
      have hq : rel.header.numPages = (loadMetadata (rel.pages HEADER_PAGE)).numPages := rfl
      rw [i3, hpg _ hne, if_pos hq,
        isSlotOccupied_memcpy_slot _ _ _ _ _ _ (le_refl _) hs0 hs1b,
        isSlotOccupied_markSlotOccupied _ _ _ (le_refl _) hs0]
      by_cases h0 : s = 0
      · simp [h0]
      · rw [if_neg h0, isSlotOccupied_zero _ _ hs0]
        · simp [h0]
        · simp only [memset, PAGE_SIZE]
          rw [if_pos]
          constructor <;> omega

set_option maxRecDepth 100000 in
theorem growth_by_one_page_witness :
    (insertRecord tableFull ⟨⟨-1, -1⟩, some zeroMem⟩).1 = RC_OK ∧
    (insertRecord tableFull ⟨⟨-1, -1⟩, some zeroMem⟩).2.1.header.numPages =
      tableFull.header.numPages + 1 ∧
    (insertRecord tableFull ⟨⟨-1, -1⟩, some zeroMem⟩).2.2.id = ⟨tableFull.header.numPages, 0⟩ ∧
    (insertRecord tableFull ⟨⟨-1, -1⟩, some zeroMem⟩).2.1.header.firstFreePage =
      tableFull.header.numPages ∧
    ∀ s, 0 ≤ s → s < tableFull.header.slotsPerPage →
      isSlotOccupied ((insertRecord tableFull ⟨⟨-1, -1⟩, some zeroMem⟩).2.1.pages
        tableFull.header.numPages) s = decide (s = 0) :=
  growth_by_one_page tableFull ⟨⟨-1, -1⟩, some zeroMem⟩ ⟨rfl, rfl⟩ (by decide) (by decide)
    (by decide)
    (fun p s h1 h2 h3 h4 => by
      have hnp : tableFull.header.numPages = 2 := by decide
      have hspp : tableFull.header.slotsPerPage = 1 := by decide
      rw [hnp] at h2
      rw [hspp] at h4
      have hp : p = 1 := by
        have : (1 : Int) ≤ p := h1
        omega
      have hs : s = 0 := by omega
      subst hp
      subst hs
      decide)


/-! ## The slot count of `createTable` -/

theorem slotsPerPageLoop_max (rs : Int) (n : Nat) : ∀ s : Int, 0 ≤ s → s < n →
    0 ≤ slotsPerPageLoop rs n s ∧ slotsPerPageLoop rs n s ≤ s ∧
    SlotsFit rs (slotsPerPageLoop rs n s) ∧
    ∀ k, slotsPerPageLoop rs n s < k → k ≤ s → ¬ SlotsFit rs k := by
  induction n with
  | zero => intro s h0 hs; simp at hs; omega
  | succ n ih =>
    intro s h0 hs
    unfold slotsPerPageLoop
    have htd : Int.tdiv (s + 7) 8 = (s + 7) / 8 := Int.tdiv_eq_ediv (by omega) (by decide)
    by_cases hfit : Int.tdiv (s + 7) 8 + s * rs ≤ PAGE_SIZE
    · rw [if_pos hfit]
      refine ⟨h0, le_refl _, ?_, fun k h1 h2 => by omega⟩
      unfold SlotsFit
      rw [← htd]
      exact hfit
    · rw [if_neg hfit]
      have hnot : ¬ SlotsFit rs s := by
        unfold SlotsFit
        rw [← htd]
        exact hfit
      by_cases hgt : s - 1 > 0
      · rw [if_pos hgt]
        obtain ⟨a1, a2, a3, a4⟩ := ih (s - 1) (by omega) (by push_cast at hs; omega)
        refine ⟨a1, by omega, a3, ?_⟩
        intro k h1 h2
        by_cases hk : k = s
        · rw [hk]; exact hnot
        · exact a4 k h1 (by omega)
      · rw [if_neg hgt]
        have hs1 : s = 1 := by
          by_contra hne
          have hs0 : s = 0 := by omega
          apply hfit
          rw [hs0, zero_mul]
          decide
        subst hs1
        refine ⟨by omega, by omega, ?_, ?_⟩
        · unfold SlotsFit
          simp only [PAGE_SIZE]
          norm_num
        · intro k h1 h2
          have hk : k = 1 := by omega
          rw [hk]
          exact hnot

theorem slotsPerPageOf_spec (rs : Int) (hrs : 1 ≤ rs) :
    0 ≤ slotsPerPageOf rs ∧ SlotsFit rs (slotsPerPageOf rs) ∧
    (∀ k, 0 ≤ k → SlotsFit rs k → k ≤ slotsPerPageOf rs) ∧
    (slotsPerPageOf rs = 0 ↔ rs > 4095) := by
  have hq : Int.tdiv PAGE_SIZE rs = PAGE_SIZE / rs := Int.tdiv_eq_ediv (by decide) (by omega)
  have hq0 : 0 ≤ Int.tdiv PAGE_SIZE rs := by
    rw [hq]; exact Int.ediv_nonneg (by decide) (by omega)
  obtain ⟨a1, a2, a3, a4⟩ := slotsPerPageLoop_max rs ((Int.tdiv PAGE_SIZE rs).toNat + 1)
    (Int.tdiv PAGE_SIZE rs) hq0 (by
      have := Int.toNat_of_nonneg hq0
      push_cast
      omega)
  have hmax : ∀ k, 0 ≤ k → SlotsFit rs k → k ≤ slotsPerPageOf rs := by
    intro k hk0 hk
    by_contra hlt
    have hlt2 : slotsPerPageOf rs < k := by omega
    have hkq : k ≤ Int.tdiv PAGE_SIZE rs := by
      rw [hq]
      have hk2 : (k + 7) / 8 + k * rs ≤ PAGE_SIZE := hk
      have hc : 0 ≤ (k + 7) / 8 := by omega
      have : k * rs ≤ PAGE_SIZE := by omega
      exact (Int.le_ediv_iff_mul_le (by omega)).mpr this
    exact a4 k hlt2 hkq hk
  refine ⟨a1, a3, hmax, ?_⟩
  constructor
  · intro h0
    by_contra hle
    have h1 : SlotsFit rs 1 := by
      unfold SlotsFit
      simp only [PAGE_SIZE]
      norm_num
      omega
    have := hmax 1 (by omega) h1
    omega
  · intro hgt
    by_contra hne
    have hpos : 1 ≤ slotsPerPageOf rs := by
      have : 0 ≤ slotsPerPageOf rs := a1
      omega
    have hfit : (slotsPerPageOf rs + 7) / 8 + slotsPerPageOf rs * rs ≤ PAGE_SIZE := a3
    have hc : 0 ≤ (slotsPerPageOf rs + 7) / 8 := by omega
    have hm : rs ≤ slotsPerPageOf rs * rs := by nlinarith
    simp only [PAGE_SIZE] at hfit
    omega

theorem slotsPerPageOf_le (rs : Int) (hrs : 1 ≤ rs) : slotsPerPageOf rs ≤ 4096 := by
  obtain ⟨a1, a3, -, -⟩ := slotsPerPageOf_spec rs hrs
  have hfit : (slotsPerPageOf rs + 7) / 8 + slotsPerPageOf rs * rs ≤ PAGE_SIZE := a3
  have hc : 0 ≤ (slotsPerPageOf rs + 7) / 8 := by omega
  have hm : slotsPerPageOf rs ≤ slotsPerPageOf rs * rs := by nlinarith
  simp only [PAGE_SIZE] at hfit
  omega

/-- The return code of `createTable` when every call succeeds. -/
theorem createTable_code (env : BM_BufferPool) (schema : Schema) (henv : env.faults = [])
    (hrs : getRecordSize schema ≠ 0) :
    (createTable env schema).map Prod.fst =
      some (if slotsPerPageOf (getRecordSize schema) ≤ 0 then RC_INVALID_RECORD_SIZE
        else RC_OK) := by
  obtain ⟨pages, faults, pins, unpins, calls⟩ := env
  simp only at henv
  subst henv
  unfold createTable
  simp only [envCall_mk, ne_eq, not_true_eq_false, if_false, hrs]
  by_cases hspp : slotsPerPageOf (getRecordSize schema) ≤ 0
  · have hspp2 := hspp
    unfold slotsPerPageOf at hspp2
    simp only [hspp, hspp2, if_true, Option.map_some']
  · have hspp2 := hspp
    unfold slotsPerPageOf at hspp2
    simp only [hspp, hspp2, if_false, initializeHeader, pinPage_mk, ne_eq, not_true_eq_false,
      write_mk, markDirty_mk, unpinPage_mk, envCall_mk, Option.map_some']

/-- The slot count in the header `createTable` writes. -/
theorem createTable_slots (env : BM_BufferPool) (schema : Schema) (env1 : BM_BufferPool)
    (henv : env.faults = []) (hc : createTable env schema = some (RC_OK, env1)) :
    (loadMetadata (env1.pages HEADER_PAGE)).slotsPerPage =
      slotsPerPageOf (getRecordSize schema) := by
  obtain ⟨-, -, c3, c4, -⟩ := createTable_nil env schema env1 henv hc
  obtain ⟨a1, -, -, -⟩ := slotsPerPageOf_spec (getRecordSize schema) c4
  have a5 := slotsPerPageOf_le (getRecordSize schema) c4
  obtain ⟨pages, faults, pins, unpins, calls⟩ := env
  simp only at henv
  subst henv
  unfold createTable at hc
  have hrs : getRecordSize schema ≠ 0 := by omega
  simp only [envCall_mk, ne_eq, not_true_eq_false, if_false, hrs] at hc
  by_cases hspp : slotsPerPageLoop (getRecordSize schema)
      ((Int.tdiv PAGE_SIZE (getRecordSize schema)).toNat + 1)
      (Int.tdiv PAGE_SIZE (getRecordSize schema)) ≤ 0
  · simp [hspp] at hc
  · simp only [hspp, if_false] at hc
    simp only [initializeHeader, pinPage_mk, ne_eq, not_true_eq_false, if_false, write_mk,
      markDirty_mk, unpinPage_mk, envCall_mk, Option.some.injEq, Prod.mk.injEq, true_and]
      at hc
    subst hc
    dsimp only
    rw [setPage_other _ _ _ _ (by decide), setPage_same,
      loadMetadata_congr _ _ (fun k _ hk => writeSchema_frame schema _ k hk),
      loadMetadata_storeMetadata]
    exact wrap32_of_range _ (by show -2147483648 ≤ slotsPerPageOf _; omega)
      (by show slotsPerPageOf _ < 2147483648; omega)

/-- C12 (slots per page and record-size rejection). For every schema with record size
`rs ≥ 1`, with the storage and buffer-manager calls succeeding: the slot count `createTable`
computes is the largest `n ≥ 0` with `⌈n/8⌉ + n * rs ≤ 4096` (it is what a successful call
writes to the header as `slotsPerPage`), it is 0 exactly when `rs > PAGE_SIZE - 1`, and
`createTable` returns RC_INVALID_RECORD_SIZE exactly when `rs > PAGE_SIZE - 1` and RC_OK
otherwise. -/
theorem slots_per_page_and_rejection (env : BM_BufferPool) (schema : Schema)
    (henv : env.faults = []) (hrs : 1 ≤ getRecordSize schema) :
    0 ≤ slotsPerPageOf (getRecordSize schema) ∧
    SlotsFit (getRecordSize schema) (slotsPerPageOf (getRecordSize schema)) ∧
    (∀ n, 0 ≤ n → SlotsFit (getRecordSize schema) n →
      n ≤ slotsPerPageOf (getRecordSize schema)) ∧
    (slotsPerPageOf (getRecordSize schema) = 0 ↔ getRecordSize schema > PAGE_SIZE - 1) ∧
    ((createTable env schema).map Prod.fst = some RC_INVALID_RECORD_SIZE ↔
      getRecordSize schema > PAGE_SIZE - 1) ∧
    (¬ getRecordSize schema > PAGE_SIZE - 1 →
      (createTable env schema).map Prod.fst = some RC_OK) ∧
    (∀ env1, createTable env schema = some (RC_OK, env1) →
      (loadMetadata (env1.pages HEADER_PAGE)).slotsPerPage =
        slotsPerPageOf (getRecordSize schema)) := by
  obtain ⟨a1, a2, a3, a4⟩ := slotsPerPageOf_spec (getRecordSize schema) hrs
  have hcode := createTable_code env schema henv (by omega)
  have h4 : slotsPerPageOf (getRecordSize schema) = 0 ↔ getRecordSize schema > PAGE_SIZE - 1 :=
    a4
  refine ⟨a1, a2, a3, h4, ?_, ?_, fun env1 hc => createTable_slots env schema env1 henv hc⟩
  · rw [hcode]
    constructor
    · intro h
      by_cases h0 : slotsPerPageOf (getRecordSize schema) ≤ 0
      · exact h4.mp (by omega)
      · rw [if_neg h0] at h
        exact absurd h (by decide)
    · intro h
      rw [if_pos (by rw [h4.mpr h])]
  · intro h
    rw [hcode, if_neg]
    intro h0
    exact h (h4.mp (by omega))

theorem slots_per_page_and_rejection_witness :
    (0 ≤ slotsPerPageOf (getRecordSize schemaS1) ∧
    SlotsFit (getRecordSize schemaS1) (slotsPerPageOf (getRecordSize schemaS1)) ∧
    (∀ n, 0 ≤ n → SlotsFit (getRecordSize schemaS1) n →
      n ≤ slotsPerPageOf (getRecordSize schemaS1)) ∧
    (slotsPerPageOf (getRecordSize schemaS1) = 0 ↔ getRecordSize schemaS1 > PAGE_SIZE - 1) ∧
    ((createTable env0 schemaS1).map Prod.fst = some RC_INVALID_RECORD_SIZE ↔
      getRecordSize schemaS1 > PAGE_SIZE - 1) ∧
    (¬ getRecordSize schemaS1 > PAGE_SIZE - 1 →
      (createTable env0 schemaS1).map Prod.fst = some RC_OK) ∧
    (∀ env1, createTable env0 schemaS1 = some (RC_OK, env1) →
      (loadMetadata (env1.pages HEADER_PAGE)).slotsPerPage =
        slotsPerPageOf (getRecordSize schemaS1))) ∧
    getRecordSize schemaS1 = 8 ∧ slotsPerPageOf (getRecordSize schemaS1) = 504 :=
  ⟨slots_per_page_and_rejection env0 schemaS1 rfl (by decide), by decide, by decide⟩


/-! ## The metadata invariants under the write operations -/

theorem insert_inv (rel : RM_TableData) (record : Record) (hrel : rel.Reliable)
    (hinv : rel.header.Inv) (hmax : rel.header.numPages < 2147483647) :
    (insertRecord rel record).1 = RC_OK ∧
    (insertRecord rel record).2.1.header.Inv ∧
    (insertRecord rel record).2.1.header.recordSize = rel.header.recordSize ∧
    (insertRecord rel record).2.1.header.slotsPerPage = rel.header.slotsPerPage := by
  obtain ⟨i1, -, i3, -, -, -⟩ := insertRecord_nil rel record hrel
  have hhdr : (insertRecord rel record).2.1.header =
      loadMetadata (insertPages rel.pages (getNumTuples rel) record HEADER_PAGE) := by
    simp only [RM_TableData.header, i3]
  have hinv0 := hinv
  obtain ⟨v1, v2, v3, v4, v5⟩ := hinv0
  have v3b : (2 : Int) ≤ rel.header.numPages := v3
  rcases insertPages_cases rel.pages (getNumTuples rel) record hinv with
    ⟨rid, -, -, hh, -⟩ | ⟨-, -, hh, -⟩
  · rw [hh] at hhdr
    rw [hhdr]
    exact ⟨i1, ⟨v1, v2, v3, v4, v5⟩, rfl, rfl⟩
  · have hwp : wrap32 ((loadMetadata (rel.pages HEADER_PAGE)).numPages + 1) =
        rel.header.numPages + 1 := wrap32_of_range _ (by
          show -2147483648 ≤ rel.header.numPages + 1; omega) (by
          show rel.header.numPages + 1 < 2147483648; omega)
    rw [hh, hwp] at hhdr
    rw [hhdr]
    exact ⟨i1, ⟨v1, v2, by show DATA_START_PAGE + 1 ≤ rel.header.numPages + 1; omega,
      by show (1 : Int) ≤ rel.header.numPages; omega,
      by show rel.header.numPages < rel.header.numPages + 1; omega⟩, rfl, rfl⟩

theorem delete_inv (rel : RM_TableData) (id : RID) (hrel : rel.Reliable)
    (hinv : rel.header.Inv) (hok : (deleteRecord rel id).1 = RC_OK) :
    (deleteRecord rel id).2.header.Inv ∧
    (deleteRecord rel id).2.header.recordSize = rel.header.recordSize ∧
    (deleteRecord rel id).2.header.slotsPerPage = rel.header.slotsPerPage := by
  have hocc : isSlotOccupied (rel.pages id.page) id.slot = true := by
    rcases hb : isSlotOccupied (rel.pages id.page) id.slot with _ | _
    · have := ((deleteRecord_nil rel id hrel).1 hb).1
      rw [this] at hok
      exact absurd hok (by decide)
    · rfl
  obtain ⟨-, -, d3, -, -⟩ := (deleteRecord_nil rel id hrel).2 hocc
  obtain ⟨-, w2, w3, w4, w5⟩ := wrap32_loadMetadata (rel.pages HEADER_PAGE)
  have hhdr : (deleteRecord rel id).2.header =
      { rel.header with numTuples := wrap32 (getNumTuples rel - 1) } := by
    simp only [RM_TableData.header, d3, deletePages, setPage_same, loadMetadata_storeMetadata,
      w2, w3, w4, w5]
  rw [hhdr]
  exact ⟨hinv, rfl, rfl⟩

theorem update_inv (rel : RM_TableData) (record : Record) (hrel : rel.Reliable)
    (hne : record.id.page ≠ HEADER_PAGE) :
    (updateRecord rel record).2.header = rel.header := by
  rcases hb : isSlotOccupied (rel.pages record.id.page) record.id.slot with _ | _
  · obtain ⟨-, -, u3, -, -⟩ := (updateRecord_nil rel record hrel).1 hb
    simp only [RM_TableData.header, u3]
  · obtain ⟨-, -, u3, -, -⟩ := (updateRecord_nil rel record hrel).2 hb
    simp only [RM_TableData.header, u3, updatePages]
    rw [setPage_other _ _ _ _ (Ne.symm hne)]

/-- An RID in range names a data page, and the bit and the bytes of its slot lie in the
page frame. -/
theorem inRange_slotInFrame (m : TableMetadata) (id : RID) (hinv : m.Inv)
    (hsize : 0 ≤ m.recordSize) (hid : m.InRange id) :
    id.page ≠ HEADER_PAGE ∧ BitInFrame id.slot ∧ m.SlotInFrame id.slot := by
  obtain ⟨v1, v2, -, -, -⟩ := hinv
  obtain ⟨r1, -, r3, r4⟩ := hid
  have hmap := getSlotMapSize_eq m.slotsPerPage (by omega)
  have hp : (1 : Int) ≤ id.page := r1
  have v2b : getSlotMapSize m.slotsPerPage + m.slotsPerPage * m.recordSize ≤ 4096 := v2
  have hprod : 0 ≤ m.slotsPerPage * m.recordSize := mul_nonneg (by omega) hsize
  have hslot : 0 ≤ id.slot * m.recordSize := mul_nonneg r3 hsize
  have hrest : 0 ≤ (m.slotsPerPage - (id.slot + 1)) * m.recordSize :=
    mul_nonneg (by omega) hsize
  have hsplit : (m.slotsPerPage - (id.slot + 1)) * m.recordSize =
      m.slotsPerPage * m.recordSize - id.slot * m.recordSize - m.recordSize := by ring
  have hbit : BitInFrame id.slot := by
    refine ⟨r3, ?_⟩
    show id.slot < 8 * 4096
    omega
  refine ⟨?_, hbit, hbit, hsize, ?_, ?_⟩
  · intro h0
    rw [h0] at hp
    exact absurd hp (by decide)
  · show 0 ≤ getSlotMapSize m.slotsPerPage + id.slot * m.recordSize
    omega
  · show getSlotMapSize m.slotsPerPage + id.slot * m.recordSize + m.recordSize ≤ 4096
    omega

/-- C13, as the code has it (TableMetadata invariants). With the storage and buffer-manager
calls succeeding: the metadata a successful `createTable` writes satisfies the four
invariants, with `numTuples = 0`, `firstFreePage = 1`, `numPages = 2` and every slot of the
first data page free; and in an open table whose metadata satisfies the invariants (with
`numPages` below `INT_MAX`) the four invariants are kept and `recordSize` and `slotsPerPage`
are left unchanged by `insertRecord`, by every `deleteRecord` that returns RC_OK for a slot
whose bitmap bit lies in the 4096-byte page, and by every `updateRecord` that returns RC_OK
for a page other than the header page and a slot whose bit and record bytes lie in the
4096-byte page. Every RID in range (a data page of the file, a slot below `slotsPerPage`)
meets these conditions. -/
theorem metadata_invariants (env : BM_BufferPool) (schema : Schema) (rel : RM_TableData)
    (record : Record) (id : RID)
    (henv : env.faults = []) (hc : (createTable env schema).map Prod.fst = some RC_OK)
    (hrel : rel.Reliable) (hinv : rel.header.Inv) (hmax : rel.header.numPages < 2147483647) :
    (∃ env1, createTable env schema = some (RC_OK, env1) ∧
      (loadMetadata (env1.pages HEADER_PAGE)).Inv ∧
      (loadMetadata (env1.pages HEADER_PAGE)).numTuples = 0 ∧
      (loadMetadata (env1.pages HEADER_PAGE)).firstFreePage = 1 ∧
      (loadMetadata (env1.pages HEADER_PAGE)).numPages = 2 ∧
      ∀ s, 0 ≤ s → s < (loadMetadata (env1.pages HEADER_PAGE)).slotsPerPage →
        isSlotOccupied (env1.pages DATA_START_PAGE) s = false) ∧
    ((insertRecord rel record).1 = RC_OK ∧
      (insertRecord rel record).2.1.header.Inv ∧
      (insertRecord rel record).2.1.header.recordSize = rel.header.recordSize ∧
      (insertRecord rel record).2.1.header.slotsPerPage = rel.header.slotsPerPage) ∧
    (BitInFrame id.slot → (deleteRecord rel id).1 = RC_OK →
      (deleteRecord rel id).2.header.Inv ∧
      (deleteRecord rel id).2.header.recordSize = rel.header.recordSize ∧
      (deleteRecord rel id).2.header.slotsPerPage = rel.header.slotsPerPage) ∧
    (record.id.page ≠ HEADER_PAGE → rel.header.SlotInFrame record.id.slot →
      (updateRecord rel record).1 = RC_OK →
      (updateRecord rel record).2.header.Inv ∧
      (updateRecord rel record).2.header.recordSize = rel.header.recordSize ∧
      (updateRecord rel record).2.header.slotsPerPage = rel.header.slotsPerPage) ∧
    (rel.header.InRange id → 0 ≤ rel.header.recordSize →
      id.page ≠ HEADER_PAGE ∧ BitInFrame id.slot ∧ rel.header.SlotInFrame id.slot) := by
  refine ⟨?_, insert_inv rel record hrel hinv hmax, fun _ => delete_inv rel id hrel hinv, ?_,
    fun hid hsize => inRange_slotInFrame rel.header id hinv hsize hid⟩
  · obtain ⟨env1, hc1⟩ := createTable_ok env schema hc
    obtain ⟨-, c2, c3, c4, c5⟩ := createTable_nil env schema env1 henv hc1
    have hs := createTable_slots env schema env1 henv hc1
    have hle := slotsPerPageOf_le (getRecordSize schema) c4
    refine ⟨env1, hc1, c3, by rw [c2], by rw [c2], by rw [c2], ?_⟩
    intro s hs0 hs1
    rw [hs] at hs1
    exact isSlotOccupied_zero _ _ hs0 (c5 _ (by omega) (by simp only [PAGE_SIZE]; omega))
  · intro hne _ _
    rw [update_inv rel record hrel hne]
    exact ⟨hinv, rfl, rfl⟩

set_option maxRecDepth 100000 in
theorem metadata_invariants_witness :
    ((deleteRecord (insertRecord tableS1 recordS1).2.1 ⟨1, 0⟩).1 = RC_OK ∧
      (updateRecord (insertRecord tableS1 recordS1).2.1 ⟨⟨1, 0⟩, recordS1.data⟩).1 = RC_OK ∧
      (insertRecord tableS1 recordS1).2.1.header.InRange ⟨1, 0⟩ ∧
      BitInFrame (RID.slot ⟨1, 0⟩) ∧
      (insertRecord tableS1 recordS1).2.1.header.SlotInFrame (RID.slot ⟨1, 0⟩)) ∧
    ((∃ env1, createTable env0 schemaS1 = some (RC_OK, env1) ∧
      (loadMetadata (env1.pages HEADER_PAGE)).Inv ∧
      (loadMetadata (env1.pages HEADER_PAGE)).numTuples = 0 ∧
      (loadMetadata (env1.pages HEADER_PAGE)).firstFreePage = 1 ∧
      (loadMetadata (env1.pages HEADER_PAGE)).numPages = 2 ∧
      ∀ s, 0 ≤ s → s < (loadMetadata (env1.pages HEADER_PAGE)).slotsPerPage →
        isSlotOccupied (env1.pages DATA_START_PAGE) s = false) ∧
    ((insertRecord (insertRecord tableS1 recordS1).2.1 ⟨⟨1, 0⟩, recordS1.data⟩).1 = RC_OK ∧
      (insertRecord (insertRecord tableS1 recordS1).2.1
        ⟨⟨1, 0⟩, recordS1.data⟩).2.1.header.Inv ∧
      (insertRecord (insertRecord tableS1 recordS1).2.1
        ⟨⟨1, 0⟩, recordS1.data⟩).2.1.header.recordSize =
        (insertRecord tableS1 recordS1).2.1.header.recordSize ∧
      (insertRecord (insertRecord tableS1 recordS1).2.1
        ⟨⟨1, 0⟩, recordS1.data⟩).2.1.header.slotsPerPage =
        (insertRecord tableS1 recordS1).2.1.header.slotsPerPage) ∧
    (BitInFrame (RID.slot ⟨1, 0⟩) →
      (deleteRecord (insertRecord tableS1 recordS1).2.1 ⟨1, 0⟩).1 = RC_OK →
      (deleteRecord (insertRecord tableS1 recordS1).2.1 ⟨1, 0⟩).2.header.Inv ∧
      (deleteRecord (insertRecord tableS1 recordS1).2.1 ⟨1, 0⟩).2.header.recordSize =
        (insertRecord tableS1 recordS1).2.1.header.recordSize ∧
      (deleteRecord (insertRecord tableS1 recordS1).2.1 ⟨1, 0⟩).2.header.slotsPerPage =
        (insertRecord tableS1 recordS1).2.1.header.slotsPerPage) ∧
    (RID.page ⟨1, 0⟩ ≠ HEADER_PAGE →
      (insertRecord tableS1 recordS1).2.1.header.SlotInFrame (RID.slot ⟨1, 0⟩) →
      (updateRecord (insertRecord tableS1 recordS1).2.1 ⟨⟨1, 0⟩, recordS1.data⟩).1 = RC_OK →
      (updateRecord (insertRecord tableS1 recordS1).2.1 ⟨⟨1, 0⟩, recordS1.data⟩).2.header.Inv ∧
      (updateRecord (insertRecord tableS1 recordS1).2.1
        ⟨⟨1, 0⟩, recordS1.data⟩).2.header.recordSize =
        (insertRecord tableS1 recordS1).2.1.header.recordSize ∧
      (updateRecord (insertRecord tableS1 recordS1).2.1
        ⟨⟨1, 0⟩, recordS1.data⟩).2.header.slotsPerPage =
        (insertRecord tableS1 recordS1).2.1.header.slotsPerPage) ∧
    ((insertRecord tableS1 recordS1).2.1.header.InRange ⟨1, 0⟩ →
      0 ≤ (insertRecord tableS1 recordS1).2.1.header.recordSize →
      RID.page ⟨1, 0⟩ ≠ HEADER_PAGE ∧ BitInFrame (RID.slot ⟨1, 0⟩) ∧
        (insertRecord tableS1 recordS1).2.1.header.SlotInFrame (RID.slot ⟨1, 0⟩))) :=
  ⟨by decide,
    metadata_invariants env0 schemaS1 (insertRecord tableS1 recordS1).2.1
      ⟨⟨1, 0⟩, recordS1.data⟩ ⟨1, 0⟩ rfl (by decide) ⟨rfl, rfl⟩ (by decide) (by decide)⟩

set_option maxRecDepth 100000 in
/-- C13 fails as stated for an `updateRecord` whose record id names the header page: in a
table for one STRING(100) attribute holding one record, the first byte of page 0 is 1, so
`updateRecord` with id (0,0) finds "slot 0 of page 0" occupied, copies the 100 record bytes
to offset 5 of the header page and returns RC_OK; before the call the metadata satisfies the
invariants, afterwards `numPages`, `recordSize` and `slotsPerPage` are 0. -/
theorem metadata_invariants_counterexample :
    tableWide.header = ⟨1, 1, 2, 100, 40⟩ ∧ tableWide.header.Inv ∧
    (updateRecord tableWide ⟨⟨0, 0⟩, some zeroMem⟩).1 = RC_OK ∧
    (updateRecord tableWide ⟨⟨0, 0⟩, some zeroMem⟩).2.header = ⟨1, 1, 0, 0, 0⟩ ∧
    ¬ (updateRecord tableWide ⟨⟨0, 0⟩, some zeroMem⟩).2.header.Inv := by
  decide


/-! ## String attributes and the type check of `setAttr` -/

theorem take_min_length (l : List Nat) (n : Nat) :
    l.take (min l.length n) = l.take n ∧ n - min l.length n = n - l.length := by
  rcases le_total l.length n with h | h
  · rw [min_eq_left h, List.take_of_length_le (le_refl _), List.take_of_length_le h]
    exact ⟨rfl, rfl⟩
  · rw [min_eq_right h]
    exact ⟨rfl, by omega⟩

/-- C14 (string truncation and padding). For a String attribute `i` of width
`n = typeLength[i] ≥ 0` and every input C string `s` of length `L`: `setAttr` returns RC_OK,
afterwards the `n` bytes of the record at the attribute's offset are the first `min(L, n)`
bytes of `s` followed by `n - min(L, n)` zero bytes, and `getAttr` returns RC_OK with a
buffer of `n + 1` bytes: those `n` bytes followed by a NUL. -/
theorem string_truncation_padding (r : Record) (schema : Schema) (i : Int) (s : List Nat)
    (n : Int) (hi0 : 0 ≤ i) (hi : i < schema.numAttr)
    (hdt : schema.dataTypes[i.toNat]? = some .DT_STRING)
    (hn : schema.typeLength[i.toNat]? = some n) (hn0 : 0 ≤ n) :
    (setAttr r schema i (.stringV s)).1 = RC_OK ∧
    readBytes (setAttr r schema i (.stringV s)).2.buf (sumWidths schema i.toNat) n =
      (cstr s).take (min (cstr s).length n.toNat) ++
        List.replicate (n.toNat - min (cstr s).length n.toNat) 0 ∧
    getAttr (setAttr r schema i (.stringV s)).2 schema i =
      (RC_OK, some (.stringV ((cstr s).take (min (cstr s).length n.toNat) ++
        List.replicate (n.toNat - min (cstr s).length n.toNat) 0 ++ [0]))) ∧
    ((cstr s).take (min (cstr s).length n.toNat) ++
        List.replicate (n.toNat - min (cstr s).length n.toNat) 0 ++ [0]).length =
      n.toNat + 1 := by
  have _ := hn0
  have hg : ¬ (i < 0 ∨ i ≥ schema.numAttr) := by omega
  obtain ⟨t1, t2⟩ := take_min_length (cstr s) n.toNat
  rw [t1, t2]
  have hbuf : (setAttr r schema i (.stringV s)).2.buf =
      setString r.buf (sumWidths schema i.toNat) s n := by
    simp only [setAttr, if_neg hg, Value.dt, hdt, ne_eq, not_true_eq_false, if_false, hn,
      Option.getD_some, Record.buf, setString]
  have hrc : (setAttr r schema i (.stringV s)).1 = RC_OK := by
    simp only [setAttr, if_neg hg, Value.dt, hdt, ne_eq, not_true_eq_false, if_false]
  have hread := readBytes_setString r.buf (sumWidths schema i.toNat) s n
  refine ⟨hrc, by rw [hbuf, hread], ?_, ?_⟩
  · simp only [getAttr, if_neg hg, hdt, hn, Option.getD_some]
    rw [hbuf, hread]
  · simp only [List.length_append, List.length_take, List.length_replicate, List.length_cons,
      List.length_nil]
    omega

theorem string_truncation_padding_witness :
    (setAttr (createRecord schemaS1).2 schemaS1 1 (.stringV [104, 101, 108, 108, 111, 0])).1
      = RC_OK ∧
    readBytes (setAttr (createRecord schemaS1).2 schemaS1 1
        (.stringV [104, 101, 108, 108, 111, 0])).2.buf (sumWidths schemaS1 (1 : Int).toNat) 4 =
      (cstr [104, 101, 108, 108, 111, 0]).take
          (min (cstr [104, 101, 108, 108, 111, 0]).length (4 : Int).toNat) ++
        List.replicate ((4 : Int).toNat -
          min (cstr [104, 101, 108, 108, 111, 0]).length (4 : Int).toNat) 0 ∧
    getAttr (setAttr (createRecord schemaS1).2 schemaS1 1
        (.stringV [104, 101, 108, 108, 111, 0])).2 schemaS1 1 =
      (RC_OK, some (.stringV ((cstr [104, 101, 108, 108, 111, 0]).take
          (min (cstr [104, 101, 108, 108, 111, 0]).length (4 : Int).toNat) ++
        List.replicate ((4 : Int).toNat -
          min (cstr [104, 101, 108, 108, 111, 0]).length (4 : Int).toNat) 0 ++ [0]))) ∧
    ((cstr [104, 101, 108, 108, 111, 0]).take
          (min (cstr [104, 101, 108, 108, 111, 0]).length (4 : Int).toNat) ++
        List.replicate ((4 : Int).toNat -
          min (cstr [104, 101, 108, 108, 111, 0]).length (4 : Int).toNat) 0 ++ [0]).length =
      (4 : Int).toNat + 1 :=
  string_truncation_padding (createRecord schemaS1).2 schemaS1 1 [104, 101, 108, 108, 111, 0] 4
    (by decide) (by decide) rfl rfl (by decide)

/-- C15 (setAttr type check). For every record, schema, attribute index `i` in
`[0, numAttr)` with data type `dataTypes[i]` and every value: when `value.dt` differs from
`dataTypes[i]`, `setAttr` returns RC_RM_COMPARE_VALUE_OF_DIFFERENT_DATATYPE and leaves the
record (its id and every data byte) as it was; when `value.dt` equals `dataTypes[i]` it
returns RC_OK. -/
theorem setAttr_type_check (r : Record) (schema : Schema) (i : Int) (value : Value)
    (dt : DataType) (hi0 : 0 ≤ i) (hi : i < schema.numAttr)
    (hdt : schema.dataTypes[i.toNat]? = some dt) :
    (value.dt ≠ dt →
      (setAttr r schema i value).1 = RC_RM_COMPARE_VALUE_OF_DIFFERENT_DATATYPE ∧
      (setAttr r schema i value).2 = r) ∧
    (value.dt = dt → (setAttr r schema i value).1 = RC_OK) := by
  have hg : ¬ (i < 0 ∨ i ≥ schema.numAttr) := by omega
  constructor
  · intro hne
    have hne2 : some value.dt ≠ schema.dataTypes[i.toNat]? := by
      rw [hdt]
      intro h
      exact hne (Option.some.inj h)
    simp only [setAttr, if_neg hg, if_pos hne2, and_self]
  · intro heq
    have heq2 : ¬ some value.dt ≠ schema.dataTypes[i.toNat]? := by
      rw [hdt, heq]
      simp
    unfold setAttr
    rw [if_neg hg, if_neg heq2]
    cases value <;> rfl

theorem setAttr_type_check_witness :
    (Value.dt (.boolV true) ≠ DataType.DT_INT →
      (setAttr recordS1 schemaS1 0 (.boolV true)).1 =
        RC_RM_COMPARE_VALUE_OF_DIFFERENT_DATATYPE ∧
      (setAttr recordS1 schemaS1 0 (.boolV true)).2 = recordS1) ∧
    (Value.dt (.boolV true) = DataType.DT_INT →
      (setAttr recordS1 schemaS1 0 (.boolV true)).1 = RC_OK) :=
  setAttr_type_check recordS1 schemaS1 0 (.boolV true) .DT_INT (by decide) (by decide) rfl


/-! ## The id an insert assigns -/

/-- C16 (inserted-record invariant). In an open table with succeeding buffer-manager calls
whose metadata satisfies the invariants (`numPages` below `INT_MAX`), `insertRecord` returns
RC_OK and sets `record.id` to an RID with page in `[DATA_START_PAGE, numPages)` (`numPages`
as after the call) and slot in `[0, slotsPerPage)`; that RID was not the RID of an occupied
slot before the call (its bit was 0 if the page existed), its bit is 1 after the call, and
the RID is the same whatever `record.id` was on input. -/
theorem inserted_record_invariant (rel : RM_TableData) (record : Record) (id0 : RID)
    (hrel : rel.Reliable) (hinv : rel.header.Inv) (hmax : rel.header.numPages < 2147483647) :
    (insertRecord rel record).1 = RC_OK ∧
    DATA_START_PAGE ≤ (insertRecord rel record).2.2.id.page ∧
    (insertRecord rel record).2.2.id.page < (insertRecord rel record).2.1.header.numPages ∧
    0 ≤ (insertRecord rel record).2.2.id.slot ∧
    (insertRecord rel record).2.2.id.slot < (insertRecord rel record).2.1.header.slotsPerPage ∧
    ¬ (insertRecord rel record).2.2.id ∈ occupiedRIDs rel.pages rel.header ∧
    ((insertRecord rel record).2.2.id.page < rel.header.numPages →
      isSlotOccupied (rel.pages (insertRecord rel record).2.2.id.page)
        (insertRecord rel record).2.2.id.slot = false) ∧
    isSlotOccupied ((insertRecord rel record).2.1.pages (insertRecord rel record).2.2.id.page)
      (insertRecord rel record).2.2.id.slot = true ∧
    (insertRecord rel { record with id := id0 }).2.2.id = (insertRecord rel record).2.2.id := by
  obtain ⟨i1, -, i3, -, -, i6⟩ := insertRecord_nil rel record hrel
  obtain ⟨-, -, -, -, -, j6⟩ := insertRecord_nil rel { record with id := id0 } hrel
  obtain ⟨-, hinv', -, hspp⟩ := insert_inv rel record hrel hinv hmax
  obtain ⟨b1, -, -, -, -⟩ := insertPages_spec rel.pages (getNumTuples rel) record hinv
  have hid : (insertRecord rel record).2.2.id = insertRID rel.pages := by rw [i6]
  have hhdr : (insertRecord rel record).2.1.header =
      loadMetadata (insertPages rel.pages (getNumTuples rel) record HEADER_PAGE) := by
    simp only [RM_TableData.header, i3]
  have hinv0 := hinv
  obtain ⟨v1, v2, v3, v4, v5⟩ := hinv0
  have v3b : (2 : Int) ≤ rel.header.numPages := v3
  have v4b : (1 : Int) ≤ rel.header.firstFreePage := v4
  have hlast : (insertRecord rel { record with id := id0 }).2.2.id = insertRID rel.pages := by
    rw [j6]
  rw [hid, i3, hspp]
  rcases insertPages_cases rel.pages (getNumTuples rel) record hinv with
    ⟨rid, hs, hrid, hh, -⟩ | ⟨-, hrid, hh, -⟩
  · obtain ⟨s1, s2, s3, s4, s5, -, -⟩ := searchFree_some _ _ _ _ _ hs
    have s1b : rel.header.firstFreePage ≤ rid.page := s1
    have s2b : rid.page < rel.header.numPages := by
      have : rid.page < rel.header.firstFreePage +
          ((rel.header.numPages - rel.header.firstFreePage).toNat : Int) := s2
      rw [Int.toNat_of_nonneg (by omega)] at this
      omega
    rw [hh] at hhdr
    rw [hrid] at b1 hlast ⊢
    refine ⟨i1, by show (1 : Int) ≤ rid.page; omega, by rw [hhdr]; exact s2b, s3, s4, ?_,
      fun _ => s5, b1, hlast⟩
    rw [(occupiedRIDs_spec _ _).1]
    rintro ⟨-, -, -, -, h⟩
    rw [s5] at h
    exact absurd h (by simp)
  · have hwp : wrap32 ((loadMetadata (rel.pages HEADER_PAGE)).numPages + 1) =
        rel.header.numPages + 1 := wrap32_of_range _ (by
          show -2147483648 ≤ rel.header.numPages + 1; omega) (by
          show rel.header.numPages + 1 < 2147483648; omega)
    rw [hh, hwp] at hhdr
    have hpage : (insertRID rel.pages).page = rel.header.numPages := by rw [hrid]; rfl
    have hslot : (insertRID rel.pages).slot = 0 := by rw [hrid]
    refine ⟨i1, by rw [hpage]; show (1 : Int) ≤ rel.header.numPages; omega,
      by rw [hpage, hhdr]; show rel.header.numPages < rel.header.numPages + 1; omega,
      by rw [hslot], by rw [hslot]; omega, ?_, fun h => by rw [hpage] at h; omega, b1,
      hlast⟩
    rw [(occupiedRIDs_spec _ _).1]
    rintro ⟨-, h, -⟩
    rw [hpage] at h
    omega

theorem inserted_record_invariant_witness :
    (insertRecord tableS1 recordS1).1 = RC_OK ∧
    DATA_START_PAGE ≤ (insertRecord tableS1 recordS1).2.2.id.page ∧
    (insertRecord tableS1 recordS1).2.2.id.page <
      (insertRecord tableS1 recordS1).2.1.header.numPages ∧
    0 ≤ (insertRecord tableS1 recordS1).2.2.id.slot ∧
    (insertRecord tableS1 recordS1).2.2.id.slot <
      (insertRecord tableS1 recordS1).2.1.header.slotsPerPage ∧
    ¬ (insertRecord tableS1 recordS1).2.2.id ∈ occupiedRIDs tableS1.pages tableS1.header ∧
    ((insertRecord tableS1 recordS1).2.2.id.page < tableS1.header.numPages →
      isSlotOccupied (tableS1.pages (insertRecord tableS1 recordS1).2.2.id.page)
        (insertRecord tableS1 recordS1).2.2.id.slot = false) ∧
    isSlotOccupied ((insertRecord tableS1 recordS1).2.1.pages
        (insertRecord tableS1 recordS1).2.2.id.page)
      (insertRecord tableS1 recordS1).2.2.id.slot = true ∧
    (insertRecord tableS1 { recordS1 with id := ⟨7, 7⟩ }).2.2.id =
      (insertRecord tableS1 recordS1).2.2.id :=
  inserted_record_invariant tableS1 recordS1 ⟨7, 7⟩ ⟨rfl, rfl⟩ (by decide) (by decide)


/-! ## `evalExpr` against the reference semantics -/

theorem lexLess_iff (a : List Nat) : ∀ b : List Nat, lexLess a b = true ↔ a < b := by
  induction a with
  | nil =>
    intro b
    cases b with
    | nil => exact ⟨fun h => by simp [lexLess] at h, fun h => by cases h⟩
    | cons y ys => exact ⟨fun _ => List.Lex.nil, fun _ => rfl⟩
  | cons x xs ih =>
    intro b
    cases b with
    | nil => exact ⟨fun h => by simp [lexLess] at h, fun h => by cases h⟩
    | cons y ys =>
      simp only [lexLess, Bool.or_eq_true, Bool.and_eq_true, decide_eq_true_eq]
      constructor
      · rintro (h | ⟨h1, h2⟩)
        · exact List.Lex.rel h
        · subst h1
          exact List.Lex.cons ((ih ys).mp h2)
      · intro h
        cases h with
        | rel h => exact Or.inl h
        | cons h => exact Or.inr ⟨rfl, (ih ys).mpr h⟩

theorem lexLess_eq_decide (a b : List Nat) : lexLess a b = decide (a < b) := by
  rcases h : lexLess a b with _ | _
  · symm
    apply decide_eq_false
    intro hlt
    rw [(lexLess_iff a b).mpr hlt] at h
    exact absurd h (by simp)
  · symm
    exact decide_eq_true ((lexLess_iff a b).mp h)

/-- On operands of the required types the C operators compute the reference value. -/
theorem applyBinary_spec (type : OpType) (l r v : Value) (h : specBinary type l r = some v) :
    type ≠ .OP_BOOL_NOT ∧ applyBinary type l r = (RC_OK, some v) := by
  cases type <;> cases l <;> cases r <;> simp only [specBinary] at h <;> cases h <;>
    refine ⟨by simp, ?_⟩ <;>
    simp [applyBinary, boolAnd, boolOr, valueEquals, valueSmaller, Value.dt, lexLess_eq_decide,
      beq_eq_decide]

theorem getAttr_in_range (record : Record) (schema : Schema) (i : Int) (h0 : 0 ≤ i)
    (h1 : i < schema.numAttr) : (getAttr record schema i).1 = RC_OK := by
  have hg : ¬ (i < 0 ∨ i ≥ schema.numAttr) := by omega
  unfold getAttr
  rw [if_neg hg]
  dsimp only
  split <;> rfl

/-- Where the reference semantics gives a value, `evalExpr` returns RC_OK with it. -/
theorem evalExpr_specEval (record : Record) (schema : Schema) :
    ∀ (e : Expr) (v : Value), specEval record schema e = some v →
      evalExpr record schema e = some (RC_OK, some v)
  | .cons c, v, h => by
    simp only [specEval, Option.some.injEq] at h
    subst h
    simp only [evalExpr]
  | .attrRef i, v, h => by
    simp only [specEval] at h
    split_ifs at h with hi
    have hrc := getAttr_in_range record schema i hi.1 hi.2
    simp only [evalExpr, hrc, ne_eq, not_true_eq_false, if_false, Option.some.injEq]
    rw [← hrc, ← h]
  | .op _ [], v, h => by simp only [specEval] at h; exact absurd h (by simp)
  | .op type [a], v, h => by
    simp only [specEval] at h
    rcases hx : specEval record schema a with _ | x
    · rw [hx] at h
      cases type <;> simp [specUnary] at h
    · rw [hx] at h
      have ha := evalExpr_specEval record schema a x hx
      cases type <;> cases x <;> simp only [specUnary] at h <;> cases h
      simp only [evalExpr, ha, ne_eq, not_true_eq_false, if_false, if_true, boolNot]
  | .op type [a, b], v, h => by
    simp only [specEval] at h
    rcases hl : specEval record schema a with _ | l
    · rw [hl] at h; exact absurd h (by simp)
    · rcases hr : specEval record schema b with _ | r
      · rw [hl, hr] at h; exact absurd h (by simp)
      · rw [hl, hr] at h
        simp only [Option.some_bind] at h
        have ha := evalExpr_specEval record schema a l hl
        have hb := evalExpr_specEval record schema b r hr
        obtain ⟨hne, hap⟩ := applyBinary_spec type l r v h
        simp only [evalExpr, ha, hb, ne_eq, not_true_eq_false, if_false, hne, hap]
  | .op _ (_ :: _ :: _ :: _), v, h => by simp only [specEval] at h; exact absurd h (by simp)

theorem specBinary_bool (type : OpType) (l r v : Value) (h : specBinary type l r = some v) :
    v.dt = .DT_BOOL := by
  cases type <;> cases l <;> cases r <;> simp only [specBinary] at h <;> cases h <;> rfl

theorem specEval_op_bool (record : Record) (schema : Schema) (type : OpType)
    (args : List Expr) (v : Value) (h : specEval record schema (.op type args) = some v) :
    v.dt = .DT_BOOL := by
  match args, h with
  | [], h => simp only [specEval] at h; exact absurd h (by simp)
  | [a], h =>
    simp only [specEval] at h
    rcases hx : specEval record schema a with _ | x
    · rw [hx] at h
      cases type <;> simp [specUnary] at h
    · rw [hx] at h
      cases type <;> cases x <;> simp only [specUnary] at h <;> cases h
      rfl
  | [a, b], h =>
    simp only [specEval] at h
    rcases hl : specEval record schema a with _ | l
    · rw [hl] at h; exact absurd h (by simp)
    · rcases hr : specEval record schema b with _ | r
      · rw [hl, hr] at h; exact absurd h (by simp)
      · rw [hl, hr] at h
        exact specBinary_bool _ _ _ _ h
  | _ :: _ :: _ :: _, h => simp only [specEval] at h; exact absurd h (by simp)


/-- C17 (expression evaluation equals the reference semantics). For every record, schema
and expression tree built from constants, in-range attribute references and the operators
BoolNot, BoolAnd, BoolOr, CompEqual, CompSmaller on operands of the required types (Int,
Bool or String for the comparisons), that is, wherever the reference semantics `specEval`
gives a value `v`: `evalExpr` returns RC_OK with `v`; for an operator node `v` is a Bool; a
constant evaluates to itself and `AttrRef(i)` to what `getAttr(record, schema, i)`
returns. A reference to a Bool attribute has a value where the stored byte is 0 or 1, the two
values of a `bool`: it is `false` for 0 and `true` for 1. -/
theorem evalExpr_matches_reference (record : Record) (schema : Schema) (e : Expr) (v : Value)
    (h : specEval record schema e = some v) :
    evalExpr record schema e = some (RC_OK, some v) ∧
    (∀ type args, e = .op type args → v.dt = .DT_BOOL) ∧
    (∀ c, e = .cons c → v = c) ∧
    (∀ i, e = .attrRef i → getAttr record schema i = (RC_OK, some v)) ∧
    (∀ i : Nat, (i : Int) < schema.numAttr → schema.dataTypes[i]? = some .DT_BOOL →
      record.buf (sumWidths schema i) ≤ 1 →
      specEval record schema (.attrRef i) =
          some (.boolV (decide (record.buf (sumWidths schema i) = 1))) ∧
        evalExpr record schema (.attrRef i) =
          some (RC_OK, some (.boolV (decide (record.buf (sumWidths schema i) = 1))))) := by
  have hev := evalExpr_specEval record schema e v h
  refine ⟨hev, ?_, ?_, ?_, ?_⟩
  · intro type args he
    subst he
    exact specEval_op_bool record schema type args v h
  · intro c he
    subst he
    simp only [specEval, Option.some.injEq] at h
    exact h.symm
  · intro i he
    subst he
    simp only [evalExpr] at hev
    split_ifs at hev
    exact Option.some.inj hev
  · intro i hi hdt hb
    have hg : ¬ ((i : Int) < 0 ∨ (i : Int) ≥ schema.numAttr) := by omega
    have hval : (record.buf (sumWidths schema i) != 0) =
        decide (record.buf (sumWidths schema i) = 1) := by
      rcases Nat.le_one_iff_eq_zero_or_eq_one.mp hb with h0 | h1
      · rw [h0]; rfl
      · rw [h1]; rfl
    have hs : specEval record schema (.attrRef i) =
        some (.boolV (decide (record.buf (sumWidths schema i) = 1))) := by
      simp only [specEval, getAttr, if_neg hg, Int.toNat_ofNat, hdt, if_pos hb, hval]
      rw [if_pos ⟨by omega, hi⟩]
    exact ⟨hs, evalExpr_specEval record schema _ _ hs⟩

set_option maxRecDepth 100000 in
theorem evalExpr_matches_reference_witness :
    (specEval recordFlag schemaFlag condFlag = some (.boolV true) ∧
      recordFlag.buf (sumWidths schemaFlag 1) = 1) ∧
    (evalExpr recordFlag schemaFlag condFlag = some (RC_OK, some (.boolV true)) ∧
    (∀ type args, condFlag = .op type args → (Value.boolV true).dt = .DT_BOOL) ∧
    (∀ c, condFlag = .cons c → Value.boolV true = c) ∧
    (∀ i, condFlag = .attrRef i →
      getAttr recordFlag schemaFlag i = (RC_OK, some (.boolV true))) ∧
    (∀ i : Nat, (i : Int) < schemaFlag.numAttr → schemaFlag.dataTypes[i]? = some .DT_BOOL →
      recordFlag.buf (sumWidths schemaFlag i) ≤ 1 →
      specEval recordFlag schemaFlag (.attrRef i) =
          some (.boolV (decide (recordFlag.buf (sumWidths schemaFlag i) = 1))) ∧
        evalExpr recordFlag schemaFlag (.attrRef i) =
          some (RC_OK, some (.boolV (decide (recordFlag.buf (sumWidths schemaFlag i) = 1)))))) :=
  ⟨by decide,
    evalExpr_matches_reference recordFlag schemaFlag condFlag (.boolV true) (by decide)⟩

/-- C18 (evaluator error mapping). For an operator node whose operands evaluate with RC_OK
to values: `evalExpr` returns RC_RM_COMPARE_VALUE_OF_DIFFERENT_DATATYPE when the operator is
CompEqual or CompSmaller and the two operands have different datatypes,
RC_RM_BOOLEAN_EXPR_ARG_IS_NOT_BOOLEAN when the operator is BoolNot, BoolAnd or BoolOr and
some operand is not a Bool, RC_RM_UNKNOWN_OPERATOR when the operator is none of the five,
and RC_OK otherwise (`specOpCode`); BoolNot has one operand, the others two. -/
theorem evaluator_error_mapping (record : Record) (schema : Schema) (type : OpType)
    (a b : Expr) (l r : Value)
    (ha : evalExpr record schema a = some (RC_OK, some l))
    (hb : evalExpr record schema b = some (RC_OK, some r)) :
    (type ≠ .OP_BOOL_NOT →
      (evalExpr record schema (.op type [a, b])).map Prod.fst =
        some (specOpCode type [l, r])) ∧
    (evalExpr record schema (.op .OP_BOOL_NOT [a])).map Prod.fst =
      some (specOpCode .OP_BOOL_NOT [l]) := by
  constructor
  · intro hne
    simp only [evalExpr, ha, hb, ne_eq, not_true_eq_false, if_false, hne, Option.map_some']
    cases type <;> cases l <;> cases r <;>
      simp [applyBinary, boolAnd, boolOr, valueEquals, valueSmaller, specOpCode, Value.dt]
      at hne ⊢
  · simp only [evalExpr, ha, ne_eq, not_true_eq_false, if_false, if_true, Option.map_some']
    cases l <;> simp [boolNot, specOpCode, Value.dt]

theorem evaluator_error_mapping_witness :
    ((OpType.OP_COMP_EQUAL ≠ .OP_BOOL_NOT →
      (evalExpr recordS1 schemaS1
        (.op .OP_COMP_EQUAL [.cons (.intV 3), .cons (.stringV [120, 0])])).map Prod.fst =
        some (specOpCode .OP_COMP_EQUAL [.intV 3, .stringV [120, 0]])) ∧
    (evalExpr recordS1 schemaS1 (.op .OP_BOOL_NOT [.cons (.intV 3)])).map Prod.fst =
      some (specOpCode .OP_BOOL_NOT [.intV 3])) ∧
    specOpCode .OP_COMP_EQUAL [.intV 3, .stringV [120, 0]] =
      RC_RM_COMPARE_VALUE_OF_DIFFERENT_DATATYPE ∧
    specOpCode .OP_BOOL_NOT [.intV 3] = RC_RM_BOOLEAN_EXPR_ARG_IS_NOT_BOOLEAN ∧
    specOpCode (.OP_OTHER 9) [.intV 3, .intV 3] = RC_RM_UNKNOWN_OPERATOR ∧
    specOpCode .OP_COMP_SMALLER [.intV 3, .intV 4] = RC_OK :=
  ⟨evaluator_error_mapping recordS1 schemaS1 .OP_COMP_EQUAL (.cons (.intV 3))
    (.cons (.stringV [120, 0])) (.intV 3) (.stringV [120, 0]) rfl rfl,
    by decide, by decide, by decide, by decide⟩


/-! ## Evaluator errors in a scan -/

theorem nextSlotLoop_free (schema : Schema) (cond : Option Expr) (m : TableMetadata)
    (pageData : Mem) (cp : Int) (n : Nat) :
    ∀ (bm : BM_BufferPool) (cs : Int) (record : Record), scanSlots pageData cp n cs = [] →
    nextSlotLoop schema cond m pageData cp n bm cs record =
      some ⟨none, false, bm, cp, cs + n, record⟩ := by
  induction n with
  | zero => intro bm cs record _; simp [nextSlotLoop]
  | succ n ih =>
    intro bm cs record h
    have he : cs + 1 + (n : Int) = cs + ((n + 1 : Nat) : Int) := by push_cast; omega
    unfold scanSlots at h
    split_ifs at h with hocc
    simp only [Bool.not_eq_true] at hocc
    unfold nextSlotLoop
    simp only [hocc, Bool.false_eq_true, if_false]
    rw [ih bm (cs + 1) record h, he]

theorem nextSlotLoop_error (schema : Schema) (c : Expr) (m : TableMetadata)
    (pages : Int → Mem) (cp : Int) (pins unpins : Nat) (calls : List Int) (rc : RC)
    (v : Option Value) (hrc : rc ≠ RC_OK) (n : Nat) :
    ∀ (cs : Int) (record : Record) (rid0 : RID) (rest : List RID),
    record.Sized m.recordSize → scanSlots (pages cp) cp n cs = rid0 :: rest →
    evalExpr (slotRecord pages m rid0) schema c = some (rc, v) →
    ∃ r, nextSlotLoop schema (some c) m (pages cp) cp n ⟨pages, [], pins, unpins, calls⟩ cs
        record = some r ∧ r.ret = some rc ∧ r.found = false ∧ r.bm.faults = [] ∧
        r.bm.pages = pages := by
  induction n with
  | zero => intro cs record rid0 rest _ h; simp [scanSlots] at h
  | succ n ih =>
    intro cs record rid0 rest hs h hev
    unfold scanSlots at h
    unfold nextSlotLoop
    split_ifs at h with hocc
    · simp only [List.cons.injEq] at h
      obtain ⟨h1, -⟩ := h
      subst h1
      have hrec : ({ id := ⟨cp, cs⟩, data := some (memcpy record.buf 0 (pages cp)
            (getRecordOffset cs m.recordSize (getSlotMapSize m.slotsPerPage)) m.recordSize) }
            : Record) = slotRecord pages m ⟨cp, cs⟩ := by
        simp only [slotRecord, memcpy_sized record _ hs]
      have ha : (if record.data.isNone = true then envCall ⟨pages, [], pins, unpins, calls⟩
          else (RC_OK, ⟨pages, [], pins, unpins, calls⟩)) =
            (RC_OK, ⟨pages, [], pins, unpins, calls⟩) := by
        split_ifs <;> simp
      simp only [hocc, if_true, ha, ne_eq, not_true_eq_false, if_false, hrec, hev, hrc,
        not_false_eq_true, unpinPage_mk]
      exact ⟨_, rfl, rfl, rfl, rfl, rfl⟩
    · simp only [Bool.not_eq_true] at hocc
      simp only [hocc, Bool.false_eq_true, if_false]
      exact ih (cs + 1) record rid0 rest hs h hev

theorem nextPageLoop_error (schema : Schema) (c : Expr) (m : TableMetadata)
    (pages : Int → Mem) (spp : Int) (rc : RC) (v : Option Value) (hrc : rc ≠ RC_OK) (n : Nat) :
    ∀ (cp cs : Int) (pins unpins : Nat) (calls : List Int) (record : Record) (rid0 : RID)
      (rest : List RID),
    record.Sized m.recordSize → scanPages pages spp n cp cs = rid0 :: rest →
    evalExpr (slotRecord pages m rid0) schema c = some (rc, v) →
    ∃ r, nextPageLoop schema (some c) m spp n ⟨pages, [], pins, unpins, calls⟩ cp cs record =
        some r ∧ r.ret = some rc ∧ r.found = false ∧ r.bm.faults = [] ∧ r.bm.pages = pages := by
  induction n with
  | zero => intro cp cs pins unpins calls record rid0 rest _ h; simp [scanPages] at h
  | succ n ih =>
    intro cp cs pins unpins calls record rid0 rest hs h hev
    have hlist : scanPages pages spp (n + 1) cp cs =
        scanSlots (pages cp) cp (spp - cs).toNat cs ++ scanPages pages spp n (cp + 1) 0 := rfl
    rw [hlist] at h
    rw [nextPageLoop]
    simp only [pinPage_mk, ne_eq, not_true_eq_false, if_false]
    rcases hsl : scanSlots (pages cp) cp (spp - cs).toNat cs with _ | ⟨rid1, rest1⟩
    · rw [hsl, List.nil_append] at h
      rw [nextSlotLoop_free schema (some c) m (pages cp) cp _ _ cs record hsl]
      simp only [unpinPage_mk, ne_eq, not_true_eq_false, if_false, Bool.false_eq_true]
      exact ih (cp + 1) 0 (pins + 1) (unpins + 1) (cp :: calls) record rid0 rest hs h hev
    · rw [hsl, List.cons_append] at h
      simp only [List.cons.injEq] at h
      obtain ⟨h1, -⟩ := h
      subst h1
      obtain ⟨r, hr, hret, hfound, hbm⟩ := nextSlotLoop_error schema c m pages cp (pins + 1)
        unpins (cp :: calls) rc v hrc (spp - cs).toNat cs record rid1 rest1 hs hsl hev
      rw [hr]
      simp only [hret]
      exact ⟨r, rfl, hret, hfound, hbm⟩

theorem next_error (rel : RM_TableData) (sm : ScanManager) (record : Record) (rid0 : RID)
    (rest : List RID) (c : Expr) (rc : RC) (v : Option Value)
    (hrel : rel.Reliable) (hact : sm.scanActive = true) (hcond : sm.condition = some c)
    (hs : record.Sized rel.header.recordSize)
    (hlist : scanPages rel.pages sm.slotsPerPage (sm.totalPages - sm.currentPage).toNat
      sm.currentPage sm.currentSlot = rid0 :: rest)
    (hev : evalExpr (slotRecord rel.pages rel.header rid0) rel.schema c = some (rc, v))
    (hrc : rc ≠ RC_OK) :
    ∃ rel1 scan1 rec1, next rel ⟨some sm⟩ record = some (rc, rel1, scan1, rec1) := by
  obtain ⟨pages, pins, unpins, calls, n, hm⟩ := reliable_exists_mgr hrel
  have hpages : rel.pages = pages := by simp [RM_TableData.pages, RM_TableData.pool, hm]
  have hhdr : rel.header = loadMetadata (pages HEADER_PAGE) := by
    simp [RM_TableData.header, hpages]
  rw [hpages] at hlist hev
  rw [hhdr] at hs hev
  obtain ⟨r, hr, hret, -, -, -⟩ := nextPageLoop_error rel.schema c
    (loadMetadata (pages HEADER_PAGE)) pages sm.slotsPerPage rc v hrc
    (sm.totalPages - sm.currentPage).toNat sm.currentPage sm.currentSlot (pins + 1)
    (unpins + 1) (HEADER_PAGE :: calls) record rid0 rest hs hlist hev
  simp only [next, hact, hm, readHeader_mk, envCall_mk, hcond, hr, hret]
  simp

/-- C19 (a scan propagates evaluator errors). In an open table with succeeding
buffer-manager calls that holds at least one record, `rid0` being the first occupied slot in
page/slot order: if `evalExpr` returns a code `rc` other than RC_OK for the predicate on the
record stored there, the first call of `next` after `startScan` returns exactly `rc` (no
record is reported with RC_OK); and for the predicate `IntConst(3) == StringConst("x")` the
first call of `next` returns RC_RM_COMPARE_VALUE_OF_DIFFERENT_DATATYPE. -/
theorem scan_propagates_error (rel : RM_TableData) (scan0 : RM_ScanHandle) (c : Expr)
    (record : Record) (rid0 : RID) (rest : List RID) (rc : RC) (v : Option Value)
    (hrel : rel.Reliable) (hs : record.Sized rel.header.recordSize)
    (hfirst : occupiedRIDs rel.pages rel.header = rid0 :: rest)
    (hev : evalExpr (slotRecord rel.pages rel.header rid0) rel.schema c = some (rc, v))
    (hrc : rc ≠ RC_OK) :
    (startScan rel scan0 (some c)).1 = RC_OK ∧
    (scanRun rel scan0 (some c) record 1).map (fun x => x.1.map Prod.fst) = some [rc] ∧
    (scanRun rel scan0 (some condS5) record 1).map (fun x => x.1.map Prod.fst) =
      some [RC_RM_COMPARE_VALUE_OF_DIFFERENT_DATATYPE] := by
  have key : ∀ (c1 : Expr) (rc1 : RC) (v1 : Option Value),
      evalExpr (slotRecord rel.pages rel.header rid0) rel.schema c1 = some (rc1, v1) →
      rc1 ≠ RC_OK →
      (startScan rel scan0 (some c1)).1 = RC_OK ∧
      (scanRun rel scan0 (some c1) record 1).map (fun x => x.1.map Prod.fst) = some [rc1] := by
    intro c1 rc1 v1 hev1 hrc1
    obtain ⟨s1, s2, s3, s4, -, s6⟩ := startScan_nil rel scan0 (some c1) hrel
    have hh := header_congr rel (startScan rel scan0 (some c1)).2.1 s3
    refine ⟨s1, ?_⟩
    unfold scanRun
    rw [s6]
    obtain ⟨rel1, scan1, rec1, hn⟩ := next_error (startScan rel scan0 (some c1)).2.1
      { currentRID := ⟨0, 0⟩, condition := some c1, scanActive := true,
        currentPage := DATA_START_PAGE, currentSlot := 0,
        totalPages := rel.header.numPages, slotsPerPage := rel.header.slotsPerPage }
      record rid0 rest c1 rc1 v1 s2 rfl rfl (by rw [hh]; exact hs)
      (by rw [s3]; exact hfirst) (by rw [s3, hh, s4]; exact hev1) hrc1
    simp only [nextN, hn, Option.map_some', List.map_cons, List.map_nil]
  obtain ⟨k1, k2⟩ := key c rc v hev hrc
  exact ⟨k1, k2, (key condS5 RC_RM_COMPARE_VALUE_OF_DIFFERENT_DATATYPE none rfl
    (by decide)).2⟩

set_option maxRecDepth 100000 in
theorem scan_propagates_error_witness :
    (startScan tableS4 ⟨none⟩ (some (.op .OP_BOOL_NOT [.attrRef 0]))).1 = RC_OK ∧
    (scanRun tableS4 ⟨none⟩ (some (.op .OP_BOOL_NOT [.attrRef 0])) ⟨⟨0, 0⟩, none⟩ 1).map
      (fun x => x.1.map Prod.fst) = some [RC_RM_BOOLEAN_EXPR_ARG_IS_NOT_BOOLEAN] ∧
    (scanRun tableS4 ⟨none⟩ (some condS5) ⟨⟨0, 0⟩, none⟩ 1).map
      (fun x => x.1.map Prod.fst) = some [RC_RM_COMPARE_VALUE_OF_DIFFERENT_DATATYPE] :=
  scan_propagates_error tableS4 ⟨none⟩ (.op .OP_BOOL_NOT [.attrRef 0]) ⟨⟨0, 0⟩, none⟩ ⟨1, 0⟩
    [⟨1, 1⟩, ⟨1, 2⟩, ⟨1, 3⟩] RC_RM_BOOLEAN_EXPR_ARG_IS_NOT_BOOLEAN none ⟨rfl, rfl⟩
    (fun _ _ => rfl) (by decide) (by decide) (by decide)


/-! ## The pages a scan pins -/

theorem draw_pinCalls (bm : BM_BufferPool) :
    bm.draw.2.pinCalls = bm.pinCalls ∧ bm.draw.2.pages = bm.pages := by
  unfold BM_BufferPool.draw
  cases bm.faults <;> exact ⟨rfl, rfl⟩

theorem pinPage_pinCalls (bm : BM_BufferPool) (p : Int) :
    (pinPage bm p).2.pinCalls = p :: bm.pinCalls ∧ (pinPage bm p).2.pages = bm.pages := by
  obtain ⟨h1, h2⟩ := draw_pinCalls bm
  unfold pinPage
  split_ifs
  · exact ⟨by rw [← h1], h2⟩
  · exact ⟨by rw [← h1], h2⟩

theorem unpinPage_pinCalls (bm : BM_BufferPool) :
    (unpinPage bm).2.pinCalls = bm.pinCalls ∧ (unpinPage bm).2.pages = bm.pages :=
  draw_pinCalls bm

theorem envCall_pinCalls (bm : BM_BufferPool) :
    (envCall bm).2.pinCalls = bm.pinCalls ∧ (envCall bm).2.pages = bm.pages :=
  draw_pinCalls bm

theorem readHeader_pinCalls (bm : BM_BufferPool) (m0 : TableMetadata) :
    (readHeader bm m0).2.1.pinCalls = HEADER_PAGE :: bm.pinCalls ∧
    ((readHeader bm m0).1 = RC_OK → (readHeader bm m0).2.2 = loadMetadata (bm.pages HEADER_PAGE))
    := by
  obtain ⟨h1, h2⟩ := pinPage_pinCalls bm HEADER_PAGE
  unfold readHeader
  dsimp only
  split_ifs with h
  · exact ⟨h1, fun h0 => absurd h0 h⟩
  · exact ⟨by rw [(unpinPage_pinCalls _).1, h1], fun _ => by rw [h2]⟩

theorem nextSlotLoop_snapshot (schema : Schema) (cond : Option Expr) (m : TableMetadata)
    (pageData : Mem) (cp : Int) (n : Nat) :
    ∀ (bm : BM_BufferPool) (cs : Int) (record : Record) (r : ScanLoop),
    nextSlotLoop schema cond m pageData cp n bm cs record = some r →
    r.bm.pinCalls = bm.pinCalls ∧ (∀ rc, r.ret = some rc → rc ≠ RC_OK) ∧
    (r.found = true → r.record.id.page = cp) := by
  induction n with
  | zero =>
    intro bm cs record r h
    simp only [nextSlotLoop, Option.some.injEq] at h
    subst h
    exact ⟨rfl, fun rc h => by simp at h, fun h => by simp at h⟩
  | succ n ih =>
    intro bm cs record r h
    have ha : (if record.data.isNone = true then envCall bm else (RC_OK, bm)).2.pinCalls =
        bm.pinCalls := by
      split_ifs
      · exact (envCall_pinCalls bm).1
      · rfl
    unfold nextSlotLoop at h
    dsimp only at h
    by_cases hocc : isSlotOccupied pageData cs = true
    · simp only [hocc, if_true] at h
      by_cases hal : (if record.data.isNone = true then envCall bm else (RC_OK, bm)).1 = RC_OK
      · simp only [hal, ne_eq, not_true_eq_false, if_false] at h
        rcases cond with _ | c
        · simp only [Option.some.injEq] at h
          subst h
          exact ⟨ha, fun rc h => by simp at h, fun _ => rfl⟩
        · simp only at h
          rcases hev : evalExpr
              { id := ⟨cp, cs⟩, data := some (memcpy record.buf 0 pageData
                (getRecordOffset cs m.recordSize (getSlotMapSize m.slotsPerPage))
                m.recordSize) } schema c with _ | ⟨rc, result⟩
          · rw [hev] at h; exact absurd h (by simp)
          · rw [hev] at h
            simp only at h
            by_cases hrc : rc = RC_OK
            · simp only [hrc, ne_eq, not_true_eq_false, if_false] at h
              rcases hb : result.bind Value.unionBool with _ | b
              · rw [hb] at h; exact absurd h (by simp)
              · rw [hb] at h
                cases b
                · simp only at h
                  obtain ⟨i1, i2, i3⟩ := ih _ _ _ _ h
                  exact ⟨i1.trans ha, i2, i3⟩
                · simp only [Option.some.injEq] at h
                  subst h
                  exact ⟨ha, fun rc h => by simp at h, fun _ => rfl⟩
            · simp only [ne_eq, hrc, not_false_eq_true, if_true, Option.some.injEq] at h
              subst h
              refine ⟨by rw [(unpinPage_pinCalls _).1, ha], ?_, fun h => by simp at h⟩
              intro rc2 h2
              simp only [Option.some.injEq] at h2
              rw [← h2]
              exact hrc
      · simp only [ne_eq, hal, not_false_eq_true, if_true, Option.some.injEq] at h
        subst h
        refine ⟨by rw [(unpinPage_pinCalls _).1, ha], ?_, fun h => by simp at h⟩
        intro rc2 h2
        simp only [Option.some.injEq] at h2
        rw [← h2]
        decide
    · simp only [hocc, Bool.false_eq_true, if_false] at h
      exact ih _ _ _ _ h

theorem nextPageLoop_snapshot (schema : Schema) (cond : Option Expr) (m : TableMetadata)
    (spp total : Int) (n : Nat) :
    ∀ (bm : BM_BufferPool) (cp cs : Int) (record : Record) (r : ScanLoop),
    n = (total - cp).toNat →
    nextPageLoop schema cond m spp n bm cp cs record = some r →
    (∃ l, r.bm.pinCalls = l ++ bm.pinCalls ∧ ∀ p ∈ l, p < total) ∧
    (∀ rc, r.ret = some rc → rc ≠ RC_OK) ∧
    (r.ret = none → r.found = true → r.record.id.page < total) := by
  induction n with
  | zero =>
    intro bm cp cs record r _ h
    simp only [nextPageLoop, Option.some.injEq] at h
    subst h
    exact ⟨⟨[], rfl, fun p hp => by simp at hp⟩, fun rc h => by simp at h,
      fun _ h => by simp at h⟩
  | succ n ih =>
    intro bm cp cs record r hn h
    have hcp : cp < total := by omega
    have hn' : n = (total - (cp + 1)).toNat := by omega
    obtain ⟨p1, -⟩ := pinPage_pinCalls bm cp
    unfold nextPageLoop at h
    dsimp only at h
    by_cases hp : (pinPage bm cp).1 = RC_OK
    · simp only [hp, ne_eq, not_true_eq_false, if_false] at h
      rcases hsl : nextSlotLoop schema cond m ((pinPage bm cp).2.pages cp) cp
          (spp - cs).toNat (pinPage bm cp).2 cs record with _ | r0
      · rw [hsl] at h; exact absurd h (by simp)
      · rw [hsl] at h
        simp only at h
        obtain ⟨q1, q2, q3⟩ := nextSlotLoop_snapshot _ _ _ _ _ _ _ _ _ _ hsl
        rw [p1] at q1
        rcases hret : r0.ret with _ | rc0
        · rw [hret] at h
          simp only at h
          by_cases hu : (unpinPage r0.bm).1 = RC_OK
          · simp only [hu, ne_eq, not_true_eq_false, if_false] at h
            by_cases hf : r0.found = true
            · simp only [hf, if_true, Option.some.injEq] at h
              subst h
              refine ⟨⟨[cp], by
                show (unpinPage r0.bm).2.pinCalls = [cp] ++ bm.pinCalls
                rw [(unpinPage_pinCalls _).1, q1]; rfl, fun p hp => by
                simp only [List.mem_singleton] at hp; omega⟩, ?_, ?_⟩
              · intro rc h2
                exact absurd h2 (by simp)
              · intro _ _
                show r0.record.id.page < total
                rw [q3 hf]
                exact hcp
            · simp only [hf, Bool.false_eq_true, if_false] at h
              obtain ⟨⟨l, i1, i2⟩, i3, i4⟩ := ih _ _ _ _ _ hn' h
              rw [(unpinPage_pinCalls _).1, q1] at i1
              refine ⟨⟨l ++ [cp], by rw [i1]; simp, fun p hp => ?_⟩, i3, i4⟩
              rcases List.mem_append.mp hp with h1 | h1
              · exact i2 p h1
              · simp only [List.mem_singleton] at h1; omega
          · simp only [ne_eq, hu, not_false_eq_true, if_true, Option.some.injEq] at h
            subst h
            refine ⟨⟨[cp], by
              show (unpinPage r0.bm).2.pinCalls = [cp] ++ bm.pinCalls
              rw [(unpinPage_pinCalls _).1, q1]; rfl, fun p hp => by
              simp only [List.mem_singleton] at hp; omega⟩, ?_, fun h2 => by simp at h2⟩
            intro rc h2
            simp only [Option.some.injEq] at h2
            rw [← h2]
            exact hu
        · rw [hret] at h
          simp only [Option.some.injEq] at h
          subst h
          refine ⟨⟨[cp], by rw [q1]; rfl, fun p hp => by
            simp only [List.mem_singleton] at hp; omega⟩, q2, fun h2 => ?_⟩
          rw [hret] at h2
          exact absurd h2 (by simp)
    · simp only [ne_eq, hp, not_false_eq_true, if_true, Option.some.injEq] at h
      subst h
      refine ⟨⟨[cp], by rw [p1]; rfl, fun p hp => by
        simp only [List.mem_singleton] at hp; omega⟩, ?_, fun h2 => by simp at h2⟩
      intro rc h2
      simp only [Option.some.injEq] at h2
      rw [← h2]
      exact hp

theorem next_snapshot (rel : RM_TableData) (sm : ScanManager) (record : Record)
    (r : RC × RM_TableData × RM_ScanHandle × Record)
    (h : next rel ⟨some sm⟩ record = some r) :
    (∃ l, r.2.1.pool.pinCalls = l ++ rel.pool.pinCalls ∧
      ∀ p ∈ l, p = HEADER_PAGE ∨ p < sm.totalPages) ∧
    (r.1 = RC_OK → r.2.2.2.id.page < sm.totalPages) ∧
    ∃ sm1, r.2.2.1 = ⟨some sm1⟩ ∧ sm1.totalPages = sm.totalPages := by
  unfold next at h
  simp only at h
  by_cases hact : sm.scanActive = true
  · simp only [hact, Bool.not_true, Bool.false_eq_true, if_false] at h
    rcases hm : rel.mgmtData with _ | mgr
    · rw [hm] at h; exact absurd h (by simp)
    · rw [hm] at h
      simp only at h
      have hpool : rel.pool = mgr.bufferPool := by simp only [RM_TableData.pool, hm]
      obtain ⟨g1, -⟩ := readHeader_pinCalls mgr.bufferPool TableMetadata.uninit
      by_cases hh : (readHeader mgr.bufferPool TableMetadata.uninit).1 = RC_OK
      · simp only [hh, ne_eq, not_true_eq_false, if_false] at h
        by_cases ha : (envCall (readHeader mgr.bufferPool TableMetadata.uninit).2.1).1 = RC_OK
        · simp only [ha, ne_eq, not_true_eq_false, if_false] at h
          rcases hl : nextPageLoop rel.schema sm.condition
              (readHeader mgr.bufferPool TableMetadata.uninit).2.2 sm.slotsPerPage
              (sm.totalPages - sm.currentPage).toNat
              (envCall (readHeader mgr.bufferPool TableMetadata.uninit).2.1).2 sm.currentPage
              sm.currentSlot record with _ | r0
          · rw [hl] at h; exact absurd h (by simp)
          · rw [hl] at h
            simp only at h
            obtain ⟨⟨l, q1, q2⟩, q3, q4⟩ := nextPageLoop_snapshot _ _ _ _ _ _ _ _ _ _ _ rfl hl
            rw [(envCall_pinCalls _).1, g1] at q1
            have hl2 : ∃ l2, r0.bm.pinCalls = l2 ++ rel.pool.pinCalls ∧
                ∀ p ∈ l2, p = HEADER_PAGE ∨ p < sm.totalPages := by
              refine ⟨l ++ [HEADER_PAGE], by rw [q1, hpool]; simp, fun p hp => ?_⟩
              rcases List.mem_append.mp hp with h1 | h1
              · exact Or.inr (q2 p h1)
              · simp only [List.mem_singleton] at h1
                exact Or.inl h1
            rcases hret : r0.ret with _ | rc0
            · rw [hret] at h
              simp only at h
              by_cases hf : r0.found = true
              · simp only [hf, Bool.not_true, Bool.false_eq_true, if_false,
                  Option.some.injEq] at h
                subst h
                exact ⟨hl2, fun _ => q4 hret hf, _, rfl, rfl⟩
              · simp only [hf, Bool.not_false, if_true, Option.some.injEq] at h
                subst h
                exact ⟨hl2, fun h0 => by simp at h0, _, rfl, rfl⟩
            · rw [hret] at h
              simp only [Option.some.injEq] at h
              subst h
              exact ⟨hl2, fun h0 => absurd h0 (q3 rc0 hret), _, rfl, rfl⟩
        · simp only [ne_eq, ha, not_false_eq_true, if_true, Option.some.injEq] at h
          subst h
          refine ⟨⟨[HEADER_PAGE], ?_, fun p hp => Or.inl (List.mem_singleton.mp hp)⟩,
            fun h0 => by simp at h0, sm, rfl, rfl⟩
          show (envCall (readHeader mgr.bufferPool TableMetadata.uninit).2.1).2.pinCalls = _
          rw [(envCall_pinCalls _).1, g1, hpool]
          rfl
      · simp only [ne_eq, hh, not_false_eq_true, if_true, Option.some.injEq] at h
        subst h
        refine ⟨⟨[HEADER_PAGE], ?_, fun p hp => Or.inl (List.mem_singleton.mp hp)⟩,
          fun h0 => absurd h0 hh, sm, rfl, rfl⟩
        show (readHeader mgr.bufferPool TableMetadata.uninit).2.1.pinCalls = _
        rw [g1, hpool]
        rfl
  · simp only [hact, Bool.not_false, if_true, Option.some.injEq] at h
    subst h
    exact ⟨⟨[], rfl, fun p hp => by simp at hp⟩, fun h0 => by simp at h0, sm, rfl, rfl⟩

theorem pinCallsBetween_append (before after : BM_BufferPool) (l : List Int)
    (h : after.pinCalls = l ++ before.pinCalls) : pinCallsBetween before after = l := by
  unfold pinCallsBetween
  rw [h, List.length_append, Nat.add_sub_cancel, List.take_left]

theorem startScan_total (rel : RM_TableData) (scan0 : RM_ScanHandle) (cond : Option Expr)
    (h : (startScan rel scan0 cond).1 = RC_OK) :
    ∃ sm, (startScan rel scan0 cond).2.2 = ⟨some sm⟩ ∧ sm.totalPages = rel.header.numPages := by
  unfold startScan at h ⊢
  rcases hm : rel.mgmtData with _ | mgr
  · rw [hm] at h; simp at h
  · rw [hm] at h
    simp only at h ⊢
    obtain ⟨-, g2⟩ := readHeader_pinCalls mgr.bufferPool TableMetadata.uninit
    by_cases hh : (readHeader mgr.bufferPool TableMetadata.uninit).1 = RC_OK
    · simp only [hh, ne_eq, not_true_eq_false, if_false]
      refine ⟨_, rfl, ?_⟩
      simp only [g2 hh, RM_TableData.header, RM_TableData.pages, RM_TableData.pool, hm]
    · simp only [ne_eq, hh, not_false_eq_true, if_true] at h

theorem runScanSteps_snapshot (steps : List ScanStep) :
    ∀ (rel : RM_TableData) (sm : ScanManager) (record : Record),
    ∀ x ∈ ((runScanSteps steps rel ⟨some sm⟩ record).map (fun out => out.1)).getD [],
      (x.1 = RC_OK → x.2.1.id.page < sm.totalPages) ∧
      ∀ p ∈ x.2.2, p = HEADER_PAGE ∨ p < sm.totalPages := by
  induction steps with
  | nil => intro rel sm record x hx; simp [runScanSteps] at hx
  | cons step rest ih =>
    intro rel sm record x hx
    cases step with
    | next =>
      simp only [runScanSteps] at hx
      rcases hn : next rel ⟨some sm⟩ record with _ | ⟨rc, rel1, scan1, record1⟩
      · rw [hn] at hx; simp at hx
      · rw [hn] at hx
        simp only at hx
        obtain ⟨⟨l, n1, n2⟩, n3, sm1, n4, n5⟩ := next_snapshot rel sm record _ hn
        simp only at n1 n3 n4
        subst n4
        rcases hr : runScanSteps rest rel1 ⟨some sm1⟩ record1 with _ | ⟨l2, rel2, scan2⟩
        · rw [hr] at hx; simp at hx
        · rw [hr] at hx
          simp only [Option.map_some', Option.getD_some, List.mem_cons] at hx
          rcases hx with rfl | hx
          · rw [pinCallsBetween_append _ _ l n1]
            exact ⟨n3, n2⟩
          · have := ih rel1 sm1 record1 x (by rw [hr]; simpa using hx)
            rw [n5] at this
            exact this
    | insert r =>
      simp only [runScanSteps] at hx
      exact ih _ sm record x hx

/-- C20 (snapshot semantics). For a scan started (with RC_OK) when the table had
`N = numPages` pages, whatever calls of `insertRecord` on the table are interleaved with the
calls of `next`, and whether or not buffer-manager calls fail: every call of `next` that
returns RC_OK yields a record whose page is below `N`, and every page number `next` gives to
`pinPage` is the header page or below `N`. -/
theorem snapshot_semantics (rel : RM_TableData) (scan0 : RM_ScanHandle) (cond : Option Expr)
    (steps : List ScanStep) (record : Record)
    (hstart : (startScan rel scan0 cond).1 = RC_OK) :
    (∀ x ∈ ((runScanSteps steps (startScan rel scan0 cond).2.1 (startScan rel scan0 cond).2.2
        record).map (fun out => out.1)).getD [],
      x.1 = RC_OK → x.2.1.id.page < rel.header.numPages) ∧
    (∀ x ∈ ((runScanSteps steps (startScan rel scan0 cond).2.1 (startScan rel scan0 cond).2.2
        record).map (fun out => out.1)).getD [],
      ∀ p ∈ x.2.2, p = HEADER_PAGE ∨ p < rel.header.numPages) := by
  obtain ⟨sm, h1, h2⟩ := startScan_total rel scan0 cond hstart
  rw [h1, ← h2]
  exact ⟨fun x hx => (runScanSteps_snapshot steps _ sm record x hx).1,
    fun x hx => (runScanSteps_snapshot steps _ sm record x hx).2⟩

set_option maxRecDepth 100000 in
theorem snapshot_semantics_witness :
    ((∀ x ∈ ((runScanSteps [.insert ⟨⟨-1, -1⟩, some zeroMem⟩, .next, .next, .next]
        (startScan tableFull ⟨none⟩ none).2.1 (startScan tableFull ⟨none⟩ none).2.2
        ⟨⟨0, 0⟩, none⟩).map (fun out => out.1)).getD [],
      x.1 = RC_OK → x.2.1.id.page < tableFull.header.numPages) ∧
    (∀ x ∈ ((runScanSteps [.insert ⟨⟨-1, -1⟩, some zeroMem⟩, .next, .next, .next]
        (startScan tableFull ⟨none⟩ none).2.1 (startScan tableFull ⟨none⟩ none).2.2
        ⟨⟨0, 0⟩, none⟩).map (fun out => out.1)).getD [],
      ∀ p ∈ x.2.2, p = HEADER_PAGE ∨ p < tableFull.header.numPages)) ∧
    tableFull.header.numPages = 2 ∧
    (insertRecord (startScan tableFull ⟨none⟩ none).2.1 ⟨⟨-1, -1⟩, some zeroMem⟩).2.2.id
      = ⟨2, 0⟩ ∧
    (runScanSteps [.insert ⟨⟨-1, -1⟩, some zeroMem⟩, .next, .next, .next]
        (startScan tableFull ⟨none⟩ none).2.1 (startScan tableFull ⟨none⟩ none).2.2
        ⟨⟨0, 0⟩, none⟩).map (fun out => out.1.map (fun x => (x.1, x.2.1.id, x.2.2))) =
      some [(RC_OK, ⟨1, 0⟩, [1, 0]), (RC_RM_NO_MORE_TUPLES, ⟨1, 0⟩, [1, 0]),
        (RC_RM_NO_MORE_TUPLES, ⟨1, 0⟩, [])] :=
  ⟨snapshot_semantics tableFull ⟨none⟩ none
    [.insert ⟨⟨-1, -1⟩, some zeroMem⟩, .next, .next, .next] ⟨⟨0, 0⟩, none⟩ (by decide),
    by decide, by decide, by decide⟩


/-! ## Bitmap semantics -/

theorem or_bit_idem (x i : Nat) :
    ((x ||| (1 <<< i)) % 256 ||| (1 <<< i)) % 256 = (x ||| (1 <<< i)) % 256 := by
  have h256 : (256 : Nat) = 2 ^ 8 := by norm_num
  apply Nat.eq_of_testBit_eq
  intro k
  rw [h256]
  simp only [Nat.testBit_mod_two_pow, Nat.testBit_or, Nat.one_shiftLeft, Nat.testBit_two_pow]
  by_cases hk : k < 8 <;> simp [hk]

theorem and_bit_idem (x i : Nat) :
    ((x &&& (255 ^^^ (1 <<< i))) % 256 &&& (255 ^^^ (1 <<< i))) % 256 =
      (x &&& (255 ^^^ (1 <<< i))) % 256 := by
  have h256 : (256 : Nat) = 2 ^ 8 := by norm_num
  apply Nat.eq_of_testBit_eq
  intro k
  rw [h256]
  simp only [Nat.testBit_mod_two_pow, Nat.testBit_and, Nat.testBit_xor, Nat.one_shiftLeft,
    Nat.testBit_two_pow]
  by_cases hk : k < 8 <;> simp [hk]

/-- C25. Bitmap semantics: for every page buffer and every slot `i ≥ 0` (so for every slot in
`[0, 8 * 4096)`), `isSlotOccupied page i` is true exactly when bit `i mod 8`, counted from the
least significant bit, of byte `i div 8` is 1; after `markSlotOccupied page i` the test is
true, after `markSlotFree page i` it is false; both are idempotent; both leave the test of
every other slot `j` unchanged and leave every byte other than byte `i div 8` unchanged. -/
theorem bitmap_semantics (page : Mem) (i j : Int) (hi : 0 ≤ i) (hj : 0 ≤ j) :
    (isSlotOccupied page i = true ↔ page (i / 8) / 2 ^ (i % 8).toNat % 2 = 1) ∧
    isSlotOccupied (markSlotOccupied page i) i = true ∧
    isSlotOccupied (markSlotFree page i) i = false ∧
    markSlotOccupied (markSlotOccupied page i) i = markSlotOccupied page i ∧
    markSlotFree (markSlotFree page i) i = markSlotFree page i ∧
    (j ≠ i → isSlotOccupied (markSlotOccupied page i) j = isSlotOccupied page j ∧
      isSlotOccupied (markSlotFree page i) j = isSlotOccupied page j) ∧
    (∀ k, k ≠ i / 8 → markSlotOccupied page i k = page k ∧ markSlotFree page i k = page k) := by
  refine ⟨?_, ?_, ?_, ?_, ?_, ?_, ?_⟩
  · rw [isSlotOccupied_eq _ _ hi, Nat.testBit_to_div_mod]
    simp
  · rw [isSlotOccupied_markSlotOccupied _ _ _ hi hi, if_pos rfl]
  · rw [isSlotOccupied_markSlotFree _ _ _ hi hi, if_pos rfl]
  · funext k
    unfold markSlotOccupied
    by_cases hk : k = Int.tdiv i 8
    · simp only [hk, if_true]
      exact or_bit_idem _ _
    · simp only [hk, if_false]
  · funext k
    unfold markSlotFree
    by_cases hk : k = Int.tdiv i 8
    · simp only [hk, if_true]
      exact and_bit_idem _ _
    · simp only [hk, if_false]
  · intro hji
    rw [isSlotOccupied_markSlotOccupied _ _ _ hi hj, isSlotOccupied_markSlotFree _ _ _ hi hj,
      if_neg hji, if_neg hji]
    exact ⟨rfl, rfl⟩
  · intro k hk
    exact ⟨markSlotOccupied_frame _ _ _ hi hk, markSlotFree_frame _ _ _ hi hk⟩

theorem bitmap_semantics_witness :
    (isSlotOccupied (memcpyList zeroMem 0 [0, 4] 2) 10 = true ↔
      memcpyList zeroMem 0 [0, 4] 2 (10 / 8) / 2 ^ ((10 : Int) % 8).toNat % 2 = 1) ∧
    isSlotOccupied (markSlotOccupied (memcpyList zeroMem 0 [0, 4] 2) 10) 10 = true ∧
    isSlotOccupied (markSlotFree (memcpyList zeroMem 0 [0, 4] 2) 10) 10 = false ∧
    markSlotOccupied (markSlotOccupied (memcpyList zeroMem 0 [0, 4] 2) 10) 10 =
      markSlotOccupied (memcpyList zeroMem 0 [0, 4] 2) 10 ∧
    markSlotFree (markSlotFree (memcpyList zeroMem 0 [0, 4] 2) 10) 10 =
      markSlotFree (memcpyList zeroMem 0 [0, 4] 2) 10 ∧
    ((3 : Int) ≠ 10 →
      isSlotOccupied (markSlotOccupied (memcpyList zeroMem 0 [0, 4] 2) 10) 3 =
        isSlotOccupied (memcpyList zeroMem 0 [0, 4] 2) 3 ∧
      isSlotOccupied (markSlotFree (memcpyList zeroMem 0 [0, 4] 2) 10) 3 =
        isSlotOccupied (memcpyList zeroMem 0 [0, 4] 2) 3) ∧
    (∀ k, k ≠ (10 : Int) / 8 →
      markSlotOccupied (memcpyList zeroMem 0 [0, 4] 2) 10 k = memcpyList zeroMem 0 [0, 4] 2 k ∧
      markSlotFree (memcpyList zeroMem 0 [0, 4] 2) 10 k = memcpyList zeroMem 0 [0, 4] 2 k) :=
  bitmap_semantics (memcpyList zeroMem 0 [0, 4] 2) 10 3 (by decide) (by decide)


/-! ## Order of evaluation of operator arguments -/

theorem findFreeSlot_found (bm : BM_BufferPool) (m : TableMetadata) (rid0 : RID) (p s : Int)
    (hbm : bm.faults = []) (hinv : m.Inv)
    (hp : m.firstFreePage ≤ p) (hp2 : p < m.numPages) (hs : 0 ≤ s) (hs2 : s < m.slotsPerPage)
    (hfree : isSlotOccupied (bm.pages p) s = false) :
    (findFreeSlot bm m rid0).1 = RC_OK ∧
    (findFreeSlot bm m rid0).2.1.pages = bm.pages ∧
    (findFreeSlot bm m rid0).2.2.1 = m ∧
    searchFree bm.pages m.slotsPerPage (m.numPages - m.firstFreePage).toNat m.firstFreePage =
      some (findFreeSlot bm m rid0).2.2.2 := by
  obtain ⟨h1, h2, -, h4, h5⟩ := findFreeSlot_nil bm m rid0 hbm
  have hn : m.firstFreePage + ((m.numPages - m.firstFreePage).toNat : Int) = m.numPages := by
    have := hinv.2.2.2.2
    omega
  cases hsf : searchFree bm.pages m.slotsPerPage (m.numPages - m.firstFreePage).toNat
      m.firstFreePage with
  | none =>
    have := searchFree_none _ _ _ _ hsf p hp (by rw [hn]; exact hp2) s hs hs2
    rw [hfree] at this
    exact absurd this (by decide)
  | some rid =>
    have ha : allocSlot bm.pages m = (bm.pages, m, rid) := by
      simp only [allocSlot, hsf]
    rw [ha] at h2 h4 h5
    exact ⟨h1, h2, h4, by rw [h5]⟩

/-- C26. First free slot from the hint: for every open table whose stored metadata satisfies
the invariants and in which some slot `(p, s)` with `firstFreePage ≤ p < numPages` and
`0 ≤ s < slotsPerPage` is free, `findFreeSlot` (every buffer-manager call succeeding) returns
RC_OK with a free slot in that window that is the smallest in page/slot order among the free
slots of the window, and changes neither the metadata (`numPages`, `firstFreePage`) nor any
page byte. Consequently, in a table that has never grown (`firstFreePage = 1`, `numPages = 2`)
with at least two slots per page and `(1,0)`, `(1,1)` occupied, deleting the record at `(1,1)`
makes the next `insertRecord` assign the id `(1,1)`. -/
theorem first_free_from_hint (rel : RM_TableData) (rid0 : RID) (p s : Int) (record : Record)
    (hrel : rel.Reliable) (hinv : rel.header.Inv)
    (hp : rel.header.firstFreePage ≤ p) (hp2 : p < rel.header.numPages)
    (hs : 0 ≤ s) (hs2 : s < rel.header.slotsPerPage)
    (hfree : isSlotOccupied (rel.pages p) s = false) :
    ((findFreeSlot rel.pool rel.header rid0).1 = RC_OK ∧
      rel.header.firstFreePage ≤ (findFreeSlot rel.pool rel.header rid0).2.2.2.page ∧
      (findFreeSlot rel.pool rel.header rid0).2.2.2.page < rel.header.numPages ∧
      0 ≤ (findFreeSlot rel.pool rel.header rid0).2.2.2.slot ∧
      (findFreeSlot rel.pool rel.header rid0).2.2.2.slot < rel.header.slotsPerPage ∧
      isSlotOccupied (rel.pages (findFreeSlot rel.pool rel.header rid0).2.2.2.page)
        (findFreeSlot rel.pool rel.header rid0).2.2.2.slot = false ∧
      (∀ q t, rel.header.firstFreePage ≤ q → q < rel.header.numPages → 0 ≤ t →
        t < rel.header.slotsPerPage → isSlotOccupied (rel.pages q) t = false →
        (findFreeSlot rel.pool rel.header rid0).2.2.2.page < q ∨
          ((findFreeSlot rel.pool rel.header rid0).2.2.2.page = q ∧
            (findFreeSlot rel.pool rel.header rid0).2.2.2.slot ≤ t)) ∧
      (findFreeSlot rel.pool rel.header rid0).2.2.1 = rel.header ∧
      (findFreeSlot rel.pool rel.header rid0).2.1.pages = rel.pages) ∧
    (rel.header.firstFreePage = 1 → rel.header.numPages = 2 → 2 ≤ rel.header.slotsPerPage →
      isSlotOccupied (rel.pages 1) 0 = true → isSlotOccupied (rel.pages 1) 1 = true →
      (deleteRecord rel ⟨1, 1⟩).1 = RC_OK ∧
      (insertRecord (deleteRecord rel ⟨1, 1⟩).2 record).1 = RC_OK ∧
      (insertRecord (deleteRecord rel ⟨1, 1⟩).2 record).2.2.id = ⟨1, 1⟩) := by
  constructor
  · obtain ⟨h1, h2, h3, h4⟩ :=
      findFreeSlot_found rel.pool rel.header rid0 p s hrel.2 hinv hp hp2 hs hs2 hfree
    have hn : rel.header.firstFreePage +
        ((rel.header.numPages - rel.header.firstFreePage).toNat : Int) = rel.header.numPages := by
      have := hinv.2.2.2.2
      omega
    obtain ⟨a1, a2, a3, a4, a5, a6, a7⟩ := searchFree_some _ _ _ _ _ h4
    rw [hn] at a2
    refine ⟨h1, a1, a2, a3, a4, a5, ?_, h3, h2⟩
    intro q t hq hq2 ht ht2 hqt
    by_contra hcon
    push_neg at hcon
    rcases lt_or_eq_of_le hcon.1 with hlt | heq
    · have := a7 q hq hlt t ht ht2
      rw [RM_TableData.pages] at hqt
      rw [hqt] at this
      exact absurd this (by decide)
    · have hlt := hcon.2 heq.symm
      have := a6 t ht hlt
      rw [← heq] at this
      rw [RM_TableData.pages] at hqt
      rw [hqt] at this
      exact absurd this (by decide)
  · intro hffp hnp hspp h0 h1
    have hone : OnePage rel (fun t => isSlotOccupied (rel.pages DATA_START_PAGE) t = true) :=
      ⟨hrel, hinv, hffp, hnp, fun t _ _ => Iff.rfl⟩
    obtain ⟨d1, d2, d3⟩ := delete_onePage rel _ 1 hone (by norm_num) (by omega) h1
    obtain ⟨i1, i2, -, -⟩ := insert_onePage (deleteRecord rel ⟨DATA_START_PAGE, 1⟩).2 record _ 1 d3
      (by norm_num) (by rw [d2]; omega) (by simp)
      (by
        intro t ht0 ht1
        have ht : t = 0 := by omega
        subst ht
        exact ⟨by norm_num, h0⟩)
    exact ⟨d1, i1, i2⟩

set_option maxRecDepth 100000 in
theorem first_free_from_hint_witness :
    (isSlotOccupied (tableTwo.pages 1) 5 = false ∧ tableTwo.header = ⟨2, 1, 2, 8, 504⟩ ∧
      isSlotOccupied (tableTwo.pages 1) 0 = true ∧ isSlotOccupied (tableTwo.pages 1) 1 = true ∧
      (findFreeSlot tableTwo.pool tableTwo.header ⟨0, 0⟩).2.2.2 = ⟨1, 2⟩) ∧
    (((findFreeSlot tableTwo.pool tableTwo.header ⟨0, 0⟩).1 = RC_OK ∧
      tableTwo.header.firstFreePage ≤ (findFreeSlot tableTwo.pool tableTwo.header ⟨0, 0⟩).2.2.2.page ∧
      (findFreeSlot tableTwo.pool tableTwo.header ⟨0, 0⟩).2.2.2.page < tableTwo.header.numPages ∧
      0 ≤ (findFreeSlot tableTwo.pool tableTwo.header ⟨0, 0⟩).2.2.2.slot ∧
      (findFreeSlot tableTwo.pool tableTwo.header ⟨0, 0⟩).2.2.2.slot <
        tableTwo.header.slotsPerPage ∧
      isSlotOccupied (tableTwo.pages (findFreeSlot tableTwo.pool tableTwo.header ⟨0, 0⟩).2.2.2.page)
        (findFreeSlot tableTwo.pool tableTwo.header ⟨0, 0⟩).2.2.2.slot = false ∧
      (∀ q t, tableTwo.header.firstFreePage ≤ q → q < tableTwo.header.numPages → 0 ≤ t →
        t < tableTwo.header.slotsPerPage → isSlotOccupied (tableTwo.pages q) t = false →
        (findFreeSlot tableTwo.pool tableTwo.header ⟨0, 0⟩).2.2.2.page < q ∨
          ((findFreeSlot tableTwo.pool tableTwo.header ⟨0, 0⟩).2.2.2.page = q ∧
            (findFreeSlot tableTwo.pool tableTwo.header ⟨0, 0⟩).2.2.2.slot ≤ t)) ∧
      (findFreeSlot tableTwo.pool tableTwo.header ⟨0, 0⟩).2.2.1 = tableTwo.header ∧
      (findFreeSlot tableTwo.pool tableTwo.header ⟨0, 0⟩).2.1.pages = tableTwo.pages) ∧
    (tableTwo.header.firstFreePage = 1 → tableTwo.header.numPages = 2 →
      2 ≤ tableTwo.header.slotsPerPage →
      isSlotOccupied (tableTwo.pages 1) 0 = true → isSlotOccupied (tableTwo.pages 1) 1 = true →
      (deleteRecord tableTwo ⟨1, 1⟩).1 = RC_OK ∧
      (insertRecord (deleteRecord tableTwo ⟨1, 1⟩).2 recordS1).1 = RC_OK ∧
      (insertRecord (deleteRecord tableTwo ⟨1, 1⟩).2 recordS1).2.2.id = ⟨1, 1⟩)) :=
  ⟨by decide,
    first_free_from_hint tableTwo ⟨0, 0⟩ 1 5 recordS1 ⟨by decide, by decide⟩ (by decide)
      (by decide) (by decide) (by decide) (by decide) (by decide)⟩


/-! ## The hint `firstFreePage` -/

theorem insert_hint (rel : RM_TableData) (record : Record) (hrel : rel.Reliable)
    (hinv : rel.header.Inv) (hmax : rel.header.numPages < 2147483647) :
    rel.header.firstFreePage ≤ (insertRecord rel record).2.2.id.page ∧
    (((insertRecord rel record).2.1.header.firstFreePage = rel.header.firstFreePage ∧
        (insertRecord rel record).2.1.header.numPages = rel.header.numPages ∧
        (insertRecord rel record).2.2.id.page < rel.header.numPages) ∨
      ((insertRecord rel record).2.1.header.firstFreePage = rel.header.numPages ∧
        (insertRecord rel record).2.1.header.numPages = rel.header.numPages + 1 ∧
        (insertRecord rel record).2.2.id = ⟨rel.header.numPages, 0⟩)) := by
  obtain ⟨-, -, i3, -, -, i6⟩ := insertRecord_nil rel record hrel
  have hhdr : (insertRecord rel record).2.1.header =
      loadMetadata (insertPages rel.pages (getNumTuples rel) record HEADER_PAGE) := by
    simp only [RM_TableData.header, i3]
  have hid : (insertRecord rel record).2.2.id = insertRID rel.pages := by rw [i6]
  have hinv0 := hinv
  obtain ⟨v1, v2, v3, v4, v5⟩ := hinv0
  have v3b : (2 : Int) ≤ rel.header.numPages := v3
  have v4b : (1 : Int) ≤ rel.header.firstFreePage := v4
  have hn : rel.header.firstFreePage +
      ((rel.header.numPages - rel.header.firstFreePage).toNat : Int) = rel.header.numPages := by
    omega
  rcases insertPages_cases rel.pages (getNumTuples rel) record hinv with
    ⟨rid, hsf, hr, hh, -⟩ | ⟨-, hr, hh, -⟩
  · obtain ⟨a1, a2, -⟩ := searchFree_some _ _ _ _ _ hsf
    have a2b : rid.page < rel.header.numPages := by
      have a2c : rid.page < rel.header.firstFreePage +
          ((rel.header.numPages - rel.header.firstFreePage).toNat : Int) := a2
      rw [hn] at a2c
      exact a2c
    rw [hid, hr, hhdr, hh]
    exact ⟨a1, Or.inl ⟨rfl, rfl, a2b⟩⟩
  · have hwp : wrap32 ((loadMetadata (rel.pages HEADER_PAGE)).numPages + 1) =
        rel.header.numPages + 1 := wrap32_of_range _ (by
          show -2147483648 ≤ rel.header.numPages + 1; omega) (by
          show rel.header.numPages + 1 < 2147483648; omega)
    rw [hid, hr, hhdr, hh, hwp]
    exact ⟨by show rel.header.firstFreePage ≤ rel.header.numPages; omega,
      Or.inr ⟨rfl, rfl, rfl⟩⟩

theorem insertRID_ge (pages : Int → Mem) (hinv : (loadMetadata (pages HEADER_PAGE)).Inv) :
    (loadMetadata (pages HEADER_PAGE)).firstFreePage ≤ (insertRID pages).page := by
  have hinv0 := hinv
  obtain ⟨v1, v2, v3, v4, v5⟩ := hinv0
  rcases insertPages_cases pages 0 ⟨⟨0, 0⟩, none⟩ hinv with
    ⟨rid, hsf, hr, -, -⟩ | ⟨-, hr, -, -⟩
  · obtain ⟨a1, -⟩ := searchFree_some _ _ _ _ _ hsf
    rw [hr]
    exact a1
  · rw [hr]
    exact le_of_lt v5

theorem delete_header (rel : RM_TableData) (id : RID) (hrel : rel.Reliable)
    (hok : (deleteRecord rel id).1 = RC_OK) :
    (deleteRecord rel id).2.header =
      { rel.header with numTuples := wrap32 (getNumTuples rel - 1) } := by
  have hocc : isSlotOccupied (rel.pages id.page) id.slot = true := by
    rcases hb : isSlotOccupied (rel.pages id.page) id.slot with _ | _
    · have := ((deleteRecord_nil rel id hrel).1 hb).1
      rw [this] at hok
      exact absurd hok (by decide)
    · rfl
  obtain ⟨-, -, d3, -, -⟩ := (deleteRecord_nil rel id hrel).2 hocc
  obtain ⟨-, w2, w3, w4, w5⟩ := wrap32_loadMetadata (rel.pages HEADER_PAGE)
  simp only [RM_TableData.header, d3, deletePages, setPage_same, loadMetadata_storeMetadata,
    w2, w3, w4, w5]

theorem apply_reliable (rel : RM_TableData) (op : WriteOp) (hrel : rel.Reliable) :
    (op.apply rel).2.Reliable := by
  cases op with
  | insert record => exact (insertRecord_nil rel record hrel).2.1
  | delete id =>
    rcases hb : isSlotOccupied (rel.pages id.page) id.slot with _ | _
    · exact ((deleteRecord_nil rel id hrel).1 hb).2.1
    · exact ((deleteRecord_nil rel id hrel).2 hb).2.1
  | update record =>
    rcases hb : isSlotOccupied (rel.pages record.id.page) record.id.slot with _ | _
    · exact ((updateRecord_nil rel record hrel).1 hb).2.1
    · exact ((updateRecord_nil rel record hrel).2 hb).2.1

theorem runOps_hint (ops : List WriteOp) :
    ∀ rel rel2 : RM_TableData, rel.Reliable → rel.header.Inv → runOps rel ops = some rel2 →
      rel2.Reliable ∧ rel2.header.Inv ∧
      rel.header.firstFreePage ≤ rel2.header.firstFreePage := by
  induction ops with
  | nil =>
    intro rel rel2 h hinv hr
    simp only [runOps, Option.some.injEq] at hr
    subst hr
    exact ⟨h, hinv, le_refl _⟩
  | cons op rest ih =>
    intro rel rel2 h hinv hr
    unfold runOps at hr
    split_ifs at hr with hg
    · obtain ⟨ha, hok⟩ := hg
      have hrel1 := apply_reliable rel op h
      have step : (op.apply rel).2.header.Inv ∧
          rel.header.firstFreePage ≤ (op.apply rel).2.header.firstFreePage := by
        cases op with
        | insert record =>
          refine ⟨(insert_inv rel record h hinv ha.2).2.1, ?_⟩
          rcases (insert_hint rel record h hinv ha.2).2 with hc | hc
          · exact le_of_eq hc.1.symm
          · have := hinv.2.2.2.2
            show rel.header.firstFreePage ≤ (insertRecord rel record).2.1.header.firstFreePage
            rw [hc.1]
            omega
        | delete id =>
          refine ⟨(delete_inv rel id h hinv hok).1, ?_⟩
          show rel.header.firstFreePage ≤ (deleteRecord rel id).2.header.firstFreePage
          rw [delete_header rel id h hok]
        | update record =>
          have hne : record.id.page ≠ HEADER_PAGE := by
            have : DATA_START_PAGE ≤ record.id.page := ha.1
            intro h0
            rw [h0] at this
            exact absurd this (by decide)
          show (updateRecord rel record).2.header.Inv ∧
            rel.header.firstFreePage ≤ (updateRecord rel record).2.header.firstFreePage
          rw [update_inv rel record h hne]
          exact ⟨hinv, le_refl _⟩
      obtain ⟨r1, r2, r3⟩ := ih _ rel2 hrel1 step.1 hr
      exact ⟨r1, r2, le_trans step.2 r3⟩

/-- C29, as the code has it (monotonic hint). For an open table with succeeding
buffer-manager calls whose stored metadata satisfies the invariants (`numPages` below
`INT_MAX`): `insertRecord` either leaves `firstFreePage` and `numPages` as they were, or grows
the file by one page and sets `firstFreePage` to the index of the new last page; a
`deleteRecord` that returns RC_OK for a slot whose bitmap bit lies in the 4096-byte page, and
an `updateRecord` that returns RC_OK for a page other than the header page and a slot whose
bit and record bytes lie in the 4096-byte page, leave `firstFreePage` unchanged; so over every
sequence of successful calls with in-range RIDs the stored `firstFreePage` never decreases,
and the id a later `insertRecord` assigns is never on a page below the `firstFreePage` of any
earlier state. -/
theorem monotonic_hint (rel : RM_TableData) (record : Record) (id : RID)
    (hrel : rel.Reliable) (hinv : rel.header.Inv) (hmax : rel.header.numPages < 2147483647) :
    ((insertRecord rel record).1 = RC_OK ∧
      rel.header.firstFreePage ≤ (insertRecord rel record).2.1.header.firstFreePage ∧
      (((insertRecord rel record).2.1.header.firstFreePage = rel.header.firstFreePage ∧
          (insertRecord rel record).2.1.header.numPages = rel.header.numPages) ∨
        ((insertRecord rel record).2.1.header.numPages = rel.header.numPages + 1 ∧
          (insertRecord rel record).2.1.header.firstFreePage =
            (insertRecord rel record).2.1.header.numPages - 1 ∧
          (insertRecord rel record).2.2.id.page =
            (insertRecord rel record).2.1.header.numPages - 1))) ∧
    (BitInFrame id.slot → (deleteRecord rel id).1 = RC_OK →
      (deleteRecord rel id).2.header.firstFreePage = rel.header.firstFreePage) ∧
    (record.id.page ≠ HEADER_PAGE → rel.header.SlotInFrame record.id.slot →
      (updateRecord rel record).1 = RC_OK →
      (updateRecord rel record).2.header.firstFreePage = rel.header.firstFreePage) ∧
    (∀ (ops : List WriteOp) (rel2 : RM_TableData), runOps rel ops = some rel2 →
      rel.header.firstFreePage ≤ rel2.header.firstFreePage ∧
      ∀ r, (insertRecord rel2 r).1 = RC_OK ∧
        rel.header.firstFreePage ≤ (insertRecord rel2 r).2.2.id.page) := by
  refine ⟨?_, ?_, ?_, ?_⟩
  · obtain ⟨-, hc⟩ := insert_hint rel record hrel hinv hmax
    have := hinv.2.2.2.2
    refine ⟨(insertRecord_nil rel record hrel).1, ?_, ?_⟩
    · rcases hc with hc | hc
      · exact le_of_eq hc.1.symm
      · rw [hc.1]; omega
    · rcases hc with hc | hc
      · exact Or.inl ⟨hc.1, hc.2.1⟩
      · refine Or.inr ⟨hc.2.1, ?_, ?_⟩
        · rw [hc.1, hc.2.1]; omega
        · rw [hc.2.2, hc.2.1]
          show rel.header.numPages = rel.header.numPages + 1 - 1
          omega
  · intro _ hok
    rw [delete_header rel id hrel hok]
  · intro hne _ _
    rw [update_inv rel record hrel hne]
  · intro ops rel2 hr
    obtain ⟨r1, r2, r3⟩ := runOps_hint ops rel rel2 hrel hinv hr
    refine ⟨r3, fun r => ⟨(insertRecord_nil rel2 r r1).1, ?_⟩⟩
    obtain ⟨-, -, -, -, -, i6⟩ := insertRecord_nil rel2 r r1
    rw [i6]
    exact le_trans r3 (insertRID_ge rel2.pages r2)

set_option maxRecDepth 100000 in
theorem monotonic_hint_witness :
    (tableFull.header.firstFreePage = 1 ∧
      (insertRecord tableFull ⟨⟨1, 0⟩, some zeroMem⟩).2.1.header.firstFreePage = 2 ∧
      (deleteRecord tableFull ⟨1, 0⟩).1 = RC_OK ∧
      (updateRecord tableFull ⟨⟨1, 0⟩, some zeroMem⟩).1 = RC_OK ∧
      tableFull.header.InRange ⟨1, 0⟩ ∧
      tableFull.header.SlotInFrame (RID.slot ⟨1, 0⟩) ∧
      (runOps tableFull [.update ⟨⟨1, 0⟩, some zeroMem⟩, .delete ⟨1, 0⟩]).isSome = true) ∧
    (((insertRecord tableFull ⟨⟨1, 0⟩, some zeroMem⟩).1 = RC_OK ∧
      tableFull.header.firstFreePage ≤
        (insertRecord tableFull ⟨⟨1, 0⟩, some zeroMem⟩).2.1.header.firstFreePage ∧
      (((insertRecord tableFull ⟨⟨1, 0⟩, some zeroMem⟩).2.1.header.firstFreePage =
            tableFull.header.firstFreePage ∧
          (insertRecord tableFull ⟨⟨1, 0⟩, some zeroMem⟩).2.1.header.numPages =
            tableFull.header.numPages) ∨
        ((insertRecord tableFull ⟨⟨1, 0⟩, some zeroMem⟩).2.1.header.numPages =
            tableFull.header.numPages + 1 ∧
          (insertRecord tableFull ⟨⟨1, 0⟩, some zeroMem⟩).2.1.header.firstFreePage =
            (insertRecord tableFull ⟨⟨1, 0⟩, some zeroMem⟩).2.1.header.numPages - 1 ∧
          (insertRecord tableFull ⟨⟨1, 0⟩, some zeroMem⟩).2.2.id.page =
            (insertRecord tableFull ⟨⟨1, 0⟩, some zeroMem⟩).2.1.header.numPages - 1))) ∧
    (BitInFrame (RID.slot ⟨1, 0⟩) → (deleteRecord tableFull ⟨1, 0⟩).1 = RC_OK →
      (deleteRecord tableFull ⟨1, 0⟩).2.header.firstFreePage = tableFull.header.firstFreePage) ∧
    (RID.page ⟨1, 0⟩ ≠ HEADER_PAGE → tableFull.header.SlotInFrame (RID.slot ⟨1, 0⟩) →
      (updateRecord tableFull ⟨⟨1, 0⟩, some zeroMem⟩).1 = RC_OK →
      (updateRecord tableFull ⟨⟨1, 0⟩, some zeroMem⟩).2.header.firstFreePage =
        tableFull.header.firstFreePage) ∧
    (∀ (ops : List WriteOp) (rel2 : RM_TableData), runOps tableFull ops = some rel2 →
      tableFull.header.firstFreePage ≤ rel2.header.firstFreePage ∧
      ∀ r, (insertRecord rel2 r).1 = RC_OK ∧
        tableFull.header.firstFreePage ≤ (insertRecord rel2 r).2.2.id.page)) :=
  ⟨by decide,
    monotonic_hint tableFull ⟨⟨1, 0⟩, some zeroMem⟩ ⟨1, 0⟩ ⟨by decide, by decide⟩ (by decide)
      (by decide)⟩

set_option maxRecDepth 100000 in
/-- C29 fails as stated for an `updateRecord` whose record id names the header page: in a
table for one STRING(200) attribute holding one record, the metadata satisfies the invariants
with `firstFreePage = 1`, the first byte of page 0 is 1, and the slot bytes lie in the page; so
`updateRecord` with id (0,0) finds "slot 0 of page 0" occupied, copies the 200 record bytes
to offset 3 of the header page and returns RC_OK, and the stored `firstFreePage` is 0
afterwards. -/
theorem monotonic_hint_counterexample :
    tableNote.header = ⟨1, 1, 2, 200, 20⟩ ∧ tableNote.header.Inv ∧
    tableNote.header.SlotInFrame 0 ∧
    (updateRecord tableNote ⟨⟨0, 0⟩, some zeroMem⟩).1 = RC_OK ∧
    (updateRecord tableNote ⟨⟨0, 0⟩, some zeroMem⟩).2.header.firstFreePage = 0 ∧
    (updateRecord tableNote ⟨⟨0, 0⟩, some zeroMem⟩).2.header.firstFreePage <
      tableNote.header.firstFreePage := by
  decide


/-! ## Frame of the record operations -/

theorem slot_geometry (m : TableMetadata) (hinv : m.Inv) (hrs : 0 ≤ m.recordSize)
    (s : Int) (hs0 : 0 ≤ s) (hs : s < m.slotsPerPage) :
    getSlotMapSize m.slotsPerPage ≤
      getRecordOffset s m.recordSize (getSlotMapSize m.slotsPerPage) ∧
    getRecordOffset s m.recordSize (getSlotMapSize m.slotsPerPage) + m.recordSize ≤ PAGE_SIZE ∧
    (∀ t, 0 ≤ t → t < m.slotsPerPage → 0 ≤ t / 8 ∧ t / 8 < getSlotMapSize m.slotsPerPage) ∧
    (∀ s2, 0 ≤ s2 → s2 ≠ s →
      getRecordOffset s m.recordSize (getSlotMapSize m.slotsPerPage) + m.recordSize ≤
          getRecordOffset s2 m.recordSize (getSlotMapSize m.slotsPerPage) ∨
        getRecordOffset s2 m.recordSize (getSlotMapSize m.slotsPerPage) + m.recordSize ≤
          getRecordOffset s m.recordSize (getSlotMapSize m.slotsPerPage)) := by
  obtain ⟨v1, v2, -, -, -⟩ := hinv
  have hms := getSlotMapSize_eq m.slotsPerPage (by omega)
  simp only [getRecordOffset]
  have h1 : 0 ≤ s * m.recordSize := Int.mul_nonneg hs0 hrs
  have h2 : (s + 1) * m.recordSize ≤ m.slotsPerPage * m.recordSize :=
    Int.mul_le_mul_of_nonneg_right (by omega) hrs
  have h3 : (s + 1) * m.recordSize = s * m.recordSize + m.recordSize := by ring
  refine ⟨by omega, by omega, ?_, ?_⟩
  · intro t ht0 ht
    rw [hms]
    omega
  · intro s2 hs20 hne
    rcases lt_or_gt_of_ne hne with hlt | hgt
    · right
      have h4 : (s2 + 1) * m.recordSize ≤ s * m.recordSize :=
        Int.mul_le_mul_of_nonneg_right (by omega) hrs
      have h5 : (s2 + 1) * m.recordSize = s2 * m.recordSize + m.recordSize := by ring
      omega
    · left
      have h4 : (s + 1) * m.recordSize ≤ s2 * m.recordSize :=
        Int.mul_le_mul_of_nonneg_right (by omega) hrs
      omega

/-- Writing a record into slot `s` of a page (with or without setting its bit) leaves the
bytes of every other slot as they were. -/
theorem memcpy_other_slot (m : TableMetadata) (hinv : m.Inv) (hrs : 0 ≤ m.recordSize)
    (d src : Mem) (s s2 k : Int) (hs0 : 0 ≤ s) (hs : s < m.slotsPerPage) (hs20 : 0 ≤ s2)
    (hne : s2 ≠ s) (hk0 : 0 ≤ k) (hk : k < m.recordSize) :
    memcpy d (getRecordOffset s m.recordSize (getSlotMapSize m.slotsPerPage)) src 0
      m.recordSize (m.slotByte s2 k) = d (m.slotByte s2 k) := by
  obtain ⟨-, -, -, g4⟩ := slot_geometry m hinv hrs s hs0 hs
  have := g4 s2 hs20 hne
  simp only [memcpy, TableMetadata.slotByte]
  rw [if_neg (by omega)]

/-- The bytes of a slot do not hold the occupancy bit of any slot of the page. -/
theorem slotByte_ne_bit (m : TableMetadata) (hinv : m.Inv) (hrs : 0 ≤ m.recordSize)
    (s t k : Int) (hs0 : 0 ≤ s) (ht : t < m.slotsPerPage) (hk0 : 0 ≤ k) :
    m.slotByte s k ≠ t / 8 := by
  have hv := hinv.1
  have hms := getSlotMapSize_eq m.slotsPerPage (by omega)
  have h1 : 0 ≤ s * m.recordSize := Int.mul_nonneg hs0 hrs
  simp only [TableMetadata.slotByte, getRecordOffset]
  omega

theorem insert_frame (rel : RM_TableData) (record : Record) (hrel : rel.Reliable)
    (hinv : rel.header.Inv) (hrs : 0 ≤ rel.header.recordSize) (rid : RID)
    (hr : rel.header.InRange rid) (hne : rid ≠ (insertRecord rel record).2.2.id) :
    isSlotOccupied ((insertRecord rel record).2.1.pages rid.page) rid.slot =
      isSlotOccupied (rel.pages rid.page) rid.slot ∧
    ∀ k, 0 ≤ k → k < rel.header.recordSize →
      (insertRecord rel record).2.1.pages rid.page (rel.header.slotByte rid.slot k) =
        rel.pages rid.page (rel.header.slotByte rid.slot k) := by
  obtain ⟨-, -, i3, -, -, i6⟩ := insertRecord_nil rel record hrel
  have hid : (insertRecord rel record).2.2.id = insertRID rel.pages := by rw [i6]
  rw [hid] at hne
  obtain ⟨r1, r2, r3, r4⟩ := hr
  have hq : rid.page ≠ HEADER_PAGE := by
    have : (1 : Int) ≤ rid.page := r1
    intro h0
    rw [h0] at this
    exact absurd this (by decide)
  have hn : rel.header.firstFreePage +
      ((rel.header.numPages - rel.header.firstFreePage).toNat : Int) = rel.header.numPages := by
    have := hinv.2.2.2.2
    omega
  rw [i3]
  rcases insertPages_cases rel.pages (getNumTuples rel) record hinv with
    ⟨rid0, hsf, hr0, -, hp⟩ | ⟨-, hr0, -, hp⟩
  · rw [hp _ hq]
    obtain ⟨-, -, a3, a4, -⟩ := searchFree_some _ _ _ _ _ hsf
    rw [hr0] at hne
    by_cases hpg : rid.page = rid0.page
    · rw [if_pos hpg]
      have hsl : rid.slot ≠ rid0.slot := by
        intro h
        apply hne
        cases rid
        cases rid0
        simp only [RID.mk.injEq]
        exact ⟨hpg, h⟩
      have r4b : rid.slot < (loadMetadata (rel.pages HEADER_PAGE)).slotsPerPage := r4
      constructor
      · rw [isSlotOccupied_memcpy_slot _ _ _ _ _ _ a3 r3 r4b,
          isSlotOccupied_markSlotOccupied _ _ _ a3 r3, if_neg hsl]
      · intro k hk0 hk
        have e1 := memcpy_other_slot rel.header hinv hrs
          (markSlotOccupied (rel.pages rid.page) rid0.slot) record.buf rid0.slot rid.slot k
          a3 a4 r3 hsl hk0 hk
        have e2 := markSlotOccupied_frame (rel.pages rid.page) rid0.slot
          (rel.header.slotByte rid.slot k) a3
          (slotByte_ne_bit rel.header hinv hrs rid.slot rid0.slot k r3 a4 hk0)
        exact e1.trans e2
    · rw [if_neg hpg]
      exact ⟨rfl, fun _ _ _ => rfl⟩
  · rw [hp _ hq]
    have hpg : rid.page ≠ (loadMetadata (rel.pages HEADER_PAGE)).numPages := by
      have : rid.page < (loadMetadata (rel.pages HEADER_PAGE)).numPages := r2
      omega
    rw [if_neg hpg]
    exact ⟨rfl, fun _ _ _ => rfl⟩

theorem update_frame (rel : RM_TableData) (record : Record) (hrel : rel.Reliable)
    (hinv : rel.header.Inv) (hrs : 0 ≤ rel.header.recordSize)
    (hid : rel.header.InRange record.id) (rid : RID) (hr : rel.header.InRange rid) :
    isSlotOccupied ((updateRecord rel record).2.pages rid.page) rid.slot =
      isSlotOccupied (rel.pages rid.page) rid.slot ∧
    (rid ≠ record.id → ∀ k, 0 ≤ k → k < rel.header.recordSize →
      (updateRecord rel record).2.pages rid.page (rel.header.slotByte rid.slot k) =
        rel.pages rid.page (rel.header.slotByte rid.slot k)) := by
  obtain ⟨r1, r2, r3, r4⟩ := hr
  obtain ⟨q1, q2, q3, q4⟩ := hid
  rcases hb : isSlotOccupied (rel.pages record.id.page) record.id.slot with _ | _
  · obtain ⟨-, -, u3, -, -⟩ := (updateRecord_nil rel record hrel).1 hb
    rw [u3]
    exact ⟨rfl, fun _ _ _ _ => rfl⟩
  · obtain ⟨-, -, u3, -, -⟩ := (updateRecord_nil rel record hrel).2 hb
    rw [u3]
    simp only [updatePages]
    by_cases hpg : rid.page = record.id.page
    · rw [hpg, setPage_same]
      constructor
      · exact isSlotOccupied_memcpy_slot _ _ _ _ _ _ q3 r3 r4
      · intro hne k hk0 hk
        have hsl : rid.slot ≠ record.id.slot := by
          intro h
          apply hne
          cases rid
          cases hrec : record.id
          rw [hrec] at hpg h
          simp only [RID.mk.injEq]
          exact ⟨hpg, h⟩
        exact memcpy_other_slot rel.header hinv hrs _ record.buf record.id.slot rid.slot k
          q3 q4 r3 hsl hk0 hk
    · rw [setPage_other _ _ _ _ hpg]
      exact ⟨rfl, fun _ _ _ _ => rfl⟩

theorem delete_frame (rel : RM_TableData) (id : RID) (hrel : rel.Reliable)
    (hinv : rel.header.Inv) (hrs : 0 ≤ rel.header.recordSize)
    (hid : rel.header.InRange id) (hok : (deleteRecord rel id).1 = RC_OK) (rid : RID)
    (hr : rel.header.InRange rid) :
    isSlotOccupied ((deleteRecord rel id).2.pages rid.page) rid.slot =
      (if rid = id then false else isSlotOccupied (rel.pages rid.page) rid.slot) ∧
    ∀ k, 0 ≤ k → k < rel.header.recordSize →
      (deleteRecord rel id).2.pages rid.page (rel.header.slotByte rid.slot k) =
        rel.pages rid.page (rel.header.slotByte rid.slot k) := by
  obtain ⟨r1, r2, r3, r4⟩ := hr
  obtain ⟨q1, q2, q3, q4⟩ := hid
  have hocc : isSlotOccupied (rel.pages id.page) id.slot = true := by
    rcases hb : isSlotOccupied (rel.pages id.page) id.slot with _ | _
    · have := ((deleteRecord_nil rel id hrel).1 hb).1
      rw [this] at hok
      exact absurd hok (by decide)
    · rfl
  obtain ⟨-, -, d3, -, -⟩ := (deleteRecord_nil rel id hrel).2 hocc
  have hq : rid.page ≠ HEADER_PAGE := by
    have : (1 : Int) ≤ rid.page := r1
    intro h0
    rw [h0] at this
    exact absurd this (by decide)
  rw [d3]
  simp only [deletePages]
  rw [setPage_other _ _ _ _ hq]
  by_cases hpg : rid.page = id.page
  · rw [hpg, setPage_same]
    constructor
    · rw [isSlotOccupied_markSlotFree _ _ _ q3 r3]
      by_cases hsl : rid.slot = id.slot
      · have : rid = id := by
          cases rid
          cases id
          simp only [RID.mk.injEq]
          exact ⟨hpg, hsl⟩
        rw [if_pos hsl, if_pos this]
      · have : rid ≠ id := fun h => hsl (by rw [h])
        rw [if_neg hsl, if_neg this]
    · intro k hk0 hk
      exact markSlotFree_frame _ _ _ q3
        (slotByte_ne_bit rel.header hinv hrs rid.slot id.slot k r3 q4 hk0)
  · rw [setPage_other _ _ _ _ hpg]
    have : rid ≠ id := fun h => hpg (by rw [h])
    rw [if_neg this]
    exact ⟨rfl, fun _ _ _ => rfl⟩

/-- C30. Frame of record operations, for an open table with succeeding buffer-manager calls
whose stored metadata satisfies the invariants (record size not negative) and RIDs `id`,
`rid` in range. The byte range `[recordOffset(s), recordOffset(s) + recordSize)` of slot
`s = id.slot`, with `recordOffset(s) = getSlotMapSize slotsPerPage + s * recordSize`, starts
at or after the end of the bitmap (which holds the byte `t / 8` of every slot `t`), ends
inside the 4096-byte page, and does not overlap the range of another slot. `insertRecord`
sets the bit of the slot it assigns and changes neither the occupancy bit nor a record byte of
any other in-range slot; `updateRecord` on `id` changes no occupancy bit and no record byte of
any other slot; a `deleteRecord` on `id` that returns RC_OK clears the bit of `id`, changes no
other occupancy bit, and leaves the record bytes of every slot, `id` included, as they
were. -/
theorem record_ops_frame (rel : RM_TableData) (record : Record) (id rid : RID)
    (hrel : rel.Reliable) (hinv : rel.header.Inv) (hrs : 0 ≤ rel.header.recordSize)
    (hid : rel.header.InRange id) (hr : rel.header.InRange rid) :
    (getSlotMapSize rel.header.slotsPerPage ≤
        getRecordOffset id.slot rel.header.recordSize
          (getSlotMapSize rel.header.slotsPerPage) ∧
      getRecordOffset id.slot rel.header.recordSize
          (getSlotMapSize rel.header.slotsPerPage) + rel.header.recordSize ≤ PAGE_SIZE ∧
      (∀ t, 0 ≤ t → t < rel.header.slotsPerPage →
        0 ≤ t / 8 ∧ t / 8 < getSlotMapSize rel.header.slotsPerPage) ∧
      (rid.slot ≠ id.slot →
        getRecordOffset id.slot rel.header.recordSize
            (getSlotMapSize rel.header.slotsPerPage) + rel.header.recordSize ≤
          getRecordOffset rid.slot rel.header.recordSize
            (getSlotMapSize rel.header.slotsPerPage) ∨
        getRecordOffset rid.slot rel.header.recordSize
            (getSlotMapSize rel.header.slotsPerPage) + rel.header.recordSize ≤
          getRecordOffset id.slot rel.header.recordSize
            (getSlotMapSize rel.header.slotsPerPage))) ∧
    ((insertRecord rel record).1 = RC_OK ∧
      isSlotOccupied
        ((insertRecord rel record).2.1.pages (insertRecord rel record).2.2.id.page)
        (insertRecord rel record).2.2.id.slot = true ∧
      (rid ≠ (insertRecord rel record).2.2.id →
        isSlotOccupied ((insertRecord rel record).2.1.pages rid.page) rid.slot =
          isSlotOccupied (rel.pages rid.page) rid.slot ∧
        ∀ k, 0 ≤ k → k < rel.header.recordSize →
          (insertRecord rel record).2.1.pages rid.page
              (rel.header.slotByte rid.slot k) =
            rel.pages rid.page (rel.header.slotByte rid.slot k))) ∧
    (isSlotOccupied ((updateRecord rel ⟨id, record.data⟩).2.pages rid.page) rid.slot =
        isSlotOccupied (rel.pages rid.page) rid.slot ∧
      (rid ≠ id → ∀ k, 0 ≤ k → k < rel.header.recordSize →
        (updateRecord rel ⟨id, record.data⟩).2.pages rid.page
            (rel.header.slotByte rid.slot k) =
          rel.pages rid.page (rel.header.slotByte rid.slot k))) ∧
    ((deleteRecord rel id).1 = RC_OK →
      isSlotOccupied ((deleteRecord rel id).2.pages rid.page) rid.slot =
        (if rid = id then false else isSlotOccupied (rel.pages rid.page) rid.slot) ∧
      ∀ k, 0 ≤ k → k < rel.header.recordSize →
        (deleteRecord rel id).2.pages rid.page (rel.header.slotByte rid.slot k) =
          rel.pages rid.page (rel.header.slotByte rid.slot k)) := by
  obtain ⟨g1, g2, g3, g4⟩ := slot_geometry rel.header hinv hrs id.slot hid.2.2.1 hid.2.2.2
  refine ⟨⟨g1, g2, g3, g4 rid.slot hr.2.2.1⟩, ⟨(insertRecord_nil rel record hrel).1, ?_,
    insert_frame rel record hrel hinv hrs rid hr⟩,
    update_frame rel ⟨id, record.data⟩ hrel hinv hrs hid rid hr,
    fun hok => delete_frame rel id hrel hinv hrs hid hok rid hr⟩
  obtain ⟨-, -, i3, -, -, i6⟩ := insertRecord_nil rel record hrel
  rw [i3, i6]
  exact (insertPages_spec rel.pages (getNumTuples rel) record hinv).1

set_option maxRecDepth 100000 in
theorem record_ops_frame_witness :
    ((insertRecord tableTwo recordS1).2.2.id = ⟨1, 2⟩ ∧
      (deleteRecord tableTwo ⟨1, 1⟩).1 = RC_OK ∧
      (updateRecord tableTwo ⟨⟨1, 1⟩, recordS1.data⟩).1 = RC_OK) ∧
    ((getSlotMapSize tableTwo.header.slotsPerPage ≤
        getRecordOffset (RID.mk 1 1).slot tableTwo.header.recordSize
          (getSlotMapSize tableTwo.header.slotsPerPage) ∧
      getRecordOffset (RID.mk 1 1).slot tableTwo.header.recordSize
          (getSlotMapSize tableTwo.header.slotsPerPage) + tableTwo.header.recordSize ≤ PAGE_SIZE ∧
      (∀ t, 0 ≤ t → t < tableTwo.header.slotsPerPage →
        0 ≤ t / 8 ∧ t / 8 < getSlotMapSize tableTwo.header.slotsPerPage) ∧
      ((RID.mk 1 0).slot ≠ (RID.mk 1 1).slot →
        getRecordOffset (RID.mk 1 1).slot tableTwo.header.recordSize
            (getSlotMapSize tableTwo.header.slotsPerPage) + tableTwo.header.recordSize ≤
          getRecordOffset (RID.mk 1 0).slot tableTwo.header.recordSize
            (getSlotMapSize tableTwo.header.slotsPerPage) ∨
        getRecordOffset (RID.mk 1 0).slot tableTwo.header.recordSize
            (getSlotMapSize tableTwo.header.slotsPerPage) + tableTwo.header.recordSize ≤
          getRecordOffset (RID.mk 1 1).slot tableTwo.header.recordSize
            (getSlotMapSize tableTwo.header.slotsPerPage))) ∧
    ((insertRecord tableTwo recordS1).1 = RC_OK ∧
      isSlotOccupied
        ((insertRecord tableTwo recordS1).2.1.pages (insertRecord tableTwo recordS1).2.2.id.page)
        (insertRecord tableTwo recordS1).2.2.id.slot = true ∧
      ((RID.mk 1 0) ≠ (insertRecord tableTwo recordS1).2.2.id →
        isSlotOccupied ((insertRecord tableTwo recordS1).2.1.pages (RID.mk 1 0).page) (RID.mk 1 0).slot =
          isSlotOccupied (tableTwo.pages (RID.mk 1 0).page) (RID.mk 1 0).slot ∧
        ∀ k, 0 ≤ k → k < tableTwo.header.recordSize →
          (insertRecord tableTwo recordS1).2.1.pages (RID.mk 1 0).page
              (tableTwo.header.slotByte (RID.mk 1 0).slot k) =
            tableTwo.pages (RID.mk 1 0).page (tableTwo.header.slotByte (RID.mk 1 0).slot k))) ∧
    (isSlotOccupied ((updateRecord tableTwo ⟨(RID.mk 1 1), recordS1.data⟩).2.pages (RID.mk 1 0).page) (RID.mk 1 0).slot =
        isSlotOccupied (tableTwo.pages (RID.mk 1 0).page) (RID.mk 1 0).slot ∧
      ((RID.mk 1 0) ≠ (RID.mk 1 1) → ∀ k, 0 ≤ k → k < tableTwo.header.recordSize →
        (updateRecord tableTwo ⟨(RID.mk 1 1), recordS1.data⟩).2.pages (RID.mk 1 0).page
            (tableTwo.header.slotByte (RID.mk 1 0).slot k) =
          tableTwo.pages (RID.mk 1 0).page (tableTwo.header.slotByte (RID.mk 1 0).slot k))) ∧
    ((deleteRecord tableTwo (RID.mk 1 1)).1 = RC_OK →
      isSlotOccupied ((deleteRecord tableTwo (RID.mk 1 1)).2.pages (RID.mk 1 0).page) (RID.mk 1 0).slot =
        (if (RID.mk 1 0) = (RID.mk 1 1) then false else isSlotOccupied (tableTwo.pages (RID.mk 1 0).page) (RID.mk 1 0).slot) ∧
      ∀ k, 0 ≤ k → k < tableTwo.header.recordSize →
        (deleteRecord tableTwo (RID.mk 1 1)).2.pages (RID.mk 1 0).page (tableTwo.header.slotByte (RID.mk 1 0).slot k) =
          tableTwo.pages (RID.mk 1 0).page (tableTwo.header.slotByte (RID.mk 1 0).slot k))) :=
  ⟨by decide,
    record_ops_frame tableTwo recordS1 ⟨1, 1⟩ ⟨1, 0⟩ ⟨by decide, by decide⟩ (by decide)
      (by decide) (by decide) (by decide)⟩


/-! ## Ids assigned in a fresh table -/

theorem div_mod_of (q c spp : Int) (hc0 : 0 ≤ c) (hc : c < spp) :
    (q * spp + c) / spp = q ∧ (q * spp + c) % spp = c := by
  have hne : spp ≠ 0 := by omega
  constructor
  · rw [add_comm, Int.add_mul_ediv_right _ _ hne, Int.ediv_eq_zero_of_lt hc0 hc, zero_add]
  · rw [add_comm, Int.add_mul_emod_self, Int.emod_eq_of_lt hc0 hc]

theorem insert_filled (rel : RM_TableData) (record : Record) (c : Int) (h : Filled rel c)
    (hmax : getNumTuples rel + 2 < 2147483647) :
    (insertRecord rel record).1 = RC_OK ∧
    (insertRecord rel record).2.2.id =
      ⟨1 + getNumTuples rel / rel.header.slotsPerPage,
        getNumTuples rel % rel.header.slotsPerPage⟩ ∧
    (insertRecord rel record).2.1.header.slotsPerPage = rel.header.slotsPerPage ∧
    getNumTuples (insertRecord rel record).2.1 = getNumTuples rel + 1 ∧
    ∃ c2, Filled (insertRecord rel record).2.1 c2 := by
  obtain ⟨hrel, hinv, hrs, hffp, hc0, hc, hc1, hn, hnt, hocc⟩ := h
  obtain ⟨i1, i2, i3, i4, i5, i6⟩ := insertRecord_nil rel record hrel
  have hinv0 := hinv
  obtain ⟨v1, v2, v3, v4, v5⟩ := hinv0
  have v3b : (2 : Int) ≤ rel.header.numPages := v3
  have hq0 : 0 ≤ (rel.header.numPages - 2) * rel.header.slotsPerPage :=
    Int.mul_nonneg (by omega) (by omega)
  have hq1 : rel.header.numPages - 2 ≤ (rel.header.numPages - 2) * rel.header.slotsPerPage := by
    have := Int.mul_le_mul_of_nonneg_left v1 (by omega : (0 : Int) ≤ rel.header.numPages - 2)
    rw [mul_one] at this
    exact this
  have hnp : rel.header.numPages < 2147483647 := by
    by_cases h2 : 2 < rel.header.numPages
    · have := hc1 h2
      omega
    · omega
  have hw : wrap32 (getNumTuples rel + 1) = getNumTuples rel + 1 :=
    wrap32_of_range _ (by omega) (by omega)
  have hhdr : (insertRecord rel record).2.1.header =
      loadMetadata (insertPages rel.pages (getNumTuples rel) record HEADER_PAGE) := by
    simp only [RM_TableData.header, i3]
  have hwin : ((rel.header.numPages - rel.header.firstFreePage).toNat : Int) = 1 := by
    rw [hffp]; omega
  by_cases hfull : c = rel.header.slotsPerPage
  · -- the last page is full: the file grows
    have hnone : searchFree rel.pages rel.header.slotsPerPage
        (rel.header.numPages - rel.header.firstFreePage).toNat rel.header.firstFreePage =
          none := by
      apply searchFree_full
      intro p s hp1 hp2 hs0 hs1
      rw [hwin, hffp] at hp2
      rw [hffp] at hp1
      have hp : p = rel.header.numPages - 1 := by omega
      rw [hp]
      exact (hocc s hs0 hs1).mpr (by omega)
    have hwp : wrap32 ((loadMetadata (rel.pages HEADER_PAGE)).numPages + 1) =
        rel.header.numPages + 1 := wrap32_of_range _ (by
          show -2147483648 ≤ rel.header.numPages + 1; omega) (by
          show rel.header.numPages + 1 < 2147483648; omega)
    have hspp : rel.header.slotsPerPage ≤ 4096 * 8 := by
      have hfit := v2
      have hm : 0 ≤ rel.header.slotsPerPage * rel.header.recordSize :=
        Int.mul_nonneg (by omega) hrs
      rw [getSlotMapSize_eq _ (by omega)] at hfit
      simp only [PAGE_SIZE] at hfit
      omega
    rcases insertPages_cases rel.pages (getNumTuples rel) record hinv with
      ⟨rid, hs, -, -, -⟩ | ⟨-, hrid, hh, hpg⟩
    · have hs2 : searchFree rel.pages rel.header.slotsPerPage
          (rel.header.numPages - rel.header.firstFreePage).toNat rel.header.firstFreePage =
            some rid := hs
      rw [hnone] at hs2
      exact absurd hs2 (by simp)
    · rw [hh, hwp, hw] at hhdr
      have hneq : getNumTuples rel = (rel.header.numPages - 1) * rel.header.slotsPerPage + 0 := by
        rw [hn, hfull]; ring
      obtain ⟨e1, e2⟩ := div_mod_of (rel.header.numPages - 1) 0 rel.header.slotsPerPage
        (le_refl _) (by omega)
      refine ⟨i1, ?_, by rw [hhdr]; rfl, i4, 1, i2, ?_, ?_, ?_, by norm_num, ?_, fun _ => le_refl _,
        ?_, ?_, ?_⟩
      · rw [i6]
        show insertRID rel.pages = _
        rw [hrid]
        have e1b : getNumTuples rel / rel.header.slotsPerPage = rel.header.numPages - 1 := by
          rw [hneq]; exact e1
        have e2b : getNumTuples rel % rel.header.slotsPerPage = 0 := by
          rw [hneq]; exact e2
        rw [e1b, e2b]
        show (⟨rel.header.numPages, 0⟩ : RID) = _
        congr 1
        omega
      · rw [hhdr]
        exact ⟨v1, v2, by show DATA_START_PAGE + 1 ≤ rel.header.numPages + 1; omega,
          by show (1 : Int) ≤ rel.header.numPages; omega,
          by show rel.header.numPages < rel.header.numPages + 1; omega⟩
      · rw [hhdr]; exact hrs
      · rw [hhdr]
        show rel.header.numPages = rel.header.numPages + 1 - 1
        omega
      · rw [hhdr]; exact v1
      · rw [i4, hhdr, hn, hfull]
        show _ = (rel.header.numPages + 1 - 2) * rel.header.slotsPerPage + 1
        ring
      · rw [i4, hhdr]
      · intro t ht0 ht
        rw [hhdr] at ht ⊢
        have ht1 : t < (loadMetadata (rel.pages HEADER_PAGE)).slotsPerPage := ht
        have ht2 : t < rel.header.slotsPerPage := ht
        have hne : rel.header.numPages ≠ HEADER_PAGE := by
          intro h0
          have : rel.header.numPages = 0 := h0
          omega
        have hq : rel.header.numPages = (loadMetadata (rel.pages HEADER_PAGE)).numPages := rfl
        have hpage : rel.header.numPages + 1 - 1 = rel.header.numPages := by omega
        show isSlotOccupied ((insertRecord rel record).2.1.pages (rel.header.numPages + 1 - 1)) t
          = true ↔ t < 1
        rw [hpage, i3, hpg _ hne, if_pos hq,
          isSlotOccupied_memcpy_slot _ _ _ _ _ _ (le_refl _) ht0 ht1,
          isSlotOccupied_markSlotOccupied _ _ _ (le_refl _) ht0]
        by_cases h0 : t = 0
        · simp [h0]
        · rw [if_neg h0, isSlotOccupied_zero _ _ ht0]
          · simp only [Bool.false_eq_true, false_iff, not_lt]
            omega
          · simp only [memset, PAGE_SIZE]
            rw [if_pos]
            constructor <;> omega
  · -- slot `c` of the last page is free
    have hclt : c < rel.header.slotsPerPage := lt_of_le_of_ne hc hfull
    have hsearch : searchFree rel.pages rel.header.slotsPerPage
        (rel.header.numPages - rel.header.firstFreePage).toNat rel.header.firstFreePage =
        some ⟨rel.header.numPages - 1, c⟩ := by
      have h1 : (rel.header.numPages - rel.header.firstFreePage).toNat = 1 := by omega
      rw [h1, hffp]
      simp only [searchFree]
      rcases hff : firstFreeSlot (rel.pages (rel.header.numPages - 1))
          rel.header.slotsPerPage.toNat 0 with _ | j
      · exfalso
        have := firstFreeSlot_none _ _ _ hff c hc0 (by omega)
        have := (hocc c hc0 hclt).mp this
        omega
      · obtain ⟨f1, f2, f3, f4⟩ := firstFreeSlot_some _ _ _ _ hff
        have hj : j = c := by
          rcases lt_trichotomy j c with hlt | heq | hgt
          · have := (hocc j f1 (by omega)).mpr hlt
            rw [f3] at this; exact absurd this (by decide)
          · exact heq
          · have := (hocc c hc0 hclt).mp (f4 c hc0 hgt)
            omega
        rw [hj]
    rcases insertPages_cases rel.pages (getNumTuples rel) record hinv with
      ⟨rid, c1, c2, c3, c4⟩ | ⟨c1, -⟩
    · have hrid : rid = ⟨rel.header.numPages - 1, c⟩ := by
        have := c1.symm.trans hsearch
        simpa using this
      subst hrid
      rw [c3, hw] at hhdr
      obtain ⟨e1, e2⟩ := div_mod_of (rel.header.numPages - 2) c rel.header.slotsPerPage hc0 hclt
      refine ⟨i1, ?_, by rw [hhdr]; rfl, i4, c + 1, i2, ?_, ?_, ?_, by omega, ?_, fun _ => by omega,
        ?_, ?_, ?_⟩
      · rw [i6]
        show insertRID rel.pages = _
        rw [c2, hn, e1, e2]
        congr 1
        omega
      · rw [hhdr]; exact hinv
      · rw [hhdr]; exact hrs
      · rw [hhdr]; exact hffp
      · rw [hhdr]; exact hclt
      · rw [i4, hhdr, hn]
        show _ = (rel.header.numPages - 2) * rel.header.slotsPerPage + (c + 1)
        ring
      · rw [i4, hhdr]
      · intro t ht0 ht
        rw [hhdr] at ht ⊢
        have ht2 : t < rel.header.slotsPerPage := ht
        have hne : rel.header.numPages - 1 ≠ HEADER_PAGE := by
          intro h0
          have : rel.header.numPages - 1 = 0 := h0
          omega
        show isSlotOccupied ((insertRecord rel record).2.1.pages (rel.header.numPages - 1)) t
          = true ↔ t < c + 1
        have ht1 : t < (loadMetadata (rel.pages HEADER_PAGE)).slotsPerPage := ht
        have e : isSlotOccupied
            (insertPages rel.pages (getNumTuples rel) record (rel.header.numPages - 1)) t =
            (if t = c then true else isSlotOccupied (rel.pages (rel.header.numPages - 1)) t) := by
          rw [c4 _ hne, if_pos rfl]
          exact (isSlotOccupied_memcpy_slot _ _ _ _ _ _ hc0 ht0 ht1).trans
            (isSlotOccupied_markSlotOccupied _ _ _ hc0 ht0)
        rw [i3, e]
        by_cases htc : t = c
        · simp [htc]
        · rw [if_neg htc, hocc t ht0 ht2]
          omega
    · exfalso
      have := c1.symm.trans hsearch
      simp at this


theorem insertAll_filled (records : List Record) : ∀ (rel : RM_TableData) (c : Int),
    Filled rel c → getNumTuples rel + records.length + 1 < 2147483647 →
    (insertAll rel records).1 = RC_OK ∧
    (insertAll rel records).2.2 =
      (List.range records.length).map (fun (j : Nat) =>
        (⟨1 + (getNumTuples rel + j) / rel.header.slotsPerPage,
          (getNumTuples rel + j) % rel.header.slotsPerPage⟩ : RID)) ∧
    (insertAll rel records).2.1.header.slotsPerPage = rel.header.slotsPerPage ∧
    getNumTuples (insertAll rel records).2.1 = getNumTuples rel + records.length ∧
    ∃ c2, Filled (insertAll rel records).2.1 c2 := by
  induction records with
  | nil =>
    intro rel c h _
    exact ⟨rfl, rfl, rfl, by simp [insertAll], c, h⟩
  | cons r rest ih =>
    intro rel c h hlen
    simp only [List.length_cons, Nat.cast_add, Nat.cast_one] at hlen
    obtain ⟨s1, s2, s3, s4, c1, s5⟩ := insert_filled rel r c h (by omega)
    obtain ⟨r1, r2, r3, r4, r5⟩ := ih (insertRecord rel r).2.1 c1 s5 (by rw [s4]; omega)
    have hstep : insertAll rel (r :: rest) =
        ((insertAll (insertRecord rel r).2.1 rest).1, (insertAll (insertRecord rel r).2.1 rest).2.1,
          (insertRecord rel r).2.2.id :: (insertAll (insertRecord rel r).2.1 rest).2.2) := by
      simp only [insertAll, s1, ne_eq, not_true_eq_false, if_false]
    rw [hstep]
    refine ⟨r1, ?_, by rw [r3, s3], ?_, r5⟩
    · simp only [r2, s2, s3, s4, List.length_cons, List.range_succ_eq_map, List.map_cons,
        List.map_map]
      congr 1
      · simp
      · apply List.map_congr_left
        intro a _
        simp only [Function.comp, Nat.succ_eq_add_one, Nat.cast_add, Nat.cast_one]
        have e : getNumTuples rel + 1 + (a : Int) = getNumTuples rel + ((a : Int) + 1) := by ring
        rw [e]
    · show getNumTuples (insertAll (insertRecord rel r).2.1 rest).2.1 = _
      rw [r4, s4]
      simp only [List.length_cons, Nat.cast_add, Nat.cast_one]
      ring

theorem filled_numPages (rel : RM_TableData) (c : Int) (h : Filled rel c) :
    rel.header.numPages =
      max 2 (1 + (getNumTuples rel + rel.header.slotsPerPage - 1) / rel.header.slotsPerPage) := by
  obtain ⟨-, hinv, -, -, hc0, hc, hc1, hn, -, -⟩ := h
  obtain ⟨v1, -, v3, -, -⟩ := hinv
  have v3b : (2 : Int) ≤ rel.header.numPages := v3
  by_cases hz : c = 0
  · have hnp : rel.header.numPages = 2 := by
      by_contra hne
      have := hc1 (by omega)
      omega
    rw [hn, hnp, hz]
    have : ((2 - 2) * rel.header.slotsPerPage + 0 + rel.header.slotsPerPage - 1) /
        rel.header.slotsPerPage = 0 := by
      apply Int.ediv_eq_zero_of_lt <;> omega
    rw [this]
    rfl
  · have e : getNumTuples rel + rel.header.slotsPerPage - 1 =
        (rel.header.numPages - 1) * rel.header.slotsPerPage + (c - 1) := by
      rw [hn]; ring
    obtain ⟨e1, -⟩ := div_mod_of (rel.header.numPages - 1) (c - 1) rel.header.slotsPerPage
      (by omega) (by omega)
    rw [e, e1]
    have : 1 + (rel.header.numPages - 1) = rel.header.numPages := by omega
    rw [this, max_eq_right v3b]

theorem fresh_filled (env : BM_BufferPool) (schema : Schema) (name : List Nat)
    (henv : env.faults = [])
    (hc : (createTable env schema).map Prod.fst = some RC_OK) :
    Filled (freshTable env schema name) 0 := by
  obtain ⟨⟨o1, o2, o3, o4, o5⟩, g1, g2⟩ := freshTable_onePage env schema name henv hc
  obtain ⟨-, -, s3, -⟩ := fresh_sound env schema name henv hc
  refine ⟨o1, o2, s3, by rw [o3, o4]; rfl, le_refl _, by have := o2.1; omega, ?_, ?_,
    g2.trans g1.symm, ?_⟩
  · intro h2
    rw [o4] at h2
    exact absurd h2 (by decide)
  · rw [g1, o4]
    ring
  · intro t ht0 ht
    rw [o4]
    have := o5 t ht0 ht
    constructor
    · intro h
      exact absurd (this.mp h) id
    · intro h
      omega

/-- C27. Insertion order of ids in a fresh table: for every table made by `createTable` and
`openTable` (storage and buffer-manager calls succeeding), with `spp` its `slotsPerPage`, and
every list of `n` records (`n` below `INT_MAX - 2`, so that no `int` counter overflows)
inserted with no deletion in between, every `insertRecord` returns RC_OK, the `i`-th inserted
record (0-based) receives the id `(1 + i div spp, i mod spp)`, and afterwards
`numPages = max(2, 1 + ⌈n / spp⌉)` (the quotient `(n + spp - 1) / spp` is `⌈n / spp⌉`) and the
stored and the cached `numTuples` are `n`. -/
theorem insertion_order (env : BM_BufferPool) (schema : Schema) (name : List Nat)
    (records : List Record)
    (henv : env.faults = []) (hc : (createTable env schema).map Prod.fst = some RC_OK)
    (hlen : (records.length : Int) < 2147483645) :
    (insertAll (freshTable env schema name) records).1 = RC_OK ∧
    (insertAll (freshTable env schema name) records).2.2 =
      (List.range records.length).map (fun (i : Nat) =>
        (⟨1 + (i : Int) / (freshTable env schema name).header.slotsPerPage,
          (i : Int) % (freshTable env schema name).header.slotsPerPage⟩ : RID)) ∧
    (insertAll (freshTable env schema name) records).2.1.header.numPages =
      max 2 (1 + ((records.length : Int) + (freshTable env schema name).header.slotsPerPage - 1) /
        (freshTable env schema name).header.slotsPerPage) ∧
    (insertAll (freshTable env schema name) records).2.1.header.numTuples = records.length ∧
    getNumTuples (insertAll (freshTable env schema name) records).2.1 = records.length := by
  have hf := fresh_filled env schema name henv hc
  have h0 : getNumTuples (freshTable env schema name) = 0 :=
    (freshTable_onePage env schema name henv hc).2.1
  obtain ⟨r1, r2, r3, r4, c2, r5⟩ := insertAll_filled records (freshTable env schema name) 0 hf
    (by rw [h0]; omega)
  rw [h0, zero_add] at r4
  have hnp := filled_numPages _ c2 r5
  rw [r3, r4] at hnp
  refine ⟨r1, ?_, hnp, ?_, r4⟩
  · rw [r2, h0]
    apply List.map_congr_left
    intro a _
    rw [zero_add]
  · rw [r5.2.2.2.2.2.2.2.2.1, r4]

set_option maxRecDepth 100000 in
theorem insertion_order_witness :
    ((freshTable env0 schemaBig [116]).header.slotsPerPage = 1 ∧
      (insertAll (freshTable env0 schemaBig [116])
        [⟨⟨-1, -1⟩, some zeroMem⟩, ⟨⟨-1, -1⟩, some zeroMem⟩, ⟨⟨-1, -1⟩, some zeroMem⟩,
          ⟨⟨-1, -1⟩, some zeroMem⟩]).2.2 = [⟨1, 0⟩, ⟨2, 0⟩, ⟨3, 0⟩, ⟨4, 0⟩] ∧
      (insertAll (freshTable env0 schemaBig [116])
        [⟨⟨-1, -1⟩, some zeroMem⟩, ⟨⟨-1, -1⟩, some zeroMem⟩]).2.1.header.numPages = 3 ∧
      (insertAll (freshTable env0 schemaBig [116])
        [⟨⟨-1, -1⟩, some zeroMem⟩, ⟨⟨-1, -1⟩, some zeroMem⟩, ⟨⟨-1, -1⟩, some zeroMem⟩,
          ⟨⟨-1, -1⟩, some zeroMem⟩]).2.1.header.numPages = 5 ∧
      (insertAll (freshTable env0 schemaS1 [116]) [recordS1, recordS1, recordS1]).2.2 =
        [⟨1, 0⟩, ⟨1, 1⟩, ⟨1, 2⟩]) ∧
    ((insertAll (freshTable env0 schemaBig [116])
        [⟨⟨-1, -1⟩, some zeroMem⟩, ⟨⟨-1, -1⟩, some zeroMem⟩, ⟨⟨-1, -1⟩, some zeroMem⟩,
          ⟨⟨-1, -1⟩, some zeroMem⟩]).1 = RC_OK ∧
    (insertAll (freshTable env0 schemaBig [116])
        [⟨⟨-1, -1⟩, some zeroMem⟩, ⟨⟨-1, -1⟩, some zeroMem⟩, ⟨⟨-1, -1⟩, some zeroMem⟩,
          ⟨⟨-1, -1⟩, some zeroMem⟩]).2.2 =
      (List.range [(⟨⟨-1, -1⟩, some zeroMem⟩ : Record), ⟨⟨-1, -1⟩, some zeroMem⟩,
          ⟨⟨-1, -1⟩, some zeroMem⟩, ⟨⟨-1, -1⟩, some zeroMem⟩].length).map (fun (i : Nat) =>
        (⟨1 + (i : Int) / (freshTable env0 schemaBig [116]).header.slotsPerPage,
          (i : Int) % (freshTable env0 schemaBig [116]).header.slotsPerPage⟩ : RID)) ∧
    (insertAll (freshTable env0 schemaBig [116])
        [⟨⟨-1, -1⟩, some zeroMem⟩, ⟨⟨-1, -1⟩, some zeroMem⟩, ⟨⟨-1, -1⟩, some zeroMem⟩,
          ⟨⟨-1, -1⟩, some zeroMem⟩]).2.1.header.numPages =
      max 2 (1 + (([(⟨⟨-1, -1⟩, some zeroMem⟩ : Record), ⟨⟨-1, -1⟩, some zeroMem⟩,
          ⟨⟨-1, -1⟩, some zeroMem⟩, ⟨⟨-1, -1⟩, some zeroMem⟩].length : Int) +
          (freshTable env0 schemaBig [116]).header.slotsPerPage - 1) /
        (freshTable env0 schemaBig [116]).header.slotsPerPage) ∧
    (insertAll (freshTable env0 schemaBig [116])
        [⟨⟨-1, -1⟩, some zeroMem⟩, ⟨⟨-1, -1⟩, some zeroMem⟩, ⟨⟨-1, -1⟩, some zeroMem⟩,
          ⟨⟨-1, -1⟩, some zeroMem⟩]).2.1.header.numTuples =
      ([(⟨⟨-1, -1⟩, some zeroMem⟩ : Record), ⟨⟨-1, -1⟩, some zeroMem⟩,
          ⟨⟨-1, -1⟩, some zeroMem⟩, ⟨⟨-1, -1⟩, some zeroMem⟩].length : Int) ∧
    getNumTuples (insertAll (freshTable env0 schemaBig [116])
        [⟨⟨-1, -1⟩, some zeroMem⟩, ⟨⟨-1, -1⟩, some zeroMem⟩, ⟨⟨-1, -1⟩, some zeroMem⟩,
          ⟨⟨-1, -1⟩, some zeroMem⟩]).2.1 =
      ([(⟨⟨-1, -1⟩, some zeroMem⟩ : Record), ⟨⟨-1, -1⟩, some zeroMem⟩,
          ⟨⟨-1, -1⟩, some zeroMem⟩, ⟨⟨-1, -1⟩, some zeroMem⟩].length : Int)) :=
  ⟨by decide,
    insertion_order env0 schemaBig [116]
      [⟨⟨-1, -1⟩, some zeroMem⟩, ⟨⟨-1, -1⟩, some zeroMem⟩, ⟨⟨-1, -1⟩, some zeroMem⟩,
        ⟨⟨-1, -1⟩, some zeroMem⟩] rfl (by decide) (by decide)⟩


/-! ## The stored schema -/

theorem wrap32_int32 (x : Int) (h : IsInt32 x) : wrap32 x = x :=
  wrap32_of_range x h.1 h.2

/-- What one round of the attribute loop of `initializeHeader` leaves in the page. -/
theorem writeAttr_read (schema : Schema) (acc : Mem × Int) (i : Nat) :
    (writeAttr schema acc i).2 =
      acc.2 + 4 + strlen ((schema.attrNames[i]?).getD []) + 4 + 4 ∧
    loadInt (writeAttr schema acc i).1 acc.2 = wrap32 (strlen ((schema.attrNames[i]?).getD [])) ∧
    (∀ j : Nat, j < (cstr ((schema.attrNames[i]?).getD [])).length →
      (writeAttr schema acc i).1 (acc.2 + 4 + (j : Int)) =
        ((schema.attrNames[i]?).getD []).getD j 0) ∧
    loadInt (writeAttr schema acc i).1 (acc.2 + 4 + strlen ((schema.attrNames[i]?).getD [])) =
      wrap32 ((schema.dataTypes[i]?).getD .DT_INT).code ∧
    loadInt (writeAttr schema acc i).1
        (acc.2 + 4 + strlen ((schema.attrNames[i]?).getD []) + 4) =
      wrap32 ((schema.typeLength[i]?).getD 0) := by
  have hlen : 0 ≤ strlen ((schema.attrNames[i]?).getD []) := by
    unfold strlen; omega
  refine ⟨rfl, ?_, ?_, ?_, ?_⟩
  · simp only [writeAttr]
    rw [loadInt_storeInt_other _ _ _ _ (Or.inl (by omega)),
      loadInt_storeInt_other _ _ _ _ (Or.inl (by omega))]
    rw [loadInt_congr _ (storeInt acc.1 acc.2 (strlen ((schema.attrNames[i]?).getD []))) _
      (fun k hk1 hk2 => by
        simp only [memcpyList]
        rw [if_neg (by omega)])]
    exact loadInt_storeInt_wrap _ _ _
  · intro j hj
    have hj2 : (j : Int) < strlen ((schema.attrNames[i]?).getD []) := by
      unfold strlen; omega
    simp only [writeAttr]
    rw [storeInt_frame _ _ _ _ (Or.inl (by omega)), storeInt_frame _ _ _ _ (Or.inl (by omega))]
    simp only [memcpyList]
    rw [if_pos (by omega)]
    congr 1
    omega
  · simp only [writeAttr]
    rw [loadInt_storeInt_other _ _ _ _ (Or.inl (by omega))]
    exact loadInt_storeInt_wrap _ _ _
  · simp only [writeAttr]
    exact loadInt_storeInt_wrap _ _ _

/-- Reading `len` bytes that hold the characters of a C string gives the string. -/
theorem readBytes_cstr (Q : Mem) (off : Int) (name : List Nat)
    (h : ∀ j : Nat, j < (cstr name).length → Q (off + (j : Int)) = name.getD j 0) :
    readBytes Q off (strlen name) = cstr name := by
  unfold readBytes strlen
  apply List.ext_getElem
  · simp
  · intro n h1 h2
    simp only [List.getElem_map, List.getElem_range]
    rw [h n h2]
    exact (cstr_ne_zero name n h2).1

/-- What `openTable` reads where `initializeHeader` wrote the attributes of a list. -/
theorem readAttrs_writeAttrs (schema : Schema) (l : List Nat) :
    ∀ (P : Mem) (cur : Int) (Q : Mem),
    (l.foldl (writeAttr schema) (P, cur)).2 ≤ cur + 2147483647 →
    (∀ k, cur ≤ k → k < (l.foldl (writeAttr schema) (P, cur)).2 →
      Q k = (l.foldl (writeAttr schema) (P, cur)).1 k) →
    (∀ i ∈ l, IsInt32 ((schema.dataTypes[i]?).getD .DT_INT).code ∧
      DataType.ofCode ((schema.dataTypes[i]?).getD .DT_INT).code =
        (schema.dataTypes[i]?).getD .DT_INT ∧
      IsInt32 ((schema.typeLength[i]?).getD 0)) →
    readAttrs Q l.length cur =
      (l.map (fun i => cstr ((schema.attrNames[i]?).getD []) ++ [0]),
        l.map (fun i => (schema.dataTypes[i]?).getD .DT_INT),
        l.map (fun i => (schema.typeLength[i]?).getD 0),
        (l.foldl (writeAttr schema) (P, cur)).2) := by
  induction l with
  | nil =>
    intro P cur Q _ _ _
    rfl
  | cons i rest ih =>
    intro P cur Q hb hQ hl
    simp only [List.foldl_cons] at hb hQ ⊢
    obtain ⟨w1, w2, w3, w4, w5⟩ := writeAttr_read schema (P, cur) i
    obtain ⟨f1, f2⟩ := writeAttrs_frame schema rest (writeAttr schema (P, cur) i)
    obtain ⟨t1, t2, t3⟩ := hl i (List.mem_cons_self _ _)
    have hlen : 0 ≤ strlen ((schema.attrNames[i]?).getD []) := by
      unfold strlen; omega
    simp only at w1 w2 w3 w4 w5
    have hQa : ∀ k, cur ≤ k → k < (writeAttr schema (P, cur) i).2 →
        Q k = (writeAttr schema (P, cur) i).1 k := by
      intro k hk1 hk2
      rw [hQ k hk1 (by omega), f2 k hk2]
    rw [w1] at hQa f1
    have hnl : loadInt Q cur = strlen ((schema.attrNames[i]?).getD []) := by
      rw [loadInt_congr Q _ cur (fun k hk1 hk2 => hQa k hk1 (by omega)), w2]
      exact wrap32_of_range _ (by omega) (by omega)
    have hname : readBytes Q (cur + 4) (strlen ((schema.attrNames[i]?).getD [])) =
        cstr ((schema.attrNames[i]?).getD []) := by
      apply readBytes_cstr
      intro j hj
      have hj2 : (j : Int) < strlen ((schema.attrNames[i]?).getD []) := by
        unfold strlen; omega
      rw [hQa _ (by omega) (by omega)]
      exact w3 j hj
    have hdt : loadInt Q (cur + 4 + strlen ((schema.attrNames[i]?).getD [])) =
        ((schema.dataTypes[i]?).getD .DT_INT).code := by
      rw [loadInt_congr Q _ _ (fun k hk1 hk2 => hQa k (by omega) (by omega)), w4]
      exact wrap32_int32 _ t1
    have htl : loadInt Q (cur + 4 + strlen ((schema.attrNames[i]?).getD []) + 4) =
        (schema.typeLength[i]?).getD 0 := by
      rw [loadInt_congr Q _ _ (fun k hk1 hk2 => hQa k (by omega) (by omega)), w5]
      exact wrap32_int32 _ t3
    have hrest := ih (writeAttr schema (P, cur) i).1 (writeAttr schema (P, cur) i).2 Q
      (by rw [Prod.mk.eta, w1]; omega)
      (by
        intro k hk1 hk2
        rw [Prod.mk.eta] at hk2 ⊢
        rw [w1] at hk1
        exact hQ k (by omega) hk2)
      (fun j hj => hl j (List.mem_cons_of_mem _ hj))
    rw [Prod.mk.eta, w1] at hrest
    simp only [List.length_cons, readAttrs, hnl, hname, hdt, htl, t2, hrest, List.map_cons]


theorem foldl_writeAttr_snd (schema : Schema) (l : List Nat) : ∀ (P P2 : Mem) (cur : Int),
    (l.foldl (writeAttr schema) (P, cur)).2 = (l.foldl (writeAttr schema) (P2, cur)).2 := by
  induction l with
  | nil => intro P P2 cur; rfl
  | cons i rest ih =>
    intro P P2 cur
    simp only [List.foldl_cons]
    have e1 := (writeAttr_read schema (P, cur) i).1
    have e2 := (writeAttr_read schema (P2, cur) i).1
    rw [← Prod.mk.eta (p := writeAttr schema (P, cur) i),
      ← Prod.mk.eta (p := writeAttr schema (P2, cur) i), e1, e2]
    exact ih _ _ _

theorem map_range_getD {α β : Type} (xs : List α) (d : α) (f : α → β) :
    (List.range xs.length).map (fun i => f ((xs[i]?).getD d)) = xs.map f := by
  apply List.ext_getElem
  · simp
  · intro n h1 h2
    simp only [List.length_map, List.length_range] at h1
    simp [h1]

theorem intArrayBytes_getD (a : List Int) : ∀ (i j : Nat) (hi : i < a.length), j < 4 →
    (a.foldr (fun k acc => encodeInt k ++ acc) []).getD (4 * i + j) 0 =
      (encodeInt a[i]).getD j 0 := by
  induction a with
  | nil => intro i j hi; simp at hi
  | cons x rest ih =>
    intro i j hi hj
    have hlen : (encodeInt x).length = 4 := rfl
    simp only [List.foldr_cons]
    cases i with
    | zero =>
      simp only [Nat.mul_zero, Nat.zero_add, List.getElem_cons_zero]
      rw [List.getD_eq_getElem?_getD, List.getD_eq_getElem?_getD,
        List.getElem?_append_left (by omega)]
    | succ i2 =>
      simp only [List.length_cons, Nat.add_lt_add_iff_right] at hi
      simp only [List.getElem_cons_succ]
      rw [← ih i2 j hi hj, List.getD_eq_getElem?_getD, List.getD_eq_getElem?_getD,
        List.getElem?_append_right (by omega)]
      congr 2
      omega

/-- Reading back entry `k` of the key array `initializeHeader` copied into the page. -/
theorem loadInt_keys (P : Mem) (off : Int) (a : List Int) (n : Int) (k : Nat)
    (hk : (k : Int) < n) (hn : a.length = n.toNat) (hr : ∀ x ∈ a, IsInt32 x) :
    loadInt (memcpyList P off (intArrayBytes a n) (4 * n)) (off + 4 * (k : Int)) =
      a.getD k 0 := by
  have hka : k < a.length := by omega
  have htake : a.take n.toNat = a := by
    rw [← hn]; exact List.take_length a
  have hb : ∀ j : Nat, j < 4 →
      memcpyList P off (intArrayBytes a n) (4 * n) (off + 4 * (k : Int) + (j : Int)) =
        (encodeInt a[k]).getD j 0 := by
    intro j hj
    simp only [memcpyList]
    rw [if_pos (by omega)]
    have e : (off + 4 * (k : Int) + (j : Int) - off).toNat = 4 * k + j := by omega
    rw [e]
    unfold intArrayBytes
    rw [htake]
    exact intArrayBytes_getD a k j hka hj
  have h0 := hb 0 (by norm_num)
  have h1 := hb 1 (by norm_num)
  have h2 := hb 2 (by norm_num)
  have h3 := hb 3 (by norm_num)
  simp only [Nat.cast_zero, add_zero, Nat.cast_one, Nat.cast_ofNat] at h0 h1 h2 h3
  unfold loadInt
  rw [h0, h1, h2, h3]
  have hx := hr a[k] (List.getElem_mem _)
  have hget : a.getD k 0 = a[k] := by
    rw [List.getD_eq_getElem?_getD, List.getElem?_eq_getElem hka]
    rfl
  rw [hget]
  simp only [encodeInt, encodeU32, List.getD_cons_zero, List.getD_cons_succ]
  exact decodeInt_encodeInt _ hx.1 hx.2


/-- What `openTable` rebuilds from a header page that agrees, from byte 20 on, with the page
`initializeHeader` wrote for a schema: the schema itself, each name as the NUL-terminated
copy of its string. -/
theorem readSchema_of_agree (schema : Schema) (hP : schema.Persistable) (d Q : Mem)
    (hQ : ∀ k, 20 ≤ k → Q k = writeSchema schema d k) :
    readSchema Q =
      { schema with attrNames := schema.attrNames.map (fun n => cstr n ++ [0]) } := by
  obtain ⟨p1, p2, p3, p4, p5, p6, p7, p8, p9, p10, p11⟩ := hP
  obtain ⟨f1, f2⟩ := writeAttrs_frame schema (List.range schema.numAttr.toNat)
    (storeInt d 20 schema.numAttr, 24)
  simp only at f1 f2
  have hend : ((List.range schema.numAttr.toNat).foldl (writeAttr schema)
      (storeInt d 20 schema.numAttr, 24)).2 + 4 + 4 * schema.keySize ≤ 4096 := by
    have := foldl_writeAttr_snd schema (List.range schema.numAttr.toNat)
      (storeInt d 20 schema.numAttr) zeroMem 24
    rw [this]
    exact p11
  -- the page below the end of the attributes
  have hlow : ∀ k, 20 ≤ k →
      k < ((List.range schema.numAttr.toNat).foldl (writeAttr schema)
        (storeInt d 20 schema.numAttr, 24)).2 →
      Q k = ((List.range schema.numAttr.toNat).foldl (writeAttr schema)
        (storeInt d 20 schema.numAttr, 24)).1 k := by
    intro k hk1 hk2
    rw [hQ k hk1]
    simp only [writeSchema]
    split_ifs
    · simp only [memcpyList]
      rw [if_neg (by omega), storeInt_frame _ _ _ _ (Or.inl hk2)]
    · rw [storeInt_frame _ _ _ _ (Or.inl hk2)]
  have hnum : loadInt Q 20 = schema.numAttr := by
    rw [loadInt_congr Q (storeInt d 20 schema.numAttr) 20 (fun k hk1 hk2 => by
      rw [hlow k hk1 (by omega), f2 k (by omega)])]
    rw [loadInt_storeInt_wrap]
    exact wrap32_int32 _ p2
  have hattrs := readAttrs_writeAttrs schema (List.range schema.numAttr.toNat)
    (storeInt d 20 schema.numAttr) 24 Q (by omega)
    (fun k hk1 hk2 => hlow k (by omega) hk2)
    (fun i hi => by
      rw [List.mem_range] at hi
      have hd : (schema.dataTypes[i]?).getD .DT_INT ∈ schema.dataTypes := by
        rw [List.getElem?_eq_getElem (by omega)]
        exact List.getElem_mem _
      have ht : (schema.typeLength[i]?).getD 0 ∈ schema.typeLength := by
        rw [List.getElem?_eq_getElem (by omega)]
        exact List.getElem_mem _
      exact ⟨(p6 _ hd).1, (p6 _ hd).2, p7 _ ht⟩)
  rw [List.length_range] at hattrs
  have hkey : loadInt Q ((List.range schema.numAttr.toNat).foldl (writeAttr schema)
      (storeInt d 20 schema.numAttr, 24)).2 = schema.keySize := by
    rw [loadInt_congr Q (storeInt ((List.range schema.numAttr.toNat).foldl (writeAttr schema)
        (storeInt d 20 schema.numAttr, 24)).1 ((List.range schema.numAttr.toNat).foldl
        (writeAttr schema) (storeInt d 20 schema.numAttr, 24)).2 schema.keySize) _
      (fun k hk1 hk2 => by
        rw [hQ k (by omega)]
        simp only [writeSchema]
        split_ifs
        · simp only [memcpyList]
          rw [if_neg (by omega)]
        · rfl)]
    rw [loadInt_storeInt_wrap]
    exact wrap32_of_range _ (by omega) (by omega)
  have hkeys : (List.range schema.keySize.toNat).map (fun (k : Nat) =>
      loadInt Q (((List.range schema.numAttr.toNat).foldl (writeAttr schema)
        (storeInt d 20 schema.numAttr, 24)).2 + 4 + 4 * (k : Int))) = schema.keyAttrs := by
    apply List.ext_getElem
    · simp [p9]
    · intro n h1 h2
      simp only [List.length_map, List.length_range] at h1
      simp only [List.getElem_map, List.getElem_range]
      have hpos : 0 < schema.keySize := by omega
      rw [loadInt_congr Q (memcpyList (storeInt ((List.range schema.numAttr.toNat).foldl
          (writeAttr schema) (storeInt d 20 schema.numAttr, 24)).1
          ((List.range schema.numAttr.toNat).foldl (writeAttr schema)
          (storeInt d 20 schema.numAttr, 24)).2 schema.keySize)
          (((List.range schema.numAttr.toNat).foldl (writeAttr schema)
          (storeInt d 20 schema.numAttr, 24)).2 + 4)
          (intArrayBytes schema.keyAttrs schema.keySize) (4 * schema.keySize)) _
        (fun k hk1 hk2 => by
          rw [hQ k (by omega)]
          simp only [writeSchema]
          rw [if_pos hpos])]
      rw [loadInt_keys _ _ _ _ n (by omega) p9 p10, List.getD_eq_getElem?_getD,
        List.getElem?_eq_getElem h2]
      rfl
  simp only [readSchema, hnum, hattrs, hkey, hkeys]
  have e1 := map_range_getD schema.attrNames [] (fun n => cstr n ++ [0])
  have e2 := map_range_getD schema.dataTypes .DT_INT id
  have e3 := map_range_getD schema.typeLength 0 id
  rw [p3] at e1
  rw [p4] at e2
  rw [p5] at e3
  simp only [id, List.map_id] at e2 e3
  rw [e1, e2, e3]


/-- The header page `createTable` leaves is the one `initializeHeader` wrote. -/
theorem createTable_schema (env : BM_BufferPool) (schema : Schema) (env1 : BM_BufferPool)
    (henv : env.faults = []) (hc : createTable env schema = some (RC_OK, env1)) :
    ∃ d, env1.pages HEADER_PAGE = writeSchema schema d := by
  obtain ⟨pages, faults, pins, unpins, calls⟩ := env
  simp only at henv
  subst henv
  unfold createTable at hc
  simp only [envCall_mk, ne_eq, not_true_eq_false, if_false] at hc
  by_cases hrs : getRecordSize schema = 0
  · simp [hrs] at hc
  · simp only [hrs, if_false] at hc
    by_cases hspp : slotsPerPageLoop (getRecordSize schema)
        ((Int.tdiv PAGE_SIZE (getRecordSize schema)).toNat + 1)
        (Int.tdiv PAGE_SIZE (getRecordSize schema)) ≤ 0
    · simp [hspp] at hc
    · simp only [hspp, if_false] at hc
      simp only [initializeHeader, pinPage_mk, ne_eq, not_true_eq_false, if_false, write_mk,
        markDirty_mk, unpinPage_mk, envCall_mk, Option.some.injEq, Prod.mk.injEq, true_and]
        at hc
      subst hc
      refine ⟨storeMetadata zeroMem
        { numTuples := 0, firstFreePage := DATA_START_PAGE, numPages := DATA_START_PAGE + 1,
          recordSize := getRecordSize schema,
          slotsPerPage := slotsPerPageLoop (getRecordSize schema)
            ((Int.tdiv PAGE_SIZE (getRecordSize schema)).toNat + 1)
            (Int.tdiv PAGE_SIZE (getRecordSize schema)) }, ?_⟩
      dsimp only
      rw [setPage_other _ _ _ _ (by decide), setPage_same]

theorem insertPages_schema_frame (pages : Int → Mem) (n : Int) (record : Record)
    (hinv : (loadMetadata (pages HEADER_PAGE)).Inv) (k : Int) (hk : 20 ≤ k) :
    insertPages pages n record HEADER_PAGE k = pages HEADER_PAGE k := by
  obtain ⟨-, -, -, a4, -⟩ := allocSlot_spec pages _ hinv
  have hne : (allocSlot pages (loadMetadata (pages HEADER_PAGE))).2.2.page ≠ HEADER_PAGE := by
    intro h
    rw [h] at a4
    exact absurd a4 (by decide)
  have hnp : (loadMetadata (pages HEADER_PAGE)).numPages ≠ HEADER_PAGE := by
    have : (2 : Int) ≤ (loadMetadata (pages HEADER_PAGE)).numPages := hinv.2.2.1
    intro h
    rw [h] at this
    exact absurd this (by decide)
  simp only [insertPages, setPage_same]
  rw [storeMetadata_frame _ _ _ (Or.inr hk), setPage_other _ _ _ _ (Ne.symm hne)]
  simp only [allocSlot]
  split
  · rfl
  · simp only [setPage_same]
    rw [storeMetadata_frame _ _ _ (Or.inr hk), setPage_other _ _ _ _ (Ne.symm hnp)]

theorem runOps_schema (ops : List WriteOp) :
    ∀ (rel rel2 : RM_TableData) (Q0 : Mem), Sound rel →
    (∀ k, 20 ≤ k → rel.pages HEADER_PAGE k = Q0 k) → runOps rel ops = some rel2 →
    Sound rel2 ∧ rel2.schema = rel.schema ∧ ∀ k, 20 ≤ k → rel2.pages HEADER_PAGE k = Q0 k := by
  induction ops with
  | nil =>
    intro rel rel2 Q0 h hQ hr
    simp only [runOps, Option.some.injEq] at hr
    subst hr
    exact ⟨h, rfl, hQ⟩
  | cons op rest ih =>
    intro rel rel2 Q0 h hQ hr
    unfold runOps at hr
    split_ifs at hr with hg
    · obtain ⟨ha, hok⟩ := hg
      have step : Sound (op.apply rel).2 ∧ (op.apply rel).2.schema = rel.schema ∧
          ∀ k, 20 ≤ k → (op.apply rel).2.pages HEADER_PAGE k = Q0 k := by
        cases op with
        | insert record =>
          obtain ⟨-, -, i3, -, i5, -⟩ := insertRecord_nil rel record h.1
          refine ⟨insert_sound rel record h ha.1 ha.2, i5, ?_⟩
          intro k hk
          show (insertRecord rel record).2.1.pages HEADER_PAGE k = Q0 k
          rw [i3, insertPages_schema_frame _ _ _ h.2.1 k hk]
          exact hQ k hk
        | delete id =>
          have hocc : isSlotOccupied (rel.pages id.page) id.slot = true := by
            rcases hb : isSlotOccupied (rel.pages id.page) id.slot with _ | _
            · have := ((deleteRecord_nil rel id h.1).1 hb).1
              have hok2 : (deleteRecord rel id).1 = RC_OK := hok
              rw [this] at hok2
              exact absurd hok2 (by decide)
            · rfl
          obtain ⟨-, -, d3, -, d5⟩ := (deleteRecord_nil rel id h.1).2 hocc
          have hne : id.page ≠ HEADER_PAGE := by
            have : DATA_START_PAGE ≤ id.page := ha.1
            intro h0
            rw [h0] at this
            exact absurd this (by decide)
          refine ⟨delete_sound rel id h ha hok, d5, ?_⟩
          intro k hk
          show (deleteRecord rel id).2.pages HEADER_PAGE k = Q0 k
          rw [d3]
          simp only [deletePages, setPage_same]
          rw [storeMetadata_frame _ _ _ (Or.inr hk), setPage_other _ _ _ _ (Ne.symm hne)]
          exact hQ k hk
        | update record =>
          have hocc : isSlotOccupied (rel.pages record.id.page) record.id.slot = true := by
            rcases hb : isSlotOccupied (rel.pages record.id.page) record.id.slot with _ | _
            · have := ((updateRecord_nil rel record h.1).1 hb).1
              have hok2 : (updateRecord rel record).1 = RC_OK := hok
              rw [this] at hok2
              exact absurd hok2 (by decide)
            · rfl
          obtain ⟨-, -, u3, -, u5⟩ := (updateRecord_nil rel record h.1).2 hocc
          have hne : record.id.page ≠ HEADER_PAGE := by
            have : DATA_START_PAGE ≤ record.id.page := ha.1
            intro h0
            rw [h0] at this
            exact absurd this (by decide)
          refine ⟨update_sound rel record h ha hok, u5, ?_⟩
          intro k hk
          show (updateRecord rel record).2.pages HEADER_PAGE k = Q0 k
          rw [u3]
          simp only [updatePages]
          rw [setPage_other _ _ _ _ (Ne.symm hne)]
          exact hQ k hk
      obtain ⟨r1, r2, r3⟩ := ih _ rel2 Q0 step.1 step.2.2 hr
      exact ⟨r1, r2.trans step.2.1, r3⟩

/-- `writeHeader` changes only the first 20 bytes of page 0, whatever the calls into the
buffer manager return. -/
theorem writeHeader_frame (bm : BM_BufferPool) (m : TableMetadata) (p k : Int)
    (h : p ≠ HEADER_PAGE ∨ k < 0 ∨ 20 ≤ k) :
    (writeHeader bm m).2.pages p k = bm.pages p k := by
  have hw : ∀ bm2 : BM_BufferPool, bm2.pages = bm.pages →
      (bm2.write HEADER_PAGE (storeMetadata (bm2.pages HEADER_PAGE) m)).pages p k =
        bm.pages p k := by
    intro bm2 h2
    simp only [BM_BufferPool.write]
    split_ifs with hp
    · rcases h with h | h
      · exact absurd hp h
      · rw [storeMetadata_frame _ _ _ h, h2, hp]
    · rw [h2]
  unfold writeHeader
  simp only
  split_ifs
  · rw [(pinPage_pinCalls bm HEADER_PAGE).2]
  · rw [(unpinPage_pinCalls _).2]
    show (BM_BufferPool.draw _).2.pages p k = _
    rw [(draw_pinCalls _).2]
    exact hw _ (pinPage_pinCalls bm HEADER_PAGE).2
  · rw [(unpinPage_pinCalls _).2]
    show (BM_BufferPool.draw _).2.pages p k = _
    rw [(draw_pinCalls _).2]
    exact hw _ (pinPage_pinCalls bm HEADER_PAGE).2

/-- `readHeader` after a `writeHeader` that returned RC_OK reads the metadata written. -/
theorem readHeader_writeHeader (bm : BM_BufferPool) (m m0 : TableMetadata)
    (hm : m.Representable) (hw : (writeHeader bm m).1 = RC_OK)
    (hr : (readHeader (writeHeader bm m).2 m0).1 = RC_OK) :
    (readHeader (writeHeader bm m).2 m0).2.2 = m := by
  have hpage : (writeHeader bm m).2.pages HEADER_PAGE =
      storeMetadata (bm.pages HEADER_PAGE) m := by
    unfold writeHeader at hw ⊢
    simp only at hw ⊢
    split_ifs at hw ⊢ with h1 h2
    · exact absurd hw h1
    · exact absurd hw h2
    · rw [(unpinPage_pinCalls _).2]
      show (BM_BufferPool.draw _).2.pages HEADER_PAGE = _
      rw [(draw_pinCalls _).2]
      simp only [BM_BufferPool.write, if_true]
      rw [(pinPage_pinCalls bm HEADER_PAGE).2]
  unfold readHeader at hr ⊢
  simp only at hr ⊢
  split_ifs at hr ⊢ with h1
  · exact absurd hr h1
  · simp only
    rw [(pinPage_pinCalls _ HEADER_PAGE).2, hpage, loadMetadata_storeMetadata]
    obtain ⟨a1, a2, a3, a4, a5⟩ := hm
    rw [wrap32_int32 _ a1, wrap32_int32 _ a2, wrap32_int32 _ a3, wrap32_int32 _ a4,
      wrap32_int32 _ a5]


theorem cstr_idem (n : List Nat) : cstr (cstr n ++ [0]) = cstr n := by
  apply cstr_append_zero
  intro x hx
  have := List.mem_takeWhile_imp hx
  simpa using this

/-- C21. Schema persistence round trip. For every schema `createTable` can store (parallel
arrays of `numAttr` entries, `keySize ≥ 0` key indices, enum data types, `int` integers, a
serialized form that fits in the header page after the 20-byte metadata), with the storage
and buffer-manager calls succeeding: after `createTable`, `openTable` and any sequence of
`insertRecord`, `deleteRecord` and `updateRecord` calls that return RC_OK with in-range RIDs
(the `int` counters below `INT_MAX`), closing the table and opening it again rebuilds a
schema with the same `numAttr`, the same attribute names (each the NUL-terminated copy of the
name's string), `dataTypes`, `typeLength`, `keySize` and `keyAttrs`. Whatever the
buffer-manager calls return, `writeHeader` changes nothing but the first 20 bytes of page 0,
and a `readHeader` that returns RC_OK after a `writeHeader(m)` that returned RC_OK reads
`m`. -/
theorem schema_round_trip (env : BM_BufferPool) (schema : Schema) (name : List Nat)
    (ops : List WriteOp) (rel : RM_TableData) (bm : BM_BufferPool) (m m0 : TableMetadata)
    (henv : env.faults = []) (hs : schema.Persistable)
    (hc : (createTable env schema).map Prod.fst = some RC_OK)
    (hrun : runOps (freshTable env schema name) ops = some rel)
    (hm : m.Representable) :
    (∀ rel0 name2,
      (openTable (closeTable rel).2.1 rel0 name2).1 = RC_OK ∧
      (openTable (closeTable rel).2.1 rel0 name2).2.2.schema.numAttr = schema.numAttr ∧
      (openTable (closeTable rel).2.1 rel0 name2).2.2.schema.attrNames =
        schema.attrNames.map (fun n => cstr n ++ [0]) ∧
      (openTable (closeTable rel).2.1 rel0 name2).2.2.schema.attrNames.map cstr =
        schema.attrNames.map cstr ∧
      (openTable (closeTable rel).2.1 rel0 name2).2.2.schema.dataTypes = schema.dataTypes ∧
      (openTable (closeTable rel).2.1 rel0 name2).2.2.schema.typeLength = schema.typeLength ∧
      (openTable (closeTable rel).2.1 rel0 name2).2.2.schema.keySize = schema.keySize ∧
      (openTable (closeTable rel).2.1 rel0 name2).2.2.schema.keyAttrs = schema.keyAttrs) ∧
    (∀ p k, p ≠ HEADER_PAGE ∨ k < 0 ∨ 20 ≤ k →
      (writeHeader bm m).2.pages p k = bm.pages p k) ∧
    ((writeHeader bm m).1 = RC_OK → (readHeader (writeHeader bm m).2 m0).1 = RC_OK →
      (readHeader (writeHeader bm m).2 m0).2.2 = m) := by
  refine ⟨?_, fun p k h => writeHeader_frame bm m p k h,
    fun hw hr => readHeader_writeHeader bm m m0 hm hw hr⟩
  intro rel0 name2
  obtain ⟨env1, hc1⟩ := createTable_ok env schema hc
  obtain ⟨c1, -⟩ := createTable_nil env schema env1 henv hc1
  obtain ⟨d, hd⟩ := createTable_schema env schema env1 henv hc1
  obtain ⟨-, -, p3, -, -⟩ := openTable_nil env1 ⟨[], schema, none⟩ name c1
  have hf : freshTable env schema name = (openTable env1 ⟨[], schema, none⟩ name).2.2 := by
    simp only [freshTable, hc1]
  obtain ⟨r1, -, r3⟩ := runOps_schema ops (freshTable env schema name) rel
    (writeSchema schema d) (fresh_sound env schema name henv hc)
    (fun k _ => by rw [hf, p3, hd]) hrun
  obtain ⟨q1, q2, q3, -⟩ := closeTable_nil rel r1.1
  obtain ⟨o1, -, -, -, o5⟩ := openTable_nil (closeTable rel).2.1 rel0 name2 q2
  have hread := readSchema_of_agree schema hs d ((closeTable rel).2.1.pages HEADER_PAGE)
    (fun k hk => by rw [q3]; exact r3 k hk)
  rw [o5, hread]
  refine ⟨o1, rfl, rfl, ?_, rfl, rfl, rfl, rfl⟩
  simp only [List.map_map]
  apply List.map_congr_left
  intro n _
  exact cstr_idem n

set_option maxRecDepth 100000 in
theorem schema_round_trip_witness :
    ((openTable (closeTable (afterOps (freshTable env0 schemaS1 [116, 49]) opsS1)).2.1
          ⟨[], schemaS1, none⟩ [116, 49]).2.2.schema =
        ⟨2, [[97, 0], [98, 0]], [.DT_INT, .DT_STRING], [0, 4], 1, [0]⟩ ∧
      serializedEnd schemaS1 = 58) ∧
    ((∀ rel0 name2,
      (openTable (closeTable (afterOps (freshTable env0 schemaS1 [116, 49]) opsS1)).2.1 rel0 name2).1 = RC_OK ∧
      (openTable (closeTable (afterOps (freshTable env0 schemaS1 [116, 49]) opsS1)).2.1 rel0 name2).2.2.schema.numAttr = schemaS1.numAttr ∧
      (openTable (closeTable (afterOps (freshTable env0 schemaS1 [116, 49]) opsS1)).2.1 rel0 name2).2.2.schema.attrNames =
        schemaS1.attrNames.map (fun n => cstr n ++ [0]) ∧
      (openTable (closeTable (afterOps (freshTable env0 schemaS1 [116, 49]) opsS1)).2.1 rel0 name2).2.2.schema.attrNames.map cstr =
        schemaS1.attrNames.map cstr ∧
      (openTable (closeTable (afterOps (freshTable env0 schemaS1 [116, 49]) opsS1)).2.1 rel0 name2).2.2.schema.dataTypes = schemaS1.dataTypes ∧
      (openTable (closeTable (afterOps (freshTable env0 schemaS1 [116, 49]) opsS1)).2.1 rel0 name2).2.2.schema.typeLength = schemaS1.typeLength ∧
      (openTable (closeTable (afterOps (freshTable env0 schemaS1 [116, 49]) opsS1)).2.1 rel0 name2).2.2.schema.keySize = schemaS1.keySize ∧
      (openTable (closeTable (afterOps (freshTable env0 schemaS1 [116, 49]) opsS1)).2.1 rel0 name2).2.2.schema.keyAttrs = schemaS1.keyAttrs) ∧
    (∀ p k, p ≠ HEADER_PAGE ∨ k < 0 ∨ 20 ≤ k →
      (writeHeader env0 metaS1).2.pages p k = env0.pages p k) ∧
    ((writeHeader env0 metaS1).1 = RC_OK → (readHeader (writeHeader env0 metaS1).2 TableMetadata.uninit).1 = RC_OK →
      (readHeader (writeHeader env0 metaS1).2 TableMetadata.uninit).2.2 = metaS1)) :=
  ⟨⟨by decide, by decide⟩,
    schema_round_trip env0 schemaS1 [116, 49] opsS1 (afterOps (freshTable env0 schemaS1 [116, 49]) opsS1) env0 metaS1
      TableMetadata.uninit rfl (by decide) (by decide) rfl (by decide)⟩


/-! ## The serializer on texts shorter than its first block -/

theorem zero_not_mem_cstr (s : List Nat) : 0 ∉ cstr s := by
  intro h
  have := List.mem_takeWhile_imp h
  simp at this

theorem cstr_of_not_mem (t rest : List Nat) (h : 0 ∉ t) : cstr (t ++ 0 :: rest) = t :=
  cstr_append_zero t rest (fun _ hx h0 => h (h0 ▸ hx))

theorem cstr_eq_self (t : List Nat) (h : 0 ∉ t) : cstr t = t := by
  have := cstr_of_not_mem t [] h
  unfold cstr at this ⊢
  rw [List.takeWhile_eq_self_iff]
  intro x hx
  have hx0 : x ≠ 0 := fun h0 => h (h0 ▸ hx)
  simpa using hx0

theorem digitsAux_ne_zero (fuel : Nat) : ∀ (n : Nat) (acc : List Nat), 0 ∉ acc →
    0 ∉ digitsAux fuel n acc := by
  induction fuel with
  | zero => intro n acc h; exact h
  | succ f ih =>
    intro n acc h
    unfold digitsAux
    split_ifs
    · simp only [List.mem_cons, not_or]
      exact ⟨by omega, h⟩
    · apply ih
      simp only [List.mem_cons, not_or]
      exact ⟨by omega, h⟩

theorem fmtInt_ne_zero (x : Int) : 0 ∉ fmtInt x := by
  unfold fmtInt natDigits
  split_ifs
  · simp only [List.mem_cons, not_or]
    exact ⟨by decide, digitsAux_ne_zero _ _ _ (by simp)⟩
  · exact digitsAux_ne_zero _ _ _ (by simp)

theorem make_holds : VarString.make.Holds [] :=
  ⟨rfl, rfl, by decide, rfl⟩

/-- `APPEND` of a piece without NUL that still fits in the first block. -/
theorem append_holds (lib : CLib) (var : VarString) (text piece : List Nat)
    (h : var.Holds text) (hp : 0 ∉ piece) (hlen : text.length + piece.length < 256) :
    (append lib var piece).Holds (text ++ piece) := by
  obtain ⟨h1, h2, h3, h4⟩ := h
  have htake : piece.take 1023 = piece := List.take_of_length_le (by omega)
  have hc : cstr (piece.take 1023 ++ [0]) = piece := by
    rw [htake]; exact cstr_of_not_mem piece [] hp
  have hens : ensureSize lib var (var.size + piece.length) = var := by
    unfold ensureSize
    rw [if_neg (by omega)]
  unfold append appendString
  simp only [hc, hens]
  refine ⟨h1, by simp [h2], by simp; omega, ?_⟩
  simp only
  rw [h4, h2, List.take_left, List.drop_append_eq_append_drop]
  have e1 : text.length + piece.length - text.length = piece.length := by omega
  have e2 : List.drop (text.length + piece.length) text = [] :=
    List.drop_of_length_le (by omega)
  rw [e1, e2, List.drop_replicate, List.length_append, List.append_assoc, List.nil_append]
  have e3 : 256 - text.length - piece.length = 256 - (text.length + piece.length) := by omega
  rw [e3, List.append_assoc]

/-- `strdup` of the block of a string variable that has not been grown gives its text. -/
theorem strdupBuf_holds (var : VarString) (text : List Nat) (h : var.Holds text)
    (ht : 0 ∉ text) : strdupBuf var = some text := by
  obtain ⟨-, -, h3, h4⟩ := h
  have hrep : List.replicate (256 - text.length) 0 =
      0 :: List.replicate (256 - text.length - 1) 0 := by
    have : 256 - text.length = (256 - text.length - 1) + 1 := by omega
    rw [this, List.replicate_succ]
    simp
  unfold strdupBuf
  rw [h4, hrep, if_pos (by simp), cstr_of_not_mem _ _ ht]

theorem drop_range (k s n : Nat) (hk : k ≤ n) :
    List.drop k (List.range' s n) = List.range' (s + k) (n - k) := by
  have e : List.range' s n = List.range' s k ++ List.range' (s + k) (n - k) := by
    rw [List.range'_append_1]
    congr 1
    omega
  rw [e, List.drop_left' (by simp)]

theorem tracks_short (lib : CLib) (var : VarString) (t : List Nat) (h : var.Tracks lib t)
    (hlen : t.length < 256) : var.Holds t := by
  rcases h with h | h
  · exact h
  · have := h.2.2.1
    omega

theorem tracks_long (lib : CLib) (var : VarString) (t : List Nat) (h : var.Tracks lib t)
    (hlen : 256 ≤ t.length) : var.Grown lib t := by
  rcases h with h | h
  · have := h.2.2.1
    omega
  · exact h

theorem growSize_once (newsize : Nat) (h : newsize < 512) :
    growSize (newsize + 1) 512 newsize = 512 := by
  unfold growSize
  rw [if_neg (by omega)]

/-- `APPEND` of a piece without NUL, the text staying shorter than 512 characters: the block
is grown when the text reaches 256 characters, and no terminator is written. -/
theorem append_tracks (lib : CLib) (var : VarString) (text piece : List Nat)
    (h : var.Tracks lib text) (hp : 0 ∉ piece) (hlen : text.length + piece.length < 512) :
    (append lib var piece).Tracks lib (text ++ piece) := by
  have htake : piece.take 1023 = piece := List.take_of_length_le (by omega)
  have hc : cstr (piece.take 1023 ++ [0]) = piece := by
    rw [htake]; exact cstr_of_not_mem piece [] hp
  rcases h with h | h
  · by_cases hs : text.length + piece.length < 256
    · exact Or.inl (append_holds lib var text piece h hp hs)
    · right
      obtain ⟨h1, h2, h3, h4⟩ := h
      have hens : ensureSize lib var (var.size + piece.length) =
          { var with
            buf := var.buf ++ (List.range' 256 256).map lib.heap,
            bufsize := 512 } := by
        unfold ensureSize
        rw [if_pos (by omega), h1]
        have hg := growSize_once (var.size + piece.length) (by omega)
        have e512 : 256 * 2 = 512 := by norm_num
        have e256 : 512 - 256 = 256 := by norm_num
        simp only [e512, hg, e256]
        rw [List.range'_eq_map_range, List.map_map]
        simp only [Function.comp_def]
      unfold append appendString
      simp only [hc, hens]
      refine ⟨rfl, by simp [h2], by simp; omega, by simp; omega, ?_⟩
      simp only
      rw [h4, h2]
      have hlen256 : (text ++ List.replicate (256 - text.length) 0).length = 256 := by
        simp; omega
      have e1 : List.take text.length (text ++ List.replicate (256 - text.length) 0 ++
          List.map lib.heap (List.range' 256 256)) = text := by
        rw [List.append_assoc, List.take_left]
      have e2 : List.drop (text.length + piece.length)
          (text ++ List.replicate (256 - text.length) 0 ++
            List.map lib.heap (List.range' 256 256)) =
          List.map lib.heap (List.range' (text.length + piece.length)
            (512 - (text.length + piece.length))) := by
        have ea : 256 + (text.length + piece.length - 256) = text.length + piece.length := by
          omega
        have eb : 256 - (text.length + piece.length - 256) =
            512 - (text.length + piece.length) := by omega
        rw [List.drop_append_eq_append_drop, hlen256,
          List.drop_of_length_le (by rw [hlen256]; omega), List.nil_append, ← List.map_drop,
          drop_range _ _ _ (by omega), ea, eb]
      rw [e1, e2, List.length_append]
  · right
    obtain ⟨h1, h2, h3, h4, h5⟩ := h
    have hens : ensureSize lib var (var.size + piece.length) = var := by
      unfold ensureSize
      rw [if_neg (by omega)]
    unfold append appendString
    simp only [hc, hens]
    refine ⟨h1, by simp [h2], by simp; omega, by simp; omega, ?_⟩
    simp only
    rw [h5, h2]
    have e2 : List.drop (text.length + piece.length)
        (text ++ List.map lib.heap (List.range' text.length (512 - text.length))) =
        List.map lib.heap (List.range' (text.length + piece.length)
          (512 - (text.length + piece.length))) := by
      have ea : text.length + (text.length + piece.length - text.length) =
          text.length + piece.length := by omega
      have eb : 512 - text.length - (text.length + piece.length - text.length) =
          512 - (text.length + piece.length) := by omega
      rw [List.drop_append_eq_append_drop, List.drop_of_length_le (by omega), List.nil_append,
        ← List.map_drop, drop_range _ _ _ (by omega), ea, eb]
    rw [List.take_left, e2, List.length_append]

/-- `strdup` of a grown block: the text and the byte `realloc` left after it, when that byte
is not zero and the next one is. -/
theorem strdupBuf_grown (lib : CLib) (var : VarString) (text : List Nat) (c : Nat)
    (h : var.Grown lib text) (ht : 0 ∉ text) (hc : c ≠ 0) (hj : lib.heap text.length = c)
    (hj2 : lib.heap (text.length + 1) = 0) (hlen : text.length + 1 < 512) :
    strdupBuf var = some (text ++ [c]) := by
  obtain ⟨-, -, -, -, h5⟩ := h
  obtain ⟨m, hm⟩ : ∃ m, 512 - text.length = m + 1 + 1 := ⟨512 - text.length - 2, by omega⟩
  have hr : List.range' text.length (512 - text.length) =
      text.length :: (text.length + 1) :: List.range' (text.length + 1 + 1) m := by
    rw [hm, List.range'_succ, List.range'_succ]
  rw [hr, List.map_cons, List.map_cons, hj, hj2] at h5
  have h5b : var.buf = (text ++ [c]) ++ 0 :: List.map lib.heap
      (List.range' (text.length + 1 + 1) m) := by
    rw [h5]; simp
  have ht2 : 0 ∉ text ++ [c] := by
    simp only [List.mem_append, List.mem_singleton, not_or]
    exact ⟨ht, fun h0 => hc h0.symm⟩
  unfold strdupBuf
  rw [h5b, if_pos (by simp), cstr_of_not_mem _ _ ht2]

/-- `strdup` of a grown block gives the text when `realloc` happened to leave a zero byte
after it. -/
theorem strdupBuf_grown_zero (lib : CLib) (var : VarString) (text : List Nat)
    (h : var.Grown lib text) (ht : 0 ∉ text) (hj : lib.heap text.length = 0) :
    strdupBuf var = some text := by
  obtain ⟨-, -, -, h4, h5⟩ := h
  obtain ⟨m, hm⟩ : ∃ m, 512 - text.length = m + 1 := ⟨512 - text.length - 1, by omega⟩
  have hr : List.range' text.length (512 - text.length) =
      text.length :: List.range' (text.length + 1) m := by
    rw [hm, List.range'_succ]
  rw [hr, List.map_cons, hj] at h5
  unfold strdupBuf
  rw [h5, if_pos (by simp), cstr_of_not_mem _ _ ht]


theorem cstr_append_nul (l : List Nat) : cstr (l ++ [0]) = cstr l := by
  unfold cstr
  induction l with
  | nil => rfl
  | cons x rest ih =>
    simp only [List.cons_append, List.takeWhile_cons]
    split
    · rw [ih]
    · rfl

theorem make_tracks (lib : CLib) : VarString.make.Tracks lib [] :=
  Or.inl make_holds

/-- The string variable after one `APPEND` into a fresh one. -/
theorem append_make_tracks (lib : CLib) (text : List Nat) (h0 : 0 ∉ text)
    (hlen : text.length < 512) : (append lib VarString.make text).Tracks lib text := by
  have h := append_tracks lib VarString.make [] text (make_tracks lib) h0 (by simpa using hlen)
  rw [List.nil_append] at h
  exact h

theorem specAttrText_ne_zero (record : Record) (schema : Schema) (i : Nat) :
    0 ∉ specAttrText record schema i := by
  unfold specAttrText
  have hn := zero_not_mem_cstr ((schema.attrNames[i]?).getD [])
  have hc : 0 ∉ ascii ": " := by decide
  have ht : 0 ∉ ascii "true" := by decide
  have hf : 0 ∉ ascii "false" := by decide
  simp only [List.mem_append, not_or]
  refine ⟨⟨hn, hc⟩, ?_⟩
  split
  · exact fmtInt_ne_zero _
  · split_ifs
    · exact hf
    · exact ht
  · simp only [List.mem_append, not_or]
    exact ⟨⟨by decide, zero_not_mem_cstr _⟩, by decide⟩
  · simp

/-- `serializeAttr` on an Int, Bool or String attribute: one `APPEND` of the text the
specification describes into a fresh string variable, then `strdup`. -/
theorem serializeAttr_eq (lib : CLib) (record : Record) (schema : Schema) (i : Nat)
    (hi : (i : Int) < schema.numAttr)
    (hdt : schema.dataTypes[i]? = some .DT_INT ∨ schema.dataTypes[i]? = some .DT_BOOL ∨
      schema.dataTypes[i]? = some .DT_STRING) :
    serializeAttr lib record schema i =
      strdupBuf (append lib VarString.make (specAttrText record schema i)) := by
  have hoff : (attrOffset schema i).2 = some (sumWidths schema i) := by
    unfold attrOffset
    rw [if_neg (by omega)]
    simp
  have hname : attrName schema i = cstr ((schema.attrNames[i]?).getD []) := by
    unfold attrName
    rw [if_pos (by omega)]
    simp
  unfold serializeAttr
  simp only [hoff, Int.toNat_ofNat, hname]
  rcases hdt with hdt | hdt | hdt
  · have e : specAttrText record schema i = cstr ((schema.attrNames[i]?).getD []) ++ ascii ": " ++
        fmtInt (loadInt record.buf (sumWidths schema i)) := by
      simp only [specAttrText, hdt]
    rw [e]
    simp only [hdt]
  · have e : specAttrText record schema i = cstr ((schema.attrNames[i]?).getD []) ++ ascii ": " ++
        (if record.buf (sumWidths schema i) != 0 then ascii "true" else ascii "false") := by
      simp only [specAttrText, hdt]
      by_cases hb : record.buf (sumWidths schema i) = 0
      · simp [hb]
      · simp [hb]
    rw [e]
    simp only [hdt]
  · have e : specAttrText record schema i = cstr ((schema.attrNames[i]?).getD []) ++ ascii ": " ++
        [39] ++ cstr (readBytes record.buf (sumWidths schema i)
          ((schema.typeLength[i]?).getD 0) ++ [0]) ++ [39] := by
      simp only [specAttrText, hdt, cstr_append_nul, List.append_assoc]
    rw [e]
    simp only [hdt]

/-- `serializeAttr` on an Int, Bool or String attribute whose text is shorter than 256
characters returns the text the specification describes, whatever the heap holds. -/
theorem serializeAttr_short (lib : CLib) (record : Record) (schema : Schema) (i : Nat)
    (hi : (i : Int) < schema.numAttr)
    (hdt : schema.dataTypes[i]? = some .DT_INT ∨ schema.dataTypes[i]? = some .DT_BOOL ∨
      schema.dataTypes[i]? = some .DT_STRING)
    (hlen : (specAttrText record schema i).length < 256) :
    serializeAttr lib record schema i = some (specAttrText record schema i) := by
  have h0 := specAttrText_ne_zero record schema i
  rw [serializeAttr_eq lib record schema i hi hdt]
  exact strdupBuf_holds _ _
    (tracks_short lib _ _ (append_make_tracks lib _ h0 (by omega)) hlen) h0

/-- `serializeAttr` on a text of 256 to 510 characters returns the text followed by the byte
`realloc` left after it, when that byte is not zero and the next one is. -/
theorem serializeAttr_grown (lib : CLib) (record : Record) (schema : Schema) (i : Nat) (c : Nat)
    (hi : (i : Int) < schema.numAttr)
    (hdt : schema.dataTypes[i]? = some .DT_INT ∨ schema.dataTypes[i]? = some .DT_BOOL ∨
      schema.dataTypes[i]? = some .DT_STRING)
    (h256 : 256 ≤ (specAttrText record schema i).length)
    (h512 : (specAttrText record schema i).length + 1 < 512)
    (hc : c ≠ 0) (hj : lib.heap (specAttrText record schema i).length = c)
    (hj2 : lib.heap ((specAttrText record schema i).length + 1) = 0) :
    serializeAttr lib record schema i = some (specAttrText record schema i ++ [c]) := by
  have h0 := specAttrText_ne_zero record schema i
  rw [serializeAttr_eq lib record schema i hi hdt]
  exact strdupBuf_grown lib _ _ c
    (tracks_long lib _ _ (append_make_tracks lib _ h0 (by omega)) h256) h0 hc hj hj2 h512

/-- `serializeAttr` on a text of 256 to 511 characters returns the text when `realloc`
happened to leave a zero byte after it. -/
theorem serializeAttr_grown_zero (lib : CLib) (record : Record) (schema : Schema) (i : Nat)
    (hi : (i : Int) < schema.numAttr)
    (hdt : schema.dataTypes[i]? = some .DT_INT ∨ schema.dataTypes[i]? = some .DT_BOOL ∨
      schema.dataTypes[i]? = some .DT_STRING)
    (h256 : 256 ≤ (specAttrText record schema i).length)
    (h512 : (specAttrText record schema i).length < 512)
    (hj : lib.heap (specAttrText record schema i).length = 0) :
    serializeAttr lib record schema i = some (specAttrText record schema i) := by
  have h0 := specAttrText_ne_zero record schema i
  rw [serializeAttr_eq lib record schema i hi hdt]
  exact strdupBuf_grown_zero lib _ _
    (tracks_long lib _ _ (append_make_tracks lib _ h0 h512) h256) h0 hj


theorem intercalate_cons_eq (sep a : List Nat) (l : List (List Nat)) :
    sep.intercalate (a :: l) = a ++ (l.map (fun p => sep ++ p)).flatten := by
  induction l generalizing a with
  | nil => simp [List.intercalate]
  | cons b rest ih =>
    have := ih b
    simp only [List.intercalate, List.intersperse_cons_cons, List.flatten_cons, List.map_cons] at this ⊢
    rw [this]
    simp only [List.append_assoc]

/-- Pieces that carry a separator in front of all but the first are the pieces joined by the
separator. -/
theorem join_sep (sep : List Nat) (g : Nat → List Nat) (n : Nat) :
    ((List.range n).map (fun i => (if i > 0 then sep else []) ++ g i)).flatten =
      sep.intercalate ((List.range n).map g) := by
  cases n with
  | zero => simp [List.intercalate]
  | succ m =>
    rw [List.range_succ_eq_map]
    simp only [List.map_cons, List.map_map, List.flatten_cons, intercalate_cons_eq]
    simp only [gt_iff_lt, lt_self_iff_false, if_false, List.nil_append]
    congr 2
    apply List.map_congr_left
    intro a _
    simp

theorem attrName_nat (schema : Schema) (i : Nat) :
    attrName schema (i : Int) = cstr ((schema.attrNames[i]?).getD []) := by
  unfold attrName
  rw [if_pos (by omega)]
  simp

theorem specTypeText_ne_zero (schema : Schema) (i : Nat) : 0 ∉ specTypeText schema i := by
  unfold specTypeText
  split
  · decide
  · decide
  · decide
  · simp only [List.mem_append, not_or]
    exact ⟨⟨by decide, fmtInt_ne_zero _⟩, by decide⟩
  · simp

theorem sep_ne_zero (i : Nat) : 0 ∉ (if i > 0 then ascii ", " else []) := by
  split_ifs
  · decide
  · simp

/-- One round of the attribute loop of `serializeSchema` while the text is shorter than 512 characters. -/
theorem serializeSchemaAttr_tracks (lib : CLib) (schema : Schema) (var : VarString)
    (t : List Nat) (i : Nat) (h : var.Tracks lib t) (h0 : 0 ∉ t)
    (hlen : (t ++ ((if i > 0 then ascii ", " else []) ++
      (cstr ((schema.attrNames[i]?).getD []) ++ ascii ": " ++ specTypeText schema i))).length
        < 512) :
    (serializeSchemaAttr lib schema var i).Tracks lib
      (t ++ ((if i > 0 then ascii ", " else []) ++
        (cstr ((schema.attrNames[i]?).getD []) ++ ascii ": " ++ specTypeText schema i))) ∧
    0 ∉ t ++ ((if i > 0 then ascii ", " else []) ++
        (cstr ((schema.attrNames[i]?).getD []) ++ ascii ": " ++ specTypeText schema i)) := by
  have hs := sep_ne_zero i
  have hn := zero_not_mem_cstr ((schema.attrNames[i]?).getD [])
  have hc : 0 ∉ ascii ": " := by decide
  have ht := specTypeText_ne_zero schema i
  have hp1 : 0 ∉ (if i > 0 then ascii ", " else []) ++ cstr ((schema.attrNames[i]?).getD []) ++
      ascii ": " := by
    simp only [List.mem_append, not_or]
    exact ⟨⟨hs, hn⟩, hc⟩
  simp only [List.length_append] at hlen
  have h1 := append_tracks lib var t
    ((if i > 0 then ascii ", " else []) ++ cstr ((schema.attrNames[i]?).getD []) ++ ascii ": ")
    h hp1 (by simp only [List.length_append]; omega)
  have hlen2 : (t ++ ((if i > 0 then ascii ", " else []) ++
      cstr ((schema.attrNames[i]?).getD []) ++ ascii ": ")).length +
      (specTypeText schema i).length < 512 := by
    simp only [List.length_append]; omega
  have h2 := append_tracks lib _ _ (specTypeText schema i) h1 ht hlen2
  have e : t ++ ((if i > 0 then ascii ", " else []) ++
      (cstr ((schema.attrNames[i]?).getD []) ++ ascii ": " ++ specTypeText schema i)) =
      t ++ ((if i > 0 then ascii ", " else []) ++ cstr ((schema.attrNames[i]?).getD []) ++
        ascii ": ") ++ specTypeText schema i := by
    simp only [List.append_assoc]
  constructor
  · rw [e]
    unfold serializeSchemaAttr
    simp only [attrName_nat]
    cases hd : schema.dataTypes[i]? with
    | none =>
      simp only [specTypeText, hd, List.append_nil]
      exact h1
    | some dt =>
      cases dt <;> simp only [specTypeText, hd, List.append_nil] at h2 ⊢ <;>
        first | exact h2 | exact h1
  · simp only [List.mem_append, not_or]
    exact ⟨h0, hs, ⟨hn, hc⟩, ht⟩

theorem foldl_schemaAttr_tracks (lib : CLib) (schema : Schema) (l : List Nat) :
    ∀ (var : VarString) (t : List Nat), var.Tracks lib t → 0 ∉ t →
    (t ++ (l.map (fun i => (if i > 0 then ascii ", " else []) ++
      (cstr ((schema.attrNames[i]?).getD []) ++ ascii ": " ++ specTypeText schema i))).flatten
      ).length < 512 →
    (l.foldl (serializeSchemaAttr lib schema) var).Tracks lib
      (t ++ (l.map (fun i => (if i > 0 then ascii ", " else []) ++
        (cstr ((schema.attrNames[i]?).getD []) ++ ascii ": " ++ specTypeText schema i))).flatten) ∧
    0 ∉ t ++ (l.map (fun i => (if i > 0 then ascii ", " else []) ++
        (cstr ((schema.attrNames[i]?).getD []) ++ ascii ": " ++ specTypeText schema i))).flatten := by
  induction l with
  | nil =>
    intro var t h h0 _
    simp only [List.map_nil, List.flatten_nil, List.append_nil, List.foldl_nil]
    exact ⟨h, h0⟩
  | cons i rest ih =>
    intro var t h h0 hlen
    simp only [List.map_cons, List.flatten_cons, List.foldl_cons] at hlen ⊢
    rw [← List.append_assoc] at hlen ⊢
    obtain ⟨s1, s2⟩ := serializeSchemaAttr_tracks lib schema var t i h h0 (by
      simp only [List.length_append] at hlen ⊢; omega)
    exact ih _ _ s1 s2 hlen

theorem foldl_schemaKey_tracks (lib : CLib) (schema : Schema) (l : List Nat) :
    ∀ (var : VarString) (t : List Nat), var.Tracks lib t → 0 ∉ t →
    (t ++ (l.map (fun i => (if i > 0 then ascii ", " else []) ++
      attrName schema ((schema.keyAttrs[i]?).getD 0))).flatten).length < 512 →
    (l.foldl (serializeSchemaKey lib schema) var).Tracks lib
      (t ++ (l.map (fun i => (if i > 0 then ascii ", " else []) ++
        attrName schema ((schema.keyAttrs[i]?).getD 0))).flatten) ∧
    0 ∉ t ++ (l.map (fun i => (if i > 0 then ascii ", " else []) ++
        attrName schema ((schema.keyAttrs[i]?).getD 0))).flatten := by
  induction l with
  | nil =>
    intro var t h h0 _
    simp only [List.map_nil, List.flatten_nil, List.append_nil, List.foldl_nil]
    exact ⟨h, h0⟩
  | cons i rest ih =>
    intro var t h h0 hlen
    simp only [List.map_cons, List.flatten_cons, List.foldl_cons] at hlen ⊢
    rw [← List.append_assoc] at hlen ⊢
    have hn : 0 ∉ attrName schema ((schema.keyAttrs[i]?).getD 0) := by
      unfold attrName
      split_ifs
      · exact zero_not_mem_cstr _
      · simp
    have hp : 0 ∉ (if i > 0 then ascii ", " else []) ++
        attrName schema ((schema.keyAttrs[i]?).getD 0) := by
      simp only [List.mem_append, not_or]
      exact ⟨sep_ne_zero i, hn⟩
    have s1 := append_tracks lib var t _ h hp (by
      simp only [List.length_append] at hlen ⊢; omega)
    have s2 : 0 ∉ t ++ ((if i > 0 then ascii ", " else []) ++
        attrName schema ((schema.keyAttrs[i]?).getD 0)) := by
      simp only [List.mem_append, not_or] at hp ⊢
      exact ⟨h0, hp⟩
    exact ih _ _ s1 s2 hlen


/-- The string variable `serializeSchema` hands to `strdup`, for a schema with `keySize` key
indices, none negative, whose text is shorter than 512 characters. -/
theorem serializeSchema_tracks (lib : CLib) (schema : Schema)
    (hk1 : schema.keyAttrs.length = schema.keySize.toNat)
    (hk2 : ∀ k ∈ schema.keyAttrs, 0 ≤ k)
    (hlen : (specSchemaText schema).length < 512) :
    ∃ var, serializeSchema lib schema = strdupBuf var ∧
      var.Tracks lib (specSchemaText schema) ∧ 0 ∉ specSchemaText schema := by
  have hkeys : (List.range schema.keySize.toNat).map
      (fun i => attrName schema ((schema.keyAttrs[i]?).getD 0)) =
      (schema.keyAttrs.take schema.keySize.toNat).map
        (fun k => cstr ((schema.attrNames[k.toNat]?).getD [])) := by
    rw [← hk1, List.take_length, map_range_getD schema.keyAttrs 0 (attrName schema)]
    apply List.map_congr_left
    intro k hk
    unfold attrName
    rw [if_pos (hk2 k hk)]
  have espec : specSchemaText schema =
      ascii "Attributes[" ++ fmtInt schema.numAttr ++ ascii "]: " ++
      ((List.range schema.numAttr.toNat).map (fun i => (if i > 0 then ascii ", " else []) ++
        (cstr ((schema.attrNames[i]?).getD []) ++ ascii ": " ++ specTypeText schema i))).flatten ++
      (if schema.keySize > 0 then
        ascii " | Keys: " ++
          ((List.range schema.keySize.toNat).map (fun i => (if i > 0 then ascii ", " else []) ++
            attrName schema ((schema.keyAttrs[i]?).getD 0))).flatten
      else []) := by
    unfold specSchemaText joinComma
    rw [join_sep, join_sep, hkeys]
  rw [espec] at hlen ⊢
  have h00 : 0 ∉ ascii "Attributes[" ++ fmtInt schema.numAttr ++ ascii "]: " := by
    simp only [List.mem_append, not_or]
    exact ⟨⟨by decide, fmtInt_ne_zero _⟩, by decide⟩
  have hl := hlen
  simp only [List.length_append] at hl
  have a0 := append_make_tracks lib _ h00 (by simp only [List.length_append]; omega)
  obtain ⟨a1, a2⟩ := foldl_schemaAttr_tracks lib schema (List.range schema.numAttr.toNat) _ _
    a0 h00 (by simp only [List.length_append]; omega)
  unfold serializeSchema
  simp only
  by_cases hks : schema.keySize > 0
  · rw [if_pos hks] at hlen hl ⊢
    rw [if_pos hks]
    have hkz : 0 ∉ ascii " | Keys: " := by decide
    have b0 := append_tracks lib _ _ (ascii " | Keys: ") a1 hkz (by
      simp only [List.length_append] at hl ⊢; omega)
    have b00 : 0 ∉ ascii "Attributes[" ++ fmtInt schema.numAttr ++ ascii "]: " ++
        ((List.range schema.numAttr.toNat).map (fun i => (if i > 0 then ascii ", " else []) ++
          (cstr ((schema.attrNames[i]?).getD []) ++ ascii ": " ++
            specTypeText schema i))).flatten ++ ascii " | Keys: " := by
      intro hmem
      rw [List.mem_append] at hmem
      rcases hmem with hmem | hmem
      · exact a2 hmem
      · exact hkz hmem
    obtain ⟨b1, b2⟩ := foldl_schemaKey_tracks lib schema (List.range schema.keySize.toNat) _ _
      b0 b00 (by simp only [List.length_append] at hl ⊢; omega)
    rw [List.append_assoc _ (ascii " | Keys: ")] at b1 b2
    exact ⟨_, rfl, b1, b2⟩
  · rw [if_neg hks] at hlen ⊢
    rw [if_neg hks, List.append_nil]
    exact ⟨_, rfl, a1, a2⟩

/-- `serializeSchema` on a schema whose text is shorter than 256 characters (key indices not
negative, `keySize` of them) returns the text the specification describes, whatever the heap
holds. -/
theorem serializeSchema_short (lib : CLib) (schema : Schema)
    (hk1 : schema.keyAttrs.length = schema.keySize.toNat)
    (hk2 : ∀ k ∈ schema.keyAttrs, 0 ≤ k)
    (hlen : (specSchemaText schema).length < 256) :
    serializeSchema lib schema = some (specSchemaText schema) := by
  obtain ⟨var, e, h, h0⟩ := serializeSchema_tracks lib schema hk1 hk2 (by omega)
  rw [e]
  exact strdupBuf_holds _ _ (tracks_short lib _ _ h hlen) h0

/-- `serializeSchema` on a text of 256 to 510 characters returns the text followed by the
byte `realloc` left after it, when that byte is not zero and the next one is. -/
theorem serializeSchema_grown (lib : CLib) (schema : Schema) (c : Nat)
    (hk1 : schema.keyAttrs.length = schema.keySize.toNat)
    (hk2 : ∀ k ∈ schema.keyAttrs, 0 ≤ k)
    (h256 : 256 ≤ (specSchemaText schema).length)
    (h512 : (specSchemaText schema).length + 1 < 512)
    (hc : c ≠ 0) (hj : lib.heap (specSchemaText schema).length = c)
    (hj2 : lib.heap ((specSchemaText schema).length + 1) = 0) :
    serializeSchema lib schema = some (specSchemaText schema ++ [c]) := by
  obtain ⟨var, e, h, h0⟩ := serializeSchema_tracks lib schema hk1 hk2 (by omega)
  rw [e]
  exact strdupBuf_grown lib _ _ c (tracks_long lib _ _ h h256) h0 hc hj hj2 h512

/-- `serializeSchema` on a text of 256 to 511 characters returns the text when `realloc`
happened to leave a zero byte after it. -/
theorem serializeSchema_grown_zero (lib : CLib) (schema : Schema)
    (hk1 : schema.keyAttrs.length = schema.keySize.toNat)
    (hk2 : ∀ k ∈ schema.keyAttrs, 0 ≤ k)
    (h256 : 256 ≤ (specSchemaText schema).length)
    (h512 : (specSchemaText schema).length < 512)
    (hj : lib.heap (specSchemaText schema).length = 0) :
    serializeSchema lib schema = some (specSchemaText schema) := by
  obtain ⟨var, e, h, h0⟩ := serializeSchema_tracks lib schema hk1 hk2 h512
  rw [e]
  exact strdupBuf_grown_zero lib _ _ (tracks_long lib _ _ h h256) h0 hj

/-- The attribute loop of `serializeRecord` while the text is shorter than 512 characters,
on attributes for which `serializeAttr` returns the text the specification describes. -/
theorem serializeRecordLoop_tracks (lib : CLib) (record : Record) (schema : Schema) (n : Nat) :
    ∀ (i : Nat) (var : VarString) (t : List Nat), var.Tracks lib t → 0 ∉ t →
    (∀ j, i ≤ j → j < i + n →
      serializeAttr lib record schema j = some (specAttrText record schema j)) →
    (t ++ ((List.range' i n).map (fun j => (if j > 0 then ascii ", " else []) ++
      specAttrText record schema j)).flatten).length < 512 →
    ∃ var2, serializeRecordLoop lib record schema n (i : Int) var = some var2 ∧
      var2.Tracks lib (t ++ ((List.range' i n).map (fun j =>
        (if j > 0 then ascii ", " else []) ++ specAttrText record schema j)).flatten) ∧
      0 ∉ t ++ ((List.range' i n).map (fun j => (if j > 0 then ascii ", " else []) ++
        specAttrText record schema j)).flatten := by
  induction n with
  | zero =>
    intro i var t h h0 _ _
    refine ⟨var, rfl, ?_, ?_⟩
    · simp only [List.range'_zero, List.map_nil, List.flatten_nil, List.append_nil]
      exact h
    · simp only [List.range'_zero, List.map_nil, List.flatten_nil, List.append_nil]
      exact h0
  | succ n ih =>
    intro i var t h h0 hat hlen
    simp only [List.range'_succ, List.map_cons, List.flatten_cons] at hlen ⊢
    rw [← List.append_assoc] at hlen ⊢
    have hl := hlen
    simp only [List.length_append] at hl
    have hattr := hat i (le_refl _) (by omega)
    have hz := specAttrText_ne_zero record schema i
    have hp : 0 ∉ (if i > 0 then ascii ", " else []) ++ specAttrText record schema i := by
      simp only [List.mem_append, not_or]
      exact ⟨sep_ne_zero i, hz⟩
    have s1 := append_tracks lib var t _ h hp (by simp only [List.length_append]; omega)
    have s2 : 0 ∉ t ++ ((if i > 0 then ascii ", " else []) ++ specAttrText record schema i) := by
      simp only [List.mem_append, not_or] at hp ⊢
      exact ⟨h0, hp⟩
    obtain ⟨var2, r1, r2, r3⟩ := ih (i + 1) _ _ s1 s2
      (fun j hj1 hj2 => hat j (by omega) (by omega)) hlen
    refine ⟨var2, ?_, r2, r3⟩
    unfold serializeRecordLoop
    simp only [hattr, cstr_eq_self _ hz]
    have hsep : (if (i : Int) > 0 then ascii ", " else []) =
        (if i > 0 then ascii ", " else []) := by
      by_cases hi : i > 0
      · rw [if_pos hi, if_pos (by omega)]
      · rw [if_neg hi, if_neg (by omega)]
    rw [hsep]
    have hnext : (i : Int) + 1 = ((i + 1 : Nat) : Int) := by push_cast; rfl
    rw [hnext]
    exact r1

/-- The string variable `serializeRecord` hands to `strdup`, for a record whose text is
shorter than 512 characters and for whose attributes `serializeAttr` returns the text the
specification describes. -/
theorem serializeRecord_tracks (lib : CLib) (record : Record) (schema : Schema)
    (hat : ∀ j, j < schema.numAttr.toNat →
      serializeAttr lib record schema j = some (specAttrText record schema j))
    (hlen : (specRecordText record schema).length < 512) :
    ∃ var, serializeRecord lib record schema = strdupBuf var ∧
      var.Tracks lib (specRecordText record schema) ∧ 0 ∉ specRecordText record schema := by
  have espec : specRecordText record schema =
      ascii "RID(" ++ fmtInt record.id.page ++ ascii "," ++ fmtInt record.id.slot ++
        ascii ") [" ++
      ((List.range' 0 schema.numAttr.toNat).map (fun j => (if j > 0 then ascii ", " else []) ++
        specAttrText record schema j)).flatten ++ ascii "]" := by
    unfold specRecordText joinComma
    rw [← List.range_eq_range', join_sep]
  rw [espec] at hlen ⊢
  have h00 : 0 ∉ ascii "RID(" ++ fmtInt record.id.page ++ ascii "," ++ fmtInt record.id.slot ++
      ascii ") [" := by
    simp only [List.mem_append, not_or]
    exact ⟨⟨⟨⟨by decide, fmtInt_ne_zero _⟩, by decide⟩, fmtInt_ne_zero _⟩, by decide⟩
  have hl := hlen
  simp only [List.length_append] at hl
  have a0 := append_make_tracks lib _ h00 (by simp only [List.length_append]; omega)
  obtain ⟨var2, r1, r2, r3⟩ := serializeRecordLoop_tracks lib record schema
    schema.numAttr.toNat 0 _ _ a0 h00 (fun j _ hj => hat j (by omega))
    (by simp only [List.length_append]; omega)
  have hb : 0 ∉ ascii "]" := by decide
  have b0 := append_tracks lib var2 _ (ascii "]") r2 hb (by
    simp only [List.length_append] at hl ⊢; omega)
  refine ⟨_, ?_, b0, ?_⟩
  · unfold serializeRecord
    simp only [Nat.cast_zero] at r1
    simp only [r1]
  · intro hmem
    rw [List.mem_append] at hmem
    rcases hmem with hmem | hmem
    · exact r3 hmem
    · exact hb hmem

/-- The text of an attribute is part of the text of the record. -/
theorem specAttrText_length_le (record : Record) (schema : Schema) (j : Nat)
    (hj : j < schema.numAttr.toNat) :
    (specAttrText record schema j).length ≤ (specRecordText record schema).length := by
  have hmem : specAttrText record schema j ∈
      (List.range schema.numAttr.toNat).map (specAttrText record schema) :=
    List.mem_map.mpr ⟨j, List.mem_range.mpr hj, rfl⟩
  have hsum : ∀ (l : List (List Nat)) (p : List Nat), p ∈ l →
      p.length ≤ ((ascii ", ").intercalate l).length := by
    intro l
    induction l with
    | nil => intro p hp; simp at hp
    | cons a rest ih =>
      intro p hp
      rw [intercalate_cons_eq]
      rcases List.mem_cons.mp hp with h | h
      · rw [h]; simp
      · have := ih p h
        cases rest with
        | nil => simp at h
        | cons b rest2 =>
          rw [intercalate_cons_eq] at this
          simp only [List.map_cons, List.flatten_cons, List.length_append] at this ⊢
          omega
  have := hsum _ _ hmem
  unfold specRecordText joinComma
  simp only [List.length_append]
  omega

/-- `serializeRecord` on a record of Int, Bool and String attributes whose text is shorter
than 256 characters returns the text the specification describes, whatever the heap holds. -/
theorem serializeRecord_short (lib : CLib) (record : Record) (schema : Schema)
    (hdt : ∀ j, j < schema.numAttr.toNat →
      (schema.dataTypes[j]? = some .DT_INT ∨ schema.dataTypes[j]? = some .DT_BOOL ∨
        schema.dataTypes[j]? = some .DT_STRING))
    (hlen : (specRecordText record schema).length < 256) :
    serializeRecord lib record schema = some (specRecordText record schema) := by
  obtain ⟨var, e, h, h0⟩ := serializeRecord_tracks lib record schema
    (fun j hj => serializeAttr_short lib record schema j (by omega) (hdt j hj)
      (by have := specAttrText_length_le record schema j hj; omega)) (by omega)
  rw [e]
  exact strdupBuf_holds _ _ (tracks_short lib _ _ h hlen) h0

/-- `serializeRecord` on a text of 256 to 510 characters returns the text followed by the
byte `realloc` left after it, when that byte is not zero and the next one is. -/
theorem serializeRecord_grown (lib : CLib) (record : Record) (schema : Schema) (c : Nat)
    (hat : ∀ j, j < schema.numAttr.toNat →
      serializeAttr lib record schema j = some (specAttrText record schema j))
    (h256 : 256 ≤ (specRecordText record schema).length)
    (h512 : (specRecordText record schema).length + 1 < 512)
    (hc : c ≠ 0) (hj : lib.heap (specRecordText record schema).length = c)
    (hj2 : lib.heap ((specRecordText record schema).length + 1) = 0) :
    serializeRecord lib record schema = some (specRecordText record schema ++ [c]) := by
  obtain ⟨var, e, h, h0⟩ := serializeRecord_tracks lib record schema hat (by omega)
  rw [e]
  exact strdupBuf_grown lib _ _ c (tracks_long lib _ _ h h256) h0 hc hj hj2 h512

/-- `serializeRecord` on a text of 256 to 511 characters returns the text when `realloc`
happened to leave a zero byte after it. -/
theorem serializeRecord_grown_zero (lib : CLib) (record : Record) (schema : Schema)
    (hat : ∀ j, j < schema.numAttr.toNat →
      serializeAttr lib record schema j = some (specAttrText record schema j))
    (h256 : 256 ≤ (specRecordText record schema).length)
    (h512 : (specRecordText record schema).length < 512)
    (hj : lib.heap (specRecordText record schema).length = 0) :
    serializeRecord lib record schema = some (specRecordText record schema) := by
  obtain ⟨var, e, h, h0⟩ := serializeRecord_tracks lib record schema hat h512
  rw [e]
  exact strdupBuf_grown_zero lib _ _ (tracks_long lib _ _ h h256) h0 hj


/-! ## Claims on the serializer -/

theorem cstr_cstr (s : List Nat) : cstr (cstr s) = cstr s :=
  cstr_eq_self _ (zero_not_mem_cstr s)

theorem atoi_cstr (s : List Nat) : atoi (cstr s) = atoi s := by
  unfold atoi
  rw [cstr_cstr]

/-- C22. `stringToValue` parsing, with `malloc` giving memory: for every input string, the
result is an Int value equal to `atoi` of the remainder when the first character is `i`; a
String value whose string is the remainder when it is `s`; a Bool value that is true exactly
when the second character is `t` or `1` (false for anything else, also when there is no
second character) when it is `b`; a Float value when it is `f`; and NULL for every other
first character and for the empty string. When `malloc` fails the result is NULL. -/
theorem stringToValue_parsing (lib : CLib) (val : List Nat) :
    ((cstr val).head? = some 105 →
      stringToValue lib true val = some (.intV (atoi ((cstr val).drop 1)))) ∧
    ((cstr val).head? = some 115 →
      ∃ s, stringToValue lib true val = some (.stringV s) ∧ cstr s = (cstr val).drop 1) ∧
    ((cstr val).head? = some 98 →
      stringToValue lib true val =
        some (.boolV (decide ((cstr val)[1]? = some 116 ∨ (cstr val)[1]? = some 49)))) ∧
    ((cstr val).head? = some 102 → ∃ bits, stringToValue lib true val = some (.floatV bits)) ∧
    ((cstr val).head? ≠ some 105 → (cstr val).head? ≠ some 115 → (cstr val).head? ≠ some 98 →
      (cstr val).head? ≠ some 102 → stringToValue lib true val = none) ∧
    (cstr val = [] → stringToValue lib true val = none) ∧
    stringToValue lib false val = none := by
  cases val with
  | nil =>
    simp [cstr, stringToValue]
  | cons c rest =>
    by_cases hc : c = 0
    · subst hc
      simp [cstr, stringToValue]
    · have hcs : cstr (c :: rest) = c :: cstr rest := by
        simp [cstr, hc]
      rw [hcs]
      simp only [List.head?_cons, Option.some.injEq, List.drop_succ_cons, List.drop_zero,
        ne_eq, List.getElem?_cons_succ, reduceCtorEq, false_implies, true_and]
      have hsec : (decide ((cstr rest)[0]? = some 116 ∨ (cstr rest)[0]? = some 49)) =
          (rest.getD 0 0 == 116 || rest.getD 0 0 == 49) := by
        cases rest with
        | nil => simp [cstr]
        | cons d rest2 =>
          by_cases hd : d = 0
          · subst hd
            simp [cstr]
          · have : cstr (d :: rest2) = d :: cstr rest2 := by simp [cstr, hd]
            rw [this]
            by_cases h1 : d = 116 <;> by_cases h2 : d = 49 <;> simp [h1, h2]
      refine ⟨?_, ?_, ?_, ?_, ?_, ?_⟩
      · intro h
        subst h
        simp [stringToValue, atoi_cstr]
      · intro h
        subst h
        exact ⟨cstr rest ++ [0], by simp [stringToValue],
          by rw [cstr_append_nul, cstr_cstr]⟩
      · intro h
        subst h
        rw [hsec]
        simp [stringToValue]
      · intro h
        subst h
        exact ⟨lib.atof rest, by simp [stringToValue]⟩
      · intro h1 h2 h3 h4
        simp only [stringToValue, Bool.not_true, Bool.false_eq_true, if_false,
          List.getD_cons_zero]
      · simp [stringToValue]

set_option maxRecDepth 100000 in
theorem stringToValue_parsing_witness :
    (stringToValue libZero true (ascii "i-42") = some (.intV (-42)) ∧
      stringToValue libZero true (ascii "i 17x") = some (.intV 17) ∧
      stringToValue libZero true (ascii "sabc") = some (.stringV (ascii "abc" ++ [0])) ∧
      stringToValue libZero true (ascii "btrue") = some (.boolV true) ∧
      stringToValue libZero true (ascii "b1") = some (.boolV true) ∧
      stringToValue libZero true (ascii "b") = some (.boolV false) ∧
      stringToValue libZero true (ascii "bT") = some (.boolV false) ∧
      stringToValue libZero true (ascii "x1") = none ∧
      stringToValue libZero true [] = none) ∧
    (((cstr (ascii "i-42")).head? = some 105 →
      stringToValue libZero true (ascii "i-42") = some (.intV (atoi ((cstr (ascii "i-42")).drop 1)))) ∧
    ((cstr (ascii "i-42")).head? = some 115 →
      ∃ s, stringToValue libZero true (ascii "i-42") = some (.stringV s) ∧ cstr s = (cstr (ascii "i-42")).drop 1) ∧
    ((cstr (ascii "i-42")).head? = some 98 →
      stringToValue libZero true (ascii "i-42") =
        some (.boolV (decide ((cstr (ascii "i-42"))[1]? = some 116 ∨ (cstr (ascii "i-42"))[1]? = some 49)))) ∧
    ((cstr (ascii "i-42")).head? = some 102 → ∃ bits, stringToValue libZero true (ascii "i-42") = some (.floatV bits)) ∧
    ((cstr (ascii "i-42")).head? ≠ some 105 → (cstr (ascii "i-42")).head? ≠ some 115 → (cstr (ascii "i-42")).head? ≠ some 98 →
      (cstr (ascii "i-42")).head? ≠ some 102 → stringToValue libZero true (ascii "i-42") = none) ∧
    (cstr (ascii "i-42") = [] → stringToValue libZero true (ascii "i-42") = none) ∧
    stringToValue libZero false (ascii "i-42") = none) :=
  ⟨by decide, stringToValue_parsing libZero (ascii "i-42")⟩


/-- C23, as far as the code has it (`serializeRecord` / `serializeAttr` format). For every
schema whose attributes are Int, Bool or String, every record and every `i` below `numAttr`,
whatever the heap holds: when the text of the attribute (its name, `": "`, then the decimal
signed integer, `true` or `false`, or the stored bytes up to the first NUL in single quotes)
is shorter than 256 characters, `serializeAttr` returns it; and when the text of the record
(`RID(p,s) [`, the attribute texts joined by `", "`, `]`) is shorter than 256 characters,
`serializeRecord` returns it. -/
theorem serializeRecord_format (lib : CLib) (record : Record) (schema : Schema) (i : Nat)
    (hi : i < schema.numAttr.toNat)
    (hdt : ∀ j, j < schema.numAttr.toNat →
      (schema.dataTypes[j]? = some .DT_INT ∨ schema.dataTypes[j]? = some .DT_BOOL ∨
        schema.dataTypes[j]? = some .DT_STRING)) :
    ((specAttrText record schema i).length < 256 →
      serializeAttr lib record schema i = some (specAttrText record schema i)) ∧
    ((specRecordText record schema).length < 256 →
      serializeRecord lib record schema = some (specRecordText record schema)) :=
  ⟨fun hlen => serializeAttr_short lib record schema i (by omega) (hdt i hi) hlen,
    fun hlen => serializeRecord_short lib record schema hdt hlen⟩

set_option maxRecDepth 1000000 in
theorem serializeRecord_format_witness :
    (specAttrText recordS1 schemaS1 1 = ascii "b: " ++ [39] ++ ascii "aaaa" ++ [39] ∧
      specRecordText recordS1 schemaS1 =
        ascii "RID(-1,-1) [a: 1, b: " ++ [39] ++ ascii "aaaa" ++ [39] ++ ascii "]") ∧
    (((specAttrText recordS1 schemaS1 1).length < 256 →
      serializeAttr (libJunk 0) recordS1 schemaS1 (1 : Nat) =
        some (specAttrText recordS1 schemaS1 1)) ∧
    ((specRecordText recordS1 schemaS1).length < 256 →
      serializeRecord (libJunk 0) recordS1 schemaS1 = some (specRecordText recordS1 schemaS1))) :=
  ⟨by decide,
    serializeRecord_format (libJunk 0) recordS1 schemaS1 1 (by decide) (by decide)⟩

set_option maxRecDepth 1000000 in
/-- C23, where the code departs from it. The record `(1,0)` of a table with one attribute
`x : STRING(300)` holds 300 letters `a`; the attribute text has 305 characters and the record
text 316, every formatted piece is shorter than 1024 characters. The string variable starts
in a zeroed block of 256 bytes, `realloc` grows it without writing to the new bytes, no
terminator is stored after the text, and `strdup` copies up to the first NUL it finds: with
the byte `!` left by `realloc` right after the text, `serializeAttr` and `serializeRecord`
return the text followed by `!`; they return the text only when that byte happens to be
zero. -/
theorem serializeRecord_unterminated :
    (specAttrText recordLong schemaLong 0).length = 305 ∧
    (specRecordText recordLong schemaLong).length = 316 ∧
    serializeAttr (libJunk 305) recordLong schemaLong 0 =
      some (specAttrText recordLong schemaLong 0 ++ [33]) ∧
    serializeRecord (libJunk 316) recordLong schemaLong =
      some (specRecordText recordLong schemaLong ++ [33]) ∧
    serializeAttr libZero recordLong schemaLong 0 = some (specAttrText recordLong schemaLong 0) ∧
    serializeRecord libZero recordLong schemaLong =
      some (specRecordText recordLong schemaLong) := by
  have hla : (specAttrText recordLong schemaLong 0).length = 305 := by decide
  have hlr : (specRecordText recordLong schemaLong).length = 316 := by decide
  have hdt : schemaLong.dataTypes[0]? = some .DT_INT ∨
      schemaLong.dataTypes[0]? = some .DT_BOOL ∨
      schemaLong.dataTypes[0]? = some .DT_STRING := Or.inr (Or.inr rfl)
  have hat : ∀ (lib : CLib), lib.heap 305 = 0 → ∀ j, j < schemaLong.numAttr.toNat →
      serializeAttr lib recordLong schemaLong j = some (specAttrText recordLong schemaLong j) := by
    intro lib hl j hj
    have hj0 : j = 0 := by
      have : schemaLong.numAttr.toNat = 1 := rfl
      omega
    subst hj0
    exact serializeAttr_grown_zero lib recordLong schemaLong 0 (by decide) hdt
      (by rw [hla]; omega) (by rw [hla]; omega) (by rw [hla]; exact hl)
  refine ⟨hla, hlr, ?_, ?_, ?_, ?_⟩
  · exact serializeAttr_grown (libJunk 305) recordLong schemaLong 0 33 (by decide) hdt
      (by rw [hla]; omega) (by rw [hla]; omega) (by omega) (by rw [hla]; rfl) (by rw [hla]; rfl)
  · exact serializeRecord_grown (libJunk 316) recordLong schemaLong 33 (hat _ rfl)
      (by rw [hlr]; omega) (by rw [hlr]; omega) (by omega) (by rw [hlr]; rfl) (by rw [hlr]; rfl)
  · exact serializeAttr_grown_zero libZero recordLong schemaLong 0 (by decide) hdt
      (by rw [hla]; omega) (by rw [hla]; omega) rfl
  · exact serializeRecord_grown_zero libZero recordLong schemaLong (hat _ rfl)
      (by rw [hlr]; omega) (by rw [hlr]; omega) rfl

set_option maxRecDepth 1000000 in
/-- C24, as far as the code has it (`serializeSchema` format). For every schema with
`keySize` key indices, none negative, whatever the heap holds: when the text
`Attributes[N]: ` with `N = numAttr` in decimal, followed by the attributes in order joined
by `", "`, each as name, `": "` and `INT`, `FLOAT`, `BOOL` or `STRING(n)` with
`n = typeLength[i]`, followed, if and only if `keySize > 0`, by ` | Keys: ` and the names
`attrNames[keyAttrs[k]]` in key order joined by `", "`, is shorter than 256 characters,
`serializeSchema` returns it. For the schema `(a:INT, b:STRING(4))` with key `{0}` the
result is `Attributes[2]: a: INT, b: STRING(4) | Keys: a`. -/
theorem serializeSchema_format (lib : CLib) (schema : Schema)
    (hk1 : schema.keyAttrs.length = schema.keySize.toNat)
    (hk2 : ∀ k ∈ schema.keyAttrs, 0 ≤ k)
    (hlen : (specSchemaText schema).length < 256) :
    serializeSchema lib schema = some (specSchemaText schema) ∧
    serializeSchema lib schemaS1 =
      some (ascii "Attributes[2]: a: INT, b: STRING(4) | Keys: a") := by
  refine ⟨serializeSchema_short lib schema hk1 hk2 hlen, ?_⟩
  have h := serializeSchema_short lib schemaS1 (by decide) (by decide) (by decide)
  rw [h]
  decide

set_option maxRecDepth 1000000 in
theorem serializeSchema_format_witness :
    specSchemaText schemaS4 = ascii "Attributes[2]: k: INT, v: INT | Keys: k" ∧
    serializeSchema (libJunk 0) schemaS4 = some (specSchemaText schemaS4) ∧
    serializeSchema (libJunk 0) schemaS1 =
      some (ascii "Attributes[2]: a: INT, b: STRING(4) | Keys: a") :=
  ⟨by decide,
    serializeSchema_format (libJunk 0) schemaS4 (by decide) (by decide) (by decide)⟩

set_option maxRecDepth 1000000 in
/-- C24, where the code departs from it. For a schema with 40 attributes `a : INT` and no key
the text has 334 characters, every formatted piece is shorter than 1024 characters. The block
of 256 bytes is grown by `realloc`, whose new bytes are not written to, no terminator is
stored after the text, and `strdup` copies up to the first NUL it finds: with the byte `!`
left by `realloc` right after the text, `serializeSchema` returns the text followed by `!`;
it returns the text only when that byte happens to be zero. -/
theorem serializeSchema_unterminated :
    (specSchemaText schemaMany).length = 334 ∧
    serializeSchema (libJunk 334) schemaMany = some (specSchemaText schemaMany ++ [33]) ∧
    serializeSchema libZero schemaMany = some (specSchemaText schemaMany) := by
  have hl : (specSchemaText schemaMany).length = 334 := by decide
  have hk2 : ∀ k ∈ schemaMany.keyAttrs, (0 : Int) ≤ k := by
    intro k hk
    simp [schemaMany] at hk
  refine ⟨hl, ?_, ?_⟩
  · exact serializeSchema_grown (libJunk 334) schemaMany 33 rfl hk2
      (by rw [hl]; omega) (by rw [hl]; omega) (by omega) (by rw [hl]; rfl) (by rw [hl]; rfl)
  · exact serializeSchema_grown_zero libZero schemaMany rfl hk2
      (by rw [hl]; omega) (by rw [hl]; omega) rfl


/-! ## Record size and attribute offsets -/

theorem attrWidth_eq_spec (schema : Schema) (hwf : schema.WellFormed) (i : Nat)
    (hi : i < schema.numAttr.toNat) : attrWidth schema i = specAttrWidth schema i := by
  obtain ⟨-, h1, h2, -⟩ := hwf
  have e1 : schema.dataTypes[i]? = some (schema.dataTypes[i]) :=
    List.getElem?_eq_getElem (by omega)
  unfold attrWidth specAttrWidth
  rw [e1]
  cases schema.dataTypes[i] <;> rfl

theorem sumWidths_eq_spec (schema : Schema) (hwf : schema.WellFormed) (n : Nat)
    (hn : n ≤ schema.numAttr.toNat) : sumWidths schema n = specAttrOffset schema n := by
  induction n with
  | zero => rfl
  | succ n ih =>
    rw [sumWidths_succ, ih (by omega), attrWidth_eq_spec schema hwf n (by omega)]
    unfold specAttrOffset
    rw [Finset.sum_range_succ]

/-- C31 (record size and attribute offsets). For every schema whose parallel arrays have
`numAttr` entries, whose string widths are not negative and whose record size fits an `int`
(so that no sum of the loops overflows), every record and attribute `i < numAttr`, with
`width` and `attr_offset` as the specification defines them (4 bytes for Int and Float, 1 for
Bool, `typeLength[i]` for String; the sum of the widths before `i`): `getRecordSize` returns
the sum of all widths; `attrOffset` returns `attr_offset(i)`; `getAttr` returns RC_OK with
the value decoded from the bytes of the record that start at `attr_offset(i)` (four bytes for
an Int or a Float, one byte 0 or 1 for a Bool, `width(i)` bytes and a terminator for a
String); `setAttr` with a value of the attribute's type returns RC_OK and stores the encoded
value at `attr_offset(i)`, and leaves every byte outside
`[attr_offset(i), attr_offset(i) + width(i))` as it was whatever the value; the fields tile
the record: offsets and widths are not negative, attribute `i + 1` starts where `i` ends, a
field ends at or before the start of every later one and within the record, the last one
exactly at the record's end; and every partial sum of the loops fits an `int`. -/
theorem record_size_and_offsets (schema : Schema) (record : Record) (i : Nat)
    (hwf : schema.WellFormed) (hfit : specRecordSize schema ≤ 2147483647)
    (hi : i < schema.numAttr.toNat) :
    getRecordSize schema = specRecordSize schema ∧
    attrOffset schema i = (RC_OK, some (specAttrOffset schema i)) ∧
    ((schema.dataTypes[i]? = some .DT_INT →
        getAttr record schema i =
          (RC_OK, some (.intV (loadInt record.buf (specAttrOffset schema i))))) ∧
      (schema.dataTypes[i]? = some .DT_FLOAT →
        getAttr record schema i =
          (RC_OK, some (.floatV (decodeU32 (record.buf (specAttrOffset schema i))
            (record.buf (specAttrOffset schema i + 1)) (record.buf (specAttrOffset schema i + 2))
            (record.buf (specAttrOffset schema i + 3)))))) ∧
      (schema.dataTypes[i]? = some .DT_BOOL → record.buf (specAttrOffset schema i) ≤ 1 →
        getAttr record schema i =
          (RC_OK, some (.boolV (decide (record.buf (specAttrOffset schema i) = 1))))) ∧
      (schema.dataTypes[i]? = some .DT_STRING →
        getAttr record schema i =
          (RC_OK, some (.stringV
            (readBytes record.buf (specAttrOffset schema i) (specAttrWidth schema i) ++ [0]))))) ∧
    ((∀ x, schema.dataTypes[i]? = some .DT_INT →
        setAttr record schema i (.intV x) =
          (RC_OK, { record with
            data := some (storeInt record.buf (specAttrOffset schema i) x) })) ∧
      (∀ b, schema.dataTypes[i]? = some .DT_FLOAT →
        setAttr record schema i (.floatV b) =
          (RC_OK, { record with
            data := some (memcpyList record.buf (specAttrOffset schema i) (encodeU32 b) 4) })) ∧
      (∀ b, schema.dataTypes[i]? = some .DT_BOOL →
        setAttr record schema i (.boolV b) =
          (RC_OK, { record with
            data := some (memcpyList record.buf (specAttrOffset schema i)
              [if b then 1 else 0] 1) })) ∧
      (∀ s, schema.dataTypes[i]? = some .DT_STRING →
        setAttr record schema i (.stringV s) =
          (RC_OK, { record with
            data := some (setString record.buf (specAttrOffset schema i) s
              (specAttrWidth schema i)) })) ∧
      (∀ value k, k < specAttrOffset schema i ∨
          specAttrOffset schema i + specAttrWidth schema i ≤ k →
        (setAttr record schema i value).2.buf k = record.buf k)) ∧
    (0 ≤ specAttrWidth schema i ∧ 0 ≤ specAttrOffset schema i ∧
      specAttrOffset schema (i + 1) = specAttrOffset schema i + specAttrWidth schema i ∧
      specAttrOffset schema i + specAttrWidth schema i ≤ getRecordSize schema ∧
      (i + 1 = schema.numAttr.toNat →
        specAttrOffset schema i + specAttrWidth schema i = getRecordSize schema) ∧
      (∀ j, i < j → j < schema.numAttr.toNat →
        specAttrOffset schema i + specAttrWidth schema i ≤ specAttrOffset schema j)) ∧
    (∀ n, n ≤ schema.numAttr.toNat →
      0 ≤ sumWidths schema n ∧ sumWidths schema n ≤ 2147483647) := by
  have hI : (i : Int) < schema.numAttr := by omega
  have c1 : ¬ ((i : Int) < 0 ∨ (i : Int) ≥ schema.numAttr) := by omega
  have hsize : getRecordSize schema = specRecordSize schema :=
    sumWidths_eq_spec schema hwf _ (le_refl _)
  have hoff := sumWidths_eq_spec schema hwf i (by omega)
  have hw := attrWidth_eq_spec schema hwf i hi
  have hnext : specAttrOffset schema (i + 1) =
      specAttrOffset schema i + specAttrWidth schema i := by
    unfold specAttrOffset
    rw [Finset.sum_range_succ]
  have hmono : ∀ a b, a ≤ b → b ≤ schema.numAttr.toNat →
      specAttrOffset schema a ≤ specAttrOffset schema b := by
    intro a b hab hb
    rw [← sumWidths_eq_spec schema hwf a (by omega), ← sumWidths_eq_spec schema hwf b hb]
    exact sumWidths_mono schema hwf a b hab
  have h0 : specAttrOffset schema 0 = 0 := rfl
  have hstr : schema.dataTypes[i]? = some .DT_STRING →
      specAttrWidth schema i = (schema.typeLength[i]?).getD 0 := by
    intro hdt
    simp only [specAttrWidth, hdt, Option.getD_some, specWidth]
  refine ⟨hsize, ?_, ⟨?_, ?_, ?_, ?_⟩, ⟨?_, ?_, ?_, ?_, ?_⟩, ⟨?_, ?_, hnext, ?_, ?_, ?_⟩, ?_⟩
  · unfold attrOffset
    rw [if_neg (by omega), Int.toNat_ofNat, hoff]
  · intro hdt
    simp only [getAttr, if_neg c1, Int.toNat_ofNat, hdt, hoff]
  · intro hdt
    simp only [getAttr, if_neg c1, Int.toNat_ofNat, hdt, hoff]
  · intro hdt hb
    have hval : (record.buf (specAttrOffset schema i) != 0) =
        decide (record.buf (specAttrOffset schema i) = 1) := by
      rcases Nat.le_one_iff_eq_zero_or_eq_one.mp hb with h0 | h1
      · rw [h0]; rfl
      · rw [h1]; rfl
    simp only [getAttr, if_neg c1, Int.toNat_ofNat, hdt, hoff, if_pos hb, hval]
  · intro hdt
    simp only [getAttr, if_neg c1, Int.toNat_ofNat, hdt, hoff, hstr hdt]
  · intro x hdt
    simp only [setAttr, if_neg c1, Int.toNat_ofNat, hdt, hoff, Value.dt, ne_eq,
      not_true_eq_false, if_false]
  · intro b hdt
    simp only [setAttr, if_neg c1, Int.toNat_ofNat, hdt, hoff, Value.dt, ne_eq,
      not_true_eq_false, if_false]
  · intro b hdt
    simp only [setAttr, if_neg c1, Int.toNat_ofNat, hdt, hoff, Value.dt, ne_eq,
      not_true_eq_false, if_false]
  · intro s hdt
    simp only [setAttr, if_neg c1, Int.toNat_ofNat, hdt, hoff, Value.dt, ne_eq,
      not_true_eq_false, if_false, hstr hdt, setString]
  · intro value k hk
    by_cases hdt : some value.dt = schema.dataTypes[i]?
    · have := setAttr_frame record schema i value (by rw [Int.toNat_ofNat]; exact hdt) k
        (by rw [Int.toNat_ofNat, hoff, hw]; exact hk)
      exact this
    · unfold setAttr
      rw [if_neg (by omega), if_pos (by rw [Int.toNat_ofNat]; exact hdt)]
  · rw [← hw]
    exact attrWidth_nonneg schema hwf i
  · have := hmono 0 i (by omega) (by omega)
    omega
  · rw [← hnext, hsize]
    exact hmono (i + 1) _ (by omega) (le_refl _)
  · intro hl
    rw [← hnext, hsize, hl]
    rfl
  · intro j hij hj
    rw [← hnext]
    exact hmono (i + 1) j (by omega) (by omega)
  · intro n hn
    rw [sumWidths_eq_spec schema hwf n hn]
    have a := hmono 0 n (by omega) hn
    have b := hmono n _ hn (le_refl _)
    have c : specAttrOffset schema schema.numAttr.toNat = specRecordSize schema := rfl
    omega

theorem record_size_and_offsets_witness :
    (schemaFlag.dataTypes[1]? = some .DT_BOOL ∧ specAttrOffset schemaFlag 1 = 4 ∧
      recordFlag.buf 4 = 1 ∧ specRecordSize schemaFlag = 5) ∧
    (getRecordSize schemaFlag = specRecordSize schemaFlag ∧
    attrOffset schemaFlag (1 : Nat) = (RC_OK, some (specAttrOffset schemaFlag 1)) ∧
    ((schemaFlag.dataTypes[1]? = some .DT_INT →
        getAttr recordFlag schemaFlag (1 : Nat) =
          (RC_OK, some (.intV (loadInt recordFlag.buf (specAttrOffset schemaFlag 1))))) ∧
      (schemaFlag.dataTypes[1]? = some .DT_FLOAT →
        getAttr recordFlag schemaFlag (1 : Nat) =
          (RC_OK, some (.floatV (decodeU32 (recordFlag.buf (specAttrOffset schemaFlag 1))
            (recordFlag.buf (specAttrOffset schemaFlag 1 + 1)) (recordFlag.buf (specAttrOffset schemaFlag 1 + 2))
            (recordFlag.buf (specAttrOffset schemaFlag 1 + 3)))))) ∧
      (schemaFlag.dataTypes[1]? = some .DT_BOOL → recordFlag.buf (specAttrOffset schemaFlag 1) ≤ 1 →
        getAttr recordFlag schemaFlag (1 : Nat) =
          (RC_OK, some (.boolV (decide (recordFlag.buf (specAttrOffset schemaFlag 1) = 1))))) ∧
      (schemaFlag.dataTypes[1]? = some .DT_STRING →
        getAttr recordFlag schemaFlag (1 : Nat) =
          (RC_OK, some (.stringV
            (readBytes recordFlag.buf (specAttrOffset schemaFlag 1) (specAttrWidth schemaFlag 1) ++ [0]))))) ∧
    ((∀ x, schemaFlag.dataTypes[1]? = some .DT_INT →
        setAttr recordFlag schemaFlag (1 : Nat) (.intV x) =
          (RC_OK, { recordFlag with
            data := some (storeInt recordFlag.buf (specAttrOffset schemaFlag 1) x) })) ∧
      (∀ b, schemaFlag.dataTypes[1]? = some .DT_FLOAT →
        setAttr recordFlag schemaFlag (1 : Nat) (.floatV b) =
          (RC_OK, { recordFlag with
            data := some (memcpyList recordFlag.buf (specAttrOffset schemaFlag 1) (encodeU32 b) 4) })) ∧
      (∀ b, schemaFlag.dataTypes[1]? = some .DT_BOOL →
        setAttr recordFlag schemaFlag (1 : Nat) (.boolV b) =
          (RC_OK, { recordFlag with
            data := some (memcpyList recordFlag.buf (specAttrOffset schemaFlag 1)
              [if b then 1 else 0] 1) })) ∧
      (∀ s, schemaFlag.dataTypes[1]? = some .DT_STRING →
        setAttr recordFlag schemaFlag (1 : Nat) (.stringV s) =
          (RC_OK, { recordFlag with
            data := some (setString recordFlag.buf (specAttrOffset schemaFlag 1) s
              (specAttrWidth schemaFlag 1)) })) ∧
      (∀ value k, k < specAttrOffset schemaFlag 1 ∨
          specAttrOffset schemaFlag 1 + specAttrWidth schemaFlag 1 ≤ k →
        (setAttr recordFlag schemaFlag (1 : Nat) value).2.buf k = recordFlag.buf k)) ∧
    (0 ≤ specAttrWidth schemaFlag 1 ∧ 0 ≤ specAttrOffset schemaFlag 1 ∧
      specAttrOffset schemaFlag (1 + 1) = specAttrOffset schemaFlag 1 + specAttrWidth schemaFlag 1 ∧
      specAttrOffset schemaFlag 1 + specAttrWidth schemaFlag 1 ≤ getRecordSize schemaFlag ∧
      (1 + 1 = schemaFlag.numAttr.toNat →
        specAttrOffset schemaFlag 1 + specAttrWidth schemaFlag 1 = getRecordSize schemaFlag) ∧
      (∀ j, 1 < j → j < schemaFlag.numAttr.toNat →
        specAttrOffset schemaFlag 1 + specAttrWidth schemaFlag 1 ≤ specAttrOffset schemaFlag j)) ∧
    (∀ n, n ≤ schemaFlag.numAttr.toNat →
      0 ≤ sumWidths schemaFlag n ∧ sumWidths schemaFlag n ≤ 2147483647)) :=
  ⟨⟨rfl, by simp [specAttrOffset, specAttrWidth, specWidth, schemaFlag], by decide,
      by simp [specRecordSize, Finset.sum_range_succ, specAttrWidth, specWidth, schemaFlag]⟩,
    record_size_and_offsets schemaFlag recordFlag 1
      (by
        refine ⟨by decide, rfl, rfl, ?_⟩
        intro i hi _
        have : i = 0 ∨ i = 1 := by simp [schemaFlag] at hi; omega
        rcases this with rfl | rfl <;> simp [schemaFlag])
      (by simp [specRecordSize, Finset.sum_range_succ, specAttrWidth, specWidth, schemaFlag])
      (by decide)⟩


/-! ## Attribute index out of range -/

/-- C35 (attribute index out of range). For every record, schema, value and attribute index
`attrNum` with `attrNum < 0` or `attrNum ≥ numAttr`: `getAttr` returns RC_RM_NO_MORE_TUPLES
(code 203, which is not RC_RM_INVALID_ATTRIBUTE, code 207) and assigns no value; `setAttr`
returns RC_RM_NO_MORE_TUPLES and leaves the record as it was; the serializer's `attrOffset`
returns RC_RM_INVALID_ATTRIBUTE and assigns no offset. For no index at all do `getAttr` or
`setAttr` return RC_RM_INVALID_ATTRIBUTE. -/
theorem attr_index_out_of_range (record : Record) (schema : Schema) (attrNum : Int)
    (value : Value) (h : attrNum < 0 ∨ attrNum ≥ schema.numAttr) :
    (getAttr record schema attrNum = (RC_RM_NO_MORE_TUPLES, none) ∧
      setAttr record schema attrNum value = (RC_RM_NO_MORE_TUPLES, record) ∧
      attrOffset schema attrNum = (RC_RM_INVALID_ATTRIBUTE, none)) ∧
    (RC_RM_NO_MORE_TUPLES = 203 ∧ RC_RM_INVALID_ATTRIBUTE = 207) ∧
    (∀ (r : Record) (k : Int) (v : Value),
      (getAttr r schema k).1 ≠ RC_RM_INVALID_ATTRIBUTE ∧
      (setAttr r schema k v).1 ≠ RC_RM_INVALID_ATTRIBUTE) := by
  refine ⟨⟨?_, ?_, ?_⟩, ⟨rfl, rfl⟩, ?_⟩
  · unfold getAttr
    rw [if_pos h]
  · unfold setAttr
    rw [if_pos h]
  · unfold attrOffset
    rw [if_pos h]
  · intro r k v
    constructor
    · unfold getAttr
      split_ifs
      · decide
      · rcases schema.dataTypes[k.toNat]? with _ | dt
        · simp
        · cases dt <;> simp
    · unfold setAttr
      split_ifs
      · simp
      · simp
      · cases v <;> simp

theorem attr_index_out_of_range_witness :
    (getAttr recordS1 schemaS1 2 = (RC_RM_NO_MORE_TUPLES, none) ∧
      setAttr recordS1 schemaS1 2 (.intV 5) = (RC_RM_NO_MORE_TUPLES, recordS1) ∧
      attrOffset schemaS1 2 = (RC_RM_INVALID_ATTRIBUTE, none)) ∧
    (RC_RM_NO_MORE_TUPLES = 203 ∧ RC_RM_INVALID_ATTRIBUTE = 207) ∧
    (∀ (r : Record) (k : Int) (v : Value),
      (getAttr r schemaS1 k).1 ≠ RC_RM_INVALID_ATTRIBUTE ∧
      (setAttr r schemaS1 k v).1 ≠ RC_RM_INVALID_ATTRIBUTE) :=
  attr_index_out_of_range recordS1 schemaS1 2 (.intV 5) (by decide)


/-! ## The slot computation of `createTable` -/

theorem slotsPerPageRun_loop (rs : Int) (fuel : Nat) :
    ∀ (s : Int) (m : Nat), 0 ≤ s → s < fuel → s < m →
    ∃ k, 1 ≤ k ∧ k ≤ s.toNat + 1 ∧
      slotsPerPageRun rs fuel s = some (slotsPerPageLoop rs m s, k) := by
  induction fuel with
  | zero => intro s m h0 hs; simp at hs; omega
  | succ fuel ih =>
    intro s m h0 hs hm
    obtain ⟨m, rfl⟩ : ∃ m1, m = m1 + 1 := ⟨m - 1, by omega⟩
    unfold slotsPerPageRun slotsPerPageLoop slotsPerPageStep
    by_cases hfit : Int.tdiv (s + 7) 8 + s * rs ≤ PAGE_SIZE
    · simp only [if_pos hfit]
      exact ⟨1, le_refl _, by omega, rfl⟩
    · simp only [if_neg hfit]
      by_cases hgt : s - 1 > 0
      · simp only [if_pos hgt]
        obtain ⟨k, k1, k2, hk⟩ := ih (s - 1) m (by omega) (by push_cast at hs; omega)
          (by push_cast at hm; omega)
        rw [hk]
        exact ⟨k + 1, by omega, by omega, rfl⟩
      · simp only [if_neg hgt]
        exact ⟨1, le_refl _, by omega, rfl⟩

/-- C36 (the slot computation of `createTable`). For every schema with
`getRecordSize ≥ 1`: the divisor of `PAGE_SIZE / recordSize` is not zero and `createTable`
returns; the `do … while` loop, started at `PAGE_SIZE / recordSize` and given any supply of
at least `PAGE_SIZE / recordSize + 1` rounds, is left after at least one and at most
`PAGE_SIZE / recordSize + 1` rounds with the value `createTable` uses as `slotsPerPage`, and
`0 ≤ slotsPerPage ≤ PAGE_SIZE / recordSize`. A schema with record size 0 is not rejected:
once `createPageFile` and `initBufferPool` have succeeded, `createTable` reaches the division
`PAGE_SIZE / 0` and has no defined return; the schema without attributes and a schema with a
single `STRING(0)` attribute have record size 0. -/
theorem createTable_slot_computation (env : BM_BufferPool) (schema : Schema) (fuel : Nat)
    (hrs : 1 ≤ getRecordSize schema)
    (hfuel : (Int.tdiv PAGE_SIZE (getRecordSize schema)).toNat + 1 ≤ fuel) :
    (getRecordSize schema ≠ 0 ∧ (createTable env schema).isSome = true) ∧
    (∃ rounds, 1 ≤ rounds ∧
      rounds ≤ (Int.tdiv PAGE_SIZE (getRecordSize schema)).toNat + 1 ∧
      slotsPerPageRun (getRecordSize schema) fuel (Int.tdiv PAGE_SIZE (getRecordSize schema)) =
        some (slotsPerPageOf (getRecordSize schema), rounds)) ∧
    (0 ≤ slotsPerPageOf (getRecordSize schema) ∧
      slotsPerPageOf (getRecordSize schema) ≤ Int.tdiv PAGE_SIZE (getRecordSize schema)) ∧
    (∀ (schema0 : Schema) (pages : Int → Mem) (pins unpins : Nat) (calls : List Int),
      getRecordSize schema0 = 0 →
      createTable ⟨pages, [], pins, unpins, calls⟩ schema0 = none) ∧
    getRecordSize ⟨0, [], [], [], 0, []⟩ = 0 ∧
    getRecordSize ⟨1, [[120, 0]], [.DT_STRING], [0], 0, []⟩ = 0 := by
  have hq : Int.tdiv PAGE_SIZE (getRecordSize schema) = PAGE_SIZE / getRecordSize schema :=
    Int.tdiv_eq_ediv (by decide) (by omega)
  have hq0 : 0 ≤ Int.tdiv PAGE_SIZE (getRecordSize schema) := by
    rw [hq]; exact Int.ediv_nonneg (by decide) (by omega)
  have hlt : Int.tdiv PAGE_SIZE (getRecordSize schema) <
      (((Int.tdiv PAGE_SIZE (getRecordSize schema)).toNat + 1 : Nat) : Int) := by
    have := Int.toNat_of_nonneg hq0
    push_cast
    omega
  refine ⟨⟨by omega, ?_⟩, ?_, ?_, ?_, rfl, rfl⟩
  · unfold createTable
    have hne : getRecordSize schema ≠ 0 := by omega
    simp only [if_neg hne]
    split_ifs <;> rfl
  · obtain ⟨k, k1, k2, hk⟩ := slotsPerPageRun_loop (getRecordSize schema) fuel
      (Int.tdiv PAGE_SIZE (getRecordSize schema))
      ((Int.tdiv PAGE_SIZE (getRecordSize schema)).toNat + 1) hq0
      (lt_of_lt_of_le hlt (by exact_mod_cast hfuel)) hlt
    exact ⟨k, k1, k2, hk⟩
  · obtain ⟨a1, a2, -, -⟩ := slotsPerPageLoop_max (getRecordSize schema)
      ((Int.tdiv PAGE_SIZE (getRecordSize schema)).toNat + 1)
      (Int.tdiv PAGE_SIZE (getRecordSize schema)) hq0 hlt
    exact ⟨a1, a2⟩
  · intro schema0 pages pins unpins calls h0
    unfold createTable
    simp only [envCall_mk, ne_eq, not_true_eq_false, if_false, h0, if_true]

theorem createTable_slot_computation_witness :
    (getRecordSize schemaS1 ≠ 0 ∧ (createTable env0 schemaS1).isSome = true) ∧
    (∃ rounds, 1 ≤ rounds ∧
      rounds ≤ (Int.tdiv PAGE_SIZE (getRecordSize schemaS1)).toNat + 1 ∧
      slotsPerPageRun (getRecordSize schemaS1) 513 (Int.tdiv PAGE_SIZE (getRecordSize schemaS1)) =
        some (slotsPerPageOf (getRecordSize schemaS1), rounds)) ∧
    (0 ≤ slotsPerPageOf (getRecordSize schemaS1) ∧
      slotsPerPageOf (getRecordSize schemaS1) ≤ Int.tdiv PAGE_SIZE (getRecordSize schemaS1)) ∧
    (∀ (schema0 : Schema) (pages : Int → Mem) (pins unpins : Nat) (calls : List Int),
      getRecordSize schema0 = 0 →
      createTable ⟨pages, [], pins, unpins, calls⟩ schema0 = none) ∧
    getRecordSize ⟨0, [], [], [], 0, []⟩ = 0 ∧
    getRecordSize ⟨1, [[120, 0]], [.DT_STRING], [0], 0, []⟩ = 0 :=
  createTable_slot_computation env0 schemaS1 513 (by decide) (by decide)


/-! ## Slots outside the slot range -/

set_option maxRecDepth 100000 in
/-- C32 (an out-of-range slot is not checked). In every open table with succeeding
buffer-manager calls and for every RID, whatever its page and slot, `deleteRecord`,
`updateRecord` and `getRecord` return RC_OK exactly when the bit the occupancy test reads for
`id.slot` in page `id.page` is set: the slot is compared neither with `slotsPerPage` nor the
page with `DATA_START_PAGE`. An instance: the table for `(a:INT, b:STRING(4))` holding
`(1, "aaaa")` in slots 0 and 1 of page 1 satisfies the metadata invariants, has 504 slots per
page and `num_tuples = 2` equal to the number of set bitmap bits; bit 504 (with
`504 < 8 * 4096`) is bit 0 of byte 63, the first data byte of the record in slot 0, and it is
set; `deleteRecord` with RID `(1, 504)` returns RC_OK; afterwards the record read at `(1,0)`
has `a = 0` instead of `a = 1`, `num_tuples` is 1 in the handle and in the header while
slots 0 and 1 are still the occupied ones. -/
theorem out_of_range_slot_unchecked (rel : RM_TableData) (id : RID) (record : Record)
    (hrel : rel.Reliable) :
    (((deleteRecord rel id).1 = RC_OK ↔ isSlotOccupied (rel.pages id.page) id.slot = true) ∧
      ((updateRecord rel ⟨id, record.data⟩).1 = RC_OK ↔
        isSlotOccupied (rel.pages id.page) id.slot = true) ∧
      ((getRecord rel id record).1 = RC_OK ↔
        isSlotOccupied (rel.pages id.page) id.slot = true)) ∧
    ((tableTwo.Reliable ∧ tableTwo.header = ⟨2, 1, 2, 8, 504⟩ ∧ tableTwo.header.Inv ∧
        getNumTuples tableTwo = 2 ∧
        occupiedRIDs tableTwo.pages tableTwo.header = [⟨1, 0⟩, ⟨1, 1⟩]) ∧
      (tableTwo.header.slotsPerPage ≤ 504 ∧ (504 : Int) < 8 * PAGE_SIZE ∧
        Int.tdiv 504 8 = tableTwo.header.slotByte 0 0 ∧
        isSlotOccupied (tableTwo.pages 1) 504 = true ∧
        (getAttr (getRecord tableTwo ⟨1, 0⟩ ⟨⟨0, 0⟩, none⟩).2.2 schemaS1 0).2 =
          some (.intV 1)) ∧
      ((deleteRecord tableTwo ⟨1, 504⟩).1 = RC_OK ∧
        (getAttr (getRecord (deleteRecord tableTwo ⟨1, 504⟩).2 ⟨1, 0⟩ ⟨⟨0, 0⟩, none⟩).2.2
          schemaS1 0).2 = some (.intV 0) ∧
        getNumTuples (deleteRecord tableTwo ⟨1, 504⟩).2 = 1 ∧
        (deleteRecord tableTwo ⟨1, 504⟩).2.header.numTuples = 1 ∧
        occupiedRIDs (deleteRecord tableTwo ⟨1, 504⟩).2.pages
          (deleteRecord tableTwo ⟨1, 504⟩).2.header = [⟨1, 0⟩, ⟨1, 1⟩])) := by
  have key : ∀ (rc : RC), (isSlotOccupied (rel.pages id.page) id.slot = false →
        rc = RC_RM_NO_MORE_TUPLES) →
      (isSlotOccupied (rel.pages id.page) id.slot = true → rc = RC_OK) →
      (rc = RC_OK ↔ isSlotOccupied (rel.pages id.page) id.slot = true) := by
    intro rc h1 h2
    constructor
    · intro hrc
      by_contra hocc
      simp only [Bool.not_eq_true] at hocc
      have := h1 hocc
      rw [hrc] at this
      exact absurd this (by decide)
    · exact h2
  have hd := deleteRecord_nil rel id hrel
  have hu := updateRecord_nil rel ⟨id, record.data⟩ hrel
  have hg := getRecord_nil rel id record hrel
  refine ⟨⟨key _ (fun h => (hd.1 h).1) (fun h => (hd.2 h).1),
    key _ (fun h => (hu.1 h).1) (fun h => (hu.2 h).1),
    key _ (fun h => (hg.2.2.2.2.1 h).1) (fun h => (hg.2.2.2.2.2 h).1)⟩, ?_, ?_, ?_⟩
  · exact ⟨⟨by decide, by decide⟩, by decide, by decide, by decide, by decide⟩
  · exact ⟨by decide, by decide, by decide, by decide, by decide⟩
  · exact ⟨by decide, by decide, by decide, by decide, by decide⟩

set_option maxRecDepth 100000 in
theorem out_of_range_slot_unchecked_witness :
    (((deleteRecord tableS1 ⟨7, 4000⟩).1 = RC_OK ↔
        isSlotOccupied (tableS1.pages 7) 4000 = true) ∧
      ((updateRecord tableS1 ⟨⟨7, 4000⟩, recordS1.data⟩).1 = RC_OK ↔
        isSlotOccupied (tableS1.pages 7) 4000 = true) ∧
      ((getRecord tableS1 ⟨7, 4000⟩ recordS1).1 = RC_OK ↔
        isSlotOccupied (tableS1.pages 7) 4000 = true)) ∧
    ((tableTwo.Reliable ∧ tableTwo.header = ⟨2, 1, 2, 8, 504⟩ ∧ tableTwo.header.Inv ∧
        getNumTuples tableTwo = 2 ∧
        occupiedRIDs tableTwo.pages tableTwo.header = [⟨1, 0⟩, ⟨1, 1⟩]) ∧
      (tableTwo.header.slotsPerPage ≤ 504 ∧ (504 : Int) < 8 * PAGE_SIZE ∧
        Int.tdiv 504 8 = tableTwo.header.slotByte 0 0 ∧
        isSlotOccupied (tableTwo.pages 1) 504 = true ∧
        (getAttr (getRecord tableTwo ⟨1, 0⟩ ⟨⟨0, 0⟩, none⟩).2.2 schemaS1 0).2 =
          some (.intV 1)) ∧
      ((deleteRecord tableTwo ⟨1, 504⟩).1 = RC_OK ∧
        (getAttr (getRecord (deleteRecord tableTwo ⟨1, 504⟩).2 ⟨1, 0⟩ ⟨⟨0, 0⟩, none⟩).2.2
          schemaS1 0).2 = some (.intV 0) ∧
        getNumTuples (deleteRecord tableTwo ⟨1, 504⟩).2 = 1 ∧
        (deleteRecord tableTwo ⟨1, 504⟩).2.header.numTuples = 1 ∧
        occupiedRIDs (deleteRecord tableTwo ⟨1, 504⟩).2.pages
          (deleteRecord tableTwo ⟨1, 504⟩).2.header = [⟨1, 0⟩, ⟨1, 1⟩])) :=
  out_of_range_slot_unchecked tableS1 ⟨7, 4000⟩ recordS1 ⟨by decide, by decide⟩


/-! ## The return codes of `evalExpr` and `next` -/

/-- The inner loop of `next` passes over free slots and over slots whose record the condition
evaluates to a value reading false, up to any slot `s0` of the page. -/
theorem nextSlotLoop_skip (schema : Schema) (cond : Option Expr) (m : TableMetadata)
    (pages : Int → Mem) (cp spp s0 : Int) (pins unpins : Nat) (calls : List Int) (n : Nat) :
    ∀ (cs : Int) (record : Record), n = (spp - cs).toNat → record.Sized m.recordSize →
    cs ≤ s0 → s0 ≤ spp →
    (∀ s, cs ≤ s → s < s0 → isSlotOccupied (pages cp) s = true →
      Skipped schema cond (slotRecord pages m ⟨cp, s⟩)) →
    ∃ rec', rec'.Sized m.recordSize ∧
      nextSlotLoop schema cond m (pages cp) cp n ⟨pages, [], pins, unpins, calls⟩ cs record =
        nextSlotLoop schema cond m (pages cp) cp (spp - s0).toNat
          ⟨pages, [], pins, unpins, calls⟩ s0 rec' := by
  induction n with
  | zero =>
    intro cs record hn hs h1 h2 _
    have : cs = s0 := by omega
    subst this
    exact ⟨record, hs, by rw [← hn]⟩
  | succ n ih =>
    intro cs record hn hs h1 h2 hskip
    by_cases heq : cs = s0
    · subst heq
      exact ⟨record, hs, by rw [← hn]⟩
    · have hn' : n = (spp - (cs + 1)).toNat := by omega
      have hskip' : ∀ s, cs + 1 ≤ s → s < s0 → isSlotOccupied (pages cp) s = true →
          Skipped schema cond (slotRecord pages m ⟨cp, s⟩) :=
        fun s a b c => hskip s (by omega) b c
      rw [nextSlotLoop]
      by_cases hocc : isSlotOccupied (pages cp) cs = true
      · obtain ⟨c, v, hc, hev, hb⟩ := hskip cs (le_refl _) (by omega) hocc
        have hrec : ({ id := ⟨cp, cs⟩, data := some (memcpy record.buf 0 (pages cp)
              (getRecordOffset cs m.recordSize (getSlotMapSize m.slotsPerPage)) m.recordSize) }
              : Record) = slotRecord pages m ⟨cp, cs⟩ := by
          simp only [slotRecord, memcpy_sized record _ hs]
        have ha : (if record.data.isNone = true then envCall ⟨pages, [], pins, unpins, calls⟩
            else (RC_OK, ⟨pages, [], pins, unpins, calls⟩)) =
              (RC_OK, ⟨pages, [], pins, unpins, calls⟩) := by
          split_ifs <;> simp
        subst hc
        simp only [hocc, if_true, ha, ne_eq, not_true_eq_false, if_false, hrec, hev,
          Option.some_bind, hb]
        exact ih (cs + 1) _ hn' (slotRecord_sized pages m ⟨cp, cs⟩) (by omega) h2 hskip'
      · simp only [hocc, Bool.false_eq_true, if_false]
        exact ih (cs + 1) record hn' hs (by omega) h2 hskip'

/-- The inner loop of `next` at an occupied slot. -/
theorem nextSlotLoop_at (schema : Schema) (cond : Option Expr) (m : TableMetadata)
    (pages : Int → Mem) (cp spp s0 : Int) (pins unpins : Nat) (calls : List Int)
    (record : Record) (hs : record.Sized m.recordSize) (h0 : s0 < spp)
    (hocc : isSlotOccupied (pages cp) s0 = true) :
    (∀ c rc v, cond = some c → evalExpr (slotRecord pages m ⟨cp, s0⟩) schema c = some (rc, v) →
      rc ≠ RC_OK →
      nextSlotLoop schema cond m (pages cp) cp (spp - s0).toNat
          ⟨pages, [], pins, unpins, calls⟩ s0 record =
        some ⟨some rc, false, ⟨pages, [], pins, unpins + 1, calls⟩, cp, s0 + 1,
          slotRecord pages m ⟨cp, s0⟩⟩) ∧
    (Taken schema cond (slotRecord pages m ⟨cp, s0⟩) →
      nextSlotLoop schema cond m (pages cp) cp (spp - s0).toNat
          ⟨pages, [], pins, unpins, calls⟩ s0 record =
        some ⟨none, true, ⟨pages, [], pins, unpins, calls⟩, cp, s0 + 1,
          slotRecord pages m ⟨cp, s0⟩⟩) := by
  obtain ⟨k, hk⟩ : ∃ k, (spp - s0).toNat = k + 1 := ⟨(spp - s0).toNat - 1, by omega⟩
  have hrec : ({ id := ⟨cp, s0⟩, data := some (memcpy record.buf 0 (pages cp)
        (getRecordOffset s0 m.recordSize (getSlotMapSize m.slotsPerPage)) m.recordSize) }
        : Record) = slotRecord pages m ⟨cp, s0⟩ := by
    simp only [slotRecord, memcpy_sized record _ hs]
  have ha : (if record.data.isNone = true then envCall ⟨pages, [], pins, unpins, calls⟩
      else (RC_OK, ⟨pages, [], pins, unpins, calls⟩)) =
        (RC_OK, ⟨pages, [], pins, unpins, calls⟩) := by
    split_ifs <;> simp
  rw [hk, nextSlotLoop]
  constructor
  · intro c rc v hc hev hrc
    subst hc
    simp only [hocc, if_true, ha, ne_eq, not_true_eq_false, if_false, hrec, hev, hrc,
      not_false_eq_true, unpinPage_mk]
  · intro ht
    rcases ht with hc | ⟨c, v, hc, hev, hb⟩
    · subst hc
      simp only [hocc, if_true, ha, ne_eq, not_true_eq_false, if_false, hrec]
    · subst hc
      simp only [hocc, if_true, ha, ne_eq, not_true_eq_false, if_false, hrec, hev,
        Option.some_bind, hb]

/-- The outer loop of `next` passes over the slots between the cursor and any slot
`(p0, s0)` of a later position when the occupied ones among them hold records that the
condition evaluates to a value reading false. -/
theorem nextPageLoop_skip (schema : Schema) (cond : Option Expr) (m : TableMetadata)
    (pages : Int → Mem) (spp total p0 s0 : Int) (hp0 : p0 < total) (hs0 : 0 ≤ s0)
    (hs1 : s0 < spp) (n : Nat) :
    ∀ (cp cs : Int) (pins unpins : Nat) (calls : List Int) (record : Record),
    n = (total - cp).toNat → record.Sized m.recordSize →
    (cp < p0 ∨ (cp = p0 ∧ cs ≤ s0)) →
    (∀ p s, Between cp cs p0 s0 spp p s → isSlotOccupied (pages p) s = true →
      Skipped schema cond (slotRecord pages m ⟨p, s⟩)) →
    ∃ rec' pins' unpins' calls', rec'.Sized m.recordSize ∧
      unpins' + (pins + 1) = pins' + unpins ∧
      nextPageLoop schema cond m spp n ⟨pages, [], pins, unpins, calls⟩ cp cs record =
        (match nextSlotLoop schema cond m (pages p0) p0 (spp - s0).toNat
            ⟨pages, [], pins', unpins', calls'⟩ s0 rec' with
        | none => none
        | some r =>
            match r.ret with
            | some _ => some r
            | none =>
                if (unpinPage r.bm).1 ≠ RC_OK then
                  some { r with ret := some (unpinPage r.bm).1, bm := (unpinPage r.bm).2 }
                else if r.found then some { r with bm := (unpinPage r.bm).2 }
                else
                  nextPageLoop schema cond m spp (total - (p0 + 1)).toNat (unpinPage r.bm).2
                    (p0 + 1) 0 r.record) := by
  induction n with
  | zero =>
    intro cp cs pins unpins calls record hn _ hle _
    omega
  | succ n ih =>
    intro cp cs pins unpins calls record hn hs hle hskip
    have hn' : n = (total - (cp + 1)).toNat := by omega
    rw [nextPageLoop]
    simp only [pinPage_mk, ne_eq, not_true_eq_false, if_false]
    by_cases hcp : cp = p0
    · subst hcp
      have hcs : cs ≤ s0 := by omega
      obtain ⟨rec', hs', he⟩ := nextSlotLoop_skip schema cond m pages cp spp s0 (pins + 1)
        unpins (cp :: calls) (spp - cs).toNat cs record rfl hs hcs (by omega)
        (fun s a b c => hskip cp s ⟨Or.inl ⟨rfl, a⟩, by omega, Or.inr ⟨rfl, b⟩⟩ c)
      refine ⟨rec', pins + 1, unpins, cp :: calls, hs', by omega, ?_⟩
      rw [he]
      subst hn'
      rfl
    · have hlt : cp < p0 := by omega
      by_cases hcs : cs ≤ spp
      · obtain ⟨rec1, hs1', he⟩ := nextSlotLoop_skip schema cond m pages cp spp spp (pins + 1)
          unpins (cp :: calls) (spp - cs).toNat cs record rfl hs hcs (le_refl _)
          (fun s a b c => hskip cp s ⟨Or.inl ⟨rfl, a⟩, b, Or.inl hlt⟩ c)
        rw [he]
        simp only [sub_self, Int.toNat_zero, nextSlotLoop, unpinPage_mk, ne_eq,
          not_true_eq_false, if_false, Bool.false_eq_true]
        obtain ⟨rec', pins', unpins', calls', q1, q2, q3⟩ := ih (cp + 1) 0 (pins + 1)
          (unpins + 1) (cp :: calls) rec1 hn' hs1' (by omega)
          (fun p s hb c => hskip p s ⟨Or.inr ⟨by
            rcases hb.1 with ⟨h1, -⟩ | ⟨h1, -⟩ <;> omega, by
            rcases hb.1 with ⟨-, h1⟩ | ⟨-, h1⟩ <;> omega⟩, hb.2.1, hb.2.2⟩ c)
        exact ⟨rec', pins', unpins', calls', q1, by omega, q3⟩
      · have hz : (spp - cs).toNat = 0 := by omega
        rw [hz]
        simp only [nextSlotLoop, unpinPage_mk, ne_eq, not_true_eq_false, if_false,
          Bool.false_eq_true]
        obtain ⟨rec', pins', unpins', calls', q1, q2, q3⟩ := ih (cp + 1) 0 (pins + 1)
          (unpins + 1) (cp :: calls) record hn' hs (by omega)
          (fun p s hb c => hskip p s ⟨Or.inr ⟨by
            rcases hb.1 with ⟨h1, -⟩ | ⟨h1, -⟩ <;> omega, by
            rcases hb.1 with ⟨-, h1⟩ | ⟨-, h1⟩ <;> omega⟩, hb.2.1, hb.2.2⟩ c)
        exact ⟨rec', pins', unpins', calls', q1, by omega, q3⟩

/-- The outer loop of `next` runs to the end of the table when every occupied slot from the
cursor on holds a record that the condition evaluates to a value reading false. -/
theorem nextPageLoop_none (schema : Schema) (cond : Option Expr) (m : TableMetadata)
    (pages : Int → Mem) (spp total : Int) (n : Nat) :
    ∀ (cp cs : Int) (pins unpins : Nat) (calls : List Int) (record : Record),
    n = (total - cp).toNat → record.Sized m.recordSize →
    (∀ p s, Between cp cs total 0 spp p s → isSlotOccupied (pages p) s = true →
      Skipped schema cond (slotRecord pages m ⟨p, s⟩)) →
    ∃ rec' pins' unpins' calls' cp' cs', rec'.Sized m.recordSize ∧
      unpins' + pins = pins' + unpins ∧
      nextPageLoop schema cond m spp n ⟨pages, [], pins, unpins, calls⟩ cp cs record =
        some ⟨none, false, ⟨pages, [], pins', unpins', calls'⟩, cp', cs', rec'⟩ := by
  induction n with
  | zero =>
    intro cp cs pins unpins calls record _ hs _
    exact ⟨record, pins, unpins, calls, cp, cs, hs, by omega, rfl⟩
  | succ n ih =>
    intro cp cs pins unpins calls record hn hs hskip
    have hn' : n = (total - (cp + 1)).toNat := by omega
    have hlt : cp < total := by omega
    rw [nextPageLoop]
    simp only [pinPage_mk, ne_eq, not_true_eq_false, if_false]
    have hnext : ∀ p s, Between (cp + 1) 0 total 0 spp p s →
        isSlotOccupied (pages p) s = true → Skipped schema cond (slotRecord pages m ⟨p, s⟩) :=
      fun p s hb c => hskip p s ⟨Or.inr ⟨by
        rcases hb.1 with ⟨h1, -⟩ | ⟨h1, -⟩ <;> omega, by
        rcases hb.1 with ⟨-, h1⟩ | ⟨-, h1⟩ <;> omega⟩, hb.2.1, hb.2.2⟩ c
    by_cases hcs : cs ≤ spp
    · obtain ⟨rec1, hs1', he⟩ := nextSlotLoop_skip schema cond m pages cp spp spp (pins + 1)
        unpins (cp :: calls) (spp - cs).toNat cs record rfl hs hcs (le_refl _)
        (fun s a b c => hskip cp s ⟨Or.inl ⟨rfl, a⟩, b, Or.inl hlt⟩ c)
      rw [he]
      simp only [sub_self, Int.toNat_zero, nextSlotLoop, unpinPage_mk, ne_eq,
        not_true_eq_false, if_false, Bool.false_eq_true]
      obtain ⟨rec', pins', unpins', calls', cp', cs', q1, q2, q3⟩ := ih (cp + 1) 0 (pins + 1)
        (unpins + 1) (cp :: calls) rec1 hn' hs1' hnext
      exact ⟨rec', pins', unpins', calls', cp', cs', q1, by omega, q3⟩
    · have hz : (spp - cs).toNat = 0 := by omega
      rw [hz]
      simp only [nextSlotLoop, unpinPage_mk, ne_eq, not_true_eq_false, if_false,
        Bool.false_eq_true]
      obtain ⟨rec', pins', unpins', calls', cp', cs', q1, q2, q3⟩ := ih (cp + 1) 0 (pins + 1)
        (unpins + 1) (cp :: calls) record hn' hs hnext
      exact ⟨rec', pins', unpins', calls', cp', cs', q1, by omega, q3⟩


/-- One call of `next` whose loops reach the occupied slot `(p0, s0)`: every occupied slot
between the cursor and `(p0, s0)` holds a record that the condition evaluates to a value
reading false.  If the condition fails on the record of `(p0, s0)`, `next` returns the code;
if it evaluates to a value reading true (or there is no condition), `next` returns RC_OK.
In both cases the cursor is left at `(p0, s0 + 1)` and the record variable holds the id and
the bytes of the slot. -/
theorem next_at (rel : RM_TableData) (sm : ScanManager) (record : Record) (p0 s0 : Int)
    (hrel : rel.Reliable) (hact : sm.scanActive = true)
    (hs : record.Sized rel.header.recordSize)
    (hle : sm.currentPage < p0 ∨ (sm.currentPage = p0 ∧ sm.currentSlot ≤ s0))
    (hp0 : p0 < sm.totalPages) (hs0 : 0 ≤ s0) (hs1 : s0 < sm.slotsPerPage)
    (hocc : isSlotOccupied (rel.pages p0) s0 = true)
    (hskip : ∀ p s, Between sm.currentPage sm.currentSlot p0 s0 sm.slotsPerPage p s →
      isSlotOccupied (rel.pages p) s = true →
      Skipped rel.schema sm.condition (slotRecord rel.pages rel.header ⟨p, s⟩)) :
    ∃ rel', rel'.Reliable ∧ rel'.pages = rel.pages ∧ rel'.schema = rel.schema ∧
      getNumTuples rel' = getNumTuples rel ∧
      (∀ c rc v, sm.condition = some c →
        evalExpr (slotRecord rel.pages rel.header ⟨p0, s0⟩) rel.schema c = some (rc, v) →
        rc ≠ RC_OK →
        next rel ⟨some sm⟩ record =
          some (rc, rel', ⟨some { sm with currentPage := p0, currentSlot := s0 + 1 }⟩,
            slotRecord rel.pages rel.header ⟨p0, s0⟩)) ∧
      (Taken rel.schema sm.condition (slotRecord rel.pages rel.header ⟨p0, s0⟩) →
        next rel ⟨some sm⟩ record =
          some (RC_OK, rel', ⟨some { sm with currentPage := p0, currentSlot := s0 + 1 }⟩,
            slotRecord rel.pages rel.header ⟨p0, s0⟩)) := by
  obtain ⟨pages, pins, unpins, calls, n, hm⟩ := reliable_exists_mgr hrel
  have hpages : rel.pages = pages := by simp [RM_TableData.pages, RM_TableData.pool, hm]
  have hhdr : rel.header = loadMetadata (pages HEADER_PAGE) := by
    simp [RM_TableData.header, hpages]
  rw [hpages] at hskip hocc ⊢
  rw [hhdr] at hs hskip ⊢
  obtain ⟨rec', pins', unpins', calls', q1, -, q3⟩ := nextPageLoop_skip rel.schema
    sm.condition (loadMetadata (pages HEADER_PAGE)) pages sm.slotsPerPage sm.totalPages p0 s0
    hp0 hs0 hs1 (sm.totalPages - sm.currentPage).toNat sm.currentPage sm.currentSlot
    (pins + 1) (unpins + 1) (HEADER_PAGE :: calls) record rfl hs hle hskip
  obtain ⟨a1, a2⟩ := nextSlotLoop_at rel.schema sm.condition
    (loadMetadata (pages HEADER_PAGE)) pages p0 sm.slotsPerPage s0 pins' unpins' calls' rec'
    q1 hs1 hocc
  refine ⟨rel.withMgr ⟨pages, [], pins', unpins' + 1, calls'⟩ n, ?_, ?_, ?_, ?_, ?_, ?_⟩
  · simp [RM_TableData.Reliable, RM_TableData.withMgr, RM_TableData.pool]
  · simp [RM_TableData.pages, RM_TableData.withMgr, RM_TableData.pool]
  · rfl
  · simp [getNumTuples, RM_TableData.withMgr, hm]
  · intro c rc v hc hev hrc
    have b := a1 c rc v hc hev hrc
    simp only [next, hact, hm, readHeader_mk, envCall_mk, q3, b]
    simp
  · intro ht
    have b := a2 ht
    simp only [next, hact, hm, readHeader_mk, envCall_mk, q3, b]
    simp

/-- One call of `next` when every occupied slot from the cursor on holds a record that the
condition evaluates to a value reading false: RC_RM_NO_MORE_TUPLES, and the scan is over. -/
theorem next_none (rel : RM_TableData) (sm : ScanManager) (record : Record)
    (hrel : rel.Reliable) (hact : sm.scanActive = true)
    (hs : record.Sized rel.header.recordSize)
    (hskip : ∀ p s, Between sm.currentPage sm.currentSlot sm.totalPages 0 sm.slotsPerPage p s →
      isSlotOccupied (rel.pages p) s = true →
      Skipped rel.schema sm.condition (slotRecord rel.pages rel.header ⟨p, s⟩)) :
    ∃ rel' sm' rec', rel'.Reliable ∧ rel'.pages = rel.pages ∧ sm'.scanActive = false ∧
      next rel ⟨some sm⟩ record = some (RC_RM_NO_MORE_TUPLES, rel', ⟨some sm'⟩, rec') := by
  obtain ⟨pages, pins, unpins, calls, n, hm⟩ := reliable_exists_mgr hrel
  have hpages : rel.pages = pages := by simp [RM_TableData.pages, RM_TableData.pool, hm]
  have hhdr : rel.header = loadMetadata (pages HEADER_PAGE) := by
    simp [RM_TableData.header, hpages]
  rw [hpages] at hskip ⊢
  rw [hhdr] at hs hskip
  obtain ⟨rec', pins', unpins', calls', cp', cs', q1, -, q3⟩ := nextPageLoop_none rel.schema
    sm.condition (loadMetadata (pages HEADER_PAGE)) pages sm.slotsPerPage sm.totalPages
    (sm.totalPages - sm.currentPage).toNat sm.currentPage sm.currentSlot
    (pins + 1) (unpins + 1) (HEADER_PAGE :: calls) record rfl hs hskip
  refine ⟨rel.withMgr ⟨pages, [], pins', unpins', calls'⟩ n,
    { sm with currentPage := cp', currentSlot := cs', scanActive := false }, rec', ?_, ?_, rfl,
    ?_⟩
  · simp [RM_TableData.Reliable, RM_TableData.withMgr, RM_TableData.pool]
  · simp [RM_TableData.pages, RM_TableData.withMgr, RM_TableData.pool]
  · simp only [next, hact, hm, readHeader_mk, envCall_mk, q3]
    simp


/-! ## A predicate whose value is not a Bool -/

set_option maxRecDepth 100000 in
/-- C34 (cursor state after a predicate error). In an open table with succeeding
buffer-manager calls, let the loops of an active scan with predicate `c` reach the occupied
slot `(p0, s0)` (the occupied slots between the cursor and it hold records on which the
predicate evaluates to a value reading false), and let `evalExpr` return a code `rc` other
than RC_OK on the record stored there. Then `next` returns `rc`; the scan is still active and
its cursor is `(p0, s0 + 1)`; the caller's record holds the id `(p0, s0)` and the bytes of
that slot; the pages are unchanged. The slots a call looks at from the cursor
`(p0, s0 + 1)` do not include `(p0, s0)`, and the following call of `next` resumes behind
it: it returns the code of the predicate, or RC_OK, for the next occupied slot `(p1, s1)` on
whose record the predicate fails, or evaluates to a value reading true, and
RC_RM_NO_MORE_TUPLES when the predicate evaluates to a value reading false on every later
record. On the table of `(k, v)` records `(1,10) … (4,40)` with the predicate `NOT k`, three
calls of `next` return RC_RM_BOOLEAN_EXPR_ARG_IS_NOT_BOOLEAN with the records of slots 0, 1
and 2. -/
theorem cursor_after_predicate_error (rel : RM_TableData) (sm : ScanManager)
    (record : Record) (p0 s0 : Int) (c : Expr) (rc : RC) (v : Option Value)
    (hrel : rel.Reliable) (hact : sm.scanActive = true) (hcond : sm.condition = some c)
    (hs : record.Sized rel.header.recordSize)
    (hle : sm.currentPage < p0 ∨ (sm.currentPage = p0 ∧ sm.currentSlot ≤ s0))
    (hp0 : p0 < sm.totalPages) (hs0 : 0 ≤ s0) (hs1 : s0 < sm.slotsPerPage)
    (hocc : isSlotOccupied (rel.pages p0) s0 = true)
    (hskip : ∀ p s, Between sm.currentPage sm.currentSlot p0 s0 sm.slotsPerPage p s →
      isSlotOccupied (rel.pages p) s = true →
      Skipped rel.schema sm.condition (slotRecord rel.pages rel.header ⟨p, s⟩))
    (hev : evalExpr (slotRecord rel.pages rel.header ⟨p0, s0⟩) rel.schema c = some (rc, v))
    (hrc : rc ≠ RC_OK) :
    (∃ rel' scan' rec',
      next rel ⟨some sm⟩ record = some (rc, rel', scan', rec') ∧
      scan' = ⟨some { sm with currentPage := p0, currentSlot := s0 + 1 }⟩ ∧
      scan'.mgmtData.map (fun m => m.scanActive) = some true ∧
      rel'.pages = rel.pages ∧
      (rec'.id = ⟨p0, s0⟩ ∧
        ∀ k, 0 ≤ k → k < rel.header.recordSize →
          rec'.buf k = rel.pages p0 (rel.header.slotByte s0 k)) ∧
      (∀ q t spp, ¬ Between p0 (s0 + 1) q t spp p0 s0) ∧
      (∀ p1 s1, (p0 < p1 ∨ (p0 = p1 ∧ s0 + 1 ≤ s1)) → p1 < sm.totalPages → 0 ≤ s1 →
        s1 < sm.slotsPerPage → isSlotOccupied (rel.pages p1) s1 = true →
        (∀ p s, Between p0 (s0 + 1) p1 s1 sm.slotsPerPage p s →
          isSlotOccupied (rel.pages p) s = true →
          Skipped rel.schema (some c) (slotRecord rel.pages rel.header ⟨p, s⟩)) →
        (∀ rc1 v1,
          evalExpr (slotRecord rel.pages rel.header ⟨p1, s1⟩) rel.schema c = some (rc1, v1) →
          rc1 ≠ RC_OK →
          ∃ rel2 scan2, next rel' scan' rec' =
            some (rc1, rel2, scan2, slotRecord rel.pages rel.header ⟨p1, s1⟩)) ∧
        (Taken rel.schema (some c) (slotRecord rel.pages rel.header ⟨p1, s1⟩) →
          ∃ rel2 scan2, next rel' scan' rec' =
            some (RC_OK, rel2, scan2, slotRecord rel.pages rel.header ⟨p1, s1⟩))) ∧
      ((∀ p s, Between p0 (s0 + 1) sm.totalPages 0 sm.slotsPerPage p s →
          isSlotOccupied (rel.pages p) s = true →
          Skipped rel.schema (some c) (slotRecord rel.pages rel.header ⟨p, s⟩)) →
        ∃ rel2 scan2 rec2, next rel' scan' rec' =
          some (RC_RM_NO_MORE_TUPLES, rel2, scan2, rec2))) ∧
    (scanRun tableS4 ⟨none⟩ (some condNotK) ⟨⟨0, 0⟩, none⟩ 3).map
        (fun x => x.1.map (fun y => (y.1, y.2.id))) =
      some [(RC_RM_BOOLEAN_EXPR_ARG_IS_NOT_BOOLEAN, ⟨1, 0⟩),
        (RC_RM_BOOLEAN_EXPR_ARG_IS_NOT_BOOLEAN, ⟨1, 1⟩),
        (RC_RM_BOOLEAN_EXPR_ARG_IS_NOT_BOOLEAN, ⟨1, 2⟩)] := by
  obtain ⟨rel', r1, r2, r3, -, a1, -⟩ := next_at rel sm record p0 s0 hrel hact hs hle hp0 hs0
    hs1 hocc hskip
  have hh : rel'.header = rel.header := header_congr rel rel' r2
  have hsz : (slotRecord rel.pages rel.header ⟨p0, s0⟩).Sized rel'.header.recordSize := by
    rw [hh]
    exact slotRecord_sized _ _ _
  refine ⟨⟨rel', _, _, a1 c rc v hcond hev hrc, rfl, ?_, r2, ⟨rfl, ?_⟩, ?_, ?_, ?_⟩, by decide⟩
  · simp only [Option.map_some', hact]
  · intro k hk0 hk1
    simp only [slotRecord, Record.buf, Option.getD_some, memcpy, TableMetadata.slotByte]
    rw [if_pos ⟨hk0, by omega⟩]
    congr 1
    omega
  · intro q t spp hb
    unfold Between at hb
    omega
  · intro p1 s1 hle1 hp1 hs10 hs11 hocc1 hskip1
    obtain ⟨rel2, -, -, -, -, b1, b2⟩ := next_at rel'
      { sm with currentPage := p0, currentSlot := s0 + 1 }
      (slotRecord rel.pages rel.header ⟨p0, s0⟩) p1 s1 r1 hact hsz hle1 hp1 hs10 hs11
      (by rw [r2]; exact hocc1)
      (by
        intro p s hb ho
        rw [r2, hh, r3]
        rw [r2] at ho
        have := hskip1 p s hb ho
        rw [← hcond] at this
        exact this)
    rw [r2, hh, r3] at b1 b2
    constructor
    · intro rc1 v1 hev1 hrc1
      exact ⟨rel2, _, b1 c rc1 v1 hcond hev1 hrc1⟩
    · intro ht
      exact ⟨rel2, _, b2 (by
        show Taken rel.schema sm.condition _
        rw [hcond]
        exact ht)⟩
  · intro hall
    obtain ⟨rel2, sm2, rec2, -, -, -, b4⟩ := next_none rel'
      { sm with currentPage := p0, currentSlot := s0 + 1 }
      (slotRecord rel.pages rel.header ⟨p0, s0⟩) r1 hact hsz
      (by
        intro p s hb ho
        rw [r2, hh, r3]
        rw [r2] at ho
        have := hall p s hb ho
        rw [← hcond] at this
        exact this)
    exact ⟨rel2, _, rec2, b4⟩

set_option maxRecDepth 100000 in
theorem cursor_after_predicate_error_witness :
    (∃ rel' scan' rec',
      next tableS4 ⟨some (scanStart (some condNotK))⟩ ⟨⟨0, 0⟩, none⟩ =
        some (RC_RM_BOOLEAN_EXPR_ARG_IS_NOT_BOOLEAN, rel', scan', rec') ∧
      scan' = ⟨some { (scanStart (some condNotK)) with
        currentPage := 1, currentSlot := 0 + 1 }⟩ ∧
      scan'.mgmtData.map (fun m => m.scanActive) = some true ∧
      rel'.pages = tableS4.pages ∧
      (rec'.id = ⟨1, 0⟩ ∧
        ∀ k, 0 ≤ k → k < tableS4.header.recordSize →
          rec'.buf k = tableS4.pages 1 (tableS4.header.slotByte 0 k)) ∧
      (∀ q t spp, ¬ Between 1 (0 + 1) q t spp 1 0) ∧
      (∀ p1 s1, (1 < p1 ∨ (1 = p1 ∧ 0 + 1 ≤ s1)) →
        p1 < (scanStart (some condNotK)).totalPages → 0 ≤ s1 →
        s1 < (scanStart (some condNotK)).slotsPerPage →
        isSlotOccupied (tableS4.pages p1) s1 = true →
        (∀ p s, Between 1 (0 + 1) p1 s1 (scanStart (some condNotK)).slotsPerPage p s →
          isSlotOccupied (tableS4.pages p) s = true →
          Skipped tableS4.schema (some condNotK)
            (slotRecord tableS4.pages tableS4.header ⟨p, s⟩)) →
        (∀ rc1 v1,
          evalExpr (slotRecord tableS4.pages tableS4.header ⟨p1, s1⟩) tableS4.schema
            condNotK = some (rc1, v1) →
          rc1 ≠ RC_OK →
          ∃ rel2 scan2, next rel' scan' rec' =
            some (rc1, rel2, scan2, slotRecord tableS4.pages tableS4.header ⟨p1, s1⟩)) ∧
        (Taken tableS4.schema (some condNotK)
            (slotRecord tableS4.pages tableS4.header ⟨p1, s1⟩) →
          ∃ rel2 scan2, next rel' scan' rec' =
            some (RC_OK, rel2, scan2, slotRecord tableS4.pages tableS4.header ⟨p1, s1⟩))) ∧
      ((∀ p s, Between 1 (0 + 1) (scanStart (some condNotK)).totalPages 0
            (scanStart (some condNotK)).slotsPerPage p s →
          isSlotOccupied (tableS4.pages p) s = true →
          Skipped tableS4.schema (some condNotK)
            (slotRecord tableS4.pages tableS4.header ⟨p, s⟩)) →
        ∃ rel2 scan2 rec2, next rel' scan' rec' =
          some (RC_RM_NO_MORE_TUPLES, rel2, scan2, rec2))) ∧
    (scanRun tableS4 ⟨none⟩ (some condNotK) ⟨⟨0, 0⟩, none⟩ 3).map
        (fun x => x.1.map (fun y => (y.1, y.2.id))) =
      some [(RC_RM_BOOLEAN_EXPR_ARG_IS_NOT_BOOLEAN, ⟨1, 0⟩),
        (RC_RM_BOOLEAN_EXPR_ARG_IS_NOT_BOOLEAN, ⟨1, 1⟩),
        (RC_RM_BOOLEAN_EXPR_ARG_IS_NOT_BOOLEAN, ⟨1, 2⟩)] :=
  cursor_after_predicate_error tableS4 (scanStart (some condNotK)) ⟨⟨0, 0⟩, none⟩ 1 0
    condNotK RC_RM_BOOLEAN_EXPR_ARG_IS_NOT_BOOLEAN none ⟨by decide, by decide⟩ rfl rfl
    (fun _ _ => rfl) (Or.inr ⟨rfl, le_refl _⟩) (by decide) (by decide) (by decide) (by decide)
    (fun p s hb _ => absurd hb (by simp only [Between, scanStart, DATA_START_PAGE]; omega))
    (by decide) (by decide)


/-! ## Values as text and back -/

/-- The digits `digitsAux` writes: decimal digits that denote `n`, no more of them than `n`
needs. -/
theorem digitsAux_spec (fuel : Nat) : ∀ (n : Nat) (acc : List Nat), n < fuel →
    ∃ d, digitsAux fuel n acc = d ++ acc ∧ (∀ c ∈ d, isDigit c = true) ∧ 1 ≤ d.length ∧
      (∀ init, d.foldl (fun a c => a * 10 + (c - 48)) init = init * 10 ^ d.length + n) ∧
      (d.length = 1 ∨ 10 ^ (d.length - 1) ≤ n) := by
  induction fuel with
  | zero => intro n acc h; omega
  | succ fuel ih =>
    intro n acc h
    unfold digitsAux
    by_cases h10 : n < 10
    · rw [if_pos h10]
      refine ⟨[48 + n], rfl, ?_, le_refl _, ?_, Or.inl rfl⟩
      · intro c hc
        simp only [List.mem_singleton] at hc
        subst hc
        simp only [isDigit, Bool.and_eq_true, decide_eq_true_eq]
        omega
      · intro init
        simp only [List.foldl_cons, List.foldl_nil, List.length_singleton, pow_one]
        omega
    · rw [if_neg h10]
      obtain ⟨d, e1, e2, e3, e4, e5⟩ := ih (n / 10) ((48 + n % 10) :: acc) (by omega)
      refine ⟨d ++ [48 + n % 10], by rw [e1]; simp, ?_, by simp, ?_, Or.inr ?_⟩
      · intro c hc
        rcases List.mem_append.mp hc with hc | hc
        · exact e2 c hc
        · simp only [List.mem_singleton] at hc
          subst hc
          simp only [isDigit, Bool.and_eq_true, decide_eq_true_eq]
          omega
      · intro init
        rw [List.foldl_append, e4 init]
        simp only [List.foldl_cons, List.foldl_nil, List.length_append, List.length_singleton,
          pow_succ]
        have hn : n / 10 * 10 + n % 10 = n := by omega
        have : 48 + n % 10 - 48 = n % 10 := by omega
        rw [this]
        nlinarith [hn]
      · simp only [List.length_append, List.length_singleton, Nat.add_sub_cancel]
        rcases e5 with e5 | e5
        · rw [e5, pow_one]
          omega
        · have hd : d.length = (d.length - 1) + 1 := by omega
          rw [hd, pow_succ]
          omega

theorem natDigits_spec (n : Nat) :
    (∀ c ∈ natDigits n, isDigit c = true) ∧ 1 ≤ (natDigits n).length ∧
    digitsValue (natDigits n) = n ∧
    ((natDigits n).length = 1 ∨ 10 ^ ((natDigits n).length - 1) ≤ n) := by
  obtain ⟨d, e1, e2, e3, e4, e5⟩ := digitsAux_spec (n + 1) n [] (by omega)
  rw [List.append_nil] at e1
  unfold natDigits
  rw [e1]
  refine ⟨e2, e3, ?_, e5⟩
  unfold digitsValue
  have ht : d.takeWhile isDigit = d := List.takeWhile_eq_self_iff.mpr e2
  rw [ht, e4 0]
  omega

theorem natDigits_length (n : Nat) (hn : n < 10 ^ 10) : (natDigits n).length ≤ 10 := by
  obtain ⟨-, -, -, h⟩ := natDigits_spec n
  rcases h with h | h
  · omega
  · by_contra hlen
    have h10 : 10 ^ 10 ≤ 10 ^ ((natDigits n).length - 1) :=
      Nat.pow_le_pow_right (by decide) (by omega)
    omega

theorem fmtInt_length (x : Int) (hx : IsInt32 x) : (fmtInt x).length ≤ 11 := by
  obtain ⟨h1, h2⟩ := hx
  unfold fmtInt
  split_ifs
  · have := natDigits_length x.natAbs (by omega)
    simp only [List.length_cons]
    omega
  · exact le_trans (natDigits_length x.toNat (by omega)) (by decide)

/-- `atoi` reads back what `%d` writes. -/
theorem atoi_fmtInt (x : Int) (rest : List Nat) : atoi (fmtInt x ++ 0 :: rest) = x := by
  have hc : cstr (fmtInt x ++ 0 :: rest) = fmtInt x :=
    cstr_of_not_mem _ _ (fmtInt_ne_zero x)
  unfold atoi
  rw [hc]
  unfold fmtInt
  by_cases hneg : x < 0
  · rw [if_pos hneg]
    have hs : (45 :: natDigits x.natAbs).dropWhile isSpace = 45 :: natDigits x.natAbs := by
      simp [List.dropWhile_cons, isSpace]
    rw [hs]
    simp only
    rw [(natDigits_spec x.natAbs).2.2.1]
    omega
  · rw [if_neg hneg]
    obtain ⟨d1, d2, d3, -⟩ := natDigits_spec x.toNat
    rcases hd : natDigits x.toNat with _ | ⟨c, tl⟩
    · rw [hd] at d2
      simp at d2
    · have hcd : isDigit c = true := d1 c (by rw [hd]; simp)
      simp only [isDigit, Bool.and_eq_true, decide_eq_true_eq] at hcd
      have hs : (c :: tl).dropWhile isSpace = c :: tl := by
        have : isSpace c = false := by
          simp only [isSpace, Bool.or_eq_false_iff, beq_eq_false_iff_ne, ne_eq,
            Bool.and_eq_false_iff, decide_eq_false_iff_not]
          omega
        simp [List.dropWhile_cons, this]
      rw [hs]
      have h45 : c ≠ 45 := by omega
      have h43 : c ≠ 43 := by omega
      rw [hd] at d3
      split
      · rename_i heq
        simp only [List.cons.injEq] at heq
        exact absurd heq.1 h45
      · rename_i heq
        simp only [List.cons.injEq] at heq
        exact absurd heq.1 h43
      · rw [d3]
        omega

/-- `serializeValue` for a text without NUL bytes that is shorter than 256 characters. -/
theorem strdup_append_short (lib : CLib) (text : List Nat) (h0 : 0 ∉ text)
    (hlen : text.length < 256) :
    strdupBuf (append lib VarString.make text) = some text :=
  strdupBuf_holds _ _ (tracks_short lib _ _ (append_make_tracks lib text h0 (by omega)) hlen) h0


theorem stringToValue_string (lib : CLib) (t : List Nat) (h : 0 ∉ t) :
    stringToValue lib true (115 :: t ++ [0]) = some (.stringV (t ++ [0])) := by
  have hc : cstr (t ++ [0]) = t := cstr_of_not_mem t [] h
  simp [stringToValue, hc]

theorem serializeValue_string (lib : CLib) (t : List Nat) (h : 0 ∉ t) :
    serializeValue lib (some (.stringV (t ++ [0]))) =
      strdupBuf (append lib VarString.make t) := by
  have hc : cstr (t ++ [0]) = t := cstr_of_not_mem t [] h
  simp only [serializeValue, hc]

/-- C37, as far as the code has it (`serializeValue` / `stringToValue` round trip). Whatever
the heap holds: for every 32-bit Int `n`, `serializeValue` returns the decimal text of `n`,
and `stringToValue` of `i` followed by that text is the Int value `n`; for every Bool `b`,
`serializeValue` returns `true` or `false`, and `stringToValue` of `b` followed by that text
is the Bool value `b`; for every string `s` without NUL bytes, `stringToValue` of `s`
followed by the string is the String value `s`, and when `s` is shorter than 256 characters,
`serializeValue` of the String value `s` returns `s`. -/
theorem serializeValue_round_trip (lib : CLib) (n : Int) (b : Bool) (s : List Nat)
    (hn : IsInt32 n) (hs : 0 ∉ s) (hlen : s.length < 256) :
    (serializeValue lib (some (.intV n)) = some (fmtInt n) ∧
      stringToValue lib true (105 :: fmtInt n ++ [0]) = some (.intV n)) ∧
    (serializeValue lib (some (.boolV b)) =
        some (if b then ascii "true" else ascii "false") ∧
      stringToValue lib true (98 :: (if b then ascii "true" else ascii "false") ++ [0]) =
        some (.boolV b)) ∧
    (stringToValue lib true (115 :: s ++ [0]) = some (.stringV (s ++ [0])) ∧
      serializeValue lib (some (.stringV (s ++ [0]))) = some s) := by
  refine ⟨⟨?_, ?_⟩, ⟨?_, ?_⟩, ⟨stringToValue_string lib s hs, ?_⟩⟩
  · have hl := fmtInt_length n hn
    exact strdup_append_short lib (fmtInt n) (fmtInt_ne_zero n) (by omega)
  · have := atoi_fmtInt n []
    simp only [stringToValue, Bool.not_true, Bool.false_eq_true, if_false, List.cons_append,
      List.getD_cons_zero, List.drop_succ_cons, List.drop_zero, this]
  · cases b
    · exact strdup_append_short lib (ascii "false") (by decide) (by decide)
    · exact strdup_append_short lib (ascii "true") (by decide) (by decide)
  · cases b <;> rfl
  · rw [serializeValue_string lib s hs]
    exact strdup_append_short lib s hs hlen

theorem serializeValue_round_trip_witness :
    (serializeValue (libJunk 0) (some (.intV (-42))) = some (fmtInt (-42)) ∧
      stringToValue (libJunk 0) true (105 :: fmtInt (-42) ++ [0]) = some (.intV (-42))) ∧
    (serializeValue (libJunk 0) (some (.boolV true)) =
        some (if true then ascii "true" else ascii "false") ∧
      stringToValue (libJunk 0) true
          (98 :: (if true then ascii "true" else ascii "false") ++ [0]) =
        some (.boolV true)) ∧
    (stringToValue (libJunk 0) true (115 :: ascii "abc" ++ [0]) =
        some (.stringV (ascii "abc" ++ [0])) ∧
      serializeValue (libJunk 0) (some (.stringV (ascii "abc" ++ [0]))) =
        some (ascii "abc")) :=
  serializeValue_round_trip (libJunk 0) (-42) true (ascii "abc") (by decide) (by decide)
    (by decide)

/-- C37, where the code departs from it. The string of 256 letters `a` has no NUL byte and
at most 1023 characters. `serializeValue` builds it in a block that `realloc` has grown from
256 to 512 bytes without writing to the new bytes, stores no terminator after it, and
returns `strdup` of the block: with the byte `!` left by `realloc` right after the text it
returns the string followed by `!`, and `stringToValue` of `s` followed by that text is the
String value of 257 characters; `serializeValue` returns the string itself only when that
byte happens to be zero. -/
theorem serializeValue_unterminated :
    0 ∉ textLong ∧ textLong.length = 256 ∧
    serializeValue (libJunk 256) (some (.stringV (textLong ++ [0]))) =
      some (textLong ++ [33]) ∧
    stringToValue (libJunk 256) true (115 :: (textLong ++ [33]) ++ [0]) =
      some (.stringV (textLong ++ [33] ++ [0])) ∧
    serializeValue libZero (some (.stringV (textLong ++ [0]))) = some textLong := by
  have h0 : 0 ∉ textLong := by
    unfold textLong
    intro h
    have := List.eq_of_mem_replicate h
    omega
  have hl : textLong.length = 256 := by
    unfold textLong
    exact List.length_replicate 256 97
  have h1 : 0 ∉ textLong ++ [33] := by
    intro h
    rcases List.mem_append.mp h with h | h
    · exact h0 h
    · simp at h
  have ht := fun lib => tracks_long lib _ _
    (append_make_tracks lib textLong h0 (by rw [hl]; omega)) (by rw [hl])
  refine ⟨h0, hl, ?_, stringToValue_string _ _ h1, ?_⟩
  · rw [serializeValue_string _ _ h0]
    exact strdupBuf_grown (libJunk 256) _ _ 33 (ht _) h0 (by omega) (by rw [hl]; rfl)
      (by rw [hl]; rfl) (by rw [hl]; omega)
  · rw [serializeValue_string _ _ h0]
    exact strdupBuf_grown_zero libZero _ _ (ht _) h0 rfl


/-! ## Termination of the cursor loops -/

/-- The loop function of the inner loop of `next`, one round unfolded. -/
theorem nextSlotLoop_step (schema : Schema) (cond : Option Expr) (m : TableMetadata)
    (pageData : Mem) (cp : Int) (n : Nat) (bm : BM_BufferPool) (cs : Int) (record : Record) :
    nextSlotLoop schema cond m pageData cp (n + 1) bm cs record =
      match nextSlotStep schema cond m pageData cp bm cs record with
      | none => none
      | some (.inr r) => some r
      | some (.inl (bm1, cs1, record1)) => nextSlotLoop schema cond m pageData cp n bm1 cs1 record1
      := by
  rw [nextSlotLoop]
  unfold nextSlotStep
  by_cases hocc : isSlotOccupied pageData cs = true
  · simp only [hocc, if_true]
    by_cases hal : (if record.data.isNone = true then envCall bm else (RC_OK, bm)).1 = RC_OK
    · simp only [hal, ne_eq, not_true_eq_false, if_false]
      rcases cond with _ | c
      · rfl
      · simp only
        rcases evalExpr
            { id := ⟨cp, cs⟩, data := some (memcpy record.buf 0 pageData
              (getRecordOffset cs m.recordSize (getSlotMapSize m.slotsPerPage))
              m.recordSize) } schema c with _ | ⟨rc, result⟩
        · rfl
        · simp only
          by_cases hrc : rc = RC_OK
          · simp only [hrc, ne_eq, not_true_eq_false, if_false]
            rcases result.bind Value.unionBool with _ | b
            · rfl
            · cases b <;> rfl
          · simp only [ne_eq, hrc, not_false_eq_true, if_true]
    · simp only [ne_eq, hal, not_false_eq_true, if_true]
  · simp only [hocc, Bool.false_eq_true, if_false]

/-- Every round of the inner loop of `next` adds exactly 1 to `currentSlot` and leaves
`currentPage` as it is, whether the loop goes on or is left. -/
theorem nextSlotStep_measure (schema : Schema) (cond : Option Expr) (m : TableMetadata)
    (pageData : Mem) (cp : Int) (bm : BM_BufferPool) (cs : Int) (record : Record) :
    (∀ bm1 cs1 record1, nextSlotStep schema cond m pageData cp bm cs record =
        some (.inl (bm1, cs1, record1)) → cs1 = cs + 1) ∧
    (∀ r, nextSlotStep schema cond m pageData cp bm cs record = some (.inr r) →
      r.currentSlot = cs + 1 ∧ r.currentPage = cp) := by
  unfold nextSlotStep
  by_cases hocc : isSlotOccupied pageData cs = true
  · simp only [hocc, if_true]
    by_cases hal : (if record.data.isNone = true then envCall bm else (RC_OK, bm)).1 = RC_OK
    · simp only [hal, ne_eq, not_true_eq_false, if_false]
      rcases cond with _ | c
      · constructor
        · intro bm1 cs1 record1 h
          simp at h
        · intro r h
          simp only [Option.some.injEq, Sum.inr.injEq] at h
          subst h
          exact ⟨rfl, rfl⟩
      · simp only
        rcases evalExpr
            { id := ⟨cp, cs⟩, data := some (memcpy record.buf 0 pageData
              (getRecordOffset cs m.recordSize (getSlotMapSize m.slotsPerPage))
              m.recordSize) } schema c with _ | ⟨rc, result⟩
        · exact ⟨fun _ _ _ h => by simp at h, fun _ h => by simp at h⟩
        · simp only
          by_cases hrc : rc = RC_OK
          · simp only [hrc, ne_eq, not_true_eq_false, if_false]
            rcases result.bind Value.unionBool with _ | b
            · exact ⟨fun _ _ _ h => by simp at h, fun _ h => by simp at h⟩
            · cases b
              · constructor
                · intro bm1 cs1 record1 h
                  simp only [Option.some.injEq, Sum.inl.injEq, Prod.mk.injEq] at h
                  exact h.2.1.symm
                · intro r h
                  simp at h
              · constructor
                · intro bm1 cs1 record1 h
                  simp at h
                · intro r h
                  simp only [Option.some.injEq, Sum.inr.injEq] at h
                  subst h
                  exact ⟨rfl, rfl⟩
          · simp only [ne_eq, hrc, not_false_eq_true, if_true]
            constructor
            · intro bm1 cs1 record1 h
              simp at h
            · intro r h
              simp only [Option.some.injEq, Sum.inr.injEq] at h
              subst h
              exact ⟨rfl, rfl⟩
    · simp only [ne_eq, hal, not_false_eq_true, if_true]
      constructor
      · intro bm1 cs1 record1 h
        simp at h
      · intro r h
        simp only [Option.some.injEq, Sum.inr.injEq] at h
        subst h
        exact ⟨rfl, rfl⟩
  · simp only [hocc, Bool.false_eq_true, if_false]
    constructor
    · intro bm1 cs1 record1 h
      simp only [Option.some.injEq, Sum.inl.injEq, Prod.mk.injEq] at h
      exact h.2.1.symm
    · intro r h
      simp at h

/-- With `slotsPerPage - currentSlot` rounds or more the inner loop of `next` is left; the
outcome is what the loop function gives. -/
theorem nextSlotRun_eq (schema : Schema) (cond : Option Expr) (m : TableMetadata)
    (spp : Int) (pageData : Mem) (cp : Int) (fuel : Nat) :
    ∀ (bm : BM_BufferPool) (cs : Int) (record : Record), (spp - cs).toNat ≤ fuel →
    nextSlotRun schema cond m spp pageData cp fuel bm cs record =
      Run.ofOption (nextSlotLoop schema cond m pageData cp (spp - cs).toNat bm cs record) := by
  induction fuel with
  | zero =>
    intro bm cs record h
    have hz : (spp - cs).toNat = 0 := by omega
    rw [hz]
    simp only [nextSlotRun, nextSlotLoop, Run.ofOption]
    rw [if_neg (by omega)]
  | succ fuel ih =>
    intro bm cs record h
    rw [nextSlotRun]
    by_cases hlt : cs < spp
    · obtain ⟨n, hn⟩ : ∃ n, (spp - cs).toNat = n + 1 := ⟨(spp - cs).toNat - 1, by omega⟩
      rw [if_pos hlt, hn, nextSlotLoop_step]
      obtain ⟨m1, -⟩ := nextSlotStep_measure schema cond m pageData cp bm cs record
      rcases hstep : nextSlotStep schema cond m pageData cp bm cs record with _ | x
      · rfl
      · rcases x with ⟨bm1, cs1, record1⟩ | r
        · have hcs := m1 bm1 cs1 record1 hstep
          subst hcs
          simp only
          have hn2 : (spp - (cs + 1)).toNat = n := by omega
          rw [ih bm1 (cs + 1) record1 (by omega), hn2]
        · rfl
    · have hz : (spp - cs).toNat = 0 := by omega
      rw [if_neg hlt, hz]
      rfl

/-- With `totalPages - currentPage` rounds or more for the outer loop, and enough rounds for
the inner loop on the cursor page and on a whole page, the outer loop of `next` is left; the
outcome is what the loop function gives. -/
theorem nextPageRun_eq (schema : Schema) (cond : Option Expr) (m : TableMetadata)
    (spp total : Int) (slotFuel : Nat) (hsf : spp.toNat ≤ slotFuel) (fuel : Nat) :
    ∀ (bm : BM_BufferPool) (cp cs : Int) (record : Record), (total - cp).toNat ≤ fuel →
    (spp - cs).toNat ≤ slotFuel →
    nextPageRun schema cond m spp total slotFuel fuel bm cp cs record =
      Run.ofOption (nextPageLoop schema cond m spp (total - cp).toNat bm cp cs record) := by
  induction fuel with
  | zero =>
    intro bm cp cs record h _
    have hz : (total - cp).toNat = 0 := by omega
    rw [hz]
    simp only [nextPageRun, nextPageLoop, Run.ofOption]
    rw [if_neg (by omega)]
  | succ fuel ih =>
    intro bm cp cs record h hcs
    rw [nextPageRun]
    by_cases hlt : cp < total
    · obtain ⟨n, hn⟩ : ∃ n, (total - cp).toNat = n + 1 := ⟨(total - cp).toNat - 1, by omega⟩
      have hn2 : (total - (cp + 1)).toNat = n := by omega
      rw [if_pos hlt, hn, nextPageLoop]
      simp only
      by_cases hp : (pinPage bm cp).1 = RC_OK
      · simp only [hp, ne_eq, not_true_eq_false, if_false]
        rw [nextSlotRun_eq schema cond m spp _ cp slotFuel _ cs record hcs]
        rcases nextSlotLoop schema cond m ((pinPage bm cp).2.pages cp) cp (spp - cs).toNat
            (pinPage bm cp).2 cs record with _ | r
        · rfl
        · simp only [Run.ofOption]
          rcases r.ret with _ | rc
          · simp only
            by_cases hu : (unpinPage r.bm).1 = RC_OK
            · simp only [hu, ne_eq, not_true_eq_false, if_false]
              by_cases hf : r.found = true
              · simp only [hf, if_true]
              · simp only [hf, Bool.false_eq_true, if_false]
                rw [ih _ (cp + 1) 0 r.record (by omega) (by simpa using hsf), hn2]
                rfl
            · simp only [ne_eq, hu, not_false_eq_true, if_true]
          · rfl
      · simp only [ne_eq, hp, not_false_eq_true, if_true]
        rfl
    · have hz : (total - cp).toNat = 0 := by omega
      rw [if_neg hlt, hz]
      rfl

/-- With enough rounds for its two loops, `next` returns what the function `next` gives. -/
theorem nextRun_eq (slotFuel pageFuel : Nat) (rel : RM_TableData) (sm : ScanManager)
    (record : Record) (h1 : (sm.slotsPerPage - sm.currentSlot).toNat ≤ slotFuel)
    (h2 : sm.slotsPerPage.toNat ≤ slotFuel)
    (h3 : (sm.totalPages - sm.currentPage).toNat ≤ pageFuel) :
    nextRun slotFuel pageFuel rel ⟨some sm⟩ record =
      Run.ofOption (next rel ⟨some sm⟩ record) := by
  unfold nextRun next
  simp only
  by_cases hact : sm.scanActive = true
  · simp only [hact, Bool.not_true, Bool.false_eq_true, if_false]
    rcases rel.mgmtData with _ | mgr
    · rfl
    · simp only
      by_cases hh : (readHeader mgr.bufferPool TableMetadata.uninit).1 = RC_OK
      · simp only [hh, ne_eq, not_true_eq_false, if_false]
        by_cases ha : (envCall (readHeader mgr.bufferPool TableMetadata.uninit).2.1).1 = RC_OK
        · simp only [ha, ne_eq, not_true_eq_false, if_false]
          rw [nextPageRun_eq _ _ _ _ _ slotFuel h2 pageFuel _ _ _ _ h3 h1]
          rcases nextPageLoop rel.schema sm.condition
              (readHeader mgr.bufferPool TableMetadata.uninit).2.2 sm.slotsPerPage
              (sm.totalPages - sm.currentPage).toNat
              (envCall (readHeader mgr.bufferPool TableMetadata.uninit).2.1).2 sm.currentPage
              sm.currentSlot record with _ | r
          · rfl
          · simp only [Run.ofOption]
            rcases r.ret with _ | rc
            · simp only
              by_cases hf : r.found = true
              · simp only [hf, Bool.not_true, Bool.false_eq_true, if_false]
              · simp only [hf, Bool.not_false, if_true]
            · rfl
        · simp only [ne_eq, ha, not_false_eq_true, if_true]
          rfl
      · simp only [ne_eq, hh, not_false_eq_true, if_true]
        rfl
  · simp only [hact, Bool.not_false, if_true]
    rfl

/-- With `slotsPerPage - i` rounds or more the `for` loop of `findFreeSlot` is left. -/
theorem firstFreeSlotRun_eq (pageData : Mem) (spp : Int) (fuel : Nat) :
    ∀ (i : Int), (spp - i).toNat ≤ fuel →
    firstFreeSlotRun pageData spp fuel i = .done (firstFreeSlot pageData (spp - i).toNat i) := by
  induction fuel with
  | zero =>
    intro i h
    have hz : (spp - i).toNat = 0 := by omega
    rw [hz]
    simp only [firstFreeSlotRun, firstFreeSlot]
    rw [if_neg (by omega)]
  | succ fuel ih =>
    intro i h
    rw [firstFreeSlotRun]
    by_cases hlt : i < spp
    · obtain ⟨n, hn⟩ : ∃ n, (spp - i).toNat = n + 1 := ⟨(spp - i).toNat - 1, by omega⟩
      have hn2 : (spp - (i + 1)).toNat = n := by omega
      rw [if_pos hlt, hn, firstFreeSlot]
      by_cases hocc : isSlotOccupied pageData i = true
      · simp only [hocc, Bool.not_true, Bool.false_eq_true, if_false]
        rw [ih (i + 1) (by omega), hn2]
      · simp only [hocc, Bool.not_false, if_true]
    · have hz : (spp - i).toNat = 0 := by omega
      rw [if_neg hlt, hz]
      rfl

/-- With `numPages - currentPage` rounds or more for the `while` loop and `slotsPerPage`
rounds or more for the `for` loop, the search loop of `findFreeSlot` is left; the outcome is
what the loop function gives. -/
theorem findFreeSlotLoopRun_eq (m : TableMetadata) (slotFuel : Nat)
    (hsf : m.slotsPerPage.toNat ≤ slotFuel) (fuel : Nat) :
    ∀ (bm : BM_BufferPool) (cp : Int) (rid : RID), (m.numPages - cp).toNat ≤ fuel →
    findFreeSlotLoopRun m slotFuel fuel bm cp rid =
      .done (findFreeSlotLoop m (m.numPages - cp).toNat bm cp rid) := by
  induction fuel with
  | zero =>
    intro bm cp rid h
    have hz : (m.numPages - cp).toNat = 0 := by omega
    rw [hz]
    simp only [findFreeSlotLoopRun, findFreeSlotLoop]
    rw [if_neg (by omega)]
  | succ fuel ih =>
    intro bm cp rid h
    rw [findFreeSlotLoopRun]
    by_cases hlt : cp < m.numPages
    · obtain ⟨n, hn⟩ : ∃ n, (m.numPages - cp).toNat = n + 1 :=
        ⟨(m.numPages - cp).toNat - 1, by omega⟩
      have hn2 : (m.numPages - (cp + 1)).toNat = n := by omega
      rw [if_pos hlt, hn, findFreeSlotLoop]
      simp only
      by_cases hp : (pinPage bm cp).1 = RC_OK
      · simp only [hp, ne_eq, not_true_eq_false, if_false]
        rw [firstFreeSlotRun_eq _ _ slotFuel 0 (by simpa using hsf)]
        simp only [sub_zero]
        rcases firstFreeSlot ((pinPage bm cp).2.pages cp) m.slotsPerPage.toNat 0 with _ | i
        · simp only
          by_cases hu : (unpinPage (pinPage bm cp).2).1 = RC_OK
          · simp only [hu, ne_eq, not_true_eq_false, if_false]
            rw [ih _ (cp + 1) rid (by omega), hn2]
          · simp only [ne_eq, hu, not_false_eq_true, if_true]
        · rfl
      · simp only [ne_eq, hp, not_false_eq_true, if_true]
    · have hz : (m.numPages - cp).toNat = 0 := by omega
      rw [if_neg hlt, hz]
      rfl

/-- The pages the search loop of `findFreeSlot` pins: `currentPage`, `currentPage + 1`, …,
each once, no more of them than the loop has rounds. -/
theorem findFreeSlotLoop_pinCalls (m : TableMetadata) (n : Nat) :
    ∀ (bm : BM_BufferPool) (cp : Int) (rid : RID),
    ∃ k, k ≤ n ∧ (findFreeSlotLoop m n bm cp rid).2.1.pinCalls =
      ((List.range k).map (fun (j : Nat) => cp + (j : Int))).reverse ++ bm.pinCalls := by
  induction n with
  | zero =>
    intro bm cp rid
    exact ⟨0, le_refl _, rfl⟩
  | succ n ih =>
    intro bm cp rid
    obtain ⟨p1, -⟩ := pinPage_pinCalls bm cp
    have one : ((List.range 1).map (fun (j : Nat) => cp + (j : Int))).reverse ++ bm.pinCalls =
        cp :: bm.pinCalls := by
      rw [show List.range 1 = [0] from rfl]
      simp
    rw [findFreeSlotLoop]
    simp only
    by_cases hp : (pinPage bm cp).1 = RC_OK
    · simp only [hp, ne_eq, not_true_eq_false, if_false]
      rcases firstFreeSlot ((pinPage bm cp).2.pages cp) m.slotsPerPage.toNat 0 with _ | i
      · simp only
        by_cases hu : (unpinPage (pinPage bm cp).2).1 = RC_OK
        · simp only [hu, ne_eq, not_true_eq_false, if_false]
          obtain ⟨k, hk, e⟩ := ih (unpinPage (pinPage bm cp).2).2 (cp + 1) rid
          have hl : ((List.range (k + 1)).map (fun (j : Nat) => cp + (j : Int))).reverse =
              ((List.range k).map (fun (j : Nat) => cp + 1 + (j : Int))).reverse ++ [cp] := by
            rw [List.range_succ_eq_map, List.map_cons, List.reverse_cons, List.map_map]
            congr 1
            · congr 1
              apply List.map_congr_left
              intro j _
              show cp + ((j + 1 : Nat) : Int) = cp + 1 + (j : Int)
              push_cast
              omega
            · simp
          refine ⟨k + 1, by omega, ?_⟩
          rw [e, (unpinPage_pinCalls _).1, p1, hl, List.append_assoc]
          rfl
        · simp only [ne_eq, hu, not_false_eq_true, if_true]
          exact ⟨1, by omega, by rw [one, (unpinPage_pinCalls _).1, p1]⟩
      · simp only
        exact ⟨1, by omega, by rw [one, (unpinPage_pinCalls _).1, p1]⟩
    · simp only [ne_eq, hp, not_false_eq_true, if_true]
      exact ⟨1, by omega, by rw [one, p1]⟩


/-- A round of the outer loop of `next` that does not return: the next round starts at the
following page with `currentSlot = 0`. -/
theorem nextPageRun_measure (schema : Schema) (cond : Option Expr) (m : TableMetadata)
    (spp total : Int) (slotFuel fuel : Nat) (bm : BM_BufferPool) (cp cs : Int)
    (record : Record) (r : ScanLoop) (hlt : cp < total) (hp : (pinPage bm cp).1 = RC_OK)
    (hr : nextSlotRun schema cond m spp ((pinPage bm cp).2.pages cp) cp slotFuel
      (pinPage bm cp).2 cs record = .done r)
    (hret : r.ret = none) (hu : (unpinPage r.bm).1 = RC_OK) (hf : r.found = false) :
    nextPageRun schema cond m spp total slotFuel (fuel + 1) bm cp cs record =
      nextPageRun schema cond m spp total slotFuel fuel (unpinPage r.bm).2 (cp + 1) 0
        r.record := by
  rw [nextPageRun]
  simp only [if_pos hlt, hp, ne_eq, not_true_eq_false, if_false, hr, hret, hu, hf,
    Bool.false_eq_true]

theorem findFreeSlot_numPages (bm : BM_BufferPool) (m : TableMetadata) (rid : RID) :
    (findFreeSlot bm m rid).2.2.1.numPages = m.numPages ∨
    (findFreeSlot bm m rid).2.2.1.numPages = m.numPages + 1 := by
  unfold findFreeSlot
  simp only
  split_ifs <;> first | exact Or.inl rfl | exact Or.inr rfl

/-- C38 (termination of the cursor loops). The loops of `next` and of `findFreeSlot` are run
one round at a time on a supply of rounds. For every table handle, scan state, record, pool
and metadata: with `max(slotsPerPage - currentSlot, slotsPerPage)` rounds for the inner loop
and `totalPages - currentPage` rounds for the outer loop, `next` is not stopped by the supply
and returns what the function `next` returns; every round of the inner loop adds exactly 1
to `currentSlot`, and a round of the outer loop that does not return goes on at
`currentPage + 1` with `currentSlot = 0`. With `slotsPerPage` rounds for its `for` loop and
`numPages - firstFreePage` rounds for its `while` loop, the search of `findFreeSlot` is left
with the result of the loop function; the pages it pins are `firstFreePage`,
`firstFreePage + 1`, … in this order, each once and at most `numPages - firstFreePage` of
them; and `findFreeSlot` leaves `numPages` as it was or adds one page. -/
theorem cursor_loops_terminate (rel : RM_TableData) (sm : ScanManager) (record : Record)
    (bm : BM_BufferPool) (metadata : TableMetadata) (rid : RID) (slotFuel pageFuel : Nat)
    (h1 : (sm.slotsPerPage - sm.currentSlot).toNat ≤ slotFuel)
    (h2 : sm.slotsPerPage.toNat ≤ slotFuel)
    (h3 : (sm.totalPages - sm.currentPage).toNat ≤ pageFuel)
    (h4 : metadata.slotsPerPage.toNat ≤ slotFuel)
    (h5 : (metadata.numPages - metadata.firstFreePage).toNat ≤ pageFuel) :
    (nextRun slotFuel pageFuel rel ⟨some sm⟩ record ≠ .outOfFuel ∧
      nextRun slotFuel pageFuel rel ⟨some sm⟩ record =
        Run.ofOption (next rel ⟨some sm⟩ record)) ∧
    ((∀ schema cond m pageData cp bm0 cs record0,
        (∀ bm1 cs1 record1, nextSlotStep schema cond m pageData cp bm0 cs record0 =
          some (.inl (bm1, cs1, record1)) → cs1 = cs + 1) ∧
        (∀ r, nextSlotStep schema cond m pageData cp bm0 cs record0 = some (.inr r) →
          r.currentSlot = cs + 1 ∧ r.currentPage = cp)) ∧
      (∀ schema cond m spp total fuel bm0 cp cs record0 r, cp < total →
        (pinPage bm0 cp).1 = RC_OK →
        nextSlotRun schema cond m spp ((pinPage bm0 cp).2.pages cp) cp slotFuel
          (pinPage bm0 cp).2 cs record0 = .done r →
        r.ret = none → (unpinPage r.bm).1 = RC_OK → r.found = false →
        nextPageRun schema cond m spp total slotFuel (fuel + 1) bm0 cp cs record0 =
          nextPageRun schema cond m spp total slotFuel fuel (unpinPage r.bm).2 (cp + 1) 0
            r.record)) ∧
    (findFreeSlotLoopRun metadata slotFuel pageFuel bm metadata.firstFreePage rid =
        .done (findFreeSlotLoop metadata (metadata.numPages - metadata.firstFreePage).toNat bm
          metadata.firstFreePage rid) ∧
      (∃ k, k ≤ (metadata.numPages - metadata.firstFreePage).toNat ∧
        (findFreeSlotLoop metadata (metadata.numPages - metadata.firstFreePage).toNat bm
          metadata.firstFreePage rid).2.1.pinCalls =
          ((List.range k).map (fun (j : Nat) => metadata.firstFreePage + (j : Int))).reverse ++
            bm.pinCalls) ∧
      ((findFreeSlot bm metadata rid).2.2.1.numPages = metadata.numPages ∨
        (findFreeSlot bm metadata rid).2.2.1.numPages = metadata.numPages + 1)) := by
  have he := nextRun_eq slotFuel pageFuel rel sm record h1 h2 h3
  refine ⟨⟨?_, he⟩, ⟨?_, ?_⟩, ?_, ?_, findFreeSlot_numPages bm metadata rid⟩
  · rw [he]
    cases next rel ⟨some sm⟩ record <;> simp [Run.ofOption]
  · intro schema cond m pageData cp bm0 cs record0
    exact nextSlotStep_measure schema cond m pageData cp bm0 cs record0
  · intro schema cond m spp total fuel bm0 cp cs record0 r hlt hp hr hret hu hf
    exact nextPageRun_measure schema cond m spp total slotFuel fuel bm0 cp cs record0 r hlt
      hp hr hret hu hf
  · exact findFreeSlotLoopRun_eq metadata slotFuel h4 pageFuel bm metadata.firstFreePage rid h5
  · exact findFreeSlotLoop_pinCalls metadata _ bm metadata.firstFreePage rid

theorem cursor_loops_terminate_witness :
    (nextRun 504 1 tableS4 ⟨some (scanStart none)⟩ ⟨⟨0, 0⟩, none⟩ ≠ .outOfFuel ∧
      nextRun 504 1 tableS4 ⟨some (scanStart none)⟩ ⟨⟨0, 0⟩, none⟩ =
        Run.ofOption (next tableS4 ⟨some (scanStart none)⟩ ⟨⟨0, 0⟩, none⟩)) ∧
    ((∀ schema cond m pageData cp bm0 cs record0,
        (∀ bm1 cs1 record1, nextSlotStep schema cond m pageData cp bm0 cs record0 =
          some (.inl (bm1, cs1, record1)) → cs1 = cs + 1) ∧
        (∀ r, nextSlotStep schema cond m pageData cp bm0 cs record0 = some (.inr r) →
          r.currentSlot = cs + 1 ∧ r.currentPage = cp)) ∧
      (∀ schema cond m spp total fuel bm0 cp cs record0 r, cp < total →
        (pinPage bm0 cp).1 = RC_OK →
        nextSlotRun schema cond m spp ((pinPage bm0 cp).2.pages cp) cp 504
          (pinPage bm0 cp).2 cs record0 = .done r →
        r.ret = none → (unpinPage r.bm).1 = RC_OK → r.found = false →
        nextPageRun schema cond m spp total 504 (fuel + 1) bm0 cp cs record0 =
          nextPageRun schema cond m spp total 504 fuel (unpinPage r.bm).2 (cp + 1) 0
            r.record)) ∧
    (findFreeSlotLoopRun metaS1 504 1 env0 metaS1.firstFreePage ⟨0, 0⟩ =
        .done (findFreeSlotLoop metaS1 (metaS1.numPages - metaS1.firstFreePage).toNat env0
          metaS1.firstFreePage ⟨0, 0⟩) ∧
      (∃ k, k ≤ (metaS1.numPages - metaS1.firstFreePage).toNat ∧
        (findFreeSlotLoop metaS1 (metaS1.numPages - metaS1.firstFreePage).toNat env0
          metaS1.firstFreePage ⟨0, 0⟩).2.1.pinCalls =
          ((List.range k).map (fun (j : Nat) => metaS1.firstFreePage + (j : Int))).reverse ++
            env0.pinCalls) ∧
      ((findFreeSlot env0 metaS1 ⟨0, 0⟩).2.2.1.numPages = metaS1.numPages ∨
        (findFreeSlot env0 metaS1 ⟨0, 0⟩).2.2.1.numPages = metaS1.numPages + 1)) :=
  cursor_loops_terminate tableS4 (scanStart none) ⟨⟨0, 0⟩, none⟩ env0 metaS1 ⟨0, 0⟩ 504 1
    (by decide) (by decide) (by decide) (by decide) (by decide)

end RM
